import Mathlib

/-!
# Statement lowering (`codegen/stmt.cpp`)

A shallow embedding of the statement visitor of the compiler: the symbol table of
`codegen/common.hpp`, the statement AST of `ast/ast.hpp`, and every member function of
`StmtVisitor` defined in `codegen/stmt.cpp`.

The IR builder is an external library.  It is represented by a small explicit state
(`Ctx`): the basic blocks created so far with their instruction lists, the block list
of the function being lowered, the insertion block and a supply of fresh value ids.
Every `Create*` call appends one instruction at the end of the insertion block
(constant folding of the builder is not represented).

A C++ exception does not roll the builder back, so every operation returns the builder
state reached together with either a result or the diagnostic thrown.

The sources are snapshots of one compiler under its successive names.  The statement
visitor is in the namespace `Maple`, the type hierarchy of `codegen/type.hpp` in the
namespace `Twinkle`, the function `main` of the driver in the namespace `Driver`, and the
function `emitFile` of `compile/main.cpp` in the namespace `Compile`.
-/

namespace Maple

/-! ## IR types, values and instructions -/

/-- The `llvm::Type` of a value, as far as the statement visitor inspects it. -/
inductive LType where
  | void
  | int (bits : Nat)
  | ptr (pointee : LType)
  | array (elem : LType) (n : Nat)
  deriving DecidableEq, Repr, Inhabited

namespace LType

/-- Mirror of `llvm::Type::isPointerTy`. -/
def isPointerTy : LType → Bool
  | ptr _ => true
  | _ => false

/-- Mirror of `llvm::Type::isArrayTy`. -/
def isArrayTy : LType → Bool
  | array _ _ => true
  | _ => false

/-- Mirror of `llvm::Type::getPointerElementType`.  The visitor only calls it on pointer
types; on any other type (where the library asserts) the model answers `void`. -/
def getPointerElementType : LType → LType
  | ptr t => t
  | _ => void

end LType

/-- A non-null `llvm::Value*`: the result of the instruction with the given id, or an
integer constant made by `llvm::ConstantInt::get`. -/
inductive LValue where
  | inst (id : Nat) (ty : LType)
  | constInt (ty : LType) (v : Int)
  deriving DecidableEq, Repr, Inhabited

/-- Mirror of `llvm::Value::getType`. -/
def LValue.getType : LValue → LType
  | .inst _ ty => ty
  | .constInt ty _ => ty

/-- The arithmetic builder calls used by the statement visitor. -/
inductive BinaryOps where
  | Add | Sub | Mul | SDiv | UDiv | SRem | URem
  deriving DecidableEq, Repr

/-- One instruction of a basic block.  `other` stands for any instruction the expression
visitor emits that the statement visitor never builds itself. -/
inductive Instr where
  | alloca (id : Nat) (name : String) (ty : LType)
  | load (id : Nat) (ty : LType) (ptr : LValue)
  | store (val : LValue) (ptr : LValue)
  | binary (id : Nat) (op : BinaryOps) (lhs : LValue) (rhs : LValue)
  | icmp_ne (id : Nat) (lhs : LValue) (rhs : LValue)
  | insertvalue (id : Nat) (agg : LValue) (val : LValue) (idx : Nat)
  | br (dest : Nat)
  | condbr (cond : LValue) (ifTrue : Nat) (ifFalse : Nat)
  | other (id : Nat) (isTerm : Bool) (operands : List LValue)
  deriving DecidableEq, Repr

/-- Mirror of `llvm::Instruction::isTerminator`. -/
def Instr.isTerminator : Instr → Bool
  | .br _ => true
  | .condbr _ _ _ => true
  | .other _ t _ => t
  | _ => false

/-- A basic block: its identity and its instructions in order. -/
structure BasicBlock where
  id : Nat
  insts : List Instr
  deriving DecidableEq, Repr

/-- Mirror of `llvm::BasicBlock::getTerminator`: the block ends in a terminator. -/
def BasicBlock.hasTerminator (b : BasicBlock) : Bool :=
  match b.insts.getLast? with
  | some i => i.isTerminator
  | none => false

/-- The part of `CodeGenerator::Context` the statement visitor touches: the builder and
the function being lowered.
* `retTy`: return type of the function (`GetInsertBlock()->getParent()->getReturnType()`);
* `blocks`: every basic block created so far, inserted into the function or not;
* `layout`: the function's basic-block list (ids, in order; the head is the entry block);
* `insertBlock`: `builder.GetInsertBlock()`;
* `next`: supply of fresh ids for values and blocks. -/
structure Ctx where
  retTy : LType
  blocks : List BasicBlock
  layout : List Nat
  insertBlock : Nat
  next : Nat
  deriving DecidableEq, Repr

namespace Ctx

/-- Append an instruction at the end of the insertion block. -/
def emit (c : Ctx) (i : Instr) : Ctx :=
  { c with blocks := c.blocks.map fun b =>
      if b.id = c.insertBlock then { b with insts := b.insts ++ [i] } else b }

/-- Builder call `CreateStore`. -/
def CreateStore (c : Ctx) (val ptr : LValue) : Ctx :=
  c.emit (.store val ptr)

/-- Builder call `CreateLoad`. -/
def CreateLoad (c : Ctx) (ty : LType) (ptr : LValue) : LValue × Ctx :=
  (.inst c.next ty, { c.emit (.load c.next ty ptr) with next := c.next + 1 })

/-- Builder calls `CreateAdd`, `CreateSub`, `CreateMul`, `CreateSDiv`, `CreateUDiv`,
`CreateSRem` and `CreateURem`; the result has the type of the left operand. -/
def CreateBinary (c : Ctx) (op : BinaryOps) (lhs rhs : LValue) : LValue × Ctx :=
  (.inst c.next lhs.getType, { c.emit (.binary c.next op lhs rhs) with next := c.next + 1 })

/-- Builder call `CreateICmp(ICMP_NE, lhs, rhs)`; the result is an `i1`. -/
def CreateICmpNE (c : Ctx) (lhs rhs : LValue) : LValue × Ctx :=
  (.inst c.next (.int 1), { c.emit (.icmp_ne c.next lhs rhs) with next := c.next + 1 })

/-- Builder call `CreateInsertValue(agg, val, {idx})`. -/
def CreateInsertValue (c : Ctx) (agg val : LValue) (idx : Nat) : LValue × Ctx :=
  (.inst c.next agg.getType,
    { c.emit (.insertvalue c.next agg val idx) with next := c.next + 1 })

/-- Builder call `CreateBr`. -/
def CreateBr (c : Ctx) (dest : Nat) : Ctx :=
  c.emit (.br dest)

/-- Builder call `CreateCondBr`. -/
def CreateCondBr (c : Ctx) (cond : LValue) (t f : Nat) : Ctx :=
  c.emit (.condbr cond t f)

/-- Call `llvm::BasicBlock::Create(context, "", func)` when `attach` is true (the block is
appended to the function) and `llvm::BasicBlock::Create(context)` otherwise. -/
def CreateBlock (c : Ctx) (attach : Bool) : Nat × Ctx :=
  (c.next,
    { c with
      blocks := c.blocks ++ [⟨c.next, []⟩]
      layout := if attach then c.layout ++ [c.next] else c.layout
      next := c.next + 1 })

/-- Call `func->getBasicBlockList().push_back(bb)`. -/
def pushBack (c : Ctx) (bb : Nat) : Ctx :=
  { c with layout := c.layout ++ [bb] }

/-- Builder call `SetInsertPoint(bb)`. -/
def SetInsertPoint (c : Ctx) (bb : Nat) : Ctx :=
  { c with insertBlock := bb }

/-- Test `builder.GetInsertBlock()->getTerminator()` for non-null. -/
def getTerminator (c : Ctx) : Bool :=
  match c.blocks.find? (fun b => b.id = c.insertBlock) with
  | some b => b.hasTerminator
  | none => false

end Ctx

/-- Modelled from the spec: `create_entry_block_alloca` is declared in `common.hpp` with the
comment "Create an alloca instruction in the entry block of the function"; its body is
not part of the sources.  The alloca is placed at the start of the entry block (the head
of the function's block list) and the returned pointer has type `ptr ty`. -/
def create_entry_block_alloca (c : Ctx) (var_name : String) (ty : LType) : LValue × Ctx :=
  (.inst c.next (.ptr ty),
    { c with
      blocks := c.blocks.map fun b =>
        if some b.id = c.layout.head? then
          { b with insts := Instr.alloca c.next var_name ty :: b.insts }
        else b
      next := c.next + 1 })

/-- Mirror of `llvm::AllocaInst::getAllocatedType`. -/
def getAllocatedType (alloca : LValue) : LType :=
  alloca.getType.getPointerElementType

/-! ## `codegen/common.hpp` -/

/-- Mirror of `struct Variable`. -/
structure Variable where
  pointer : LValue
  is_mutable : Bool
  is_signed : Bool
  deriving DecidableEq, Repr

/-- Mirror of `struct SymbolTable`: `named_values` is an `unordered_map` from names to
variables, kept here as an association list with at most one entry per name reachable
through `regist`. -/
structure SymbolTable where
  named_values : List (String × Variable)
  deriving DecidableEq, Repr

namespace SymbolTable

/-- Member `exists`: `named_values.contains(name)`. -/
def «exists» (s : SymbolTable) (name : String) : Bool :=
  s.named_values.any fun p => p.1 = name

/-- Modelled from the spec: `operator[]` is declared in `common.hpp` and defined in a file
that is not part of the sources.  "`lookup(name) -> Variable?` — returns absent when
unknown": the entry of `named_values` under the name, if there is one. -/
def lookup (s : SymbolTable) (name : String) : Option Variable :=
  (s.named_values.find? fun p => p.1 = name).map Prod.snd

/-- Member `regist`: `named_values.insert({name, info})`; `insert` keeps an existing
entry. -/
def regist (s : SymbolTable) (name : String) (info : Variable) : SymbolTable :=
  if s.exists name then s else ⟨(name, info) :: s.named_values⟩

end SymbolTable

/-- Mirror of `struct Value`: a possibly null `llvm::Value*` with a signedness flag. -/
structure Value where
  value : Option LValue
  is_signed : Bool
  deriving DecidableEq, Repr

/-- Member `Value::operator bool`. -/
def Value.toBool (v : Value) : Bool := v.value.isSome

/-! ## Language types (`support/type.cpp`, `codegen/type.hpp`) -/

/-- Mirror of `enum class BuiltinTypeKind` as far as `BuiltinType::getType` of
`support/type.cpp` handles it. -/
inductive BuiltinTypeKind where
  | void_ | i8 | i16 | i32 | i64 | u8 | u16 | u32 | u64 | bool_ | char_
  deriving DecidableEq, Repr

/-- The `Type` hierarchy read by the statement visitor (`getType`, `isSigned`,
`getArraySize`): builtin, pointer and array types. -/
inductive Ty where
  | builtin (kind : BuiltinTypeKind)
  | pointer (pointee : Ty)
  | array (element : Ty) (array_size : Nat)
  deriving DecidableEq, Repr

namespace Ty

/-- Member `getType`: `BuiltinType::getType` of `support/type.cpp`; pointers lower to
`llvm::PointerType::getUnqual` of the pointee and arrays to `llvm::ArrayType::get`. -/
def getType : Ty → LType
  | builtin .void_ => .void
  | builtin .i8 => .int 8
  | builtin .u8 => .int 8
  | builtin .i16 => .int 16
  | builtin .u16 => .int 16
  | builtin .i32 => .int 32
  | builtin .u32 => .int 32
  | builtin .i64 => .int 64
  | builtin .u64 => .int 64
  | builtin .bool_ => .int 1
  | builtin .char_ => .int 32
  | pointer p => .ptr p.getType
  | array e n => .array e.getType n

/-- Member `isSigned`: `BuiltinType::isSigned` of `support/type.cpp`; a pointer is
unsigned and an array has no sign. -/
def isSigned : Ty → Bool
  | builtin .i8 => true
  | builtin .i16 => true
  | builtin .i32 => true
  | builtin .i64 => true
  | _ => false

/-- Member `getArraySize`; only an array type defines it (the base class answers
`unreachable()`), other types answer `0` here. -/
def getArraySize : Ty → Nat
  | array _ n => n
  | _ => 0

end Ty

/-- Modelled from the spec: the declaration of `enum class VariableQual` is not part of the
sources.  The visitor compares a qualifier with `VariableQual::mutable_` only; the spec
says "`mutable` ⇒ mutable binding; no other qualifiers are valid", so every other
enumerator value is kept as `other`. -/
inductive VariableQual where
  | mutable_
  | other (tag : Nat)
  deriving DecidableEq, Repr

/-! ## Abstract syntax tree (`ast/ast.hpp`) -/

/-- Mirror of the variant `ast::Expr`.  Source positions of expressions are only read by
the expression visitor and are left out. -/
inductive Expr where
  | nil
  | uint32 (n : Nat)
  | int32 (n : Int)
  | uint64 (n : Nat)
  | int64 (n : Int)
  | bool (b : Bool)
  | stringLiteral (str : String)
  | charLiteral (ch : Nat)
  | identifier (name : String)
  | binOp (lhs : Expr) (op : String) (rhs : Expr)
  | unaryOp (op : String) (rhs : Expr)
  | subscript (ident : String) (nsubscript : Expr)
  | functionCall (callee : String) (args : List Expr)
  | conversion (lhs : Expr) (target : Ty)

/-- Mirror of `UnaryOp::Kind`. -/
inductive UnaryOpKind where
  | unknown | plus | minus | indirection | address_of | not_
  deriving DecidableEq, Repr

/-- Mirror of `UnaryOp::kind`. -/
def UnaryOp.kind (op : String) : UnaryOpKind :=
  if op = "+" then .plus
  else if op = "-" then .minus
  else if op = "*" then .indirection
  else if op = "&" then .address_of
  else if op = "!" then .not_
  else .unknown

/-- Member `UnaryOp::isIndirection`, used by `gen_assignable_value_from_expr`: the kind is
`indirection`. -/
def UnaryOp.isIndirection (op : String) : Bool :=
  UnaryOp.kind op = .indirection

/-- Mirror of `ast::Initializer`. -/
inductive Initializer where
  | expr (e : Expr)
  | initList (inits : List Expr)

/-- Mirror of `ast::VariableDef`; `pos` is the position tag of the node. -/
structure VariableDef where
  pos : Nat
  qualifier : Option VariableQual
  name : String
  type : Option Ty
  initializer : Option Initializer

/-- Mirror of `ast::Assignment`. -/
structure Assignment where
  pos : Nat
  lhs : Expr
  op : String
  rhs : Expr

/-- Mirror of `ast::PrefixIncAndDec`. -/
structure PrefixIncAndDec where
  pos : Nat
  op : String
  rhs : Expr

/-- Mirror of `ast::ForInitVariant`. -/
inductive ForInitVariant where
  | assignment (node : Assignment)
  | variableDef (node : VariableDef)

/-- Mirror of `ast::ForLoopVariant`. -/
inductive ForLoopVariant where
  | prefixIncAndDec (node : PrefixIncAndDec)
  | assignment (node : Assignment)

/-- Mirror of the recursive variant `ast::Stmt` together with `If`, `Loop`, `While` and
`For`; `pos` is the position tag of the node. -/
inductive Stmt where
  | nil
  | compound (statements : List Stmt)
  | expr (node : Expr)
  | return_ (pos : Nat) (rhs : Option Expr)
  | variableDef (node : VariableDef)
  | assignment (node : Assignment)
  | prefixIncAndDec (node : PrefixIncAndDec)
  | break_ (pos : Nat)
  | continue_ (pos : Nat)
  | if_ (pos : Nat) (condition : Expr) (then_statement : Stmt) (else_statement : Option Stmt)
  | loop (pos : Nat) (body : Stmt)
  | while_ (pos : Nat) (cond_expr : Expr) (body : Stmt)
  | for_ (pos : Nat) (init_stmt : Option ForInitVariant) (cond_expr : Option Expr)
      (loop_stmt : Option ForLoopVariant) (body : Stmt)

/-! ## Diagnostics and results -/

/-- What a lowering step can end in instead of a result.
* `formatError pos msg`: `throw std::runtime_error{ctx.formatError(pos, msg)}`;
* `format_error_message msg`: `throw std::runtime_error{format_error_message(file, msg)}`;
* `breakContinueOutsideLoop`: the error kind of the spec for `break`/`continue` without
  a loop;
* `undefined what`: the C++ code has undefined behaviour at this point (a null pointer
  is dereferenced, `front()` of an empty vector is read). -/
inductive Diag where
  | formatError (pos : Nat) (msg : String)
  | format_error_message (msg : String)
  | breakContinueOutsideLoop
  | undefined (what : String)
  deriving DecidableEq, Repr

/-- Result of a step that computes an `α`: the value or the diagnostic, and the builder
state reached in either case. -/
structure Res (α : Type) where
  val : Except Diag α
  ctx : Ctx

/-- Result of visiting a statement with a `StmtVisitor`: the diagnostic thrown (if any),
the visitor's symbol table (held by reference, so updated in place) and the builder
state, both as they are when the call ends. -/
structure Outcome where
  err : Option Diag
  scope : SymbolTable
  ctx : Ctx

/-- Result of `codegen_statement`, which takes the symbol table by `const` reference:
only the diagnostic and the builder state come back. -/
structure CgRes where
  err : Option Diag
  ctx : Ctx

/-- The expression visitor `boost::apply_visitor(ExprVisitor{ctx, scope}, e)`, whose source
is `codegen/expr.cpp`, is a parameter of the development: it reads the symbol table, may
emit instructions and returns a `Value` (null on failure) or throws. -/
abbrev ExprVisitor := SymbolTable → Expr → Ctx → Res Value

/-- The four cursors a `StmtVisitor` carries; each is a nullable pointer. -/
structure Cursors where
  retvar : Option LValue
  end_bb : Option Nat
  break_bb : Option Nat
  continue_bb : Option Nat
  deriving DecidableEq, Repr

/-! ## `codegen/stmt.cpp`: the statement visitor, non-recursive members -/

/-- Member `StmtVisitor::operator()(const ast::Expr&)`. -/
def visitExpr (ev : ExprVisitor) (node : Expr) (scope : SymbolTable) (ctx : Ctx) : Outcome :=
  match ev scope node ctx with
  | ⟨.error d, c⟩ => ⟨some d, scope, c⟩
  | ⟨.ok v, c⟩ =>
    if !v.toBool then
      ⟨some (.format_error_message "failed to generate expression statement"), scope, c⟩
    else ⟨none, scope, c⟩

/-- Member `StmtVisitor::operator()(const ast::Return&)`.  The type of the operand is read
through `retval.getValue()->getType()` before `retval` is tested, so a null operand value
is a null dereference; `CreateStore` into a null `retvar` and `CreateBr` to a null
`end_bb` are undefined as well. -/
def visitReturn (ev : ExprVisitor) (cur : Cursors) (pos : Nat) (rhs : Option Expr)
    (scope : SymbolTable) (ctx : Ctx) : Outcome :=
  let stored : Res Unit :=
    match rhs with
    | some e =>
      match ev scope e ctx with
      | ⟨.error d, c⟩ => ⟨.error d, c⟩
      | ⟨.ok retval, c⟩ =>
        match retval.value with
        | none => ⟨.error (.undefined "getType of a null return value"), c⟩
        | some v =>
          if c.retTy ≠ v.getType then
            ⟨.error (.formatError pos "incompatible type for result type"), c⟩
          else
            match cur.retvar with
            | none => ⟨.error (.undefined "store into a null retvar"), c⟩
            | some rv => ⟨.ok (), c.CreateStore v rv⟩
    | none => ⟨.ok (), ctx⟩
  match stored with
  | ⟨.error d, c⟩ => ⟨some d, scope, c⟩
  | ⟨.ok _, c⟩ =>
    match cur.end_bb with
    | none => ⟨some (.undefined "branch to a null end_bb"), scope, c⟩
    | some bb => ⟨none, scope, c.CreateBr bb⟩

/-- Member `StmtVisitor::gen_init_list`: every initializer is lowered in order and its
`getValue()` (possibly null) is collected; nothing is checked. -/
def gen_init_list (ev : ExprVisitor) (scope : SymbolTable) :
    List Expr → Ctx → Res (List (Option LValue))
  | [], c => ⟨.ok [], c⟩
  | init :: rest, c =>
    match ev scope init c with
    | ⟨.error d, c1⟩ => ⟨.error d, c1⟩
    | ⟨.ok v, c1⟩ =>
      match gen_init_list ev scope rest c1 with
      | ⟨.error d, c2⟩ => ⟨.error d, c2⟩
      | ⟨.ok vs, c2⟩ => ⟨.ok (v.value :: vs), c2⟩

/-- Member `StmtVisitor::init_array`, from index `i` on: for each element a load of the
whole array and an insert-value into the loaded aggregate are emitted; the result of
the insert-value is dropped.  A null element is dereferenced by the builder. -/
def init_array (array_alloca : LValue) : List (Option LValue) → Nat → Ctx → Res Unit
  | [], _, c => ⟨.ok (), c⟩
  | v :: rest, i, c =>
    let ld := c.CreateLoad (getAllocatedType array_alloca) array_alloca
    match v with
    | none => ⟨.error (.undefined "insert-value of a null element"), ld.2⟩
    | some x => init_array array_alloca rest (i + 1) (ld.2.CreateInsertValue ld.1 x i).2

/-- Member `StmtVisitor::create_variable_with_type`. -/
def create_variable_with_type (ev : ExprVisitor) (scope : SymbolTable) (pos : Nat)
    (name : String) (type : Ty) (initializer : Option Initializer) (ctx : Ctx) :
    Res LValue :=
  let llvm_type := type.getType
  let al := create_entry_block_alloca ctx name llvm_type
  match initializer with
  | none => ⟨.ok al.1, al.2⟩
  | some (.initList inits) =>
    if !llvm_type.isArrayTy then
      ⟨.error (.formatError pos "initializing an array requires an initializer list"), al.2⟩
    else
      match gen_init_list ev scope inits al.2 with
      | ⟨.error d, c⟩ => ⟨.error d, c⟩
      | ⟨.ok init_list, c⟩ =>
        if type.getArraySize ≠ init_list.length then
          ⟨.error (.formatError pos "invalid number of elements in initializer list"), c⟩
        else
          match init_array al.1 init_list 0 c with
          | ⟨.error d, c1⟩ => ⟨.error d, c1⟩
          | ⟨.ok _, c1⟩ => ⟨.ok al.1, c1⟩
  | some (.expr e) =>
    match ev scope e al.2 with
    | ⟨.error d, c⟩ => ⟨.error d, c⟩
    | ⟨.ok init_value, c⟩ =>
      match init_value.value with
      | none =>
        ⟨.error (.formatError pos ("failed to generate initializer for '" ++ name ++ "'")), c⟩
      | some v =>
        if llvm_type ≠ v.getType then
          ⟨.error (.formatError pos "initializer type and variable type are different"), c⟩
        else ⟨.ok al.1, c.CreateStore v al.1⟩

/-- Member `StmtVisitor::create_variable_with_type_inference`.  The optional initializer is
dereferenced without a test, and `init_list.front()->getType()` reads the first element
of the list without testing that the list is non-empty or the element non-null. -/
def create_variable_with_type_inference (ev : ExprVisitor) (scope : SymbolTable) (pos : Nat)
    (name : String) (initializer : Option Initializer) (ctx : Ctx) : Res (LValue × Bool) :=
  match initializer with
  | none => ⟨.error (.undefined "dereference of an empty optional initializer"), ctx⟩
  | some (.initList inits) =>
    match gen_init_list ev scope inits ctx with
    | ⟨.error d, c⟩ => ⟨.error d, c⟩
    | ⟨.ok init_list, c⟩ =>
      match init_list.head? with
      | none => ⟨.error (.undefined "front of an empty initializer list"), c⟩
      | some none => ⟨.error (.undefined "getType of a null first element"), c⟩
      | some (some front) =>
        let al := create_entry_block_alloca c name (.array front.getType init_list.length)
        match init_array al.1 init_list 0 al.2 with
        | ⟨.error d, c1⟩ => ⟨.error d, c1⟩
        | ⟨.ok _, c1⟩ => ⟨.ok (al.1, false), c1⟩
  | some (.expr e) =>
    match ev scope e ctx with
    | ⟨.error d, c⟩ => ⟨.error d, c⟩
    | ⟨.ok init_value, c⟩ =>
      match init_value.value with
      | none =>
        ⟨.error (.formatError pos ("failed to generate initializer for '" ++ name ++ "'")), c⟩
      | some v =>
        let al := create_entry_block_alloca c name v.getType
        ⟨.ok (al.1, init_value.is_signed), al.2.CreateStore v al.1⟩

/-- The lambda `regist` inside `StmtVisitor::operator()(const ast::VariableDef&)`: an absent
qualifier registers a constant variable, `mutable_` a mutable one, and for any other
qualifier neither branch is taken. -/
def visitVariableDef.regist (node : VariableDef) (scope : SymbolTable) (alloca : LValue)
    (is_signed : Bool) : SymbolTable :=
  match node.qualifier with
  | none => scope.regist node.name ⟨alloca, false, is_signed⟩
  | some q =>
    if q = VariableQual.mutable_ then scope.regist node.name ⟨alloca, true, is_signed⟩
    else scope

/-- Member `StmtVisitor::operator()(const ast::VariableDef&)`. -/
def visitVariableDef (ev : ExprVisitor) (node : VariableDef) (scope : SymbolTable)
    (ctx : Ctx) : Outcome :=
  if node.type.isNone && node.initializer.isNone then
    ⟨some (.formatError node.pos "type inference requires an initializer"), scope, ctx⟩
  else if scope.exists node.name then
    ⟨some (.formatError node.pos ("redefinition of '" ++ node.name ++ "'")), scope, ctx⟩
  else
    match node.type with
    | some type =>
      match create_variable_with_type ev scope node.pos node.name type node.initializer ctx with
      | ⟨.error d, c⟩ => ⟨some d, scope, c⟩
      | ⟨.ok alloca, c⟩ =>
        ⟨none, visitVariableDef.regist node scope alloca type.isSigned, c⟩
    | none =>
      match create_variable_with_type_inference ev scope node.pos node.name
          node.initializer ctx with
      | ⟨.error d, c⟩ => ⟨some d, scope, c⟩
      | ⟨.ok r, c⟩ => ⟨none, visitVariableDef.regist node scope r.1 r.2, c⟩

/-- Member `StmtVisitor::gen_assignable_value_from_expr`. -/
def gen_assignable_value_from_expr (ev : ExprVisitor) (scope : SymbolTable) (node : Expr)
    (position : Nat) (ctx : Ctx) : Res Value :=
  let value : Res Value :=
    match node with
    | .identifier identifier =>
      match scope.lookup identifier with
      | none =>
        ⟨.error (.formatError position ("unknown variable name '" ++ identifier ++ "'")), ctx⟩
      | some var =>
        if !var.is_mutable then
          ⟨.error (.formatError position
            ("assignment of read-only variable '" ++ identifier ++ "'")), ctx⟩
        else ⟨.ok ⟨some var.pointer, var.is_signed⟩, ctx⟩
    | .unaryOp op rhs =>
      if UnaryOp.isIndirection op then ev scope rhs ctx
      else ev scope (.unaryOp op rhs) ctx
    | other => ev scope other ctx
  match value with
  | ⟨.error d, c⟩ => ⟨.error d, c⟩
  | ⟨.ok v, c⟩ =>
    match v.value with
    | none => ⟨.error (.formatError position "failed to generate left-hand side"), c⟩
    | some p =>
      if !p.getType.isPointerTy then
        ⟨.error (.formatError position "left-hand side requires assignable"), c⟩
      else ⟨.ok v, c⟩

/-- Member `StmtVisitor::operator()(const ast::Assignment&)`.  After the checks the
left-hand side is loaded and each of the six operator tests is run in turn. -/
def visitAssignment (ev : ExprVisitor) (node : Assignment) (scope : SymbolTable)
    (ctx : Ctx) : Outcome :=
  if node.op = "=" ∨ node.op = "+=" ∨ node.op = "-=" ∨ node.op = "*="
      ∨ node.op = "/=" ∨ node.op = "%=" then
    match gen_assignable_value_from_expr ev scope node.lhs node.pos ctx with
    | ⟨.error d, c⟩ => ⟨some d, scope, c⟩
    | ⟨.ok lhs, c0⟩ =>
      match ev scope node.rhs c0 with
      | ⟨.error d, c⟩ => ⟨some d, scope, c⟩
      | ⟨.ok rhs, c1⟩ =>
        match rhs.value with
        | none =>
          ⟨some (.formatError node.pos "failed to generate right-hand side"), scope, c1⟩
        | some r =>
          match lhs.value with
          | none => ⟨some (.undefined "getType of a null left-hand side"), scope, c1⟩
          | some l =>
            if l.getType.getPointerElementType ≠ r.getType then
              ⟨some (.formatError node.pos
                "both operands to a binary operator are not of the same type"), scope, c1⟩
            else
              let ld := c1.CreateLoad l.getType.getPointerElementType l
              let lhs_value := ld.1
              let c2 := if node.op = "=" then ld.2.CreateStore r l else ld.2
              let c3 :=
                if node.op = "+=" then
                  let v := c2.CreateBinary .Add lhs_value r
                  v.2.CreateStore v.1 l
                else c2
              let c4 :=
                if node.op = "-=" then
                  let v := c3.CreateBinary .Sub lhs_value r
                  v.2.CreateStore v.1 l
                else c3
              let c5 :=
                if node.op = "*=" then
                  let v := c4.CreateBinary .Mul lhs_value r
                  v.2.CreateStore v.1 l
                else c4
              let result_is_signed := rhs.is_signed || lhs.is_signed
              let c6 :=
                if node.op = "/=" then
                  let assign_value :=
                    if result_is_signed then c5.CreateBinary .SDiv lhs_value r
                    else c5.CreateBinary .UDiv lhs_value r
                  assign_value.2.CreateStore assign_value.1 l
                else c5
              let c7 :=
                if node.op = "%=" then
                  let assign_value :=
                    if result_is_signed then c6.CreateBinary .SRem lhs_value r
                    else c6.CreateBinary .URem lhs_value r
                  assign_value.2.CreateStore assign_value.1 l
                else c6
              ⟨none, scope, c7⟩
  else ⟨none, scope, ctx⟩

/-- Member `StmtVisitor::operator()(const ast::PrefixIncAndDec&)`. -/
def visitPrefixIncAndDec (ev : ExprVisitor) (node : PrefixIncAndDec) (scope : SymbolTable)
    (ctx : Ctx) : Outcome :=
  match gen_assignable_value_from_expr ev scope node.rhs node.pos ctx with
  | ⟨.error d, c⟩ => ⟨some d, scope, c⟩
  | ⟨.ok rhs, c0⟩ =>
    match rhs.value with
    | none => ⟨some (.undefined "getType of a null operand"), scope, c0⟩
    | some p =>
      let ld := c0.CreateLoad p.getType.getPointerElementType p
      let rhs_value := ld.1
      let c1 :=
        if node.op = "++" then
          let v := ld.2.CreateBinary .Add rhs_value (.constInt rhs_value.getType 1)
          v.2.CreateStore v.1 p
        else ld.2
      let c2 :=
        if node.op = "--" then
          let v := c1.CreateBinary .Sub rhs_value (.constInt rhs_value.getType 1)
          v.2.CreateStore v.1 p
        else c1
      ⟨none, scope, c2⟩

/-! ## `codegen/stmt.cpp`: control flow and `codegen_statement` -/

/-- Modelled from the spec: the visitor member for the empty statement `ast::Nil` is defined
in the class header, which is not part of the sources; an empty statement lowers to
nothing. -/
def visitNil (scope : SymbolTable) (ctx : Ctx) : Outcome :=
  ⟨none, scope, ctx⟩

/-- Modelled from the spec: the visitor member for `ast::Break` is defined in the class
header, which is not part of the sources.  "Break / Continue: emit an unconditional
branch to the corresponding cursor; error if the cursor is null (not in a loop)." -/
def visitBreak (cur : Cursors) (scope : SymbolTable) (ctx : Ctx) : Outcome :=
  match cur.break_bb with
  | some bb => ⟨none, scope, ctx.CreateBr bb⟩
  | none => ⟨some .breakContinueOutsideLoop, scope, ctx⟩

/-- Modelled from the spec: the visitor member for `ast::Continue` is defined in the class
header, which is not part of the sources.  "Break / Continue: emit an unconditional
branch to the corresponding cursor; error if the cursor is null (not in a loop)." -/
def visitContinue (cur : Cursors) (scope : SymbolTable) (ctx : Ctx) : Outcome :=
  match cur.continue_bb with
  | some bb => ⟨none, scope, ctx.CreateBr bb⟩
  | none => ⟨some .breakContinueOutsideLoop, scope, ctx⟩

/-- Lowering of one sub-statement through `codegen_statement`, seen from the visitor
member that makes the call: the scope and cursors passed and the builder state at the
call, to the diagnostic and builder state that come back. -/
abbrev SubLowering := SymbolTable → Cursors → Ctx → CgRes

/-- Member `StmtVisitor::operator()(const ast::If&)`.  `then_cg` is the call
`codegen_statement(node.then_statement, ...)` and `else_cg` the call
`codegen_statement(*node.else_statement, ...)`, present when the node has an else
statement. -/
def visitIf (ev : ExprVisitor) (pos : Nat) (condition : Expr) (then_cg : SubLowering)
    (else_cg : Option SubLowering) (cur : Cursors) (scope : SymbolTable) (ctx : Ctx) :
    Outcome :=
  match ev scope condition ctx with
  | ⟨.error d, c⟩ => ⟨some d, scope, c⟩
  | ⟨.ok cond_value, c⟩ =>
    match cond_value.value with
    | none => ⟨some (.formatError pos "invalid condition in if statement"), scope, c⟩
    | some cv =>
      let cond := c.CreateICmpNE cv (.constInt (Ty.builtin .bool_).getType 0)
      let then_bb := cond.2.CreateBlock true
      let else_bb := then_bb.2.CreateBlock false
      let merge_bb := else_bb.2.CreateBlock false
      let c1 := (merge_bb.2.CreateCondBr cond.1 then_bb.1 else_bb.1).SetInsertPoint then_bb.1
      let r1 := then_cg scope cur c1
      match r1.err with
      | some d => ⟨some d, scope, r1.ctx⟩
      | none =>
        let c2 := if !r1.ctx.getTerminator then r1.ctx.CreateBr merge_bb.1 else r1.ctx
        let c3 := (c2.pushBack else_bb.1).SetInsertPoint else_bb.1
        let r2 : CgRes :=
          match else_cg with
          | some cg => cg scope cur c3
          | none => ⟨none, c3⟩
        match r2.err with
        | some d => ⟨some d, scope, r2.ctx⟩
        | none =>
          let c4 := if !r2.ctx.getTerminator then r2.ctx.CreateBr merge_bb.1 else r2.ctx
          ⟨none, scope, (c4.pushBack merge_bb.1).SetInsertPoint merge_bb.1⟩

/-- Member `StmtVisitor::operator()(const ast::Loop&)`.  `body_cg` is the call
`codegen_statement(node.body, ...)`. -/
def visitLoop (body_cg : SubLowering) (cur : Cursors) (scope : SymbolTable) (ctx : Ctx) :
    Outcome :=
  let body_bb := ctx.CreateBlock true
  let loop_end_bb := body_bb.2.CreateBlock false
  let c1 := (loop_end_bb.2.CreateBr body_bb.1).SetInsertPoint body_bb.1
  let r := body_cg scope ⟨cur.retvar, cur.end_bb, some loop_end_bb.1, some body_bb.1⟩ c1
  match r.err with
  | some d => ⟨some d, scope, r.ctx⟩
  | none =>
    let c2 := if !r.ctx.getTerminator then r.ctx.CreateBr body_bb.1 else r.ctx
    ⟨none, scope, (c2.pushBack loop_end_bb.1).SetInsertPoint loop_end_bb.1⟩

/-- Member `StmtVisitor::operator()(const ast::While&)`.  `body_cg` is the call
`codegen_statement(node.body, ...)`. -/
def visitWhile (ev : ExprVisitor) (pos : Nat) (cond_expr : Expr) (body_cg : SubLowering)
    (cur : Cursors) (scope : SymbolTable) (ctx : Ctx) : Outcome :=
  let cond_bb := ctx.CreateBlock true
  let body_bb := cond_bb.2.CreateBlock false
  let loop_end_bb := body_bb.2.CreateBlock false
  let c1 := (loop_end_bb.2.CreateBr cond_bb.1).SetInsertPoint cond_bb.1
  match ev scope cond_expr c1 with
  | ⟨.error d, c⟩ => ⟨some d, scope, c⟩
  | ⟨.ok cond_value, c⟩ =>
    match cond_value.value with
    | none =>
      ⟨some (.formatError pos "failed to generate condition expression"), scope, c⟩
    | some cv =>
      let cond := c.CreateICmpNE cv (.constInt (Ty.builtin .bool_).getType 0)
      let c2 := cond.2.CreateCondBr cond.1 body_bb.1 loop_end_bb.1
      let c3 := (c2.pushBack body_bb.1).SetInsertPoint body_bb.1
      let r := body_cg scope ⟨cur.retvar, cur.end_bb, some loop_end_bb.1, some cond_bb.1⟩ c3
      match r.err with
      | some d => ⟨some d, scope, r.ctx⟩
      | none =>
        let c4 := if !r.ctx.getTerminator then r.ctx.CreateBr cond_bb.1 else r.ctx
        ⟨none, scope, (c4.pushBack loop_end_bb.1).SetInsertPoint loop_end_bb.1⟩

/-- Member `StmtVisitor::operator()(const ast::For&)`.  `body_cg` is the call
`codegen_statement(node.body, ...)`.  The init statement is visited with `*this`, that
is with the visitor's own scope object; the loop statement is visited with a visitor
over the same scope. -/
def visitFor (ev : ExprVisitor) (pos : Nat) (init_stmt : Option ForInitVariant)
    (cond_expr : Option Expr) (loop_stmt : Option ForLoopVariant) (body_cg : SubLowering)
    (cur : Cursors) (scope : SymbolTable) (ctx : Ctx) : Outcome :=
  let init : Outcome :=
    match init_stmt with
    | some (.assignment a) => visitAssignment ev a scope ctx
    | some (.variableDef v) => visitVariableDef ev v scope ctx
    | none => ⟨none, scope, ctx⟩
  match init.err with
  | some d => ⟨some d, init.scope, init.ctx⟩
  | none =>
    let cond_bb := init.ctx.CreateBlock true
    let loop_bb := cond_bb.2.CreateBlock false
    let body_bb := loop_bb.2.CreateBlock false
    let loop_end_bb := body_bb.2.CreateBlock false
    let c1 := (loop_end_bb.2.CreateBr cond_bb.1).SetInsertPoint cond_bb.1
    let branched : Res Unit :=
      match cond_expr with
      | some e =>
        match ev init.scope e c1 with
        | ⟨.error d, c⟩ => ⟨.error d, c⟩
        | ⟨.ok cond_value, c⟩ =>
          match cond_value.value with
          | none =>
            ⟨.error (.formatError pos "failed to generate condition expression"), c⟩
          | some cv =>
            let cond := c.CreateICmpNE cv (.constInt (Ty.builtin .bool_).getType 0)
            ⟨.ok (), cond.2.CreateCondBr cond.1 body_bb.1 loop_end_bb.1⟩
      | none =>
        -- If condition is absent, unconditionally true.
        ⟨.ok (), c1.CreateCondBr (.constInt (.int 1) 1) body_bb.1 loop_end_bb.1⟩
    match branched with
    | ⟨.error d, c⟩ => ⟨some d, init.scope, c⟩
    | ⟨.ok _, c2⟩ =>
      let c3 := (c2.pushBack body_bb.1).SetInsertPoint body_bb.1
      let r := body_cg init.scope
        ⟨cur.retvar, cur.end_bb, some loop_end_bb.1, some loop_bb.1⟩ c3
      match r.err with
      | some d => ⟨some d, init.scope, r.ctx⟩
      | none =>
        let c4 := if !r.ctx.getTerminator then r.ctx.CreateBr loop_bb.1 else r.ctx
        let c5 := (c4.pushBack loop_bb.1).SetInsertPoint loop_bb.1
        let step : Outcome :=
          match loop_stmt with
          | some (.prefixIncAndDec p) => visitPrefixIncAndDec ev p init.scope c5
          | some (.assignment a) => visitAssignment ev a init.scope c5
          | none => ⟨none, init.scope, c5⟩
        match step.err with
        | some d => ⟨some d, step.scope, step.ctx⟩
        | none =>
          let c6 := step.ctx.CreateBr cond_bb.1
          ⟨none, step.scope, (c6.pushBack loop_end_bb.1).SetInsertPoint loop_end_bb.1⟩

mutual

/-- The call `boost::apply_visitor(StmtVisitor{ctx, scope, retvar, end_bb, break_bb,
continue_bb}, statement)`: dispatch on the alternative held by the variant.  The members
for `If`, `Loop`, `While` and `For` receive the `codegen_statement` calls on their
sub-statements. -/
def visit (ev : ExprVisitor) : Stmt → Cursors → SymbolTable → Ctx → Outcome
  | .nil, _, scope, ctx => visitNil scope ctx
  | .compound statements, cur, scope, ctx => visitCompound ev statements cur scope ctx
  | .expr node, _, scope, ctx => visitExpr ev node scope ctx
  | .return_ pos rhs, cur, scope, ctx => visitReturn ev cur pos rhs scope ctx
  | .variableDef node, _, scope, ctx => visitVariableDef ev node scope ctx
  | .assignment node, _, scope, ctx => visitAssignment ev node scope ctx
  | .prefixIncAndDec node, _, scope, ctx => visitPrefixIncAndDec ev node scope ctx
  | .break_ _, cur, scope, ctx => visitBreak cur scope ctx
  | .continue_ _, cur, scope, ctx => visitContinue cur scope ctx
  | .if_ pos condition then_statement none, cur, scope, ctx =>
    visitIf ev pos condition (fun sc cu cx => codegen_statement ev then_statement sc cu cx)
      none cur scope ctx
  | .if_ pos condition then_statement (some else_statement), cur, scope, ctx =>
    visitIf ev pos condition (fun sc cu cx => codegen_statement ev then_statement sc cu cx)
      (some fun sc cu cx => codegen_statement ev else_statement sc cu cx) cur scope ctx
  | .loop _ body, cur, scope, ctx =>
    visitLoop (fun sc cu cx => codegen_statement ev body sc cu cx) cur scope ctx
  | .while_ pos cond_expr body, cur, scope, ctx =>
    visitWhile ev pos cond_expr (fun sc cu cx => codegen_statement ev body sc cu cx)
      cur scope ctx
  | .for_ pos init_stmt cond_expr loop_stmt body, cur, scope, ctx =>
    visitFor ev pos init_stmt cond_expr loop_stmt
      (fun sc cu cx => codegen_statement ev body sc cu cx) cur scope ctx
termination_by s => (sizeOf s, 0)

/-- Modelled from the spec: the visitor member for a compound statement nested in another
statement list is defined in the class header, which is not part of the sources.
"Each compound statement enters a fresh child scope": the statements are lowered
against a copy of the visitor's scope, exactly as `codegen_statement` lowers a compound
statement, and the visitor's own scope is left as it was. -/
def visitCompound (ev : ExprVisitor) : List Stmt → Cursors → SymbolTable → Ctx → Outcome
  | statements, cur, scope, ctx =>
    let new_scope := scope
    let out := codegen_statement_loop ev statements cur new_scope ctx
    ⟨out.err, scope, out.ctx⟩
termination_by ss => (sizeOf ss, 1)

/-- Member `StmtVisitor::codegen_statement` (static).  `scope` is a `const` reference:
the statement is lowered by a visitor over the local copy `new_scope`. -/
def codegen_statement (ev : ExprVisitor) : Stmt → SymbolTable → Cursors → Ctx → CgRes
  | .compound statements, scope, cur, ctx =>
    let new_scope := scope
    let out := codegen_statement_loop ev statements cur new_scope ctx
    ⟨out.err, out.ctx⟩
  | statement, scope, cur, ctx =>
    let new_scope := scope
    let out := visit ev statement cur new_scope ctx
    ⟨out.err, out.ctx⟩
termination_by s => (sizeOf s, 1)

/-- The loop `for (const auto& r : statements)` of `codegen_statement`: each statement is
visited with a visitor over `new_scope`, and the loop is left as soon as the insertion
block has a terminator.  The outcome carries `new_scope` as it is when the loop ends. -/
def codegen_statement_loop (ev : ExprVisitor) :
    List Stmt → Cursors → SymbolTable → Ctx → Outcome
  | [], _, new_scope, ctx => ⟨none, new_scope, ctx⟩
  | r :: rest, cur, new_scope, ctx =>
    let out := visit ev r cur new_scope ctx
    match out.err with
    | some d => ⟨some d, out.scope, out.ctx⟩
    | none =>
      if out.ctx.getTerminator then out
      else codegen_statement_loop ev rest cur out.scope out.ctx
termination_by ss => (sizeOf ss, 0)

end

/-! ## Concrete inputs -/

/-- A small expression visitor on which the statement visitor can be run on concrete
programs.  It handles the expression forms of the spec that the examples need: a 32-bit
integer literal is a constant of type `i32` carrying its written signedness, a boolean
literal is an `i1` constant, an identifier is a load of the variable's storage carrying
the variable's signedness, `&x` is the storage address of `x`; every other expression
yields the null value. -/
def sampleExprVisitor : ExprVisitor := fun scope e c =>
  match e with
  | .int32 n => ⟨.ok ⟨some (.constInt (.int 32) n), true⟩, c⟩
  | .uint32 n => ⟨.ok ⟨some (.constInt (.int 32) n), false⟩, c⟩
  | .bool b => ⟨.ok ⟨some (.constInt (.int 1) (if b then 1 else 0)), false⟩, c⟩
  | .identifier name =>
    match scope.lookup name with
    | some v =>
      let ld := c.CreateLoad v.pointer.getType.getPointerElementType v.pointer
      ⟨.ok ⟨some ld.1, v.is_signed⟩, ld.2⟩
    | none => ⟨.error (.formatError 0 ("unknown variable name '" ++ name ++ "'")), c⟩
  | .unaryOp op (.identifier name) =>
    if op = "&" then
      match scope.lookup name with
      | some v => ⟨.ok ⟨some v.pointer, false⟩, c⟩
      | none => ⟨.error (.formatError 0 ("unknown variable name '" ++ name ++ "'")), c⟩
    else ⟨.ok ⟨none, false⟩, c⟩
  | _ => ⟨.ok ⟨none, false⟩, c⟩

/-- Builder state at the start of a function body: a function returning `i32` whose only
block is the empty entry block `0`, which is also the insertion block. -/
def ctx0 : Ctx := ⟨.int 32, [⟨0, []⟩], [0], 0, 1⟩

/-- The cursors of a function body outside any loop: `retvar` is value `100`, the
epilogue block is `99`, and there is no `break`/`continue` target. -/
def cur0 : Cursors := ⟨some (.inst 100 (.ptr (.int 32))), some 99, none, none⟩

/-- The empty symbol table. -/
def emptyScope : SymbolTable := ⟨[]⟩

/-- The definition `let x: i32 = <value>;` at position `pos`. -/
def letX (pos : Nat) (value : Int) : VariableDef :=
  ⟨pos, none, "x", some (.builtin .i32), some (.expr (.int32 value))⟩

/-- A scope in which `x` is bound to an immutable signed `i32` whose storage is value `1`. -/
def scopeX : SymbolTable := ⟨[("x", ⟨.inst 1 (.ptr (.int 32)), false, true⟩)]⟩

/-- Builder state of a function body in which the storage of `x` has been allocated. -/
def ctxX : Ctx := ⟨.int 32, [⟨0, [.alloca 1 "x" (.int 32)]⟩], [0], 0, 2⟩

/-- The definition `let <q> x: i32 = 1;` whose qualifier `q` is an enumerator other than
`mutable_`. -/
def letOtherQual : VariableDef :=
  ⟨4, some (.other 0), "x", some (.builtin .i32), some (.expr (.int32 1))⟩

/-- A scope in which `x` is bound to a mutable signed `i32` whose storage is value `1`. -/
def scopeXmut : SymbolTable := ⟨[("x", ⟨.inst 1 (.ptr (.int 32)), true, true⟩)]⟩

/-- The instruction sequence of a compound assignment as the spec words it ("perform
load-op-store"): load the left-hand side through its address, apply the operation to the
loaded value and the right-hand value, store the result to the address. -/
def loadOpStore (c : Ctx) (op : BinaryOps) (l r : LValue) : Ctx :=
  let ld := c.CreateLoad l.getType.getPointerElementType l
  let v := ld.2.CreateBinary op ld.1 r
  v.2.CreateStore v.1 l

/-! ## Observations on the builder state -/

/-- The ids of all basic blocks created so far. -/
def Ctx.ids (c : Ctx) : List Nat := c.blocks.map fun b => b.id

/-- The instructions of the basic block with the given id (none if there is no such
block). -/
def Ctx.instsOf (c : Ctx) (id : Nat) : List Instr :=
  match c.blocks.find? (fun b => b.id = id) with
  | some b => b.insts
  | none => []

/-- The instruction list ends in a terminator. -/
def endsInTerminator (l : List Instr) : Bool :=
  match l.getLast? with
  | some i => i.isTerminator
  | none => false

/-- The part of `visitFor` that lowers the init statement, with the visitor itself. -/
def visitFor.init (ev : ExprVisitor) (init_stmt : Option ForInitVariant)
    (scope : SymbolTable) (ctx : Ctx) : Outcome :=
  match init_stmt with
  | some (.assignment a) => visitAssignment ev a scope ctx
  | some (.variableDef v) => visitVariableDef ev v scope ctx
  | none => ⟨none, scope, ctx⟩

/-- The part of `visitFor` that lowers the loop statement (the step). -/
def visitFor.step (ev : ExprVisitor) (loop_stmt : Option ForLoopVariant)
    (scope : SymbolTable) (ctx : Ctx) : Outcome :=
  match loop_stmt with
  | some (.prefixIncAndDec p) => visitPrefixIncAndDec ev p scope ctx
  | some (.assignment a) => visitAssignment ev a scope ctx
  | none => ⟨none, scope, ctx⟩

/-- The loop `for (let mutable i = 0; i; ++i) { continue; }`. -/
def forContinue : Stmt :=
  .for_ 1 (some (.variableDef ⟨2, some .mutable_, "i", none, some (.expr (.int32 0))⟩))
    (some (.identifier "i")) (some (.prefixIncAndDec ⟨3, "++", .identifier "i"⟩))
    (.compound [.continue_ 4])

/-- The definition `let i: i32 = 1;` at position 5, for use after a loop over `i`. -/
def letSecondI : VariableDef :=
  ⟨5, none, "i", some (.builtin .i32), some (.expr (.int32 1))⟩

/-- The definition `let a: [i32; 2] = {true, false};`. -/
def letArrayOfBools : VariableDef :=
  ⟨6, none, "a", some (.array (.builtin .i32) 2),
    some (.initList [.bool true, .bool false])⟩

/-- The definition `let a: [i32; 3] = {1, 2, 3};`. -/
def letArray123 : VariableDef :=
  ⟨7, none, "a", some (.array (.builtin .i32) 3),
    some (.initList [.int32 1, .int32 2, .int32 3])⟩

/-- The definition `let a = {1, 2, 3};`, whose type is inferred. -/
def letArrayInferred : VariableDef :=
  ⟨8, none, "a", none, some (.initList [.int32 1, .int32 2, .int32 3])⟩

/-! ## The block-termination invariant -/

/-- No instruction of the list comes after a terminator: every instruction but the last
one is not a terminator. -/
def noEarlyTerminator (l : List Instr) : Prop :=
  ∀ i ∈ l.dropLast, i.isTerminator = false

/-- Housekeeping facts about a builder state in the middle of lowering a function body:
block ids come from the id supply, the blocks of the function have been created, the
insertion block is a block of the function, and a block that is not yet inserted into
the function is still empty. -/
def Ctx.WellFormed (c : Ctx) : Prop :=
  (∀ id ∈ c.ids, id < c.next) ∧
  (∀ id ∈ c.layout, id ∈ c.ids) ∧
  c.insertBlock ∈ c.layout ∧
  (∀ id ∈ c.ids, id ∉ c.layout → c.instsOf id = [])

/-- The block-termination invariant: every block of the function other than the
insertion block ends in a terminator, and no block has an instruction after a
terminator. -/
def Ctx.BlocksTerminated (c : Ctx) : Prop :=
  (∀ id ∈ c.layout, id ≠ c.insertBlock → endsInTerminator (c.instsOf id) = true) ∧
  (∀ id ∈ c.ids, noEarlyTerminator (c.instsOf id))

/-- The state `c2` comes from `c1` by lowering: the id supply only grows, no block
disappears, and a block with an id below `n` that is not inserted into the function in
`c1` is not inserted in `c2` either. -/
def Ctx.Extends (n : Nat) (c1 c2 : Ctx) : Prop :=
  c1.next ≤ c2.next ∧
  (∀ id ∈ c1.ids, id ∈ c2.ids) ∧
  (∀ id, id < n → id ∈ c2.layout → id ∈ c1.layout)

/-- A state between two statements: well-formed and with the block-termination
invariant. -/
def Ctx.Inv (c : Ctx) : Prop :=
  c.WellFormed ∧ c.BlocksTerminated

/-- A state in which a statement may be lowered: the invariant holds and the insertion
block has no terminator yet. -/
def Ctx.Open (c : Ctx) : Prop :=
  c.Inv ∧ c.getTerminator = false

/-- What the block-termination invariant needs of the expression visitor: started in an
open state it leaves, when it returns a value, an open state that extends the one it
started from (for instance because it only appends instructions that are not
terminators to the insertion block). -/
def ExprVisitor.Preserves (ev : ExprVisitor) : Prop :=
  ∀ scope e c v c2, c.Open → ev scope e c = ⟨.ok v, c2⟩ →
    c2.Open ∧ Ctx.Extends c.next c c2

/-- What the block-termination invariant needs of the lowering of a sub-statement: started
in an open state it leaves, when it raises no diagnostic, a state with the invariant
that extends the one it started from. -/
def SubLowering.Preserves (cg : SubLowering) : Prop :=
  ∀ scope cur c, c.Open → (cg scope cur c).err = none →
    (cg scope cur c).ctx.Inv ∧ Ctx.Extends c.next c (cg scope cur c).ctx

/-! ## Binary operators (`ast/ast.hpp`) -/

/-- Mirror of `BinOp::Kind`. -/
inductive BinOpKind where
  | unknown | add | sub | mul | div | mod | eq | neq | lt | gt | le | ge
  deriving DecidableEq, Repr

/-- Mirror of `BinOp::kind`: the chain of comparisons of the operator string, in the
order of the source; the test for `>` returns `Kind::ge`. -/
def BinOp.kind (op : String) : BinOpKind :=
  if op = "+" then .add
  else if op = "-" then .sub
  else if op = "*" then .mul
  else if op = "/" then .div
  else if op = "%" then .mod
  else if op = "==" then .eq
  else if op = "!=" then .neq
  else if op = "<" then .lt
  else if op = ">" then .ge
  else if op = "<=" then .le
  else if op = ">=" then .ge
  else .unknown

/-- The definition `let x = 7;`, whose type is inferred from the expression. -/
def letInferred : VariableDef :=
  ⟨9, none, "x", none, some (.expr (.int32 7))⟩

end Maple

/-! # The type hierarchy (`codegen/type.hpp`)

Type objects are shared through `std::shared_ptr<Type>`: several owners may point to the
same object, and `setMutable` writes into the object.  The objects therefore live in an
explicit memory, a list indexed by address, and a `shared_ptr` is an address. -/

namespace Twinkle

/-- Mirror of `enum class BuiltinTypeKind`. -/
inductive BuiltinTypeKind where
  | void_ | i8 | i16 | i32 | i64 | u8 | u16 | u32 | u64 | bool_ | char_
  | f64 | f32 | isize | usize
  deriving DecidableEq, Repr

/-- Modelled from the spec: `SignKind` is declared in `support/kind.hpp`, which is not part
of the sources; `type.hpp` names the enumerators `signed_`, `unsigned_` and `no_sign`,
the spec lists `sign_kind() -> {signed, unsigned, none}`. -/
inductive SignKind where
  | no_sign | unsigned_ | signed_
  deriving DecidableEq, Repr

/-- A non-null `std::shared_ptr<Type>`: the address of a type object. -/
abbrev TypePtr := Nat

/-- Mirror of `struct UnionVariant` (without the `llvm::StructType*`). -/
structure UnionVariant where
  tag : String
  offset : Nat
  element_type : TypePtr
  deriving DecidableEq, Repr

/-- Mirror of `ClassType::MemberVariable` (without the accessibility, whose enumeration
is declared outside the sources). -/
structure MemberVariable where
  name : String
  type : TypePtr
  deriving DecidableEq, Repr

/-- The objects of the class `Type` and of the classes derived from it, each with the
data members it declares and the `is_mutable` of the base class.  The cached
`llvm::StructType*` of a class or union is left out. -/
inductive Type_ where
  | BuiltinType (kind : BuiltinTypeKind) (is_mutable : Bool)
  | UserDefinedType (ident : String) (is_mutable : Bool)
  | ClassType ( is_opaque : Bool) (members : List MemberVariable) (name : String)
      (is_mutable : Bool)
  | UnionType (name : String) (variants : List UnionVariant) (is_mutable : Bool)
  | PointerType (pointee_type : TypePtr) (is_mutable : Bool)
  | ArrayType (element_type : TypePtr) (array_size : Nat) (is_mutable : Bool)
  | ReferenceType (refee_type : TypePtr) (is_mutable : Bool)
  deriving DecidableEq, Repr

/-- The type objects alive, by address. -/
abbrev Memory := List Type_

/-- Ways in which a member call does not return a value. -/
inductive Fault where
  /-- The operator `->` is applied to a null `shared_ptr`. -/
  | nullDereference
  /-- The call reached `unreachable()`. -/
  | unreachable_
  /-- An `assert` failed. -/
  | assertion
  /-- The address holds no object. -/
  | noObject
  /-- The chain of calls is longer than the fuel given. -/
  | outOfFuel
  deriving DecidableEq, Repr

/-- Modelled from the spec: `CGContext` of this version is declared outside the sources.
The spec says a user-defined type is resolved through "the context's class/union
tables"; only these two tables are kept. -/
structure CGContext where
  class_table : List (String × TypePtr)
  union_table : List (String × TypePtr)
  deriving DecidableEq, Repr

/-- Modelled from the spec: `UserDefinedType::getRealType` is declared in `type.hpp` with
the comment "Return nullptr if the type does not exist"; its body is not part of the
sources.  The identifier is looked up in the class table, then in the union table. -/
def getRealType (ctx : CGContext) (ident : String) : Option TypePtr :=
  match ctx.class_table.lookup ident with
  | some p => some p
  | none => ctx.union_table.lookup ident

/-- The members of `BuiltinType` that `type.hpp` declares and defines out of line, outside
the sources: they are taken as given. -/
structure BuiltinMembers where
  getSignKind : BuiltinTypeKind → SignKind
  isIntegerTy : BuiltinTypeKind → Bool
  getMangledName : BuiltinTypeKind → String

namespace Type_

/-- Data member `is_mutable` of the base class. -/
def is_mutable : Type_ → Bool
  | BuiltinType _ m => m
  | UserDefinedType _ m => m
  | ClassType _ _ _ m => m
  | UnionType _ _ m => m
  | PointerType _ m => m
  | ArrayType _ _ m => m
  | ReferenceType _ m => m

/-- The assignment `this->is_mutable = is_mutable`. -/
def assignMutable (o : Type_) (b : Bool) : Type_ :=
  match o with
  | BuiltinType k _ => BuiltinType k b
  | UserDefinedType i _ => UserDefinedType i b
  | ClassType op ms n _ => ClassType op ms n b
  | UnionType n vs _ => UnionType n vs b
  | PointerType p _ => PointerType p b
  | ArrayType e n _ => ArrayType e n b
  | ReferenceType r _ => ReferenceType r b

/-- The data member `pointee_type`, `element_type` or `refee_type` of a pointer, array or
reference type. -/
def nested : Type_ → Option TypePtr
  | PointerType p _ => some p
  | ArrayType e _ _ => some e
  | ReferenceType r _ => some r
  | _ => none

/-- The object is a `ClassType` or a `UnionType`. -/
def isClassOrUnion : Type_ → Bool
  | ClassType _ _ _ _ => true
  | UnionType _ _ _ => true
  | _ => false

/-- The object is a `ClassType` of the given name. -/
def isClassNamed (nm : String) : Type_ → Bool
  | ClassType _ _ n _ => n = nm
  | _ => false

/-- The object is a `BuiltinType`, `ClassType` or `UnionType`: a type without a nested
type, whose `setMutable` is the one of the base class. -/
def isGround : Type_ → Bool
  | BuiltinType _ _ => true
  | ClassType _ _ _ _ => true
  | UnionType _ _ _ => true
  | _ => false

end Type_

/-- Member `isMutable` (no class overrides it). -/
def isMutable (mem : Memory) (this : TypePtr) : Except Fault Bool :=
  match mem[this]? with
  | none => .error .noObject
  | some o => .ok o.is_mutable

/-- Member `isUserDefinedType`: `true` in `UserDefinedType`, `false` in the base class. -/
def isUserDefinedType (mem : Memory) (this : TypePtr) : Except Fault Bool :=
  match mem[this]? with
  | none => .error .noObject
  | some (.UserDefinedType _ _) => .ok true
  | some _ => .ok false

/-- Member `clone`: every class has `std::make_shared<C>(*this)`, the copy constructor
applied to the object; the copy is a new object with the same data members, the
`shared_ptr` members included. -/
def clone (mem : Memory) (this : TypePtr) : Except Fault (TypePtr × Memory) :=
  match mem[this]? with
  | none => .error .noObject
  | some o => .ok (mem.length, mem ++ [o])

/-- Member `setMutable`: the base class assigns `is_mutable`; pointer, array and
reference types assign it and call `setMutable` on the nested type; a user-defined type
calls `setMutable` on `getRealType(ctx)` and assigns nothing. -/
def setMutable : Nat → CGContext → Memory → TypePtr → Bool → Except Fault Memory
  | 0, _, _, _, _ => .error .outOfFuel
  | fuel + 1, ctx, mem, this, b =>
    match mem[this]? with
    | none => .error .noObject
    | some (.PointerType pointee_type m) =>
      setMutable fuel ctx (mem.set this ((Type_.PointerType pointee_type m).assignMutable b))
        pointee_type b
    | some (.ArrayType element_type n m) =>
      setMutable fuel ctx (mem.set this ((Type_.ArrayType element_type n m).assignMutable b))
        element_type b
    | some (.ReferenceType refee_type m) =>
      setMutable fuel ctx (mem.set this ((Type_.ReferenceType refee_type m).assignMutable b))
        refee_type b
    | some (.UserDefinedType ident _) =>
      match getRealType ctx ident with
      | none => .error .nullDereference
      | some real => setMutable fuel ctx mem real b
    | some o => .ok (mem.set this (o.assignMutable b))

/-- Member `isVoidTy`: `false` in the base class; a builtin type compares its kind with
`void_`; a user-defined type asks `getRealType(ctx)`. -/
def isVoidTy : Nat → CGContext → Memory → TypePtr → Except Fault Bool
  | 0, _, _, _ => .error .outOfFuel
  | fuel + 1, ctx, mem, this =>
    match mem[this]? with
    | none => .error .noObject
    | some (.BuiltinType kind _) => .ok (kind = .void_)
    | some (.UserDefinedType ident _) =>
      match getRealType ctx ident with
      | none => .error .nullDereference
      | some real => isVoidTy fuel ctx mem real
    | some _ => .ok false

/-- Member `isIntegerTy`: `false` in the base class; the one of `BuiltinType` is defined
out of line; a user-defined type asks `getRealType(ctx)`. -/
def isIntegerTy (bt : BuiltinMembers) : Nat → CGContext → Memory → TypePtr → Except Fault Bool
  | 0, _, _, _ => .error .outOfFuel
  | fuel + 1, ctx, mem, this =>
    match mem[this]? with
    | none => .error .noObject
    | some (.BuiltinType kind _) => .ok (bt.isIntegerTy kind)
    | some (.UserDefinedType ident _) =>
      match getRealType ctx ident with
      | none => .error .nullDereference
      | some real => isIntegerTy bt fuel ctx mem real
    | some _ => .ok false

/-- Member `isFloatingPointTy`: `false` in the base class; a builtin type tests its kind
for `f64` and `f32`; a user-defined type asks `getRealType(ctx)`. -/
def isFloatingPointTy : Nat → CGContext → Memory → TypePtr → Except Fault Bool
  | 0, _, _, _ => .error .outOfFuel
  | fuel + 1, ctx, mem, this =>
    match mem[this]? with
    | none => .error .noObject
    | some (.BuiltinType kind _) => .ok (kind = .f64 || kind = .f32)
    | some (.UserDefinedType ident _) =>
      match getRealType ctx ident with
      | none => .error .nullDereference
      | some real => isFloatingPointTy fuel ctx mem real
    | some _ => .ok false

/-- Member `isPointerTy`: `true` in `PointerType`, `false` in the base class; a
user-defined type asks `getRealType(ctx)`. -/
def isPointerTy : Nat → CGContext → Memory → TypePtr → Except Fault Bool
  | 0, _, _, _ => .error .outOfFuel
  | fuel + 1, ctx, mem, this =>
    match mem[this]? with
    | none => .error .noObject
    | some (.PointerType _ _) => .ok true
    | some (.UserDefinedType ident _) =>
      match getRealType ctx ident with
      | none => .error .nullDereference
      | some real => isPointerTy fuel ctx mem real
    | some _ => .ok false

/-- Member `isClassTy`: `true` in `ClassType`, `false` in the base class; a user-defined
type asks `getRealType(ctx)`. -/
def isClassTy : Nat → CGContext → Memory → TypePtr → Except Fault Bool
  | 0, _, _, _ => .error .outOfFuel
  | fuel + 1, ctx, mem, this =>
    match mem[this]? with
    | none => .error .noObject
    | some (.ClassType _ _ _ _) => .ok true
    | some (.UserDefinedType ident _) =>
      match getRealType ctx ident with
      | none => .error .nullDereference
      | some real => isClassTy fuel ctx mem real
    | some _ => .ok false

/-- Member `isUnionTy`: `true` in `UnionType`, `false` in the base class; a user-defined
type asks `getRealType(ctx)`. -/
def isUnionTy : Nat → CGContext → Memory → TypePtr → Except Fault Bool
  | 0, _, _, _ => .error .outOfFuel
  | fuel + 1, ctx, mem, this =>
    match mem[this]? with
    | none => .error .noObject
    | some (.UnionType _ _ _) => .ok true
    | some (.UserDefinedType ident _) =>
      match getRealType ctx ident with
      | none => .error .nullDereference
      | some real => isUnionTy fuel ctx mem real
    | some _ => .ok false

/-- Member `isOpaque`: the data member of a `ClassType`, `false` in the base class; a
user-defined type asks `getRealType(ctx)`. -/
def isOpaque : Nat → CGContext → Memory → TypePtr → Except Fault Bool
  | 0, _, _, _ => .error .outOfFuel
  | fuel + 1, ctx, mem, this =>
    match mem[this]? with
    | none => .error .noObject
    | some (.ClassType opq _ _ _) => .ok opq
    | some (.UserDefinedType ident _) =>
      match getRealType ctx ident with
      | none => .error .nullDereference
      | some real => isOpaque fuel ctx mem real
    | some _ => .ok false

/-- Member `isArrayTy`: `true` in `ArrayType`, `false` in the base class; a user-defined
type asks `getRealType(ctx)`. -/
def isArrayTy : Nat → CGContext → Memory → TypePtr → Except Fault Bool
  | 0, _, _, _ => .error .outOfFuel
  | fuel + 1, ctx, mem, this =>
    match mem[this]? with
    | none => .error .noObject
    | some (.ArrayType _ _ _) => .ok true
    | some (.UserDefinedType ident _) =>
      match getRealType ctx ident with
      | none => .error .nullDereference
      | some real => isArrayTy fuel ctx mem real
    | some _ => .ok false

/-- Member `isRefTy`: `true` in `ReferenceType`, `false` in the base class; a
user-defined type asks `getRealType(ctx)`. -/
def isRefTy : Nat → CGContext → Memory → TypePtr → Except Fault Bool
  | 0, _, _, _ => .error .outOfFuel
  | fuel + 1, ctx, mem, this =>
    match mem[this]? with
    | none => .error .noObject
    | some (.ReferenceType _ _) => .ok true
    | some (.UserDefinedType ident _) =>
      match getRealType ctx ident with
      | none => .error .nullDereference
      | some real => isRefTy fuel ctx mem real
    | some _ => .ok false

/-- Member `getSignKind`: pure virtual in the base class.  Class, union and array types
answer `no_sign`, a pointer type `unsigned_`, a reference type asks its refee, a
user-defined type asks `getRealType(ctx)`; the one of `BuiltinType` is defined out of
line. -/
def getSignKind (bt : BuiltinMembers) :
    Nat → CGContext → Memory → TypePtr → Except Fault SignKind
  | 0, _, _, _ => .error .outOfFuel
  | fuel + 1, ctx, mem, this =>
    match mem[this]? with
    | none => .error .noObject
    | some (.BuiltinType kind _) => .ok (bt.getSignKind kind)
    | some (.UserDefinedType ident _) =>
      match getRealType ctx ident with
      | none => .error .nullDereference
      | some real => getSignKind bt fuel ctx mem real
    | some (.ClassType _ _ _ _) => .ok .no_sign
    | some (.UnionType _ _ _) => .ok .no_sign
    | some (.PointerType _ _) => .ok .unsigned_
    | some (.ArrayType _ _ _) => .ok .no_sign
    | some (.ReferenceType refee_type _) => getSignKind bt fuel ctx mem refee_type

/-- Member `isSigned` of the base class: `getSignKind(ctx) == SignKind::signed_`. -/
def isSigned (bt : BuiltinMembers) (fuel : Nat) (ctx : CGContext) (mem : Memory)
    (this : TypePtr) : Except Fault Bool :=
  match getSignKind bt fuel ctx mem this with
  | .error e => .error e
  | .ok k => .ok (k = .signed_)

/-- Member `isUnsigned` of the base class: `getSignKind(ctx) == SignKind::unsigned_`. -/
def isUnsigned (bt : BuiltinMembers) (fuel : Nat) (ctx : CGContext) (mem : Memory)
    (this : TypePtr) : Except Fault Bool :=
  match getSignKind bt fuel ctx mem this with
  | .error e => .error e
  | .ok k => .ok (k = .unsigned_)

/-- Member `getPointeeType`: `unreachable()` in the base class, the data member in
`PointerType`; a user-defined type asserts `isPointerTy(ctx)` and asks
`getRealType(ctx)`. -/
def getPointeeType : Nat → CGContext → Memory → TypePtr → Except Fault TypePtr
  | 0, _, _, _ => .error .outOfFuel
  | fuel + 1, ctx, mem, this =>
    match mem[this]? with
    | none => .error .noObject
    | some (.PointerType pointee_type _) => .ok pointee_type
    | some (.UserDefinedType ident _) =>
      match isPointerTy fuel ctx mem this with
      | .error e => .error e
      | .ok false => .error .assertion
      | .ok true =>
        match getRealType ctx ident with
        | none => .error .nullDereference
        | some real => getPointeeType fuel ctx mem real
    | some _ => .error .unreachable_

/-- Member `getRefeeType`: `unreachable()` in the base class, the data member in
`ReferenceType`; a user-defined type asks `getRealType(ctx)`. -/
def getRefeeType : Nat → CGContext → Memory → TypePtr → Except Fault TypePtr
  | 0, _, _, _ => .error .outOfFuel
  | fuel + 1, ctx, mem, this =>
    match mem[this]? with
    | none => .error .noObject
    | some (.ReferenceType refee_type _) => .ok refee_type
    | some (.UserDefinedType ident _) =>
      match getRealType ctx ident with
      | none => .error .nullDereference
      | some real => getRefeeType fuel ctx mem real
    | some _ => .error .unreachable_

/-- Member `getArrayElementType`: `unreachable()` in the base class, the data member in
`ArrayType`; a user-defined type asks `getRealType(ctx)`. -/
def getArrayElementType : Nat → CGContext → Memory → TypePtr → Except Fault TypePtr
  | 0, _, _, _ => .error .outOfFuel
  | fuel + 1, ctx, mem, this =>
    match mem[this]? with
    | none => .error .noObject
    | some (.ArrayType element_type _ _) => .ok element_type
    | some (.UserDefinedType ident _) =>
      match getRealType ctx ident with
      | none => .error .nullDereference
      | some real => getArrayElementType fuel ctx mem real
    | some _ => .error .unreachable_

/-- Member `getArraySize`: `unreachable()` in the base class, the data member in
`ArrayType`; a user-defined type asks `getRealType(ctx)`. -/
def getArraySize : Nat → CGContext → Memory → TypePtr → Except Fault Nat
  | 0, _, _, _ => .error .outOfFuel
  | fuel + 1, ctx, mem, this =>
    match mem[this]? with
    | none => .error .noObject
    | some (.ArrayType _ array_size _) => .ok array_size
    | some (.UserDefinedType ident _) =>
      match getRealType ctx ident with
      | none => .error .nullDereference
      | some real => getArraySize fuel ctx mem real
    | some _ => .error .unreachable_

/-- Member `getClassName`: `unreachable()` in the base class, the name in `ClassType`; a
user-defined type asks `getRealType(ctx)`. -/
def getClassName : Nat → CGContext → Memory → TypePtr → Except Fault String
  | 0, _, _, _ => .error .outOfFuel
  | fuel + 1, ctx, mem, this =>
    match mem[this]? with
    | none => .error .noObject
    | some (.ClassType _ _ name _) => .ok name
    | some (.UserDefinedType ident _) =>
      match getRealType ctx ident with
      | none => .error .nullDereference
      | some real => getClassName fuel ctx mem real
    | some _ => .error .unreachable_

/-- Member `getUnionVariants`: `unreachable()` in the base class, the variants in
`UnionType`; a user-defined type asks `getRealType(ctx)`. -/
def getUnionVariants : Nat → CGContext → Memory → TypePtr → Except Fault (List UnionVariant)
  | 0, _, _, _ => .error .outOfFuel
  | fuel + 1, ctx, mem, this =>
    match mem[this]? with
    | none => .error .noObject
    | some (.UnionType _ variants _) => .ok variants
    | some (.UserDefinedType ident _) =>
      match getRealType ctx ident with
      | none => .error .nullDereference
      | some real => getUnionVariants fuel ctx mem real
    | some _ => .error .unreachable_

/-- Modelled from the spec: `PointerType::getMangledName` is defined out of line, outside
the sources; the spec gives "pointer: `P<T>`". -/
def PointerType.getMangledName (pointee : String) : String :=
  "P" ++ pointee

/-- Modelled from the spec: `ArrayType::getMangledName` is defined out of line, outside
the sources; the spec gives "array: `A<N>_<T>`". -/
def ArrayType.getMangledName (array_size : Nat) (element : String) : String :=
  "A" ++ toString array_size ++ "_" ++ element

/-- Member `getMangledName`: pure virtual in the base class.  `ClassType` and `UnionType`
return `boost::lexical_cast<std::string>(name.length()) + name`, where `length()` counts
the bytes of the UTF-8 string; `ReferenceType` returns `"R"` followed by the mangled
name of the refee.  The ones of `BuiltinType`, `PointerType`, `ArrayType` and
`UserDefinedType` are defined out of line: the first is taken as given, pointer and
array follow the grammar of the spec, and a user-defined type asks `getRealType(ctx)`
as in every other member. -/
def getMangledName (bt : BuiltinMembers) :
    Nat → CGContext → Memory → TypePtr → Except Fault String
  | 0, _, _, _ => .error .outOfFuel
  | fuel + 1, ctx, mem, this =>
    match mem[this]? with
    | none => .error .noObject
    | some (.BuiltinType kind _) => .ok (bt.getMangledName kind)
    | some (.UserDefinedType ident _) =>
      match getRealType ctx ident with
      | none => .error .nullDereference
      | some real => getMangledName bt fuel ctx mem real
    | some (.ClassType _ _ name _) => .ok (toString name.utf8ByteSize ++ name)
    | some (.UnionType name _ _) => .ok (toString name.utf8ByteSize ++ name)
    | some (.PointerType pointee_type _) =>
      match getMangledName bt fuel ctx mem pointee_type with
      | .error e => .error e
      | .ok s => .ok (PointerType.getMangledName s)
    | some (.ArrayType element_type array_size _) =>
      match getMangledName bt fuel ctx mem element_type with
      | .error e => .error e
      | .ok s => .ok (ArrayType.getMangledName array_size s)
    | some (.ReferenceType refee_type _) =>
      match getMangledName bt fuel ctx mem refee_type with
      | .error e => .error e
      | .ok s => .ok ("R" ++ s)

/-! ## Types built from the constructors -/

/-- The object at `p` is built by `d` pointer, array or reference constructors over a
builtin, class or union type. -/
def isBuilt (mem : Memory) : Nat → TypePtr → Bool
  | 0, p =>
    match mem[p]? with
    | some o => o.isGround
    | none => false
  | d + 1, p =>
    match mem[p]? with
    | some o =>
      match o.nested with
      | some q => isBuilt mem d q
      | none => false
    | none => false

/-- The type at `p` followed by its nested pointee / element / refee types, `d` levels
down. -/
def nestedTypes (mem : Memory) : Nat → TypePtr → List TypePtr
  | 0, p => [p]
  | d + 1, p =>
    p :: match mem[p]? with
      | some o =>
        match o.nested with
        | some q => nestedTypes mem d q
        | none => []
      | none => []

/-- The object at `p` is a reference, `d` levels deep, to an object that satisfies
`leaf`. -/
def refersTo (leaf : Type_ → Bool) (mem : Memory) : Nat → TypePtr → Bool
  | 0, p =>
    match mem[p]? with
    | some o => leaf o
    | none => false
  | d + 1, p =>
    match mem[p]? with
    | some (.ReferenceType q _) => refersTo leaf mem d q
    | _ => false

/-! ## Concrete type objects -/

/-- A memory with the objects of `i32`, `*i32`, `[*i32; 4]`, `&[*i32; 4]`, the class
`Foo`, `&Foo`, the user-defined types `Foo` and `Bar`, the union `U`, `&&Foo`, the
class `Baz` and a second, mutable `&Foo`. -/
def mem0 : Memory :=
  [.BuiltinType .i32 false, .PointerType 0 false, .ArrayType 1 4 false,
    .ReferenceType 2 false, .ClassType false [⟨"x", 0⟩] "Foo" false, .ReferenceType 4 false,
    .UserDefinedType "Foo" false, .UserDefinedType "Bar" false, .UnionType "U" [] false,
    .ReferenceType 5 false, .ClassType false [] "Baz" false, .ReferenceType 4 true]

/-- A context in which the class `Foo` and the union `U` are declared, and `Bar` is
not. -/
def cgctx0 : CGContext := ⟨[("Foo", 4)], [("U", 8)]⟩

/-- A choice for the out-of-line members of `BuiltinType`, for running examples. -/
def builtinMembers0 : BuiltinMembers :=
  ⟨fun k => if k ∈ [.i8, .i16, .i32, .i64, .isize] then .signed_
      else if k ∈ [.u8, .u16, .u32, .u64, .usize] then .unsigned_ else .no_sign,
    fun k => k ∈ [.i8, .i16, .i32, .i64, .u8, .u16, .u32, .u64, .bool_, .char_, .isize, .usize],
    fun k =>
      match k with
      | .void_ => "v" | .i8 => "a" | .i16 => "s" | .i32 => "i" | .i64 => "x"
      | .u8 => "h" | .u16 => "t" | .u32 => "j" | .u64 => "y" | .bool_ => "b"
      | .char_ => "w" | .f64 => "d" | .f32 => "f" | .isize => "l" | .usize => "m"⟩

end Twinkle

/-! # The driver (`driver/src/main.cpp`) -/

namespace Driver

/-- The result of `compile::main` as the driver reads it: `success` and the optional
`jit_result` (the structure is declared in `compile.hpp`, outside the sources; its two
members are those named in `main` and initialised in `compile/main.cpp`). -/
structure CompileResult where
  success : Bool
  jit_result : Option Int
  deriving DecidableEq, Repr

/-- The value of the macro `EXIT_SUCCESS` of `<cstdlib>`. -/
def EXIT_SUCCESS : Int := 0

/-- The value of the macro `EXIT_FAILURE` of `<cstdlib>`. -/
def EXIT_FAILURE : Int := 1

/-- The function `main` of the driver; `compile_main` is `compile::main`, applied to the
command line. -/
def main (compile_main : List String → CompileResult) (argv : List String) : Int :=
  let c_result := compile_main argv
  if !c_result.success then EXIT_FAILURE
  else
    match c_result.jit_result with
    | some r => r
    | none => EXIT_SUCCESS

end Driver

/-! # Emission of the output files (`compile/main.cpp`) -/

namespace Compile

/-- The member functions of `codegen::CodeGenerator` that `emitFile` calls. -/
inductive Emitter where
  | emitLlvmIRFiles | emitAssemblyFiles | emitObjectFiles
  deriving DecidableEq, Repr

/-- The `program_options::variables_map`: the options given on the command line with
their values. -/
abbrev VariablesMap := List (String × String)

/-- The function `emitFile`, as the list of the emitter calls it makes on the generator,
in order.  `stringToLower` is declared in `support/utils.hpp`, outside the sources, and
is taken as given. -/
def emitFile (stringToLower : String → String) (vmap : VariablesMap) : List Emitter :=
  match vmap.lookup "emit" with
  | some value =>
    let target := stringToLower value
    if target = "llvm" then [.emitLlvmIRFiles]
    else if target = "asm" then [.emitAssemblyFiles]
    else [.emitObjectFiles]
  | none => [.emitObjectFiles]

end Compile

namespace Maple

/-! ## Assignment operators (`ast/ast.hpp`) -/

/-- Mirror of `Assignment::Kind`. -/
inductive AssignmentKind where
  | unknown | direct | add | sub | mul | div | mod
  deriving DecidableEq, Repr

/-- Mirror of `Assignment::kind`. -/
def Assignment.kind (a : Assignment) : AssignmentKind :=
  if a.op = "=" then .direct
  else if a.op = "+=" then .add
  else if a.op = "-=" then .sub
  else if a.op = "*=" then .mul
  else if a.op = "/=" then .div
  else if a.op = "%=" then .mod
  else .unknown

/-- The definition `let x: u32 = 7;`, whose initializer is a signed literal. -/
def letU32 : VariableDef :=
  ⟨10, none, "x", some (.builtin .u32), some (.expr (.int32 7))⟩

/-- The definition `let a = {};`, with an empty initializer list and no type. -/
def letEmptyList : VariableDef :=
  ⟨11, none, "a", none, some (.initList [])⟩

/-! ## The shape of the lowered control flow -/

/-- The blocks an instruction may branch to. -/
def Instr.targets : Instr → List Nat
  | .br dest => [dest]
  | .condbr _ ifTrue ifFalse => [ifTrue, ifFalse]
  | _ => []

/-- Append the instructions `post` at the end of the insertion block and move the id
supply to `n`. -/
def Ctx.appendInsts (c : Ctx) (post : List Instr) (n : Nat) : Ctx :=
  { c with
    blocks := c.blocks.map fun b =>
      if b.id = c.insertBlock then { b with insts := b.insts ++ post } else b
    next := n }

/-- What the shape of the lowered control flow needs of the expression visitor:
expressions lower to straight-line code.  Whatever the result, the visitor has appended
instructions that are not terminators to the insertion block, taken fresh ids, and done
nothing else. -/
def ExprVisitor.StraightLine (ev : ExprVisitor) : Prop :=
  ∀ scope e c, ∃ post n, (∀ i ∈ post, i.isTerminator = false) ∧ c.next ≤ n ∧
    (ev scope e c).ctx = c.appendInsts post n

/-- No instruction of any block branches to the block `m`: the block has no
predecessor. -/
def Ctx.NoTarget (c : Ctx) (m : Nat) : Prop :=
  ∀ b ∈ c.blocks, ∀ i ∈ b.insts, m ∉ i.targets

/-- The block `m` has a predecessor among the blocks of the function: a block of the
function holds a branch to it. -/
def Ctx.HasPredecessor (c : Ctx) (m : Nat) : Prop :=
  ∃ id ∈ c.layout, Instr.br m ∈ c.instsOf id

/-- The block `t` is one a statement lowered from a state with id supply `n0` may branch
to: `end_bb`, `break_bb` or `continue_bb` of the visitor, or a block created during the
lowering. -/
def Cursors.OkTarget (cur : Cursors) (n0 : Nat) (t : Nat) : Prop :=
  cur.end_bb = some t ∨ cur.break_bb = some t ∨ cur.continue_bb = some t ∨ n0 ≤ t

/-- The builder states that lowering reaches from the state `c0` with the cursors `cur`:
instructions are appended to the insertion block, with branches only to the cursors or
to blocks created since `c0`; allocas are placed in the entry block; and, when `blocks`
is true, blocks are created, and blocks created since `c0` are inserted into the
function and become the insertion point. -/
inductive Ctx.Reach (cur : Cursors) (blocks : Bool) (c0 : Ctx) : Ctx → Prop where
  | refl : Ctx.Reach cur blocks c0 c0
  | append {c : Ctx} (post : List Instr) (n : Nat) : Ctx.Reach cur blocks c0 c →
      (∀ i ∈ post, ∀ t ∈ i.targets, cur.OkTarget c0.next t) → c.next ≤ n →
      Ctx.Reach cur blocks c0 (c.appendInsts post n)
  | alloca {c : Ctx} (name : String) (ty : LType) : Ctx.Reach cur blocks c0 c →
      Ctx.Reach cur blocks c0 (create_entry_block_alloca c name ty).2
  | createBlock {c : Ctx} (attach : Bool) : Ctx.Reach cur blocks c0 c → blocks = true →
      Ctx.Reach cur blocks c0 (c.CreateBlock attach).2
  | pushBack {c : Ctx} (bb : Nat) : Ctx.Reach cur blocks c0 c → blocks = true →
      c0.next ≤ bb → Ctx.Reach cur blocks c0 (c.pushBack bb)
  | setInsertPoint {c : Ctx} (bb : Nat) : Ctx.Reach cur blocks c0 c → blocks = true →
      c0.next ≤ bb → Ctx.Reach cur blocks c0 (c.SetInsertPoint bb)

/-- The sub-statement lowering reaches its result from the state it starts in. -/
def SubLowering.Reaches (cg : SubLowering) : Prop :=
  ∀ scope cur c, Ctx.Reach cur true c (cg scope cur c).ctx

/-- Builder state of a function body whose epilogue block exists: the entry block `0`
holds the alloca of the return variable (value `2`) and is the insertion block; the
epilogue block `1` is created and not yet inserted into the function. -/
def ctxFn : Ctx := ⟨.int 32, [⟨0, [.alloca 2 "" (.int 32)]⟩, ⟨1, []⟩], [0], 0, 3⟩

/-- The cursors of the function body of `ctxFn` outside any loop: `retvar` is value `2`
and the epilogue block is `1`. -/
def curFn : Cursors := ⟨some (.inst 2 (.ptr (.int 32))), some 1, none, none⟩

/-- The statement `if (true) return 1;`. -/
def ifReturn : Stmt := .if_ 1 (.bool true) (.return_ 2 (some (.int32 1))) none

/-- The statement `if (true) return 1; else return 2;`. -/
def ifBothReturn : Stmt :=
  .if_ 1 (.bool true) (.return_ 2 (some (.int32 1))) (some (.return_ 3 (some (.int32 2))))

/-- The part of `visitFor` that lowers the condition and emits the conditional branch to
the body block and the end block, from the state `c1` in which `cond_bb` is the insertion
block. -/
def visitFor.branch (ev : ExprVisitor) (pos : Nat) (cond_expr : Option Expr)
    (scope : SymbolTable) (c1 : Ctx) (body_bb loop_end_bb : Nat) : Res Unit :=
  match cond_expr with
  | some e =>
    match ev scope e c1 with
    | ⟨.error d, c⟩ => ⟨.error d, c⟩
    | ⟨.ok cond_value, c⟩ =>
      match cond_value.value with
      | none =>
        ⟨.error (.formatError pos "failed to generate condition expression"), c⟩
      | some cv =>
        let cond := c.CreateICmpNE cv (.constInt (Ty.builtin .bool_).getType 0)
        ⟨.ok (), cond.2.CreateCondBr cond.1 body_bb loop_end_bb⟩
  | none =>
    ⟨.ok (), c1.CreateCondBr (.constInt (.int 1) 1) body_bb loop_end_bb⟩

/-- The loop `for (;;) ;`: no init statement, no condition, no step, an empty body. -/
def forEver : Stmt := .for_ 1 none none none .nil

/-! ## Facts about the symbol table and the scope of a visitor -/

theorem SymbolTable.exists_regist (s : SymbolTable) (name : String) (info : Variable)
    (n : String) (h : s.exists n = true) : (s.regist name info).exists n = true := by
  unfold SymbolTable.regist
  split
  · exact h
  · simp only [SymbolTable.exists, List.any_cons] at h ⊢
    simp [h]

theorem SymbolTable.lookup_regist (s : SymbolTable) (name : String) (info : Variable)
    (h : s.exists name = false) : (s.regist name info).lookup name = some info := by
  simp [SymbolTable.regist, h, SymbolTable.lookup]

theorem visitAssignment_scope (ev : ExprVisitor) (a : Assignment) (S : SymbolTable)
    (ctx : Ctx) : (visitAssignment ev a S ctx).scope = S := by
  unfold visitAssignment
  repeat (first | rfl | split | dsimp only)

theorem visitPrefixIncAndDec_scope (ev : ExprVisitor) (p : PrefixIncAndDec)
    (S : SymbolTable) (ctx : Ctx) : (visitPrefixIncAndDec ev p S ctx).scope = S := by
  unfold visitPrefixIncAndDec
  repeat (first | rfl | split | dsimp only)

theorem visitIf_scope (ev : ExprVisitor) (pos : Nat) (c : Expr) (t : SubLowering)
    (e : Option SubLowering) (cur : Cursors) (S : SymbolTable) (ctx : Ctx) :
    (visitIf ev pos c t e cur S ctx).scope = S := by
  unfold visitIf
  repeat (first | rfl | split | dsimp only)

theorem visitLoop_scope (b : SubLowering) (cur : Cursors) (S : SymbolTable) (ctx : Ctx) :
    (visitLoop b cur S ctx).scope = S := by
  unfold visitLoop
  repeat (first | rfl | split | dsimp only)

theorem visitWhile_scope (ev : ExprVisitor) (pos : Nat) (c : Expr) (b : SubLowering)
    (cur : Cursors) (S : SymbolTable) (ctx : Ctx) :
    (visitWhile ev pos c b cur S ctx).scope = S := by
  unfold visitWhile
  repeat (first | rfl | split | dsimp only)

theorem visit_compound_scope (ev : ExprVisitor) (ss : List Stmt) (cur : Cursors)
    (S : SymbolTable) (ctx : Ctx) : (visit ev (.compound ss) cur S ctx).scope = S := by
  simp [visit, visitCompound]

theorem visitFor_scope (ev : ExprVisitor) (pos : Nat) (init : Option ForInitVariant)
    (c : Option Expr) (step : Option ForLoopVariant) (b : SubLowering) (cur : Cursors)
    (S : SymbolTable) (ctx : Ctx) :
    (visitFor ev pos init c step b cur S ctx).scope =
      match init with
      | some (.variableDef v) => (visitVariableDef ev v S ctx).scope
      | _ => S := by
  unfold visitFor
  rcases init with _ | a | v <;> rcases step with _ | p | a2 <;>
    simp only [visitAssignment_scope, visitPrefixIncAndDec_scope] <;>
    repeat (first | rfl | split | dsimp only)

theorem visitVariableDef_scope_exists (ev : ExprVisitor) (node : VariableDef)
    (S : SymbolTable) (ctx : Ctx) (n : String) (h : S.exists n = true) :
    (visitVariableDef ev node S ctx).scope.exists n = true := by
  unfold visitVariableDef visitVariableDef.regist
  repeat (first | exact h | exact SymbolTable.exists_regist _ _ _ _ h | split | dsimp only)

theorem visit_scope_exists (ev : ExprVisitor) (s : Stmt) (cur : Cursors) (S : SymbolTable)
    (ctx : Ctx) (n : String) (h : S.exists n = true) :
    (visit ev s cur S ctx).scope.exists n = true := by
  cases s with
  | nil => simpa [visit, visitNil] using h
  | compound ss => simpa [visit, visitCompound] using h
  | expr e => simp only [visit, visitExpr]; repeat (first | exact h | split | dsimp only)
  | return_ pos rhs =>
    simp only [visit, visitReturn]; repeat (first | exact h | split | dsimp only)
  | variableDef v => simpa [visit] using visitVariableDef_scope_exists ev v S ctx n h
  | assignment a => simpa [visit, visitAssignment_scope] using h
  | prefixIncAndDec p => simpa [visit, visitPrefixIncAndDec_scope] using h
  | break_ pos => simp only [visit, visitBreak]; repeat (first | exact h | split | dsimp only)
  | continue_ pos =>
    simp only [visit, visitContinue]; repeat (first | exact h | split | dsimp only)
  | if_ pos c t e => cases e <;> simpa [visit, visitIf_scope] using h
  | loop pos b => simpa [visit, visitLoop_scope] using h
  | while_ pos c b => simpa [visit, visitWhile_scope] using h
  | for_ pos init c step b =>
    simp only [visit, visitFor_scope]
    split
    · exact visitVariableDef_scope_exists ev _ S ctx n h
    · exact h

/-- When the statements `pre` are lowered without a diagnostic and leave the insertion
block open, the loop of `codegen_statement` goes on with the statements that follow. -/
theorem codegen_statement_loop_append (ev : ExprVisitor) (pre rest : List Stmt)
    (cur : Cursors) (S : SymbolTable) (ctx : Ctx)
    (herr : (codegen_statement_loop ev pre cur S ctx).err = none)
    (hterm : (codegen_statement_loop ev pre cur S ctx).ctx.getTerminator = false) :
    codegen_statement_loop ev (pre ++ rest) cur S ctx =
      codegen_statement_loop ev rest cur (codegen_statement_loop ev pre cur S ctx).scope
        (codegen_statement_loop ev pre cur S ctx).ctx := by
  induction pre generalizing S ctx with
  | nil => simp [codegen_statement_loop]
  | cons r pre ih =>
    simp only [List.cons_append]
    rw [codegen_statement_loop] at herr hterm ⊢
    rw [codegen_statement_loop]
    cases hv : (visit ev r cur S ctx).err with
    | some d => simp [hv] at herr
    | none =>
      simp only [hv] at herr hterm ⊢
      by_cases ht : (visit ev r cur S ctx).ctx.getTerminator = true
      · simp [ht] at hterm
      · simp only [ht, if_false] at herr hterm ⊢
        exact ih _ _ herr hterm

/-- The scope of the visitor that lowers a block only grows: a name bound when the loop of
`codegen_statement` starts is still bound when it ends. -/
theorem codegen_statement_loop_scope_exists (ev : ExprVisitor) (ss : List Stmt)
    (cur : Cursors) (S : SymbolTable) (ctx : Ctx) (n : String) (h : S.exists n = true) :
    (codegen_statement_loop ev ss cur S ctx).scope.exists n = true := by
  induction ss generalizing S ctx with
  | nil => simpa [codegen_statement_loop] using h
  | cons r rest ih =>
    rw [codegen_statement_loop]
    have hr := visit_scope_exists ev r cur S ctx n h
    split
    · exact hr
    · split
      · exact hr
      · exact ih _ _ hr

/-! ## Scopes: isolation and redefinition -/

/-- C1 (scope isolation).  `codegen_statement` lowers its statement with a visitor over a
copy of the scope it is given (its diagnostic and builder state are those of a visitor
started on `S`, and the scope that visitor ends with is dropped), so at every place
where a visitor over scope `S` lowers a sub-statement through it (a nested compound
statement, both arms of `If`, the body of `Loop`, `While` and `For`) the visitor's scope
after the statement is what it was when the sub-statement was entered, for every
statement, scope, cursors and builder state and whether or not a diagnostic is raised:
it is `S`, and for a `For` whose init statement is a variable definition it is the scope
left by that definition.  In particular a name that is not bound before a compound
statement is not bound after it, whatever the compound statement defines. -/
theorem codegen_statement_scope_isolation (ev : ExprVisitor) (cur : Cursors)
    (S : SymbolTable) (ctx : Ctx) :
    (∀ s, codegen_statement ev s S cur ctx =
      ⟨(visit ev s cur S ctx).err, (visit ev s cur S ctx).ctx⟩) ∧
    (∀ ss, (visit ev (.compound ss) cur S ctx).scope = S) ∧
    (∀ pos c t e, (visit ev (.if_ pos c t e) cur S ctx).scope = S) ∧
    (∀ pos b, (visit ev (.loop pos b) cur S ctx).scope = S) ∧
    (∀ pos c b, (visit ev (.while_ pos c b) cur S ctx).scope = S) ∧
    (∀ pos init c step b, (visit ev (.for_ pos init c step b) cur S ctx).scope =
      match init with
      | some (.variableDef v) => (visitVariableDef ev v S ctx).scope
      | _ => S) ∧
    (∀ ss name, S.exists name = false →
      (visit ev (.compound ss) cur S ctx).scope.exists name = false) := by
  refine ⟨?_, ?_, ?_, ?_, ?_, ?_, ?_⟩
  · intro s
    cases s <;> simp [codegen_statement, visit, visitCompound]
  · intro ss
    exact visit_compound_scope ev ss cur S ctx
  · intro pos c t e
    cases e <;> simp [visit, visitIf_scope]
  · intro pos b
    simp [visit, visitLoop_scope]
  · intro pos c b
    simp [visit, visitWhile_scope]
  · intro pos init c step b
    simp only [visit, visitFor_scope]
  · intro ss name h
    rw [visit_compound_scope]
    exact h

/-- C1, witness: in `{ let x: i32 = 1; }` the definition registers `x` in the scope of the
visitor that lowers the block, and `x` is not bound in the enclosing scope afterwards. -/
theorem codegen_statement_scope_isolation_witness :
    (codegen_statement_loop sampleExprVisitor [.variableDef (letX 1 1)] cur0 emptyScope
        ctx0).scope.exists "x" = true ∧
    (visit sampleExprVisitor (.compound [.variableDef (letX 1 1)]) cur0 emptyScope
        ctx0).scope.exists "x" = false := by
  refine ⟨?_, ?_⟩
  · simp [codegen_statement_loop, visit, visitVariableDef, visitVariableDef.regist, letX,
      emptyScope, SymbolTable.exists, SymbolTable.regist, create_variable_with_type,
      sampleExprVisitor, Ty.getType, LValue.getType]
  · exact (codegen_statement_scope_isolation sampleExprVisitor cur0 emptyScope ctx0).2.2.2.2.2.2
      _ "x" (by decide)

/-- C2 (redefinition).  A variable definition that has a type or an initializer and whose
name is already bound in the visitor's scope raises `redefinition of '<name>'` at the
definition; the builder state and the scope are exactly what they were. -/
theorem variableDef_redefinition (ev : ExprVisitor) (node : VariableDef)
    (scope : SymbolTable) (ctx : Ctx)
    (hdef : node.type.isSome = true ∨ node.initializer.isSome = true)
    (hbound : scope.exists node.name = true) :
    visitVariableDef ev node scope ctx =
      ⟨some (.formatError node.pos ("redefinition of '" ++ node.name ++ "'")), scope, ctx⟩ := by
  unfold visitVariableDef
  have h1 : (node.type.isNone && node.initializer.isNone) = false := by
    rcases hdef with h | h
    · cases ht : node.type <;> simp [ht] at h ⊢
    · cases hi : node.initializer <;> simp [hi] at h ⊢
  simp [h1, hbound]

/-- C2, witness: the function body `{ let x: i32 = 1; let x: i32 = 2; return x; }` fails
with the redefinition diagnostic at the second definition (position 2), nothing being
emitted after the first definition; the second definition, lowered in the scope left by
the first, is the one that raises it. -/
theorem variableDef_redefinition_witness :
    codegen_statement sampleExprVisitor
        (.compound [.variableDef (letX 1 1), .variableDef (letX 2 2),
          .return_ 3 (some (.identifier "x"))]) emptyScope cur0 ctx0 =
      ⟨some (.formatError 2 "redefinition of 'x'"),
        (visitVariableDef sampleExprVisitor (letX 1 1) emptyScope ctx0).ctx⟩ ∧
    (visitVariableDef sampleExprVisitor (letX 1 1) emptyScope ctx0).err = none ∧
    visitVariableDef sampleExprVisitor (letX 2 2)
        (visitVariableDef sampleExprVisitor (letX 1 1) emptyScope ctx0).scope
        (visitVariableDef sampleExprVisitor (letX 1 1) emptyScope ctx0).ctx =
      ⟨some (.formatError 2 "redefinition of 'x'"),
        (visitVariableDef sampleExprVisitor (letX 1 1) emptyScope ctx0).scope,
        (visitVariableDef sampleExprVisitor (letX 1 1) emptyScope ctx0).ctx⟩ := by
  refine ⟨?_, ?_, ?_⟩
  · simp [codegen_statement, codegen_statement_loop, visit, visitVariableDef,
      visitVariableDef.regist, letX, emptyScope, SymbolTable.exists, SymbolTable.regist,
      create_variable_with_type, create_entry_block_alloca, sampleExprVisitor, Ty.getType,
      LValue.getType, ctx0, Ctx.CreateStore, Ctx.emit, Ctx.getTerminator,
      BasicBlock.hasTerminator, Instr.isTerminator]
  · simp [visitVariableDef, letX, emptyScope, SymbolTable.exists, create_variable_with_type,
      sampleExprVisitor, Ty.getType, LValue.getType]
  · exact variableDef_redefinition sampleExprVisitor (letX 2 2) _ _ (Or.inl rfl)
      (by simp [visitVariableDef, visitVariableDef.regist, letX, emptyScope,
        SymbolTable.exists, SymbolTable.regist, create_variable_with_type,
        sampleExprVisitor, Ty.getType, LValue.getType])

/-- C3, counterexample: the block `{ let x: i32 = 2; }` defines `x` for the first time in
its own scope, yet lowered through `codegen_statement` with a parent scope that binds
`x` it raises the redefinition diagnostic. -/
theorem redefinition_per_scope_counterexample :
    scopeX.exists "x" = true ∧
    codegen_statement sampleExprVisitor (.compound [.variableDef (letX 7 2)]) scopeX cur0
        ctxX = ⟨some (.formatError 7 "redefinition of 'x'"), ctxX⟩ := by
  refine ⟨by decide, ?_⟩
  simp [codegen_statement, codegen_statement_loop, visit, visitVariableDef, letX, scopeX,
    SymbolTable.exists]

/-- C3 (amended).  The scope of a block lowered through `codegen_statement` with parent
scope `S` starts as a copy of `S`: when the statements before a variable definition (with
a type or an initializer) lower without a diagnostic and leave the insertion block open,
the definition raises the redefinition diagnostic as soon as its name is bound in `S`,
and nothing is emitted for it or for the statements after it. -/
theorem redefinition_in_block (ev : ExprVisitor) (pre : List Stmt) (node : VariableDef)
    (rest : List Stmt) (S : SymbolTable) (cur : Cursors) (ctx : Ctx)
    (hdef : node.type.isSome = true ∨ node.initializer.isSome = true)
    (hbound : S.exists node.name = true)
    (herr : (codegen_statement_loop ev pre cur S ctx).err = none)
    (hterm : (codegen_statement_loop ev pre cur S ctx).ctx.getTerminator = false) :
    codegen_statement ev (.compound (pre ++ .variableDef node :: rest)) S cur ctx =
      ⟨some (.formatError node.pos ("redefinition of '" ++ node.name ++ "'")),
        (codegen_statement_loop ev pre cur S ctx).ctx⟩ := by
  have hin := codegen_statement_loop_scope_exists ev pre cur S ctx node.name hbound
  have h1 : (node.type.isNone && node.initializer.isNone) = false := by
    rcases hdef with h | h
    · cases ht : node.type <;> simp [ht] at h ⊢
    · cases hi : node.initializer <;> simp [hi] at h ⊢
  rw [codegen_statement, codegen_statement_loop_append ev pre _ cur S ctx herr hterm,
    codegen_statement_loop]
  simp [visit, visitVariableDef, h1, hin]

/-- C3 (amended), witness: `{ x = x; let x: i32 = 2; }` with `x` mutable in the parent
scope: the assignment lowers, then the definition is rejected. -/
theorem redefinition_in_block_witness :
    codegen_statement sampleExprVisitor
        (.compound ([.assignment ⟨3, .identifier "x", "=", .identifier "x"⟩] ++
          .variableDef (letX 7 2) :: [.return_ 8 none]))
        ⟨[("x", ⟨.inst 1 (.ptr (.int 32)), true, true⟩)]⟩ cur0 ctxX =
      ⟨some (.formatError 7 "redefinition of 'x'"),
        (codegen_statement_loop sampleExprVisitor
          [.assignment ⟨3, .identifier "x", "=", .identifier "x"⟩] cur0
          ⟨[("x", ⟨.inst 1 (.ptr (.int 32)), true, true⟩)]⟩ ctxX).ctx⟩ :=
  redefinition_in_block sampleExprVisitor _ (letX 7 2) _ _ cur0 ctxX (Or.inl rfl)
    (by decide)
    (by simp [codegen_statement_loop, visit, visitAssignment, gen_assignable_value_from_expr,
      sampleExprVisitor, SymbolTable.lookup, LValue.getType, LType.isPointerTy,
      LType.getPointerElementType, Ctx.CreateLoad])
    (by simp [codegen_statement_loop, visit, visitAssignment, gen_assignable_value_from_expr,
      sampleExprVisitor, SymbolTable.lookup, LValue.getType, LType.isPointerTy,
      LType.getPointerElementType, Ctx.CreateLoad, Ctx.CreateStore, Ctx.emit,
      Ctx.getTerminator, ctxX, BasicBlock.hasTerminator, Instr.isTerminator])

/-- C4.  A variable definition with neither a type nor an initializer raises
`type inference requires an initializer`, whether or not its name is already bound (the
test comes before the redefinition test); the builder state is untouched, so nothing is
allocated, and the scope is untouched, so nothing is registered. -/
theorem variableDef_requires_initializer (ev : ExprVisitor) (node : VariableDef)
    (scope : SymbolTable) (ctx : Ctx)
    (htype : node.type = none) (hinit : node.initializer = none) :
    visitVariableDef ev node scope ctx =
      ⟨some (.formatError node.pos "type inference requires an initializer"), scope, ctx⟩ := by
  simp [visitVariableDef, htype, hinit]

/-- C4, witness: `let x;` in a scope that already binds `x` reports the missing initializer,
not the redefinition. -/
theorem variableDef_requires_initializer_witness :
    scopeX.exists "x" = true ∧
    visitVariableDef sampleExprVisitor ⟨5, none, "x", none, none⟩ scopeX ctxX =
      ⟨some (.formatError 5 "type inference requires an initializer"), scopeX, ctxX⟩ :=
  ⟨by decide, variableDef_requires_initializer sampleExprVisitor ⟨5, none, "x", none, none⟩
    scopeX ctxX rfl rfl⟩

/-! ## Variable definitions: what is registered -/

/-- The storage returned by `create_variable_with_type` is the alloca it makes first. -/
theorem create_variable_with_type_alloca (ev : ExprVisitor) (scope : SymbolTable) (pos : Nat) (name : String)
    (T : Ty) (init : Option Initializer) (ctx c : Ctx) (a : LValue)
    (h : create_variable_with_type ev scope pos name T init ctx = ⟨.ok a, c⟩) :
    a = (create_entry_block_alloca ctx name T.getType).1 := by
  unfold create_variable_with_type at h
  dsimp only at h
  repeat (first | split at h | (injection h with h1 h2; first | (injection h1 with h3; exact h3.symm) | cases h1))

/-- The storage returned by `create_variable_with_type_inference` is the alloca it makes
under the variable's name: for an expression initializer after the expression is
lowered, with the type of its value; for an initializer list after the list is lowered,
with the array type of the first element's type and the list's length. -/
theorem create_variable_with_type_inference_alloca (ev : ExprVisitor) (scope : SymbolTable) (pos : Nat)
    (name : String) (init : Option Initializer) (ctx c : Ctx) (r : LValue × Bool)
    (h : create_variable_with_type_inference ev scope pos name init ctx = ⟨.ok r, c⟩) :
    ∃ c0 ty, r.1 = (create_entry_block_alloca c0 name ty).1 ∧
      (∀ e, init = some (.expr e) →
        ∃ v, ev scope e ctx = ⟨.ok ⟨some v, r.2⟩, c0⟩ ∧ ty = v.getType) ∧
      (∀ inits, init = some (.initList inits) →
        ∃ vs front, gen_init_list ev scope inits ctx = ⟨.ok vs, c0⟩ ∧
          vs.head? = some (some front) ∧ ty = .array front.getType vs.length ∧
          r.2 = false) := by
  unfold create_variable_with_type_inference at h
  rcases init with _ | e | inits
  · simp at h
  · dsimp only at h
    cases hev : ev scope e ctx with
    | mk val c1 =>
      rw [hev] at h
      cases val with
      | error d => simp at h
      | ok iv =>
        dsimp only at h
        cases hv : iv.value with
        | none => simp [hv] at h
        | some v =>
          simp only [hv, Res.mk.injEq, Except.ok.injEq] at h
          obtain ⟨h1, _⟩ := h
          subst h1
          refine ⟨c1, v.getType, rfl, fun e2 he => ?_, fun inits he => by cases he⟩
          cases he
          refine ⟨v, ?_, rfl⟩
          rw [hev]
          cases iv
          simp_all
  · dsimp only at h
    cases hg : gen_init_list ev scope inits ctx with
    | mk val c1 =>
      rw [hg] at h
      cases val with
      | error d => simp at h
      | ok vs =>
        dsimp only at h
        split at h
        · simp at h
        · simp at h
        · rename_i front hfront
          split at h
          · simp at h
          · simp only [Res.mk.injEq, Except.ok.injEq] at h
            obtain ⟨h1, _⟩ := h
            subst h1
            refine ⟨c1, .array front.getType vs.length, rfl, (fun e he => by cases he),
              fun inits2 he => ?_⟩
            cases he
            exact ⟨vs, front, hg, hfront, rfl, rfl⟩

/-- The outcome of a variable definition that raises no diagnostic: the name was free,
and the scope is the old one passed through the `regist` lambda with the alloca made by
`create_entry_block_alloca` for this definition. -/
theorem visitVariableDef_ok (ev : ExprVisitor) (node : VariableDef) (scope : SymbolTable)
    (ctx : Ctx) (hok : (visitVariableDef ev node scope ctx).err = none) :
    scope.exists node.name = false ∧
    ∃ c ty sg,
      (visitVariableDef ev node scope ctx).scope =
        visitVariableDef.regist node scope (create_entry_block_alloca c node.name ty).1 sg ∧
      (∀ T, node.type = some T → c = ctx ∧ ty = T.getType ∧ sg = T.isSigned) ∧
      (∀ e, node.type = none → node.initializer = some (.expr e) →
        ∃ v, ev scope e ctx = ⟨.ok ⟨some v, sg⟩, c⟩ ∧ ty = v.getType) := by
  unfold visitVariableDef at hok ⊢
  split at hok
  · simp at hok
  · split at hok
    · simp at hok
    · rename_i h1 h2
      simp only [h1, h2, Bool.false_eq_true, if_false]
      refine ⟨trivial, ?_⟩
      cases ht : node.type with
      | some T =>
        simp only [ht] at hok ⊢
        cases hc : create_variable_with_type ev scope node.pos node.name T
            node.initializer ctx with
        | mk val c =>
          cases val with
          | error d => simp [hc] at hok
          | ok a =>
            have := create_variable_with_type_alloca ev scope node.pos node.name T
              node.initializer ctx c a hc
            subst this
            exact ⟨ctx, T.getType, T.isSigned, rfl,
              (fun T2 hT => by cases hT; exact ⟨rfl, rfl, rfl⟩),
              (fun e hT => by cases hT)⟩
      | none =>
        simp only [ht] at hok ⊢
        cases hc : create_variable_with_type_inference ev scope node.pos node.name
            node.initializer ctx with
        | mk val c =>
          cases val with
          | error d => simp [hc] at hok
          | ok r =>
            obtain ⟨c0, ty, hr, hexpr, _⟩ := create_variable_with_type_inference_alloca ev
              scope node.pos node.name node.initializer ctx c r hc
            refine ⟨c0, ty, r.2, ?_, (fun T2 hT => by cases hT), (fun e _ he => hexpr e he)⟩
            simp only [hr]

/-- C5.  When a variable definition lowers without a diagnostic, an absent qualifier
leaves the name bound with `is_mutable = false` and the qualifier `mutable` leaves it
bound with `is_mutable = true`; in both cases the storage of the binding is the alloca
that `create_entry_block_alloca` made for this definition under the variable's name:
with an explicit type `T` the alloca of type `T` made in the builder state the
definition started from (and the binding's signedness is `T.isSigned`), with an inferred
type and an expression initializer the alloca of the value's type made right after the
initializer was lowered (and the binding's signedness is the value's). -/
theorem variableDef_registers (ev : ExprVisitor) (node : VariableDef) (scope : SymbolTable)
    (ctx : Ctx) (hok : (visitVariableDef ev node scope ctx).err = none) :
    ∃ c ty sg,
      (node.qualifier = none →
        (visitVariableDef ev node scope ctx).scope.lookup node.name =
          some ⟨(create_entry_block_alloca c node.name ty).1, false, sg⟩) ∧
      (node.qualifier = some .mutable_ →
        (visitVariableDef ev node scope ctx).scope.lookup node.name =
          some ⟨(create_entry_block_alloca c node.name ty).1, true, sg⟩) ∧
      (∀ T, node.type = some T → c = ctx ∧ ty = T.getType ∧ sg = T.isSigned) ∧
      (∀ e, node.type = none → node.initializer = some (.expr e) →
        ∃ v, ev scope e ctx = ⟨.ok ⟨some v, sg⟩, c⟩ ∧ ty = v.getType) := by
  obtain ⟨hfree, c, ty, sg, hs, hT, hE⟩ := visitVariableDef_ok ev node scope ctx hok
  refine ⟨c, ty, sg, fun hq => ?_, fun hq => ?_, hT, hE⟩
  · rw [hs]
    simp only [visitVariableDef.regist, hq]
    exact SymbolTable.lookup_regist _ _ _ hfree
  · rw [hs]
    simp only [visitVariableDef.regist, hq, if_true]
    exact SymbolTable.lookup_regist _ _ _ hfree

/-- C5, witness: `let x: i32 = 1;` binds `x` immutably to the alloca made for it in `ctx0`
(value id `1`, the first fresh id), of type `i32` and signed. -/
theorem variableDef_registers_witness :
    (visitVariableDef sampleExprVisitor (letX 1 1) emptyScope ctx0).err = none ∧
    (visitVariableDef sampleExprVisitor (letX 1 1) emptyScope ctx0).scope.lookup "x" =
      some ⟨.inst 1 (.ptr (.int 32)), false, true⟩ :=
  have hok : (visitVariableDef sampleExprVisitor (letX 1 1) emptyScope ctx0).err = none := by
    simp [visitVariableDef, letX, emptyScope, SymbolTable.exists, create_variable_with_type,
      sampleExprVisitor, Ty.getType, LValue.getType]
  ⟨hok, by
    obtain ⟨c, ty, sg, h1, _, hT, _⟩ :=
      variableDef_registers sampleExprVisitor (letX 1 1) emptyScope ctx0 hok
    obtain ⟨hc, hty, hsg⟩ := hT (.builtin .i32) rfl
    subst hc hty hsg
    exact h1 rfl⟩

/-- C6, the code at the failing input: a definition whose qualifier is present and is not
`mutable` completes without a diagnostic, its storage is allocated and initialised, and
the name is bound neither before nor after. -/
theorem variableDef_other_qualifier_accepted :
    visitVariableDef sampleExprVisitor letOtherQual emptyScope ctx0 =
      ⟨none, emptyScope,
        ⟨.int 32,
          [⟨0, [.alloca 1 "x" (.int 32),
                .store (.constInt (.int 32) 1) (.inst 1 (.ptr (.int 32)))]⟩],
          [0], 0, 2⟩⟩ ∧
    emptyScope.exists "x" = false := by
  refine ⟨?_, by decide⟩
  simp [visitVariableDef, visitVariableDef.regist, letOtherQual, emptyScope,
    SymbolTable.exists, create_variable_with_type, create_entry_block_alloca,
    sampleExprVisitor, Ty.getType, LValue.getType, ctx0, Ctx.CreateStore, Ctx.emit]

/-! ## Assignment and prefix increment / decrement -/

/-- C7.  An assignment with one of the six assignment operators, and a prefix increment or
decrement, whose target is an identifier: when the name is not in scope the visitor
raises `unknown variable name '<name>'`, and when it is bound with `is_mutable = false`
it raises `assignment of read-only variable '<name>'`; in both cases the builder state
is exactly what it was, so no instruction (no load, no store) is emitted. -/
theorem assignment_to_identifier_rejected (ev : ExprVisitor) (scope : SymbolTable)
    (ctx : Ctx) (pos : Nat) (name op : String) (rhs : Expr)
    (hop : op = "=" ∨ op = "+=" ∨ op = "-=" ∨ op = "*=" ∨ op = "/=" ∨ op = "%=")
    (hbad : scope.lookup name = none ∨
      ∃ v, scope.lookup name = some v ∧ v.is_mutable = false) :
    visitAssignment ev ⟨pos, .identifier name, op, rhs⟩ scope ctx =
      ⟨some (.formatError pos
        (match scope.lookup name with
          | none => "unknown variable name '" ++ name ++ "'"
          | some _ => "assignment of read-only variable '" ++ name ++ "'")), scope, ctx⟩ ∧
    ∀ op2, visitPrefixIncAndDec ev ⟨pos, op2, .identifier name⟩ scope ctx =
      ⟨some (.formatError pos
        (match scope.lookup name with
          | none => "unknown variable name '" ++ name ++ "'"
          | some _ => "assignment of read-only variable '" ++ name ++ "'")), scope, ctx⟩ := by
  have hg : gen_assignable_value_from_expr ev scope (.identifier name) pos ctx =
      ⟨.error (.formatError pos
        (match scope.lookup name with
          | none => "unknown variable name '" ++ name ++ "'"
          | some _ => "assignment of read-only variable '" ++ name ++ "'")), ctx⟩ := by
    rcases hbad with h | ⟨v, h, hm⟩
    · simp [gen_assignable_value_from_expr, h]
    · simp [gen_assignable_value_from_expr, h, hm]
  refine ⟨?_, fun op2 => ?_⟩
  · simp only [visitAssignment, hop, if_true, hg]
  · simp only [visitPrefixIncAndDec, hg]

/-- C7, witness: `y += 1` with `y` unknown, and `++x` with `x` immutable. -/
theorem assignment_to_identifier_rejected_witness :
    visitAssignment sampleExprVisitor ⟨3, .identifier "y", "+=", .int32 1⟩ scopeX ctxX =
      ⟨some (.formatError 3 "unknown variable name 'y'"), scopeX, ctxX⟩ ∧
    visitPrefixIncAndDec sampleExprVisitor ⟨4, "++", .identifier "x"⟩ scopeX ctxX =
      ⟨some (.formatError 4 "assignment of read-only variable 'x'"), scopeX, ctxX⟩ :=
  ⟨(assignment_to_identifier_rejected sampleExprVisitor scopeX ctxX 3 "y" "+=" (.int32 1)
      (Or.inr (Or.inl rfl)) (Or.inl (by decide))).1,
    (assignment_to_identifier_rejected sampleExprVisitor scopeX ctxX 4 "x" "=" .nil
      (Or.inl rfl) (Or.inr ⟨⟨.inst 1 (.ptr (.int 32)), false, true⟩, by decide, rfl⟩)).2 "++"⟩

/-- For a left-hand side that is neither an identifier nor an indirection,
`gen_assignable_value_from_expr` hands the expression itself to the expression visitor
and accepts whatever pointer-typed value comes back. -/
theorem gen_assignable_other (ev : ExprVisitor) (scope : SymbolTable) (node : Expr)
    (pos : Nat) (ctx : Ctx) (hid : ∀ n, node ≠ .identifier n)
    (hind : ∀ op r, node = .unaryOp op r → UnaryOp.isIndirection op = false) :
    gen_assignable_value_from_expr ev scope node pos ctx =
      match ev scope node ctx with
      | ⟨.error d, c⟩ => ⟨.error d, c⟩
      | ⟨.ok v, c⟩ =>
        match v.value with
        | none => ⟨.error (.formatError pos "failed to generate left-hand side"), c⟩
        | some p =>
          if !p.getType.isPointerTy then
            ⟨.error (.formatError pos "left-hand side requires assignable"), c⟩
          else ⟨.ok v, c⟩ := by
  unfold gen_assignable_value_from_expr
  cases node with
  | identifier n => exact absurd rfl (hid n)
  | unaryOp op r =>
    simp only [hind op r rfl, Bool.false_eq_true, if_false]
  | _ => rfl

/-- The guards of the final branch of `gen_assignable_value_from_expr`.  An assignment
(with one of the six operators) whose left-hand side is neither an identifier nor an
indirection is rejected when the expression visitor produces a null value for it
(`failed to generate left-hand side`) and when it produces a value that is not of pointer
type (`left-hand side requires assignable`), in both cases with nothing emitted by the
statement visitor; a value of pointer type passes both guards. -/
theorem assignment_lhs_guards (ev : ExprVisitor) (a : Assignment) (scope : SymbolTable)
    (ctx : Ctx)
    (hop : a.op = "=" ∨ a.op = "+=" ∨ a.op = "-=" ∨ a.op = "*=" ∨ a.op = "/=" ∨ a.op = "%=")
    (hid : ∀ n, a.lhs ≠ .identifier n)
    (hind : ∀ op r, a.lhs = .unaryOp op r → UnaryOp.isIndirection op = false)
    (v : Value) (c : Ctx) (hev : ev scope a.lhs ctx = ⟨.ok v, c⟩) :
    (v.value = none → visitAssignment ev a scope ctx =
      ⟨some (.formatError a.pos "failed to generate left-hand side"), scope, c⟩) ∧
    (∀ p, v.value = some p → p.getType.isPointerTy = false →
      visitAssignment ev a scope ctx =
        ⟨some (.formatError a.pos "left-hand side requires assignable"), scope, c⟩) ∧
    (∀ p, v.value = some p → p.getType.isPointerTy = true →
      gen_assignable_value_from_expr ev scope a.lhs a.pos ctx = ⟨.ok v, c⟩) := by
  have hg := gen_assignable_other ev scope a.lhs a.pos ctx hid hind
  rw [hev] at hg
  refine ⟨fun hv => ?_, fun p hv hp => ?_, fun p hv hp => ?_⟩
  · simp only [hv] at hg
    simp only [visitAssignment, hop, if_true, hg]
  · simp only [hv, hp] at hg
    simp only [visitAssignment, hop, if_true, hg]
    simp
  · simp only [hv, hp] at hg
    simpa using hg

/-- The guard on a literal: `3 = 1` is rejected because the literal is not of pointer
type. -/
theorem assignment_lhs_guards_literal :
    visitAssignment sampleExprVisitor ⟨6, .int32 3, "=", .int32 1⟩ scopeX ctxX =
      ⟨some (.formatError 6 "left-hand side requires assignable"), scopeX, ctxX⟩ :=
  (assignment_lhs_guards sampleExprVisitor ⟨6, .int32 3, "=", .int32 1⟩ scopeX ctxX
    (Or.inl rfl) (fun n h => by cases h) (fun op r h => by cases h)
    ⟨some (.constInt (.int 32) 3), true⟩ ctxX rfl).2.1 (.constInt (.int 32) 3) rfl rfl

/-- C8, the code at the failing input: `x` is bound to an immutable variable.  The
left-hand side `&x` is neither an identifier nor an indirection, so it is handed to the
expression visitor, which yields the address of `x`; the address has pointer type, passes
the guard `left-hand side requires assignable`, and `&x = 5` is lowered without a
diagnostic: it stores 5 into the storage of the read-only `x`.  The identifier branch of
the same function refuses the same store: `x = 5` raises
`assignment of read-only variable 'x'` with nothing emitted. -/
theorem assignment_to_address_of_accepted :
    scopeX.lookup "x" = some ⟨.inst 1 (.ptr (.int 32)), false, true⟩ ∧
    (∀ n, Expr.unaryOp "&" (.identifier "x") ≠ .identifier n) ∧
    UnaryOp.isIndirection "&" = false ∧
    visitAssignment sampleExprVisitor ⟨9, .unaryOp "&" (.identifier "x"), "=", .int32 5⟩
        scopeX ctxX =
      ⟨none, scopeX,
        ⟨.int 32,
          [⟨0, [.alloca 1 "x" (.int 32),
                .load 2 (.int 32) (.inst 1 (.ptr (.int 32))),
                .store (.constInt (.int 32) 5) (.inst 1 (.ptr (.int 32)))]⟩],
          [0], 0, 3⟩⟩ ∧
    visitAssignment sampleExprVisitor ⟨9, .identifier "x", "=", .int32 5⟩ scopeX ctxX =
      ⟨some (.formatError 9 "assignment of read-only variable 'x'"), scopeX, ctxX⟩ := by
  refine ⟨by decide, (fun n h => by cases h), (by decide), ?_, ?_⟩
  · simp [visitAssignment, gen_assignable_value_from_expr, sampleExprVisitor, scopeX, ctxX,
      SymbolTable.lookup, UnaryOp.isIndirection, UnaryOp.kind, LValue.getType,
      LType.isPointerTy, LType.getPointerElementType, Ctx.CreateLoad, Ctx.CreateStore,
      Ctx.emit]
  · simp [visitAssignment, gen_assignable_value_from_expr, scopeX, ctxX,
      SymbolTable.lookup]

/-- C9.  An assignment with one of the six operators whose left-hand side is assignable
(`gen_assignable_value_from_expr` returns the address `l`) and whose right-hand side
lowers to the value `r`: when the pointee type of `l` differs from the type of `r` the
visitor raises a diagnostic and the builder state is the one left by the right-hand side,
so the visitor emits no load and no store; and when the assignment raises no diagnostic
the two types are equal. -/
theorem assignment_types_must_match (ev : ExprVisitor) (a : Assignment) (scope : SymbolTable)
    (ctx : Ctx)
    (hop : a.op = "=" ∨ a.op = "+=" ∨ a.op = "-=" ∨ a.op = "*=" ∨ a.op = "/=" ∨ a.op = "%=")
    (lhs : Value) (l : LValue) (c0 : Ctx)
    (hl : gen_assignable_value_from_expr ev scope a.lhs a.pos ctx = ⟨.ok lhs, c0⟩)
    (hlv : lhs.value = some l)
    (rhs : Value) (r : LValue) (c1 : Ctx)
    (hr : ev scope a.rhs c0 = ⟨.ok rhs, c1⟩) (hrv : rhs.value = some r) :
    (l.getType.getPointerElementType ≠ r.getType →
      visitAssignment ev a scope ctx =
        ⟨some (.formatError a.pos
          "both operands to a binary operator are not of the same type"), scope, c1⟩) ∧
    ((visitAssignment ev a scope ctx).err = none →
      l.getType.getPointerElementType = r.getType) := by
  refine ⟨fun hne => ?_, fun hok => ?_⟩
  · simp only [visitAssignment, hop, if_true, hl, hr, hrv, hlv]
    simp [hne]
  · by_contra hne
    simp only [visitAssignment, hop, if_true, hl, hr, hrv, hlv] at hok
    simp [hne] at hok

/-- C9, witness: `x = true` with `x` a mutable `i32` is rejected, the value being an
`i1`. -/
theorem assignment_types_must_match_witness :
    visitAssignment sampleExprVisitor ⟨5, .identifier "x", "=", .bool true⟩ scopeXmut ctxX =
      ⟨some (.formatError 5 "both operands to a binary operator are not of the same type"),
        scopeXmut, ctxX⟩ :=
  (assignment_types_must_match sampleExprVisitor ⟨5, .identifier "x", "=", .bool true⟩
    scopeXmut ctxX (Or.inl rfl)
    ⟨some (.inst 1 (.ptr (.int 32))), true⟩ (.inst 1 (.ptr (.int 32))) ctxX
    (by simp [gen_assignable_value_from_expr, scopeXmut, SymbolTable.lookup,
      LValue.getType, LType.isPointerTy])
    rfl ⟨some (.constInt (.int 1) 1), false⟩ (.constInt (.int 1) 1) ctxX rfl rfl).1
    (by decide)

/-- C10.  A well-typed assignment with operator `/=` loads the left-hand side, divides the
loaded value by the right-hand value and stores the quotient; the division is `sdiv`
when the left-hand side or the right-hand value is flagged signed and `udiv` otherwise.
The same holds for `%=` with `srem` and `urem`.  For an identifier on the left the flag
of the left-hand side is the `is_signed` of its binding. -/
theorem assignment_division_signedness (ev : ExprVisitor) (a : Assignment)
    (scope : SymbolTable) (ctx : Ctx)
    (lhs : Value) (l : LValue) (c0 : Ctx)
    (hl : gen_assignable_value_from_expr ev scope a.lhs a.pos ctx = ⟨.ok lhs, c0⟩)
    (hlv : lhs.value = some l)
    (rhs : Value) (r : LValue) (c1 : Ctx)
    (hr : ev scope a.rhs c0 = ⟨.ok rhs, c1⟩) (hrv : rhs.value = some r)
    (hty : l.getType.getPointerElementType = r.getType) :
    (a.op = "/=" → visitAssignment ev a scope ctx =
      ⟨none, scope,
        loadOpStore c1 (if rhs.is_signed || lhs.is_signed then .SDiv else .UDiv) l r⟩) ∧
    (a.op = "%=" → visitAssignment ev a scope ctx =
      ⟨none, scope,
        loadOpStore c1 (if rhs.is_signed || lhs.is_signed then .SRem else .URem) l r⟩) ∧
    (∀ name var, a.lhs = .identifier name → scope.lookup name = some var →
      lhs.is_signed = var.is_signed) := by
  refine ⟨fun hop => ?_, fun hop => ?_, fun name var hid hlk => ?_⟩
  · simp only [visitAssignment, hop, hl, hr, hrv, hlv, hty, loadOpStore]
    cases rhs.is_signed <;> cases lhs.is_signed <;> simp
  · simp only [visitAssignment, hop, hl, hr, hrv, hlv, hty, loadOpStore]
    cases rhs.is_signed <;> cases lhs.is_signed <;> simp
  · rw [hid] at hl
    simp only [gen_assignable_value_from_expr, hlk] at hl
    cases hm : var.is_mutable <;> simp [hm] at hl
    split at hl
    · simp at hl
    · simp only [Res.mk.injEq, Except.ok.injEq] at hl
      rw [← hl.1]

/-- C10, witness: `x /= 2` with `x` a mutable signed `i32` and an unsigned literal `2`
is a load, an `sdiv` and a store. -/
theorem assignment_division_signedness_witness :
    visitAssignment sampleExprVisitor ⟨5, .identifier "x", "/=", .uint32 2⟩ scopeXmut ctxX =
      ⟨none, scopeXmut,
        ⟨.int 32,
          [⟨0, [.alloca 1 "x" (.int 32),
                .load 2 (.int 32) (.inst 1 (.ptr (.int 32))),
                .binary 3 .SDiv (.inst 2 (.int 32)) (.constInt (.int 32) 2),
                .store (.inst 3 (.int 32)) (.inst 1 (.ptr (.int 32)))]⟩],
          [0], 0, 4⟩⟩ :=
  ((assignment_division_signedness sampleExprVisitor
    ⟨5, .identifier "x", "/=", .uint32 2⟩ scopeXmut ctxX
    ⟨some (.inst 1 (.ptr (.int 32))), true⟩ (.inst 1 (.ptr (.int 32))) ctxX
    (by simp [gen_assignable_value_from_expr, scopeXmut, SymbolTable.lookup,
      LValue.getType, LType.isPointerTy])
    rfl ⟨some (.constInt (.int 32) 2), false⟩ (.constInt (.int 32) 2) ctxX rfl rfl rfl).1
    rfl).trans (by
      simp [loadOpStore, ctxX, Ctx.CreateLoad, Ctx.CreateBinary, Ctx.CreateStore, Ctx.emit,
        LValue.getType, LType.getPointerElementType])

/-! ## Facts about the instruction lists of blocks -/

theorem Ctx.instsOf_nil_of_not_mem (c : Ctx) (id : Nat) (h : id ∉ c.ids) : c.instsOf id = [] := by
  unfold Ctx.instsOf
  cases hf : c.blocks.find? (fun b => b.id = id) with
  | none => rfl
  | some b =>
    exfalso
    apply h
    have hm := List.mem_of_find?_eq_some hf
    have hp := List.find?_some hf
    simp only [Ctx.ids, List.mem_map]
    exact ⟨b, hm, by simpa using hp⟩

theorem Ctx.getTerminator_eq (c : Ctx) :
    c.getTerminator = endsInTerminator (c.instsOf c.insertBlock) := by
  unfold Ctx.getTerminator Ctx.instsOf endsInTerminator BasicBlock.hasTerminator
  cases c.blocks.find? (fun b => b.id = c.insertBlock) <;> rfl

theorem find?_map_emit (l : List BasicBlock) (k id : Nat) (i : Instr) :
    (l.map fun b => if b.id = k then { b with insts := b.insts ++ [i] } else b).find?
        (fun b => b.id = id) =
      (l.find? (fun b => b.id = id)).map
        fun b => if b.id = k then { b with insts := b.insts ++ [i] } else b := by
  rw [List.find?_map]
  congr 1
  congr 1
  funext b
  by_cases hk : b.id = k <;> simp [Function.comp, hk]

/-- Emitting appends the instruction to the insertion block and to no other block. -/
theorem Ctx.instsOf_emit (c : Ctx) (i : Instr) (id : Nat) :
    (c.emit i).instsOf id =
      if id = c.insertBlock ∧ id ∈ c.ids then c.instsOf id ++ [i] else c.instsOf id := by
  by_cases hmem : id ∈ c.ids
  · unfold Ctx.instsOf Ctx.emit
    simp only [find?_map_emit]
    cases hf : c.blocks.find? (fun b => b.id = id) with
    | none =>
      exfalso
      rw [List.find?_eq_none] at hf
      simp only [Ctx.ids, List.mem_map] at hmem
      obtain ⟨b, hb, hid⟩ := hmem
      exact hf b hb (by simpa using hid)
    | some b =>
      have hp : b.id = id := by simpa using List.find?_some hf
      by_cases hk : id = c.insertBlock
      · subst hk
        simp [hp, hmem]
      · simp [hp, hk]
  · have h1 : (c.emit i).ids = c.ids := by
      simp only [Ctx.ids, Ctx.emit, List.map_map]
      apply List.map_congr_left
      intro b _
      by_cases hk : b.id = c.insertBlock <;> simp [hk]
    rw [Ctx.instsOf_nil_of_not_mem _ _ (by rw [h1]; exact hmem), Ctx.instsOf_nil_of_not_mem _ _ hmem]
    simp [hmem]

/-! ## Return -/

/-- C11.  A `Return` whose operand lowers to a value of a type other than the return type
of the function being lowered raises `incompatible type for result type`; the builder
state is the one the operand left, so neither the store into `retvar` nor the branch to
`end_bb` is emitted. -/
theorem return_type_mismatch (ev : ExprVisitor) (cur : Cursors) (pos : Nat) (e : Expr)
    (scope : SymbolTable) (ctx : Ctx) (retval : Value) (v : LValue) (c : Ctx)
    (hev : ev scope e ctx = ⟨.ok retval, c⟩) (hv : retval.value = some v)
    (hne : c.retTy ≠ v.getType) :
    visitReturn ev cur pos (some e) scope ctx =
      ⟨some (.formatError pos "incompatible type for result type"), scope, c⟩ := by
  simp [visitReturn, hev, hv, hne]

/-- C11, witness: `return true` in a function returning `i32`. -/
theorem return_type_mismatch_witness :
    visitReturn sampleExprVisitor cur0 4 (some (.bool true)) emptyScope ctx0 =
      ⟨some (.formatError 4 "incompatible type for result type"), emptyScope, ctx0⟩ :=
  return_type_mismatch sampleExprVisitor cur0 4 (.bool true) emptyScope ctx0
    ⟨some (.constInt (.int 1) 1), false⟩ (.constInt (.int 1) 1) ctx0 rfl rfl (by decide)

/-- C12.  A `Return` that lowers without a diagnostic emits, after whatever its operand
emitted, exactly a store of the operand's value into `retvar` followed by an
unconditional branch to `end_bb` when there is an operand, and exactly the branch when
there is none; these instructions are appended at the end of the insertion block. -/
theorem return_emits_store_then_branch (ev : ExprVisitor) (cur : Cursors) (pos : Nat)
    (rhs : Option Expr) (scope : SymbolTable) (ctx : Ctx)
    (hok : (visitReturn ev cur pos rhs scope ctx).err = none) :
    ∃ bb, cur.end_bb = some bb ∧
      (rhs = none →
        (visitReturn ev cur pos rhs scope ctx).ctx = ctx.CreateBr bb ∧
        (ctx.insertBlock ∈ ctx.ids →
          (visitReturn ev cur pos rhs scope ctx).ctx.instsOf ctx.insertBlock =
            ctx.instsOf ctx.insertBlock ++ [.br bb])) ∧
      (∀ e, rhs = some e → ∃ v sg c rv,
        ev scope e ctx = ⟨.ok ⟨some v, sg⟩, c⟩ ∧ c.retTy = v.getType ∧
        cur.retvar = some rv ∧
        (visitReturn ev cur pos rhs scope ctx).ctx = (c.CreateStore v rv).CreateBr bb ∧
        (c.insertBlock ∈ c.ids →
          (visitReturn ev cur pos rhs scope ctx).ctx.instsOf c.insertBlock =
            c.instsOf c.insertBlock ++ [.store v rv, .br bb])) := by
  have hids : ∀ (c : Ctx) (i : Instr), (c.emit i).ids = c.ids := by
    intro c i
    simp only [Ctx.ids, Ctx.emit, List.map_map]
    apply List.map_congr_left
    intro b _
    by_cases hk : b.id = c.insertBlock <;> simp [hk]
  cases rhs with
  | none =>
    simp only [visitReturn] at hok ⊢
    cases hb : cur.end_bb with
    | none => simp [hb] at hok
    | some bb =>
      refine ⟨bb, rfl, fun _ => ⟨rfl, fun hin => ?_⟩, fun e he => by cases he⟩
      simp [Ctx.CreateBr, Ctx.instsOf_emit, hin]
  | some e =>
    simp only [visitReturn] at hok ⊢
    cases hev : ev scope e ctx with
    | mk val c =>
      simp only [hev] at hok ⊢
      cases val with
      | error d => simp at hok
      | ok retval =>
        simp only at hok ⊢
        cases hv : retval.value with
        | none => simp [hv] at hok
        | some v =>
          simp only [hv] at hok ⊢
          by_cases hty : c.retTy = v.getType
          · simp only [hty, ne_eq, not_true_eq_false, if_false] at hok ⊢
            cases hrv : cur.retvar with
            | none => simp [hrv] at hok
            | some rv =>
              simp only [hrv] at hok ⊢
              cases hb : cur.end_bb with
              | none => simp [hb] at hok
              | some bb =>
                refine ⟨bb, rfl, (fun h => by cases h), fun e2 he => ?_⟩
                cases he
                refine ⟨v, retval.is_signed, c, rv, ?_, hty, rfl, rfl, fun hin => ?_⟩
                · cases retval
                  simp_all
                · have hin2 : c.insertBlock ∈ (c.emit (.store v rv)).ids := by
                    rw [hids]; exact hin
                  have hib : (c.emit (.store v rv)).insertBlock = c.insertBlock := rfl
                  simp [Ctx.CreateBr, Ctx.CreateStore, Ctx.instsOf_emit, hin, hin2, hib]
          · simp [hty] at hok

/-- C12, witness: `return 7` in a function returning `i32` appends the store of 7 into
`retvar` and the branch to the epilogue block to the entry block. -/
theorem return_emits_store_then_branch_witness :
    (visitReturn sampleExprVisitor cur0 4 (some (.int32 7)) emptyScope ctx0).err = none ∧
    (visitReturn sampleExprVisitor cur0 4 (some (.int32 7)) emptyScope ctx0).ctx =
      ⟨.int 32,
        [⟨0, [.store (.constInt (.int 32) 7) (.inst 100 (.ptr (.int 32))), .br 99]⟩],
        [0], 0, 1⟩ := by
  have hok : (visitReturn sampleExprVisitor cur0 4 (some (.int32 7)) emptyScope ctx0).err
      = none := by
    simp [visitReturn, sampleExprVisitor, ctx0, cur0, LValue.getType]
  refine ⟨hok, ?_⟩
  obtain ⟨bb, hbb, _, h⟩ :=
    return_emits_store_then_branch sampleExprVisitor cur0 4 (some (.int32 7)) emptyScope
      ctx0 hok
  obtain ⟨v, sg, c, rv, hev, _, hrv, hctx, _⟩ := h (.int32 7) rfl
  rw [hctx]
  simp only [sampleExprVisitor, Res.mk.injEq, Except.ok.injEq, Value.mk.injEq,
    Option.some.injEq] at hev
  obtain ⟨⟨hv, _⟩, hc⟩ := hev
  subst hv hc
  simp only [cur0, Cursors.mk.injEq, Option.some.injEq] at hbb hrv
  subst hbb hrv
  simp [ctx0, Ctx.CreateStore, Ctx.CreateBr, Ctx.emit]

/-! ## Compound statements -/

/-- Once the statements `pre` raise a diagnostic or leave the insertion block terminated,
the loop of `codegen_statement` does not reach the statements after them. -/
theorem codegen_statement_loop_stops (ev : ExprVisitor) (pre rest : List Stmt)
    (cur : Cursors) (S : SymbolTable) (ctx : Ctx) (hne : pre ≠ [])
    (h : (codegen_statement_loop ev pre cur S ctx).err ≠ none ∨
      (codegen_statement_loop ev pre cur S ctx).ctx.getTerminator = true) :
    codegen_statement_loop ev (pre ++ rest) cur S ctx =
      codegen_statement_loop ev pre cur S ctx := by
  induction pre generalizing S ctx with
  | nil => exact absurd rfl hne
  | cons r pre ih =>
    simp only [List.cons_append]
    rw [codegen_statement_loop] at h ⊢
    rw [codegen_statement_loop]
    cases hv : (visit ev r cur S ctx).err with
    | some d => simp [hv]
    | none =>
      simp only [hv] at h ⊢
      by_cases ht : (visit ev r cur S ctx).ctx.getTerminator = true
      · simp [ht]
      · simp only [ht, if_false] at h ⊢
        cases pre with
        | nil =>
          exfalso
          rw [codegen_statement_loop] at h
          rcases h with h | h
          · exact h rfl
          · exact ht h
        | cons r2 pre2 => exact ih _ _ (by simp) h

/-- C13.  `codegen_statement` lowers the statements of a compound statement in order: as
long as the statements so far raise no diagnostic and leave the insertion block open,
lowering goes on with the next statements from the scope and builder state reached; and
once the statements `s1, ..., sk` leave the insertion block terminated (or raise a
diagnostic) the statements after them are not lowered: the diagnostic and the builder
state are those of lowering `[s1, ..., sk]`. -/
theorem compound_stops_at_terminator (ev : ExprVisitor) (pre rest : List Stmt)
    (S : SymbolTable) (cur : Cursors) (ctx : Ctx) :
    (pre ≠ [] →
      ((codegen_statement ev (.compound pre) S cur ctx).err ≠ none ∨
        (codegen_statement ev (.compound pre) S cur ctx).ctx.getTerminator = true) →
      codegen_statement ev (.compound (pre ++ rest)) S cur ctx =
        codegen_statement ev (.compound pre) S cur ctx) ∧
    ((codegen_statement ev (.compound pre) S cur ctx).err = none →
      (codegen_statement ev (.compound pre) S cur ctx).ctx.getTerminator = false →
      codegen_statement ev (.compound (pre ++ rest)) S cur ctx =
        ⟨(codegen_statement_loop ev rest cur (codegen_statement_loop ev pre cur S ctx).scope
            (codegen_statement_loop ev pre cur S ctx).ctx).err,
          (codegen_statement_loop ev rest cur (codegen_statement_loop ev pre cur S ctx).scope
            (codegen_statement_loop ev pre cur S ctx).ctx).ctx⟩) := by
  refine ⟨fun hne h => ?_, fun herr hterm => ?_⟩
  · simp only [codegen_statement] at h ⊢
    rw [codegen_statement_loop_stops ev pre rest cur S ctx hne h]
  · simp only [codegen_statement] at herr hterm ⊢
    rw [codegen_statement_loop_append ev pre rest cur S ctx herr hterm]

/-- C13, witness: in `{ return 7; return true; }` the second statement, which alone would
raise a type diagnostic, is never lowered: the block lowers exactly as `{ return 7; }`,
without a diagnostic. -/
theorem compound_stops_at_terminator_witness :
    codegen_statement sampleExprVisitor
        (.compound ([.return_ 4 (some (.int32 7))] ++ [.return_ 5 (some (.bool true))]))
        emptyScope cur0 ctx0 =
      codegen_statement sampleExprVisitor (.compound [.return_ 4 (some (.int32 7))])
        emptyScope cur0 ctx0 ∧
    (codegen_statement sampleExprVisitor (.compound [.return_ 4 (some (.int32 7))])
        emptyScope cur0 ctx0).err = none :=
  ⟨(compound_stops_at_terminator sampleExprVisitor [.return_ 4 (some (.int32 7))]
      [.return_ 5 (some (.bool true))] emptyScope cur0 ctx0).1 (by simp)
      (Or.inr (by
        simp [codegen_statement, codegen_statement_loop, visit, visitReturn,
          sampleExprVisitor, ctx0, cur0, LValue.getType, Ctx.CreateStore, Ctx.CreateBr,
          Ctx.emit, Ctx.getTerminator, BasicBlock.hasTerminator, Instr.isTerminator])),
    by
      simp [codegen_statement, codegen_statement_loop, visit, visitReturn,
        sampleExprVisitor, ctx0, cur0, LValue.getType]⟩

/-! ## Loops: the cursors of the body -/

/-- The `For` member written with its init and step parts named. -/
theorem visitFor_unfold (ev : ExprVisitor) (pos : Nat) (init_stmt : Option ForInitVariant)
    (cond_expr : Option Expr) (loop_stmt : Option ForLoopVariant) (body_cg : SubLowering)
    (cur : Cursors) (scope : SymbolTable) (ctx : Ctx) :
    visitFor ev pos init_stmt cond_expr loop_stmt body_cg cur scope ctx =
      let init := visitFor.init ev init_stmt scope ctx
      match init.err with
      | some d => ⟨some d, init.scope, init.ctx⟩
      | none =>
        let cond_bb := init.ctx.CreateBlock true
        let loop_bb := cond_bb.2.CreateBlock false
        let body_bb := loop_bb.2.CreateBlock false
        let loop_end_bb := body_bb.2.CreateBlock false
        let c1 := (loop_end_bb.2.CreateBr cond_bb.1).SetInsertPoint cond_bb.1
        let branched : Res Unit :=
          match cond_expr with
          | some e =>
            match ev init.scope e c1 with
            | ⟨.error d, c⟩ => ⟨.error d, c⟩
            | ⟨.ok cond_value, c⟩ =>
              match cond_value.value with
              | none =>
                ⟨.error (.formatError pos "failed to generate condition expression"), c⟩
              | some cv =>
                let cond := c.CreateICmpNE cv (.constInt (Ty.builtin .bool_).getType 0)
                ⟨.ok (), cond.2.CreateCondBr cond.1 body_bb.1 loop_end_bb.1⟩
          | none =>
            ⟨.ok (), c1.CreateCondBr (.constInt (.int 1) 1) body_bb.1 loop_end_bb.1⟩
        match branched with
        | ⟨.error d, c⟩ => ⟨some d, init.scope, c⟩
        | ⟨.ok _, c2⟩ =>
          let c3 := (c2.pushBack body_bb.1).SetInsertPoint body_bb.1
          let r := body_cg init.scope
            ⟨cur.retvar, cur.end_bb, some loop_end_bb.1, some loop_bb.1⟩ c3
          match r.err with
          | some d => ⟨some d, init.scope, r.ctx⟩
          | none =>
            let c4 := if !r.ctx.getTerminator then r.ctx.CreateBr loop_bb.1 else r.ctx
            let c5 := (c4.pushBack loop_bb.1).SetInsertPoint loop_bb.1
            let step := visitFor.step ev loop_stmt init.scope c5
            match step.err with
            | some d => ⟨some d, step.scope, step.ctx⟩
            | none =>
              let c6 := step.ctx.CreateBr cond_bb.1
              ⟨none, step.scope, (c6.pushBack loop_end_bb.1).SetInsertPoint loop_end_bb.1⟩ :=
  rfl

/-- A `For` that lowers without a diagnostic ends by lowering its step with the block
`loop_bb` as insertion block, branching back to `cond_bb` and moving to `loop_end_bb`. -/
theorem visitFor_ok (ev : ExprVisitor) (pos : Nat) (init_stmt : Option ForInitVariant)
    (cond_expr : Option Expr) (loop_stmt : Option ForLoopVariant) (body_cg : SubLowering)
    (cur : Cursors) (scope : SymbolTable) (ctx : Ctx)
    (hok : (visitFor ev pos init_stmt cond_expr loop_stmt body_cg cur scope ctx).err = none) :
    ∃ c4 : Ctx,
      (visitFor ev pos init_stmt cond_expr loop_stmt body_cg cur scope ctx).ctx =
        let c0 := (visitFor.init ev init_stmt scope ctx).ctx
        let cond_bb := (c0.CreateBlock true).1
        let loop_bb := ((c0.CreateBlock true).2.CreateBlock false).1
        let loop_end_bb :=
          ((((c0.CreateBlock true).2.CreateBlock false).2.CreateBlock false).2.CreateBlock
            false).1
        let step := visitFor.step ev loop_stmt (visitFor.init ev init_stmt scope ctx).scope
          ((c4.pushBack loop_bb).SetInsertPoint loop_bb)
        ((step.ctx.CreateBr cond_bb).pushBack loop_end_bb).SetInsertPoint loop_end_bb := by
  revert hok
  rw [visitFor_unfold]
  dsimp only
  split
  · intro h; simp at h
  · split
    · intro h; simp at h
    · split
      · intro h; simp at h
      · split
        · intro h; simp at h
        · intro _
          exact ⟨_, rfl⟩

/-- C14 (loop targets).  Each loop statement lowers its body through `codegen_statement`
with `retvar` and `end_bb` as received and with its own blocks as `break` and `continue`
cursors, whatever cursors the enclosing context had:
* `Loop`: break = `loop_end_bb`, continue = `body_bb`, the block the body starts in;
* `While`: break = `loop_end_bb`, continue = `cond_bb`, the block the condition is
  lowered in;
* `For`: break = `loop_end_bb`, continue = `loop_bb`, which is not `cond_bb`: it is the
  block the step is lowered in before the branch back to `cond_bb`.
In all three `loop_end_bb` is the insertion block once the statement is lowered. -/
theorem loop_targets (ev : ExprVisitor) (cur : Cursors) (scope : SymbolTable) (ctx : Ctx)
    (body : Stmt) :
    (∀ pos,
      let body_bb := (ctx.CreateBlock true).1
      let loop_end_bb := ((ctx.CreateBlock true).2.CreateBlock false).1
      visit ev (.loop pos body) cur scope ctx =
        visitLoop (fun sc _ cx => codegen_statement ev body sc
          ⟨cur.retvar, cur.end_bb, some loop_end_bb, some body_bb⟩
          (cx.SetInsertPoint body_bb)) cur scope ctx ∧
      ((visit ev (.loop pos body) cur scope ctx).err = none →
        (visit ev (.loop pos body) cur scope ctx).ctx.insertBlock = loop_end_bb)) ∧
    (∀ pos cond_expr,
      let cond_bb := (ctx.CreateBlock true).1
      let loop_end_bb := (((ctx.CreateBlock true).2.CreateBlock false).2.CreateBlock false).1
      visit ev (.while_ pos cond_expr body) cur scope ctx =
        visitWhile (fun sc e cx => ev sc e (cx.SetInsertPoint cond_bb)) pos cond_expr
          (fun sc _ cx => codegen_statement ev body sc
            ⟨cur.retvar, cur.end_bb, some loop_end_bb, some cond_bb⟩ cx) cur scope ctx ∧
      ((visit ev (.while_ pos cond_expr body) cur scope ctx).err = none →
        (visit ev (.while_ pos cond_expr body) cur scope ctx).ctx.insertBlock =
          loop_end_bb)) ∧
    (∀ pos init_stmt cond_expr loop_stmt,
      let init := visitFor.init ev init_stmt scope ctx
      let cond_bb := (init.ctx.CreateBlock true).1
      let loop_bb := ((init.ctx.CreateBlock true).2.CreateBlock false).1
      let loop_end_bb :=
        ((((init.ctx.CreateBlock true).2.CreateBlock false).2.CreateBlock false).2.CreateBlock
          false).1
      visit ev (.for_ pos init_stmt cond_expr loop_stmt body) cur scope ctx =
        visitFor ev pos init_stmt cond_expr loop_stmt
          (fun sc _ cx => codegen_statement ev body sc
            ⟨cur.retvar, cur.end_bb, some loop_end_bb, some loop_bb⟩ cx) cur scope ctx ∧
      loop_bb ≠ cond_bb ∧
      ((visit ev (.for_ pos init_stmt cond_expr loop_stmt body) cur scope ctx).err = none →
        (visit ev (.for_ pos init_stmt cond_expr loop_stmt body) cur scope ctx).ctx.insertBlock
          = loop_end_bb ∧
        ∃ c4 : Ctx,
          (visit ev (.for_ pos init_stmt cond_expr loop_stmt body) cur scope ctx).ctx =
            ((((visitFor.step ev loop_stmt init.scope
              ((c4.pushBack loop_bb).SetInsertPoint loop_bb)).ctx.CreateBr cond_bb).pushBack
                loop_end_bb).SetInsertPoint loop_end_bb))) := by
  refine ⟨fun pos => ⟨?_, fun hok => ?_⟩, fun pos cond_expr => ⟨?_, fun hok => ?_⟩,
    fun pos init_stmt cond_expr loop_stmt => ⟨?_, ?_, fun hok => ?_⟩⟩
  · simp only [visit]
    rfl
  · simp only [visit, visitLoop] at hok ⊢
    revert hok
    split
    · intro h; simp at h
    · intro _; rfl
  · simp only [visit]
    rfl
  · simp only [visit, visitWhile] at hok ⊢
    revert hok
    split
    · intro h; simp at h
    · split
      · intro h; simp at h
      · split
        · intro h; simp at h
        · intro _; rfl
  · simp only [visit]
    rw [visitFor_unfold, visitFor_unfold]
  · simp [Ctx.CreateBlock]
  · simp only [visit] at hok ⊢
    obtain ⟨c4, h4⟩ := visitFor_ok ev pos init_stmt cond_expr loop_stmt _ cur scope ctx hok
    refine ⟨?_, c4, h4⟩
    rw [h4]
    rfl

/-- The builder state after `for (let mutable i = 0; i; ++i) { continue; }` is lowered
from `ctx0`: `cond_bb` is block 2, `loop_bb` block 3, `body_bb` block 4 and
`loop_end_bb` block 5; the `continue` in the body is the branch to block 3. -/
theorem forContinue_lowered :
    visit sampleExprVisitor forContinue cur0 emptyScope ctx0 =
      ⟨none, ⟨[("i", ⟨.inst 1 (.ptr (.int 32)), true, true⟩)]⟩,
        ⟨.int 32,
          [⟨0, [.alloca 1 "i" (.int 32),
                .store (.constInt (.int 32) 0) (.inst 1 (.ptr (.int 32))), .br 2]⟩,
            ⟨2, [.load 6 (.int 32) (.inst 1 (.ptr (.int 32))),
                .icmp_ne 7 (.inst 6 (.int 32)) (.constInt (.int 1) 0),
                .condbr (.inst 7 (.int 1)) 4 5]⟩,
            ⟨3, [.load 8 (.int 32) (.inst 1 (.ptr (.int 32))),
                .binary 9 .Add (.inst 8 (.int 32)) (.constInt (.int 32) 1),
                .store (.inst 9 (.int 32)) (.inst 1 (.ptr (.int 32))), .br 2]⟩,
            ⟨4, [.br 3]⟩, ⟨5, []⟩],
          [0, 2, 4, 3, 5], 5, 10⟩⟩ := by
  simp [forContinue, visit, visitFor, visitVariableDef, visitVariableDef.regist,
    create_variable_with_type_inference, create_entry_block_alloca, sampleExprVisitor,
    visitPrefixIncAndDec, gen_assignable_value_from_expr, codegen_statement,
    codegen_statement_loop, visitContinue, emptyScope, ctx0, cur0, SymbolTable.exists,
    SymbolTable.regist, SymbolTable.lookup, LValue.getType, LType.isPointerTy,
    LType.getPointerElementType, Ty.getType, Ctx.CreateLoad, Ctx.CreateStore,
    Ctx.CreateBinary, Ctx.CreateICmpNE, Ctx.CreateBr, Ctx.CreateCondBr, Ctx.CreateBlock,
    Ctx.pushBack, Ctx.SetInsertPoint, Ctx.emit, Ctx.getTerminator,
    BasicBlock.hasTerminator, Instr.isTerminator]

/-- C14, witness: in `for (let mutable i = 0; i; ++i) { continue; }` the loop is lowered
without a diagnostic, the insertion block afterwards is `loop_end_bb` (block 5), and the
`continue` of the body branches to `loop_bb` (block 3), not to `cond_bb` (block 2). -/
theorem loop_targets_witness :
    (visit sampleExprVisitor forContinue cur0 emptyScope ctx0).err = none ∧
    (visit sampleExprVisitor forContinue cur0 emptyScope ctx0).ctx.insertBlock = 5 ∧
    (visit sampleExprVisitor forContinue cur0 emptyScope ctx0).ctx.instsOf 4 = [.br 3] :=
  have hok : (visit sampleExprVisitor forContinue cur0 emptyScope ctx0).err = none := by
    rw [forContinue_lowered]
  ⟨hok,
    (((loop_targets sampleExprVisitor cur0 emptyScope ctx0 (.compound [.continue_ 4])).2.2
      1 (some (.variableDef ⟨2, some .mutable_, "i", none, some (.expr (.int32 0))⟩))
      (some (.identifier "i")) (some (.prefixIncAndDec ⟨3, "++", .identifier "i"⟩))).2.2
      hok).1.trans (by
        simp [visitFor.init, visitVariableDef, create_variable_with_type_inference,
          create_entry_block_alloca, sampleExprVisitor, emptyScope, ctx0,
          SymbolTable.exists, LValue.getType, Ctx.CreateStore, Ctx.emit, Ctx.CreateBlock]),
    by rw [forContinue_lowered]; simp [Ctx.instsOf]⟩

/-! ## The induction variable of `For` -/

/-- C15, the code at the failing input: `i` is not bound before
`for (let mutable i = 0; i; ++i) { continue; }`, the loop lowers without a diagnostic, and
afterwards `i` is bound in the scope of the visitor that lowered the loop (the init
statement is visited with the visitor itself); in the enclosing block the statement
`let i: i32 = 1;` that follows the loop is rejected as a redefinition. -/
theorem for_init_variable_leaks :
    emptyScope.exists "i" = false ∧
    (visit sampleExprVisitor forContinue cur0 emptyScope ctx0).err = none ∧
    (visit sampleExprVisitor forContinue cur0 emptyScope ctx0).scope.exists "i" = true ∧
    (codegen_statement sampleExprVisitor (.compound [forContinue, .variableDef letSecondI])
        emptyScope cur0 ctx0).err = some (.formatError 5 "redefinition of 'i'") := by
  refine ⟨by decide, ?_, ?_, ?_⟩
  · rw [forContinue_lowered]
  · rw [forContinue_lowered]
    decide
  · simp [codegen_statement, codegen_statement_loop, forContinue_lowered, visit,
      visitVariableDef, letSecondI, SymbolTable.exists, Ctx.getTerminator,
      BasicBlock.hasTerminator]

/-! ## Variable definitions with an explicit type -/

theorem gen_init_list_length (ev : ExprVisitor) (scope : SymbolTable) (inits : List Expr)
    (ctx c : Ctx) (vs : List (Option LValue))
    (h : gen_init_list ev scope inits ctx = ⟨.ok vs, c⟩) : vs.length = inits.length := by
  induction inits generalizing ctx c vs with
  | nil =>
    simp only [gen_init_list, Res.mk.injEq, Except.ok.injEq] at h
    rw [← h.1]
    rfl
  | cons e rest ih =>
    rw [gen_init_list] at h
    split at h
    · simp at h
    · split at h
      · simp at h
      · rename_i vs2 c2 hrest
        simp only [Res.mk.injEq, Except.ok.injEq] at h
        rw [← h.1]
        simp [ih _ _ _ hrest]

/-- A variable definition that raises a diagnostic registers nothing. -/
theorem visitVariableDef_error_scope (ev : ExprVisitor) (node : VariableDef)
    (scope : SymbolTable) (ctx : Ctx)
    (h : (visitVariableDef ev node scope ctx).err ≠ none) :
    (visitVariableDef ev node scope ctx).scope = scope := by
  revert h
  unfold visitVariableDef
  repeat (first | (intro _; rfl) | (intro h; exact absurd rfl h) | split)

/-- C17.  A variable definition with an explicit type `T` and an expression initializer
whose name is free and whose initializer lowers to the value `v`: when the lowered type
of `T` differs from the type of `v` it raises
`initializer type and variable type are different` and registers nothing; when the two
types are equal it lowers without a diagnostic, emitting after the initializer exactly
one store of `v` into the storage allocated for the variable, which has type `T`; hence
it lowers without a diagnostic only if the two types are equal. -/
theorem variableDef_typed_initializer (ev : ExprVisitor) (node : VariableDef) (T : Ty)
    (e : Expr) (scope : SymbolTable) (ctx : Ctx)
    (hT : node.type = some T) (hI : node.initializer = some (.expr e))
    (hfree : scope.exists node.name = false)
    (iv : Value) (v : LValue) (c : Ctx)
    (hev : ev scope e (create_entry_block_alloca ctx node.name T.getType).2 = ⟨.ok iv, c⟩)
    (hv : iv.value = some v) :
    (T.getType ≠ v.getType →
      visitVariableDef ev node scope ctx =
        ⟨some (.formatError node.pos "initializer type and variable type are different"),
          scope, c⟩) ∧
    (T.getType = v.getType →
      visitVariableDef ev node scope ctx =
        ⟨none,
          visitVariableDef.regist node scope
            (create_entry_block_alloca ctx node.name T.getType).1 T.isSigned,
          c.CreateStore v (create_entry_block_alloca ctx node.name T.getType).1⟩) ∧
    getAllocatedType (create_entry_block_alloca ctx node.name T.getType).1 = T.getType ∧
    ((visitVariableDef ev node scope ctx).err = none → T.getType = v.getType) := by
  have hne : ∀ h : T.getType ≠ v.getType,
      visitVariableDef ev node scope ctx =
        ⟨some (.formatError node.pos "initializer type and variable type are different"),
          scope, c⟩ := by
    intro h
    simp [visitVariableDef, hT, hI, hfree, create_variable_with_type, hev, hv, h]
  refine ⟨hne, fun h => ?_, rfl, fun hok => ?_⟩
  · simp only [visitVariableDef, hT, hI, hfree, create_variable_with_type, hev, hv]
    simp [h]
  · by_contra h
    rw [hne h] at hok
    simp at hok

/-- C17, witness: `let x: i32 = 1;` stores the constant into the storage of `x`. -/
theorem variableDef_typed_initializer_witness :
    visitVariableDef sampleExprVisitor (letX 1 1) emptyScope ctx0 =
      ⟨none, ⟨[("x", ⟨.inst 1 (.ptr (.int 32)), false, true⟩)]⟩,
        ⟨.int 32,
          [⟨0, [.alloca 1 "x" (.int 32),
                .store (.constInt (.int 32) 1) (.inst 1 (.ptr (.int 32)))]⟩],
          [0], 0, 2⟩⟩ :=
  ((variableDef_typed_initializer sampleExprVisitor (letX 1 1) (.builtin .i32) (.int32 1)
    emptyScope ctx0 rfl rfl (by decide) ⟨some (.constInt (.int 32) 1), true⟩
    (.constInt (.int 32) 1) _ rfl rfl).2.1 rfl).trans (by
      simp [visitVariableDef.regist, letX, emptyScope, SymbolTable.regist,
        SymbolTable.exists, create_entry_block_alloca, ctx0, Ctx.CreateStore, Ctx.emit,
        Ty.getType, Ty.isSigned])

/-- C18.  A variable definition with an explicit type `T` and an initializer list of `n`
expressions lowers without a diagnostic only if `T` lowers to an array type and the
array size of `T` is `n`.  When the name is free, a `T` that is not an array raises
`initializing an array requires an initializer list` before any initializer is lowered,
and an array size other than `n` raises `invalid number of elements in initializer list`
once the initializers are lowered; whenever a diagnostic is raised nothing is
registered. -/
theorem variableDef_typed_init_list (ev : ExprVisitor) (node : VariableDef) (T : Ty)
    (inits : List Expr) (scope : SymbolTable) (ctx : Ctx)
    (hT : node.type = some T) (hI : node.initializer = some (.initList inits)) :
    ((visitVariableDef ev node scope ctx).err = none →
      T.getType.isArrayTy = true ∧ T.getArraySize = inits.length) ∧
    ((visitVariableDef ev node scope ctx).err ≠ none →
      (visitVariableDef ev node scope ctx).scope = scope) ∧
    (scope.exists node.name = false → T.getType.isArrayTy = false →
      visitVariableDef ev node scope ctx =
        ⟨some (.formatError node.pos "initializing an array requires an initializer list"),
          scope, (create_entry_block_alloca ctx node.name T.getType).2⟩) ∧
    (scope.exists node.name = false → T.getType.isArrayTy = true →
      ∀ vs c, gen_init_list ev scope inits
          (create_entry_block_alloca ctx node.name T.getType).2 = ⟨.ok vs, c⟩ →
        T.getArraySize ≠ inits.length →
        visitVariableDef ev node scope ctx =
          ⟨some (.formatError node.pos "invalid number of elements in initializer list"),
            scope, c⟩) := by
  have h3 : scope.exists node.name = false → T.getType.isArrayTy = false →
      visitVariableDef ev node scope ctx =
        ⟨some (.formatError node.pos "initializing an array requires an initializer list"),
          scope, (create_entry_block_alloca ctx node.name T.getType).2⟩ := by
    intro hfree harr
    simp [visitVariableDef, hT, hI, hfree, create_variable_with_type, harr]
  have h4 : scope.exists node.name = false → T.getType.isArrayTy = true →
      ∀ vs c, gen_init_list ev scope inits
          (create_entry_block_alloca ctx node.name T.getType).2 = ⟨.ok vs, c⟩ →
        T.getArraySize ≠ inits.length →
        visitVariableDef ev node scope ctx =
          ⟨some (.formatError node.pos "invalid number of elements in initializer list"),
            scope, c⟩ := by
    intro hfree harr vs c hg hne
    have hlen := gen_init_list_length ev scope inits _ c vs hg
    simp [visitVariableDef, hT, hI, hfree, create_variable_with_type, harr, hg, hlen, hne]
  refine ⟨fun hok => ?_, visitVariableDef_error_scope ev node scope ctx, h3, h4⟩
  have hfree : scope.exists node.name = false := by
    by_contra hb
    simp only [Bool.not_eq_false] at hb
    simp [visitVariableDef, hT, hI, hb] at hok
  have harr : T.getType.isArrayTy = true := by
    by_contra hb
    simp only [Bool.not_eq_true] at hb
    rw [h3 hfree hb] at hok
    simp at hok
  refine ⟨harr, ?_⟩
  by_contra hne
  cases hg : gen_init_list ev scope inits
      (create_entry_block_alloca ctx node.name T.getType).2 with
  | mk val c =>
    cases val with
    | error d =>
      simp [visitVariableDef, hT, hI, hfree, create_variable_with_type, harr, hg] at hok
    | ok vs =>
      rw [h4 hfree harr vs c hg hne] at hok
      simp at hok

/-- C18, witness: `let a: [i32; 3] = {1, 2, 3};` lowers without a diagnostic, so its type
is an array type of size 3. -/
theorem variableDef_typed_init_list_witness :
    (visitVariableDef sampleExprVisitor letArray123 emptyScope ctx0).err = none ∧
    (Ty.array (.builtin .i32) 3).getType.isArrayTy = true ∧
    (Ty.array (.builtin .i32) 3).getArraySize = 3 :=
  have hok : (visitVariableDef sampleExprVisitor letArray123 emptyScope ctx0).err = none := by
    simp [visitVariableDef, letArray123, emptyScope, SymbolTable.exists,
      create_variable_with_type, gen_init_list, init_array, sampleExprVisitor, Ty.getType,
      Ty.getArraySize, LType.isArrayTy]
  ⟨hok, (variableDef_typed_init_list sampleExprVisitor letArray123 (.array (.builtin .i32) 3)
    [.int32 1, .int32 2, .int32 3] emptyScope ctx0 rfl rfl).1 hok⟩

/-- C19, the code at the failing input: `let a: [i32; 2] = {true, false};` lowers without
a diagnostic although both elements have type `i1`, not `i32`: the two `i1` constants
are inserted into aggregates of type `[2 x i32]` and `a` is registered.  No type of an
element of an initializer list is compared with anything (the expression initializer of
the same member is compared with the declared type). -/
theorem variableDef_init_list_element_types_unchecked :
    visitVariableDef sampleExprVisitor letArrayOfBools emptyScope ctx0 =
      ⟨none, ⟨[("a", ⟨.inst 1 (.ptr (.array (.int 32) 2)), false, false⟩)]⟩,
        ⟨.int 32,
          [⟨0, [.alloca 1 "a" (.array (.int 32) 2),
                .load 2 (.array (.int 32) 2) (.inst 1 (.ptr (.array (.int 32) 2))),
                .insertvalue 3 (.inst 2 (.array (.int 32) 2)) (.constInt (.int 1) 1) 0,
                .load 4 (.array (.int 32) 2) (.inst 1 (.ptr (.array (.int 32) 2))),
                .insertvalue 5 (.inst 4 (.array (.int 32) 2)) (.constInt (.int 1) 0) 1]⟩],
          [0], 0, 6⟩⟩ ∧
    (LValue.constInt (.int 1) 1).getType ≠ (Ty.builtin .i32).getType := by
  refine ⟨?_, by decide⟩
  simp [visitVariableDef, visitVariableDef.regist, letArrayOfBools, emptyScope,
    SymbolTable.exists, SymbolTable.regist, create_variable_with_type, gen_init_list,
    init_array, create_entry_block_alloca, getAllocatedType, sampleExprVisitor, Ty.getType,
    Ty.getArraySize, Ty.isSigned, LType.isArrayTy, LType.getPointerElementType,
    LValue.getType, ctx0, Ctx.CreateLoad, Ctx.CreateInsertValue, Ctx.emit]

/-- C20, the code at the failing input: for `let a: [i32; 3] = {1, 2, 3};` and for
`let a = {1, 2, 3};` the instructions emitted are the alloca and, for each element, a
load of the whole array and an insert-value into the loaded aggregate whose result is
never used: there is no store into the storage of `a`. -/
theorem variableDef_init_list_never_stored :
    (visitVariableDef sampleExprVisitor letArray123 emptyScope ctx0).err = none ∧
    (visitVariableDef sampleExprVisitor letArray123 emptyScope ctx0).ctx =
      ⟨.int 32,
        [⟨0, [.alloca 1 "a" (.array (.int 32) 3),
              .load 2 (.array (.int 32) 3) (.inst 1 (.ptr (.array (.int 32) 3))),
              .insertvalue 3 (.inst 2 (.array (.int 32) 3)) (.constInt (.int 32) 1) 0,
              .load 4 (.array (.int 32) 3) (.inst 1 (.ptr (.array (.int 32) 3))),
              .insertvalue 5 (.inst 4 (.array (.int 32) 3)) (.constInt (.int 32) 2) 1,
              .load 6 (.array (.int 32) 3) (.inst 1 (.ptr (.array (.int 32) 3))),
              .insertvalue 7 (.inst 6 (.array (.int 32) 3)) (.constInt (.int 32) 3) 2]⟩],
        [0], 0, 8⟩ ∧
    (visitVariableDef sampleExprVisitor letArrayInferred emptyScope ctx0).err = none ∧
    (visitVariableDef sampleExprVisitor letArrayInferred emptyScope ctx0).ctx =
      (visitVariableDef sampleExprVisitor letArray123 emptyScope ctx0).ctx ∧
    ∀ i ∈ (visitVariableDef sampleExprVisitor letArray123 emptyScope ctx0).ctx.instsOf 0,
      ∀ val ptr, i ≠ .store val ptr := by
  have h1 : visitVariableDef sampleExprVisitor letArray123 emptyScope ctx0 =
      ⟨none, ⟨[("a", ⟨.inst 1 (.ptr (.array (.int 32) 3)), false, false⟩)]⟩,
        ⟨.int 32,
          [⟨0, [.alloca 1 "a" (.array (.int 32) 3),
              .load 2 (.array (.int 32) 3) (.inst 1 (.ptr (.array (.int 32) 3))),
              .insertvalue 3 (.inst 2 (.array (.int 32) 3)) (.constInt (.int 32) 1) 0,
              .load 4 (.array (.int 32) 3) (.inst 1 (.ptr (.array (.int 32) 3))),
              .insertvalue 5 (.inst 4 (.array (.int 32) 3)) (.constInt (.int 32) 2) 1,
              .load 6 (.array (.int 32) 3) (.inst 1 (.ptr (.array (.int 32) 3))),
              .insertvalue 7 (.inst 6 (.array (.int 32) 3)) (.constInt (.int 32) 3) 2]⟩],
          [0], 0, 8⟩⟩ := by
    simp [visitVariableDef, visitVariableDef.regist, letArray123, emptyScope,
      SymbolTable.exists, SymbolTable.regist, create_variable_with_type, gen_init_list,
      init_array, create_entry_block_alloca, getAllocatedType, sampleExprVisitor,
      Ty.getType, Ty.getArraySize, Ty.isSigned, LType.isArrayTy,
      LType.getPointerElementType, LValue.getType, ctx0, Ctx.CreateLoad,
      Ctx.CreateInsertValue, Ctx.emit]
  have h2 : visitVariableDef sampleExprVisitor letArrayInferred emptyScope ctx0 =
      visitVariableDef sampleExprVisitor letArray123 emptyScope ctx0 := by
    rw [h1]
    simp [visitVariableDef, visitVariableDef.regist, letArrayInferred, emptyScope,
      SymbolTable.exists, SymbolTable.regist, create_variable_with_type_inference,
      gen_init_list, init_array, create_entry_block_alloca, getAllocatedType,
      sampleExprVisitor, LType.getPointerElementType, LValue.getType, ctx0,
      Ctx.CreateLoad, Ctx.CreateInsertValue, Ctx.emit]
  refine ⟨by rw [h1], by rw [h1], by rw [h2, h1], by rw [h2], ?_⟩
  rw [h1]
  simp [Ctx.instsOf]

/-! ## The block-termination invariant: builder calls -/

theorem endsInTerminator_append_singleton (l : List Instr) (i : Instr) :
    endsInTerminator (l ++ [i]) = i.isTerminator := by
  simp [endsInTerminator]

theorem endsInTerminator_cons (a : Instr) (l : List Instr) (h : l ≠ []) :
    endsInTerminator (a :: l) = endsInTerminator l := by
  cases l with
  | nil => exact absurd rfl h
  | cons b l => simp [endsInTerminator, List.getLast?_cons_cons]

theorem endsInTerminator_ne_nil (l : List Instr) (h : endsInTerminator l = true) :
    l ≠ [] := by
  intro hl
  subst hl
  simp [endsInTerminator] at h

theorem noEarlyTerminator_append_singleton (l : List Instr) (i : Instr)
    (h1 : noEarlyTerminator l) (h2 : endsInTerminator l = false) :
    noEarlyTerminator (l ++ [i]) := by
  intro j hj
  rw [List.dropLast_concat] at hj
  rcases List.eq_nil_or_concat l with hl | ⟨l2, a, hl⟩
  · subst hl; cases hj
  · subst hl
    simp only [List.concat_eq_append] at h1 h2 hj
    rw [endsInTerminator_append_singleton] at h2
    rcases List.mem_append.mp hj with hj | hj
    · exact h1 j (by rw [List.dropLast_concat]; exact hj)
    · simp only [List.mem_singleton] at hj
      rw [hj]; exact h2

theorem noEarlyTerminator_cons (a : Instr) (l : List Instr) (ha : a.isTerminator = false)
    (h : noEarlyTerminator l) : noEarlyTerminator (a :: l) := by
  cases l with
  | nil => intro j hj; simp at hj
  | cons b l =>
    intro j hj
    rw [List.dropLast_cons₂] at hj
    rcases List.mem_cons.mp hj with hj | hj
    · rw [hj]; exact ha
    · exact h j hj

theorem noEarlyTerminator_nil : noEarlyTerminator [] := by
  intro j hj
  simp at hj

theorem Ctx.instsOf_congr (c c2 : Ctx) (h : c2.blocks = c.blocks) (id : Nat) :
    c2.instsOf id = c.instsOf id := by
  unfold Ctx.instsOf
  rw [h]

theorem Ctx.ids_congr (c c2 : Ctx) (h : c2.blocks = c.blocks) : c2.ids = c.ids := by
  unfold Ctx.ids
  rw [h]

theorem Ctx.ids_emit (c : Ctx) (i : Instr) : (c.emit i).ids = c.ids := by
  simp only [Ctx.ids, Ctx.emit, List.map_map]
  apply List.map_congr_left
  intro b _
  by_cases hk : b.id = c.insertBlock <;> simp [hk]

theorem Ctx.Extends.refl (n : Nat) (c : Ctx) : Ctx.Extends n c c :=
  ⟨Nat.le_refl _, fun _ h => h, fun _ _ h => h⟩

theorem Ctx.Extends.trans {n : Nat} {c1 c2 c3 : Ctx} (h1 : Ctx.Extends n c1 c2)
    (h2 : Ctx.Extends n c2 c3) : Ctx.Extends n c1 c3 :=
  ⟨Nat.le_trans h1.1 h2.1, fun id h => h2.2.1 id (h1.2.1 id h),
    fun id hn h => h1.2.2 id hn (h2.2.2 id hn h)⟩

theorem Ctx.Extends.mono {n m : Nat} {c1 c2 : Ctx} (h : Ctx.Extends n c1 c2) (hm : m ≤ n) :
    Ctx.Extends m c1 c2 :=
  ⟨h.1, h.2.1, fun id hid hl => h.2.2 id (Nat.lt_of_lt_of_le hid hm) hl⟩

/-- In an open state the insertion block holds no terminator at all. -/
theorem Ctx.Open.no_terminator {c : Ctx} (h : c.Open) :
    ∀ j ∈ c.instsOf c.insertBlock, j.isTerminator = false := by
  obtain ⟨⟨⟨_, hatt, hins, _⟩, _, hne⟩, hopen⟩ := h
  rw [Ctx.getTerminator_eq] at hopen
  have hmem := hatt _ hins
  have h1 := hne _ hmem
  intro j hj
  rcases List.eq_nil_or_concat (c.instsOf c.insertBlock) with hl | ⟨l2, a, hl⟩
  · rw [hl] at hj; cases hj
  · rw [hl, List.concat_eq_append] at hj h1 hopen
    rw [endsInTerminator_append_singleton] at hopen
    rcases List.mem_append.mp hj with hj | hj
    · exact h1 j (by rw [List.dropLast_concat]; exact hj)
    · simp only [List.mem_singleton] at hj
      rw [hj]; exact hopen

/-- Appending one instruction to the insertion block of an open state keeps the invariant;
the state stays open exactly when the instruction is not a terminator. -/
theorem Ctx.emit_step (c c2 : Ctx) (i : Instr) (hb : c2.blocks = (c.emit i).blocks)
    (hl : c2.layout = c.layout) (hi : c2.insertBlock = c.insertBlock)
    (hn : c.next ≤ c2.next) (h : c.Open) :
    c2.Inv ∧ c2.getTerminator = i.isTerminator ∧ ∀ n, Ctx.Extends n c c2 := by
  have hnt := h.no_terminator
  obtain ⟨⟨⟨hfresh, hatt, hins, hdet⟩, hterm, hne⟩, hopen⟩ := h
  have hids : c2.ids = c.ids := by rw [Ctx.ids_congr _ _ hb, Ctx.ids_emit]
  have hinsts : ∀ id, c2.instsOf id =
      if id = c.insertBlock ∧ id ∈ c.ids then c.instsOf id ++ [i] else c.instsOf id := by
    intro id
    rw [Ctx.instsOf_congr _ _ hb, Ctx.instsOf_emit]
  have hmem : c.insertBlock ∈ c.ids := hatt _ hins
  refine ⟨⟨⟨?_, ?_, ?_, ?_⟩, ?_, ?_⟩, ?_, ?_⟩
  · intro id hid
    rw [hids] at hid
    exact Nat.lt_of_lt_of_le (hfresh id hid) hn
  · intro id hid
    rw [hl] at hid
    rw [hids]
    exact hatt id hid
  · rw [hi, hl]; exact hins
  · intro id hid hnl
    rw [hids] at hid
    rw [hl] at hnl
    have hne2 : id ≠ c.insertBlock := fun he => hnl (he ▸ hins)
    rw [hinsts, if_neg (fun hc => hne2 hc.1)]
    exact hdet id hid hnl
  · intro id hid hne2
    rw [hl] at hid
    rw [hi] at hne2
    rw [hinsts, if_neg (fun hc => hne2 hc.1)]
    exact hterm id hid hne2
  · intro id hid
    rw [hids] at hid
    rw [hinsts]
    by_cases hc : id = c.insertBlock ∧ id ∈ c.ids
    · rw [if_pos hc]
      obtain ⟨hc1, _⟩ := hc
      subst hc1
      intro j hj
      rw [List.dropLast_concat] at hj
      exact hnt j hj
    · rw [if_neg hc]
      exact hne id hid
  · rw [Ctx.getTerminator_eq, hi, hinsts, if_pos ⟨rfl, hmem⟩, endsInTerminator_append_singleton]
  · intro n
    exact ⟨hn, fun id hid => by rw [hids]; exact hid, fun id _ hid => by rw [hl] at hid; exact hid⟩

theorem Ctx.instsOf_CreateBlock (c : Ctx) (attach : Bool) (id : Nat) :
    (c.CreateBlock attach).2.instsOf id = c.instsOf id := by
  unfold Ctx.instsOf Ctx.CreateBlock
  simp only [List.find?_append]
  cases hf : c.blocks.find? (fun b => b.id = id) with
  | some b => simp
  | none =>
    by_cases hn : c.next = id <;> simp [List.find?_cons, hn]

theorem Ctx.CreateBlock_true_eq (c : Ctx) :
    (c.CreateBlock true).2 = (c.CreateBlock false).2.pushBack c.next := rfl

/-- Creating a block that is not yet inserted into the function keeps the invariant and
the insertion block. -/
theorem Ctx.CreateBlock_step (c : Ctx) (h : c.Inv) :
    (c.CreateBlock false).2.Inv ∧
    (c.CreateBlock false).2.getTerminator = c.getTerminator ∧
    (∀ n, Ctx.Extends n c (c.CreateBlock false).2) ∧
    c.next ∈ (c.CreateBlock false).2.ids ∧ c.next ∉ (c.CreateBlock false).2.layout ∧
    (c.CreateBlock false).2.next = c.next + 1 := by
  obtain ⟨⟨hfresh, hatt, hins, hdet⟩, hterm, hne⟩ := h
  have hids : (c.CreateBlock false).2.ids = c.ids ++ [c.next] := by
    simp [Ctx.ids, Ctx.CreateBlock]
  have hlay : (c.CreateBlock false).2.layout = c.layout := rfl
  have hib : (c.CreateBlock false).2.insertBlock = c.insertBlock := rfl
  have hnotin : c.next ∉ c.ids := fun hm => Nat.lt_irrefl _ (hfresh _ hm)
  have hnotlay : c.next ∉ c.layout := fun hm => hnotin (hatt _ hm)
  refine ⟨⟨⟨?_, ?_, ?_, ?_⟩, ?_, ?_⟩, ?_, ?_, ?_, ?_, rfl⟩
  · intro id hid
    rw [hids] at hid
    have hnx : (c.CreateBlock false).2.next = c.next + 1 := rfl
    rw [hnx]
    rcases List.mem_append.mp hid with hid | hid
    · exact Nat.lt_succ_of_lt (hfresh id hid)
    · simp only [List.mem_singleton] at hid
      omega
  · intro id hid
    rw [hids]
    exact List.mem_append_left _ (hatt id hid)
  · exact hins
  · intro id hid hnl
    rw [Ctx.instsOf_CreateBlock]
    rw [hids] at hid
    rcases List.mem_append.mp hid with hid | hid
    · exact hdet id hid hnl
    · simp only [List.mem_singleton] at hid
      rw [hid]
      exact Ctx.instsOf_nil_of_not_mem _ _ hnotin
  · intro id hid hne2
    rw [Ctx.instsOf_CreateBlock]
    exact hterm id hid hne2
  · intro id hid
    rw [Ctx.instsOf_CreateBlock]
    rw [hids] at hid
    rcases List.mem_append.mp hid with hid | hid
    · exact hne id hid
    · simp only [List.mem_singleton] at hid
      rw [hid, Ctx.instsOf_nil_of_not_mem _ _ hnotin]
      exact noEarlyTerminator_nil
  · rw [Ctx.getTerminator_eq, Ctx.getTerminator_eq, Ctx.instsOf_CreateBlock, hib]
  · intro n
    exact ⟨Nat.le_succ _, fun id hid => by rw [hids]; exact List.mem_append_left _ hid,
      fun id _ hid => hid⟩
  · rw [hids]; simp
  · exact hnotlay

/-- Inserting an empty block into the function and moving the insertion point to it, once
the insertion block is terminated, gives an open state. -/
theorem Ctx.push_set (c : Ctx) (bb : Nat) (h : c.Inv) (hclosed : c.getTerminator = true)
    (hb : bb ∈ c.ids) (hnb : bb ∉ c.layout) :
    ((c.pushBack bb).SetInsertPoint bb).Open ∧
    ∀ n, n ≤ bb → Ctx.Extends n c ((c.pushBack bb).SetInsertPoint bb) := by
  obtain ⟨⟨hfresh, hatt, hins, hdet⟩, hterm, hne⟩ := h
  have hinsts : ∀ id, ((c.pushBack bb).SetInsertPoint bb).instsOf id = c.instsOf id :=
    fun id => rfl
  have hids : ((c.pushBack bb).SetInsertPoint bb).ids = c.ids := rfl
  have hlay : ((c.pushBack bb).SetInsertPoint bb).layout = c.layout ++ [bb] := rfl
  have hib : ((c.pushBack bb).SetInsertPoint bb).insertBlock = bb := rfl
  refine ⟨⟨⟨⟨?_, ?_, ?_, ?_⟩, ?_, ?_⟩, ?_⟩, ?_⟩
  · exact hfresh
  · intro id hid
    rw [hlay] at hid
    rw [hids]
    rcases List.mem_append.mp hid with hid | hid
    · exact hatt id hid
    · simp only [List.mem_singleton] at hid
      rw [hid]; exact hb
  · rw [hib, hlay]; simp
  · intro id hid hnl
    rw [hlay] at hnl
    rw [hinsts]
    exact hdet id hid (fun hm => hnl (List.mem_append_left _ hm))
  · intro id hid hne2
    rw [hlay] at hid
    rw [hib] at hne2
    rw [hinsts]
    rcases List.mem_append.mp hid with hid | hid
    · by_cases hc : id = c.insertBlock
      · rw [hc, ← Ctx.getTerminator_eq]; exact hclosed
      · exact hterm id hid hc
    · simp only [List.mem_singleton] at hid
      exact absurd hid hne2
  · intro id hid
    rw [hinsts]
    exact hne id hid
  · rw [Ctx.getTerminator_eq, hib, hinsts, hdet bb hb hnb]
    rfl
  · intro n hn
    refine ⟨Nat.le_refl _, fun id hid => hid, fun id hid hl => ?_⟩
    rw [hlay] at hl
    rcases List.mem_append.mp hl with hl | hl
    · exact hl
    · simp only [List.mem_singleton] at hl
      omega

theorem find?_map_alloca (l : List BasicBlock) (k : Option Nat) (id : Nat) (a : Instr) :
    (l.map fun b => if some b.id = k then { b with insts := a :: b.insts } else b).find?
        (fun b => b.id = id) =
      (l.find? (fun b => b.id = id)).map
        fun b => if some b.id = k then { b with insts := a :: b.insts } else b := by
  rw [List.find?_map]
  congr 1
  congr 1
  funext b
  by_cases hk : some b.id = k <;> simp [Function.comp, hk]

theorem instsOf_alloca (c : Ctx) (name : String) (ty : LType) (id : Nat) :
    (create_entry_block_alloca c name ty).2.instsOf id =
      if some id = c.layout.head? ∧ id ∈ c.ids then
        Instr.alloca c.next name ty :: c.instsOf id
      else c.instsOf id := by
  by_cases hmem : id ∈ c.ids
  · unfold Ctx.instsOf create_entry_block_alloca
    simp only [find?_map_alloca]
    cases hf : c.blocks.find? (fun b => b.id = id) with
    | none =>
      exfalso
      rw [List.find?_eq_none] at hf
      simp only [Ctx.ids, List.mem_map] at hmem
      obtain ⟨b, hb, hid⟩ := hmem
      exact hf b hb (by simpa using hid)
    | some b =>
      have hp : b.id = id := by simpa using List.find?_some hf
      by_cases hk : some id = c.layout.head?
      · simp [hp, hk, hmem]
      · simp [hp, hk]
  · have h1 : (create_entry_block_alloca c name ty).2.ids = c.ids := by
      simp only [Ctx.ids, create_entry_block_alloca, List.map_map]
      apply List.map_congr_left
      intro b _
      by_cases hk : some b.id = c.layout.head? <;> simp [hk]
    rw [Ctx.instsOf_nil_of_not_mem _ _ (by rw [h1]; exact hmem),
      Ctx.instsOf_nil_of_not_mem _ _ hmem]
    simp [hmem]

theorem ids_alloca (c : Ctx) (name : String) (ty : LType) :
    (create_entry_block_alloca c name ty).2.ids = c.ids := by
  simp only [Ctx.ids, create_entry_block_alloca, List.map_map]
  apply List.map_congr_left
  intro b _
  by_cases hk : some b.id = c.layout.head? <;> simp [hk]

/-- Placing an alloca at the start of the entry block keeps an open state open. -/
theorem create_entry_block_alloca_step (c : Ctx) (name : String) (ty : LType)
    (h : c.Open) :
    (create_entry_block_alloca c name ty).2.Open ∧
    ∀ n, Ctx.Extends n c (create_entry_block_alloca c name ty).2 := by
  obtain ⟨⟨⟨hfresh, hatt, hins, hdet⟩, hterm, hne⟩, hopen⟩ := h
  have hids := ids_alloca c name ty
  have hlay : (create_entry_block_alloca c name ty).2.layout = c.layout := rfl
  have hib : (create_entry_block_alloca c name ty).2.insertBlock = c.insertBlock := rfl
  have hnx : (create_entry_block_alloca c name ty).2.next = c.next + 1 := rfl
  have hhead : ∀ id, some id = c.layout.head? → id ∈ c.layout := by
    intro id hid
    cases hl : c.layout with
    | nil => rw [hl] at hid; simp at hid
    | cons a l =>
      rw [hl] at hid
      simp only [List.head?_cons, Option.some.injEq] at hid
      rw [hid]; simp
  refine ⟨⟨⟨⟨?_, ?_, ?_, ?_⟩, ?_, ?_⟩, ?_⟩, ?_⟩
  · intro id hid
    rw [hids] at hid
    rw [hnx]
    exact Nat.lt_succ_of_lt (hfresh id hid)
  · intro id hid
    rw [hids]
    exact hatt id hid
  · exact hins
  · intro id hid hnl
    rw [hids] at hid
    rw [instsOf_alloca, if_neg (fun hc => hnl (hhead id hc.1))]
    exact hdet id hid hnl
  · intro id hid hne2
    rw [instsOf_alloca]
    have ht := hterm id hid hne2
    by_cases hc : some id = c.layout.head? ∧ id ∈ c.ids
    · rw [if_pos hc, endsInTerminator_cons _ _ (endsInTerminator_ne_nil _ ht)]
      exact ht
    · rw [if_neg hc]; exact ht
  · intro id hid
    rw [hids] at hid
    rw [instsOf_alloca]
    by_cases hc : some id = c.layout.head? ∧ id ∈ c.ids
    · rw [if_pos hc]
      exact noEarlyTerminator_cons _ _ rfl (hne id hid)
    · rw [if_neg hc]; exact hne id hid
  · rw [Ctx.getTerminator_eq] at hopen ⊢
    rw [hib, instsOf_alloca]
    by_cases hc : some c.insertBlock = c.layout.head? ∧ c.insertBlock ∈ c.ids
    · rw [if_pos hc]
      by_cases hnil : c.instsOf c.insertBlock = []
      · rw [hnil]; rfl
      · rw [endsInTerminator_cons _ _ hnil]; exact hopen
    · rw [if_neg hc]; exact hopen
  · intro n
    exact ⟨by rw [hnx]; exact Nat.le_succ _, fun id hid => by rw [hids]; exact hid,
      fun id _ hid => hid⟩

/-! ## The block-termination invariant: the statement visitor -/

theorem Ctx.Extends.step {c1 c2 c3 : Ctx} (h1 : Ctx.Extends c1.next c1 c2)
    (h2 : Ctx.Extends c2.next c2 c3) : Ctx.Extends c1.next c1 c3 :=
  h1.trans (h2.mono h1.1)

theorem Ctx.Open.store {c : Ctx} (h : c.Open) (v p : LValue) :
    (c.CreateStore v p).Open ∧ ∀ n, Ctx.Extends n c (c.CreateStore v p) :=
  have hs := Ctx.emit_step c (c.CreateStore v p) (.store v p) rfl rfl rfl (Nat.le_refl _) h
  ⟨⟨hs.1, hs.2.1⟩, hs.2.2⟩

theorem Ctx.Open.load {c : Ctx} (h : c.Open) (ty : LType) (p : LValue) :
    (c.CreateLoad ty p).2.Open ∧ ∀ n, Ctx.Extends n c (c.CreateLoad ty p).2 :=
  have hs := Ctx.emit_step c (c.CreateLoad ty p).2 (.load c.next ty p) rfl rfl rfl
    (Nat.le_succ _) h
  ⟨⟨hs.1, hs.2.1⟩, hs.2.2⟩

theorem Ctx.Open.binary {c : Ctx} (h : c.Open) (op : BinaryOps) (a b : LValue) :
    (c.CreateBinary op a b).2.Open ∧ ∀ n, Ctx.Extends n c (c.CreateBinary op a b).2 :=
  have hs := Ctx.emit_step c (c.CreateBinary op a b).2 (.binary c.next op a b) rfl rfl rfl
    (Nat.le_succ _) h
  ⟨⟨hs.1, hs.2.1⟩, hs.2.2⟩

theorem Ctx.Open.icmp {c : Ctx} (h : c.Open) (a b : LValue) :
    (c.CreateICmpNE a b).2.Open ∧ ∀ n, Ctx.Extends n c (c.CreateICmpNE a b).2 :=
  have hs := Ctx.emit_step c (c.CreateICmpNE a b).2 (.icmp_ne c.next a b) rfl rfl rfl
    (Nat.le_succ _) h
  ⟨⟨hs.1, hs.2.1⟩, hs.2.2⟩

theorem Ctx.Open.insertvalue {c : Ctx} (h : c.Open) (a b : LValue) (idx : Nat) :
    (c.CreateInsertValue a b idx).2.Open ∧
    ∀ n, Ctx.Extends n c (c.CreateInsertValue a b idx).2 :=
  have hs := Ctx.emit_step c (c.CreateInsertValue a b idx).2 (.insertvalue c.next a b idx)
    rfl rfl rfl (Nat.le_succ _) h
  ⟨⟨hs.1, hs.2.1⟩, hs.2.2⟩

theorem Ctx.Open.br {c : Ctx} (h : c.Open) (bb : Nat) :
    (c.CreateBr bb).Inv ∧ (c.CreateBr bb).getTerminator = true ∧
    ∀ n, Ctx.Extends n c (c.CreateBr bb) :=
  Ctx.emit_step c (c.CreateBr bb) (.br bb) rfl rfl rfl (Nat.le_refl _) h

theorem Ctx.Open.condbr {c : Ctx} (h : c.Open) (v : LValue) (t f : Nat) :
    (c.CreateCondBr v t f).Inv ∧ (c.CreateCondBr v t f).getTerminator = true ∧
    ∀ n, Ctx.Extends n c (c.CreateCondBr v t f) :=
  Ctx.emit_step c (c.CreateCondBr v t f) (.condbr v t f) rfl rfl rfl (Nat.le_refl _) h

/-- The step `if (!GetInsertBlock()->getTerminator()) CreateBr(bb)` leaves the insertion
block terminated. -/
theorem Ctx.Inv.close {c : Ctx} (h : c.Inv) (bb : Nat) :
    (if !c.getTerminator then c.CreateBr bb else c).Inv ∧
    (if !c.getTerminator then c.CreateBr bb else c).getTerminator = true ∧
    ∀ n, Ctx.Extends n c (if !c.getTerminator then c.CreateBr bb else c) := by
  cases ht : c.getTerminator with
  | false =>
    simp only [Bool.not_false, if_true]
    exact Ctx.Open.br ⟨h, ht⟩ bb
  | true =>
    simp only [Bool.not_true, Bool.false_eq_true, if_false]
    exact ⟨h, ht, fun n => Ctx.Extends.refl n c⟩

theorem visitExpr_step (ev : ExprVisitor) (hev : ExprVisitor.Preserves ev) (node : Expr)
    (scope : SymbolTable) (c : Ctx) (h : c.Open)
    (hok : (visitExpr ev node scope c).err = none) :
    (visitExpr ev node scope c).ctx.Open ∧
    Ctx.Extends c.next c (visitExpr ev node scope c).ctx := by
  revert hok
  unfold visitExpr
  split
  · intro h2; simp at h2
  · rename_i v c2 heq
    split
    · intro h2; simp at h2
    · intro _
      exact hev scope node c v c2 h heq

theorem gen_init_list_step (ev : ExprVisitor) (hev : ExprVisitor.Preserves ev)
    (scope : SymbolTable) (inits : List Expr) (c c2 : Ctx) (vs : List (Option LValue))
    (h : c.Open) (hg : gen_init_list ev scope inits c = ⟨.ok vs, c2⟩) :
    c2.Open ∧ Ctx.Extends c.next c c2 := by
  induction inits generalizing c c2 vs with
  | nil =>
    simp only [gen_init_list, Res.mk.injEq, Except.ok.injEq] at hg
    rw [← hg.2]
    exact ⟨h, Ctx.Extends.refl _ _⟩
  | cons e rest ih =>
    rw [gen_init_list] at hg
    split at hg
    · simp at hg
    · rename_i v c1 heq
      split at hg
      · simp at hg
      · rename_i vs2 c3 hrest
        simp only [Res.mk.injEq, Except.ok.injEq] at hg
        rw [← hg.2]
        obtain ⟨h1, e1⟩ := hev scope e c v c1 h heq
        obtain ⟨h2, e2⟩ := ih c1 c3 vs2 h1 hrest
        exact ⟨h2, e1.step e2⟩

theorem init_array_step (al : LValue) (vs : List (Option LValue)) (i : Nat) (c c2 : Ctx)
    (h : c.Open) (hg : init_array al vs i c = ⟨.ok (), c2⟩) :
    c2.Open ∧ Ctx.Extends c.next c c2 := by
  induction vs generalizing i c c2 with
  | nil =>
    simp only [init_array, Res.mk.injEq, Except.ok.injEq] at hg
    rw [← hg.2]
    exact ⟨h, Ctx.Extends.refl _ _⟩
  | cons v rest ih =>
    cases v with
    | none => simp [init_array] at hg
    | some x =>
      simp only [init_array] at hg
      obtain ⟨h1, e1⟩ := h.load (getAllocatedType al) al
      obtain ⟨h2, e2⟩ := h1.insertvalue (c.CreateLoad (getAllocatedType al) al).1 x i
      obtain ⟨h3, e3⟩ := ih (i + 1) _ c2 h2 hg
      exact ⟨h3, ((e1 _).trans (e2 _)).trans (e3.mono (Nat.le_trans (e1 0).1 (e2 0).1))⟩

theorem create_variable_with_type_step (ev : ExprVisitor) (hev : ExprVisitor.Preserves ev)
    (scope : SymbolTable) (pos : Nat) (name : String) (T : Ty)
    (init : Option Initializer) (c c2 : Ctx) (a : LValue) (h : c.Open)
    (hg : create_variable_with_type ev scope pos name T init c = ⟨.ok a, c2⟩) :
    c2.Open ∧ Ctx.Extends c.next c c2 := by
  obtain ⟨h0, e0⟩ := create_entry_block_alloca_step c name T.getType h
  unfold create_variable_with_type at hg
  rcases init with _ | e | inits
  · simp only [Res.mk.injEq, Except.ok.injEq] at hg
    rw [← hg.2]
    exact ⟨h0, e0 _⟩
  · dsimp only at hg
    split at hg
    · simp at hg
    · rename_i iv c1 heq
      obtain ⟨h1, e1⟩ := hev _ _ _ _ _ h0 heq
      split at hg
      · simp at hg
      · split at hg
        · simp at hg
        · simp only [Res.mk.injEq, Except.ok.injEq] at hg
          rw [← hg.2]
          obtain ⟨h2, e2⟩ := h1.store _ (create_entry_block_alloca c name T.getType).1
          exact ⟨h2, ((e0 _).trans (e1.mono (e0 0).1)).trans (e2 _)⟩
  · dsimp only at hg
    split at hg
    · simp at hg
    · split at hg
      · simp at hg
      · rename_i vs c1 heq
        obtain ⟨h1, e1⟩ := gen_init_list_step ev hev scope inits _ c1 vs h0 heq
        split at hg
        · simp at hg
        · split at hg
          · simp at hg
          · rename_i u c3 harr
            simp only [Res.mk.injEq, Except.ok.injEq] at hg
            rw [← hg.2]
            obtain ⟨h2, e2⟩ := init_array_step _ vs 0 c1 c3 h1 harr
            exact ⟨h2, ((e0 _).trans (e1.mono (e0 0).1)).trans
              (e2.mono (Nat.le_trans (e0 0).1 e1.1))⟩

theorem create_variable_with_type_inference_step (ev : ExprVisitor)
    (hev : ExprVisitor.Preserves ev) (scope : SymbolTable) (pos : Nat) (name : String)
    (init : Option Initializer) (c c2 : Ctx) (r : LValue × Bool) (h : c.Open)
    (hg : create_variable_with_type_inference ev scope pos name init c = ⟨.ok r, c2⟩) :
    c2.Open ∧ Ctx.Extends c.next c c2 := by
  unfold create_variable_with_type_inference at hg
  rcases init with _ | e | inits
  · simp at hg
  · dsimp only at hg
    split at hg
    · simp at hg
    · rename_i iv c1 heq
      obtain ⟨h1, e1⟩ := hev _ _ _ _ _ h heq
      split at hg
      · simp at hg
      · rename_i v hv
        simp only [Res.mk.injEq, Except.ok.injEq] at hg
        rw [← hg.2]
        obtain ⟨h2, e2⟩ := create_entry_block_alloca_step c1 name v.getType h1
        obtain ⟨h3, e3⟩ := h2.store v (create_entry_block_alloca c1 name v.getType).1
        exact ⟨h3, (e1.trans (e2 _)).trans (e3 _)⟩
  · dsimp only at hg
    split at hg
    · simp at hg
    · rename_i vs c1 heq
      obtain ⟨h1, e1⟩ := gen_init_list_step ev hev scope inits _ c1 vs h heq
      split at hg
      · simp at hg
      · simp at hg
      · rename_i front hfront
        split at hg
        · simp at hg
        · rename_i u c3 harr
          simp only [Res.mk.injEq, Except.ok.injEq] at hg
          rw [← hg.2]
          obtain ⟨h2, e2⟩ := create_entry_block_alloca_step c1 name
            (.array front.getType vs.length) h1
          obtain ⟨h3, e3⟩ := init_array_step _ vs 0 _ c3 h2 harr
          exact ⟨h3, (e1.trans (e2 _)).trans (e3.mono (Nat.le_trans e1.1 (e2 0).1))⟩

theorem visitVariableDef_step (ev : ExprVisitor) (hev : ExprVisitor.Preserves ev)
    (node : VariableDef) (scope : SymbolTable) (c : Ctx) (h : c.Open)
    (hok : (visitVariableDef ev node scope c).err = none) :
    (visitVariableDef ev node scope c).ctx.Open ∧
    Ctx.Extends c.next c (visitVariableDef ev node scope c).ctx := by
  revert hok
  unfold visitVariableDef
  split
  · intro h2; simp at h2
  · split
    · intro h2; simp at h2
    · split
      · split
        · intro h2; simp at h2
        · rename_i al c2 heq
          intro _
          exact create_variable_with_type_step ev hev _ _ _ _ _ c c2 al h heq
      · split
        · intro h2; simp at h2
        · rename_i r c2 heq
          intro _
          exact create_variable_with_type_inference_step ev hev _ _ _ _ c c2 r h heq

theorem gen_assignable_value_from_expr_step (ev : ExprVisitor)
    (hev : ExprVisitor.Preserves ev) (scope : SymbolTable) (node : Expr) (pos : Nat)
    (c c2 : Ctx) (v : Value) (h : c.Open)
    (hg : gen_assignable_value_from_expr ev scope node pos c = ⟨.ok v, c2⟩) :
    c2.Open ∧ Ctx.Extends c.next c c2 := by
  unfold gen_assignable_value_from_expr at hg
  dsimp only at hg
  split at hg
  · simp at hg
  · rename_i v1 c1 heq
    have hstep : c1.Open ∧ Ctx.Extends c.next c c1 := by
      split at heq
      · split at heq
        · simp at heq
        · split at heq
          · simp at heq
          · simp only [Res.mk.injEq, Except.ok.injEq] at heq
            rw [← heq.2]
            exact ⟨h, Ctx.Extends.refl _ _⟩
      · split at heq
        · exact hev _ _ _ _ _ h heq
        · exact hev _ _ _ _ _ h heq
      · exact hev _ _ _ _ _ h heq
    split at hg
    · simp at hg
    · split at hg
      · simp at hg
      · simp only [Res.mk.injEq, Except.ok.injEq] at hg
        rw [← hg.2]
        exact hstep

theorem Ctx.Open.store_if {c : Ctx} (h : c.Open) (p : Prop) [Decidable p] (v l : LValue) :
    (if p then c.CreateStore v l else c).Open ∧
    ∀ n, Ctx.Extends n c (if p then c.CreateStore v l else c) := by
  by_cases hp : p
  · simp only [hp, if_true]; exact h.store v l
  · simp only [hp, if_false]; exact ⟨h, fun n => Ctx.Extends.refl n c⟩

theorem Ctx.Open.binary_store {c : Ctx} (h : c.Open) (op : BinaryOps) (a b l : LValue) :
    ((c.CreateBinary op a b).2.CreateStore (c.CreateBinary op a b).1 l).Open ∧
    ∀ n, Ctx.Extends n c ((c.CreateBinary op a b).2.CreateStore (c.CreateBinary op a b).1 l) := by
  obtain ⟨h1, e1⟩ := h.binary op a b
  obtain ⟨h2, e2⟩ := h1.store (c.CreateBinary op a b).1 l
  exact ⟨h2, fun n => (e1 n).trans (e2 n)⟩

theorem Ctx.Open.binary_store_if {c : Ctx} (h : c.Open) (p : Prop) [Decidable p]
    (op : BinaryOps) (a b l : LValue) :
    (if p then (c.CreateBinary op a b).2.CreateStore (c.CreateBinary op a b).1 l
      else c).Open ∧
    ∀ n, Ctx.Extends n c
      (if p then (c.CreateBinary op a b).2.CreateStore (c.CreateBinary op a b).1 l
        else c) := by
  by_cases hp : p
  · simp only [hp, if_true]; exact h.binary_store op a b l
  · simp only [hp, if_false]; exact ⟨h, fun n => Ctx.Extends.refl n c⟩

theorem Ctx.Open.signed_binary_store_if {c : Ctx} (h : c.Open) (p : Prop) [Decidable p]
    (sg : Bool) (op1 op2 : BinaryOps) (a b l : LValue) :
    (if p then
        (if sg = true then c.CreateBinary op1 a b else c.CreateBinary op2 a b).2.CreateStore
          (if sg = true then c.CreateBinary op1 a b else c.CreateBinary op2 a b).1 l
      else c).Open ∧
    ∀ n, Ctx.Extends n c
      (if p then
        (if sg = true then c.CreateBinary op1 a b else c.CreateBinary op2 a b).2.CreateStore
          (if sg = true then c.CreateBinary op1 a b else c.CreateBinary op2 a b).1 l
      else c) := by
  by_cases hp : p
  · simp only [hp, if_true]
    cases sg
    · simp only [Bool.false_eq_true, if_false]; exact h.binary_store op2 a b l
    · simp only [if_true]; exact h.binary_store op1 a b l
  · simp only [hp, if_false]; exact ⟨h, fun n => Ctx.Extends.refl n c⟩

theorem visitAssignment_step (ev : ExprVisitor) (hev : ExprVisitor.Preserves ev)
    (node : Assignment) (scope : SymbolTable) (c : Ctx) (h : c.Open)
    (hok : (visitAssignment ev node scope c).err = none) :
    (visitAssignment ev node scope c).ctx.Open ∧
    Ctx.Extends c.next c (visitAssignment ev node scope c).ctx := by
  revert hok
  unfold visitAssignment
  split
  · split
    · intro h2; simp at h2
    · rename_i lhs c0 hl
      obtain ⟨h0, e0⟩ := gen_assignable_value_from_expr_step ev hev _ _ _ _ _ _ h hl
      split
      · intro h2; simp at h2
      · rename_i rhs c1 hr
        obtain ⟨h1, e1⟩ := hev _ _ _ _ _ h0 hr
        split
        · intro h2; simp at h2
        · rename_i r hrv
          split
          · intro h2; simp at h2
          · rename_i l hlv
            split
            · intro h2; simp at h2
            · intro _
              dsimp only
              obtain ⟨h2, e2⟩ := h1.load l.getType.getPointerElementType l
              obtain ⟨h3, e3⟩ := h2.store_if (node.op = "=") r l
              obtain ⟨h4, e4⟩ := h3.binary_store_if (node.op = "+=") .Add
                (c1.CreateLoad l.getType.getPointerElementType l).1 r l
              obtain ⟨h5, e5⟩ := h4.binary_store_if (node.op = "-=") .Sub
                (c1.CreateLoad l.getType.getPointerElementType l).1 r l
              obtain ⟨h6, e6⟩ := h5.binary_store_if (node.op = "*=") .Mul
                (c1.CreateLoad l.getType.getPointerElementType l).1 r l
              obtain ⟨h7, e7⟩ := h6.signed_binary_store_if (node.op = "/=")
                (rhs.is_signed || lhs.is_signed) .SDiv .UDiv
                (c1.CreateLoad l.getType.getPointerElementType l).1 r l
              obtain ⟨h8, e8⟩ := h7.signed_binary_store_if (node.op = "%=")
                (rhs.is_signed || lhs.is_signed) .SRem .URem
                (c1.CreateLoad l.getType.getPointerElementType l).1 r l
              exact ⟨h8, (e0.step e1).trans
                ((((((((e2 _).trans (e3 _)).trans (e4 _)).trans (e5 _)).trans (e6 _)).trans
                  (e7 _)).trans (e8 _)))⟩
  · intro _
    exact ⟨h, Ctx.Extends.refl _ _⟩

theorem visitPrefixIncAndDec_step (ev : ExprVisitor) (hev : ExprVisitor.Preserves ev)
    (node : PrefixIncAndDec) (scope : SymbolTable) (c : Ctx) (h : c.Open)
    (hok : (visitPrefixIncAndDec ev node scope c).err = none) :
    (visitPrefixIncAndDec ev node scope c).ctx.Open ∧
    Ctx.Extends c.next c (visitPrefixIncAndDec ev node scope c).ctx := by
  revert hok
  unfold visitPrefixIncAndDec
  split
  · intro h2; simp at h2
  · rename_i rhs c0 hl
    obtain ⟨h0, e0⟩ := gen_assignable_value_from_expr_step ev hev _ _ _ _ _ _ h hl
    split
    · intro h2; simp at h2
    · rename_i p hp
      intro _
      dsimp only
      obtain ⟨h2, e2⟩ := h0.load p.getType.getPointerElementType p
      obtain ⟨h3, e3⟩ := h2.binary_store_if (node.op = "++") .Add
        (c0.CreateLoad p.getType.getPointerElementType p).1
        (.constInt (c0.CreateLoad p.getType.getPointerElementType p).1.getType 1) p
      obtain ⟨h4, e4⟩ := h3.binary_store_if (node.op = "--") .Sub
        (c0.CreateLoad p.getType.getPointerElementType p).1
        (.constInt (c0.CreateLoad p.getType.getPointerElementType p).1.getType 1) p
      exact ⟨h4, e0.trans (((e2 _).trans (e3 _)).trans (e4 _))⟩

theorem visitReturn_step (ev : ExprVisitor) (hev : ExprVisitor.Preserves ev)
    (cur : Cursors) (pos : Nat) (rhs : Option Expr) (scope : SymbolTable) (c : Ctx)
    (h : c.Open) (hok : (visitReturn ev cur pos rhs scope c).err = none) :
    (visitReturn ev cur pos rhs scope c).ctx.Inv ∧
    Ctx.Extends c.next c (visitReturn ev cur pos rhs scope c).ctx := by
  revert hok
  unfold visitReturn
  dsimp only
  split
  · intro h2; simp at h2
  · rename_i u c1 hst
    have hstep : c1.Open ∧ Ctx.Extends c.next c c1 := by
      split at hst
      · split at hst
        · simp at hst
        · rename_i retval c0 heq
          obtain ⟨h1, e1⟩ := hev _ _ _ _ _ h heq
          split at hst
          · simp at hst
          · split at hst
            · simp at hst
            · split at hst
              · simp at hst
              · simp only [Res.mk.injEq, Except.ok.injEq] at hst
                rw [← hst.2]
                obtain ⟨h2, e2⟩ := h1.store _ _
                exact ⟨h2, e1.trans (e2 _)⟩
      · simp only [Res.mk.injEq, Except.ok.injEq] at hst
        rw [← hst.2]
        exact ⟨h, Ctx.Extends.refl _ _⟩
    split
    · intro h2; simp at h2
    · intro _
      obtain ⟨h3, _, e3⟩ := hstep.1.br _
      exact ⟨h3, hstep.2.trans (e3 _)⟩

theorem visitBreak_step (cur : Cursors) (scope : SymbolTable) (c : Ctx) (h : c.Open)
    (hok : (visitBreak cur scope c).err = none) :
    (visitBreak cur scope c).ctx.Inv ∧ Ctx.Extends c.next c (visitBreak cur scope c).ctx := by
  revert hok
  unfold visitBreak
  split
  · intro _
    obtain ⟨h1, _, e1⟩ := h.br _
    exact ⟨h1, e1 _⟩
  · intro h2; simp at h2

theorem visitContinue_step (cur : Cursors) (scope : SymbolTable) (c : Ctx) (h : c.Open)
    (hok : (visitContinue cur scope c).err = none) :
    (visitContinue cur scope c).ctx.Inv ∧
    Ctx.Extends c.next c (visitContinue cur scope c).ctx := by
  revert hok
  unfold visitContinue
  split
  · intro _
    obtain ⟨h1, _, e1⟩ := h.br _
    exact ⟨h1, e1 _⟩
  · intro h2; simp at h2

/-- A block that is created and not inserted stays so while the state is extended. -/
theorem Ctx.Extends.detached {n : Nat} {c1 c2 : Ctx} (h : Ctx.Extends n c1 c2) (bb : Nat)
    (hn : bb < n) (hd : bb ∈ c1.ids ∧ bb ∉ c1.layout) : bb ∈ c2.ids ∧ bb ∉ c2.layout :=
  ⟨h.2.1 bb hd.1, fun hl => hd.2 (h.2.2 bb hn hl)⟩

theorem Ctx.Inv.lt_next {c : Ctx} (h : c.Inv) (bb : Nat) (hb : bb ∈ c.ids) : bb < c.next :=
  h.1.1 bb hb

theorem Ctx.detached_push_set (c : Ctx) (b2 bb : Nat) (hne : bb ≠ b2)
    (hd : bb ∈ c.ids ∧ bb ∉ c.layout) :
    bb ∈ ((c.pushBack b2).SetInsertPoint b2).ids ∧
    bb ∉ ((c.pushBack b2).SetInsertPoint b2).layout := by
  refine ⟨hd.1, fun hl => ?_⟩
  have hlay : ((c.pushBack b2).SetInsertPoint b2).layout = c.layout ++ [b2] := rfl
  rw [hlay] at hl
  rcases List.mem_append.mp hl with hl | hl
  · exact hd.2 hl
  · simp only [List.mem_singleton] at hl
    exact hne hl

/-- Creating a block that is not yet inserted, in an open state. -/
theorem Ctx.Open.createBlock {c : Ctx} (h : c.Open) :
    (c.CreateBlock false).2.Open ∧ (∀ n, Ctx.Extends n c (c.CreateBlock false).2) ∧
    (c.next ∈ (c.CreateBlock false).2.ids ∧ c.next ∉ (c.CreateBlock false).2.layout) := by
  obtain ⟨h1, h2, h3, h4, h5, _⟩ := Ctx.CreateBlock_step c h.1
  exact ⟨⟨h1, h2.trans h.2⟩, h3, h4, h5⟩

/-- Moving to a created block `bb` once the insertion block is terminated: the state is
open again, and it extends the state `c0` lowering started from when `bb` was created
after `c0`. -/
theorem Ctx.Inv.enter {c0 c : Ctx} (h : c.Inv) (hclosed : c.getTerminator = true)
    (he : Ctx.Extends c0.next c0 c) (bb : Nat) (hd : bb ∈ c.ids ∧ bb ∉ c.layout)
    (hbb : c0.next ≤ bb) :
    ((c.pushBack bb).SetInsertPoint bb).Open ∧
    Ctx.Extends c0.next c0 ((c.pushBack bb).SetInsertPoint bb) := by
  obtain ⟨h1, e1⟩ := Ctx.push_set c bb h hclosed hd.1 hd.2
  exact ⟨h1, he.trans (e1 _ hbb)⟩

theorem visitLoop_step (cg : SubLowering) (hcg : SubLowering.Preserves cg) (cur : Cursors)
    (scope : SymbolTable) (c : Ctx) (h : c.Open)
    (hok : (visitLoop cg cur scope c).err = none) :
    (visitLoop cg cur scope c).ctx.Inv ∧
    Ctx.Extends c.next c (visitLoop cg cur scope c).ctx := by
  revert hok
  unfold visitLoop
  dsimp only
  -- the two blocks
  obtain ⟨hA, eA, dA⟩ := h.createBlock
  obtain ⟨hB, eB, dB⟩ := hA.createBlock
  have dA2 := (eB (c.next + 1)).detached c.next (Nat.lt_succ_self _) dA
  obtain ⟨iC, tC, eC⟩ := hB.br c.next
  have dA3 := (eC (c.next + 1)).detached c.next (Nat.lt_succ_self _) dA2
  have dB3 := (eC (c.next + 2)).detached (c.next + 1) (Nat.lt_succ_self _) dB
  have e0 : Ctx.Extends c.next c
      (((c.CreateBlock false).2.CreateBlock false).2.CreateBr c.next) :=
    ((eA _).trans (eB _)).trans (eC _)
  obtain ⟨h1, e1⟩ := iC.enter tC e0 c.next dA3 (Nat.le_refl _)
  have d1 := Ctx.detached_push_set _ c.next (c.next + 1) (Nat.succ_ne_self _) dB3
  have hc1 : ((((c.CreateBlock true).2.CreateBlock false).2.CreateBr
        (c.CreateBlock true).1).SetInsertPoint (c.CreateBlock true).1) =
      (((((c.CreateBlock false).2.CreateBlock false).2.CreateBr c.next).pushBack
        c.next).SetInsertPoint c.next) := rfl
  rw [hc1]
  split
  · intro h2; simp at h2
  · rename_i hr
    intro _
    obtain ⟨i2, e2⟩ := hcg _ _ _ h1 hr
    obtain ⟨i3, t3, e3⟩ := i2.close c.next
    have d2 := e2.detached (c.next + 1) (h1.1.lt_next _ d1.1) d1
    have d3 := (e3 (c.next + 2)).detached (c.next + 1) (Nat.lt_succ_self _) d2
    obtain ⟨h4, e4⟩ := i3.enter t3 ((e1.step e2).trans (e3 _)) (c.next + 1) d3
      (Nat.le_succ _)
    exact ⟨h4.1, e4⟩

theorem visitWhile_step (ev : ExprVisitor) (hev : ExprVisitor.Preserves ev) (pos : Nat)
    (cond_expr : Expr) (cg : SubLowering) (hcg : SubLowering.Preserves cg) (cur : Cursors)
    (scope : SymbolTable) (c : Ctx) (h : c.Open)
    (hok : (visitWhile ev pos cond_expr cg cur scope c).err = none) :
    (visitWhile ev pos cond_expr cg cur scope c).ctx.Inv ∧
    Ctx.Extends c.next c (visitWhile ev pos cond_expr cg cur scope c).ctx := by
  revert hok
  unfold visitWhile
  dsimp only
  -- the three blocks: cond_bb, body_bb, loop_end_bb
  obtain ⟨hA, eA, dA⟩ := h.createBlock
  obtain ⟨hB, eB, dB⟩ := hA.createBlock
  obtain ⟨hC, eC, dC⟩ := hB.createBlock
  obtain ⟨iD, tD, eD⟩ := hC.br c.next
  have dA4 := (eD (c.next + 1)).detached c.next (Nat.lt_succ_self _)
    ((eC (c.next + 1)).detached c.next (Nat.lt_succ_self _)
      ((eB (c.next + 1)).detached c.next (Nat.lt_succ_self _) dA))
  have dB4 := (eD (c.next + 2)).detached (c.next + 1) (Nat.lt_succ_self _)
    ((eC (c.next + 2)).detached (c.next + 1) (Nat.lt_succ_self _) dB)
  have dC4 := (eD (c.next + 3)).detached (c.next + 2) (Nat.lt_succ_self _) dC
  have e0 : Ctx.Extends c.next c
      ((((c.CreateBlock false).2.CreateBlock false).2.CreateBlock false).2.CreateBr c.next) :=
    (((eA _).trans (eB _)).trans (eC _)).trans (eD _)
  obtain ⟨h1, e1⟩ := iD.enter tD e0 c.next dA4 (Nat.le_refl _)
  have dB5 := Ctx.detached_push_set _ c.next (c.next + 1) (Nat.succ_ne_self _) dB4
  have dC5 := Ctx.detached_push_set _ c.next (c.next + 2) (by omega) dC4
  have hc1 : (((((c.CreateBlock true).2.CreateBlock false).2.CreateBlock false).2.CreateBr
        (c.CreateBlock true).1).SetInsertPoint (c.CreateBlock true).1) =
      ((((((c.CreateBlock false).2.CreateBlock false).2.CreateBlock false).2.CreateBr
        c.next).pushBack c.next).SetInsertPoint c.next) := rfl
  rw [hc1]
  split
  · intro h2; simp at h2
  · rename_i cond_value c2 heq
    obtain ⟨h2, e2⟩ := hev _ _ _ _ _ h1 heq
    have dB6 := e2.detached (c.next + 1) (h1.1.lt_next _ dB5.1) dB5
    have dC6 := e2.detached (c.next + 2) (h1.1.lt_next _ dC5.1) dC5
    split
    · intro h3; simp at h3
    · rename_i cv hcv
      obtain ⟨h3, e3⟩ := h2.icmp cv (.constInt (Ty.builtin .bool_).getType 0)
      obtain ⟨i4, t4, e4⟩ := h3.condbr
        (c2.CreateICmpNE cv (.constInt (Ty.builtin .bool_).getType 0)).1 (c.next + 1)
        (c.next + 2)
      have dB7 := (e4 (c.next + 2)).detached (c.next + 1) (Nat.lt_succ_self _)
        ((e3 (c.next + 2)).detached (c.next + 1) (Nat.lt_succ_self _) dB6)
      have dC7 := (e4 (c.next + 3)).detached (c.next + 2) (Nat.lt_succ_self _)
        ((e3 (c.next + 3)).detached (c.next + 2) (Nat.lt_succ_self _) dC6)
      obtain ⟨h5, e5⟩ := i4.enter t4 (((e1.step e2).trans (e3 _)).trans (e4 _)) (c.next + 1)
        dB7 (Nat.le_succ _)
      have dC8 := Ctx.detached_push_set _ (c.next + 1) (c.next + 2) (by omega) dC7
      split
      · intro h6; simp at h6
      · rename_i hr
        intro _
        obtain ⟨i6, e6⟩ := hcg _ _ _ h5 hr
        obtain ⟨i7, t7, e7⟩ := i6.close c.next
        have dC9 := (e7 (c.next + 3)).detached (c.next + 2) (Nat.lt_succ_self _)
          (e6.detached (c.next + 2) (h5.1.lt_next _ dC8.1) dC8)
        obtain ⟨h8, e8⟩ := i7.enter t7 ((e5.step e6).trans (e7 _)) (c.next + 2) dC9
          (by omega)
        exact ⟨h8.1, e8⟩

theorem visitIf_step_some (ev : ExprVisitor) (hev : ExprVisitor.Preserves ev) (pos : Nat)
    (condition : Expr) (then_cg : SubLowering) (hthen : SubLowering.Preserves then_cg)
    (else_cg : SubLowering) (helse : SubLowering.Preserves else_cg) (cur : Cursors)
    (scope : SymbolTable) (c : Ctx) (h : c.Open)
    (hok : (visitIf ev pos condition then_cg (some else_cg) cur scope c).err = none) :
    (visitIf ev pos condition then_cg (some else_cg) cur scope c).ctx.Inv ∧
    Ctx.Extends c.next c (visitIf ev pos condition then_cg (some else_cg) cur scope c).ctx := by
  revert hok
  unfold visitIf
  split
  · intro h2; simp at h2
  · rename_i cond_value c0 heq
    obtain ⟨h0, e0⟩ := hev _ _ _ _ _ h heq
    split
    · intro h2; simp at h2
    · rename_i cv hcv
      dsimp only
      obtain ⟨hI, eI⟩ := h0.icmp cv (.constInt (Ty.builtin .bool_).getType 0)
      have eI0 := e0.trans (eI c.next)
      generalize (c0.CreateICmpNE cv (.constInt (Ty.builtin .bool_).getType 0)).1 = cnd
      generalize (c0.CreateICmpNE cv (.constInt (Ty.builtin .bool_).getType 0)).2 = cI
        at hI eI0 ⊢
      -- the three blocks: then_bb, else_bb, merge_bb
      obtain ⟨hA, eA, dA⟩ := hI.createBlock
      obtain ⟨hB, eB, dB⟩ := hA.createBlock
      obtain ⟨hC, eC, dC⟩ := hB.createBlock
      obtain ⟨iD, tD, eD⟩ := hC.condbr cnd cI.next (cI.next + 1)
      have dA4 := (eD (cI.next + 1)).detached cI.next (Nat.lt_succ_self _)
        ((eC (cI.next + 1)).detached cI.next (Nat.lt_succ_self _)
          ((eB (cI.next + 1)).detached cI.next (Nat.lt_succ_self _) dA))
      have dB4 := (eD (cI.next + 2)).detached (cI.next + 1) (Nat.lt_succ_self _)
        ((eC (cI.next + 2)).detached (cI.next + 1) (Nat.lt_succ_self _) dB)
      have dC4 := (eD (cI.next + 3)).detached (cI.next + 2) (Nat.lt_succ_self _) dC
      have hle : c.next ≤ cI.next := eI0.1
      have eD0 : Ctx.Extends c.next c
          ((((cI.CreateBlock false).2.CreateBlock false).2.CreateBlock false).2.CreateCondBr
            cnd cI.next (cI.next + 1)) :=
        (((eI0.trans (eA _)).trans (eB _)).trans (eC _)).trans (eD _)
      obtain ⟨h1, e1⟩ := iD.enter tD eD0 cI.next dA4 hle
      have dB5 := Ctx.detached_push_set _ cI.next (cI.next + 1) (Nat.succ_ne_self _) dB4
      have dC5 := Ctx.detached_push_set _ cI.next (cI.next + 2) (by omega) dC4
      have hc1 : (((((cI.CreateBlock true).2.CreateBlock false).2.CreateBlock
            false).2.CreateCondBr cnd (cI.CreateBlock true).1
              ((cI.CreateBlock true).2.CreateBlock false).1).SetInsertPoint
              (cI.CreateBlock true).1) =
          ((((((cI.CreateBlock false).2.CreateBlock false).2.CreateBlock
            false).2.CreateCondBr cnd cI.next (cI.next + 1)).pushBack cI.next).SetInsertPoint
              cI.next) := rfl
      rw [hc1]
      split
      · intro h2; simp at h2
      · rename_i hr1
        obtain ⟨i2, e2⟩ := hthen _ _ _ h1 hr1
        obtain ⟨i3, t3, e3⟩ := i2.close (cI.next + 2)
        have dB6 := (e3 (cI.next + 2)).detached (cI.next + 1) (Nat.lt_succ_self _)
          (e2.detached (cI.next + 1) (h1.1.lt_next _ dB5.1) dB5)
        have dC6 := (e3 (cI.next + 3)).detached (cI.next + 2) (Nat.lt_succ_self _)
          (e2.detached (cI.next + 2) (h1.1.lt_next _ dC5.1) dC5)
        obtain ⟨h4, e4⟩ := i3.enter t3 ((e1.step e2).trans (e3 _)) (cI.next + 1) dB6
          (by omega)
        have dC7 := Ctx.detached_push_set _ (cI.next + 1) (cI.next + 2) (by omega) dC6
        split
        · intro h5; simp at h5
        · rename_i hr2
          intro _
          obtain ⟨i5, e5⟩ := helse _ _ _ h4 hr2
          obtain ⟨i6, t6, e6⟩ := i5.close (cI.next + 2)
          have dC8 := (e6 (cI.next + 3)).detached (cI.next + 2) (Nat.lt_succ_self _)
            (e5.detached (cI.next + 2) (h4.1.lt_next _ dC7.1) dC7)
          obtain ⟨h7, e7⟩ := i6.enter t6 ((e4.step e5).trans (e6 _)) (cI.next + 2) dC8
            (by omega)
          exact ⟨h7.1, e7⟩

theorem visitIf_none_eq (ev : ExprVisitor) (pos : Nat) (condition : Expr)
    (then_cg : SubLowering) (cur : Cursors) (scope : SymbolTable) (c : Ctx) :
    visitIf ev pos condition then_cg none cur scope c =
      visitIf ev pos condition then_cg (some fun _ _ cx => ⟨none, cx⟩) cur scope c := rfl

theorem visitIf_step (ev : ExprVisitor) (hev : ExprVisitor.Preserves ev) (pos : Nat)
    (condition : Expr) (then_cg : SubLowering) (hthen : SubLowering.Preserves then_cg)
    (else_cg : Option SubLowering)
    (helse : ∀ cg, else_cg = some cg → SubLowering.Preserves cg) (cur : Cursors)
    (scope : SymbolTable) (c : Ctx) (h : c.Open)
    (hok : (visitIf ev pos condition then_cg else_cg cur scope c).err = none) :
    (visitIf ev pos condition then_cg else_cg cur scope c).ctx.Inv ∧
    Ctx.Extends c.next c (visitIf ev pos condition then_cg else_cg cur scope c).ctx := by
  cases else_cg with
  | some cg =>
    exact visitIf_step_some ev hev pos condition then_cg hthen cg (helse cg rfl) cur scope c
      h hok
  | none =>
    rw [visitIf_none_eq] at hok ⊢
    exact visitIf_step_some ev hev pos condition then_cg hthen _
      (fun _ _ cx hcx _ => ⟨hcx.1, Ctx.Extends.refl _ _⟩) cur scope c h hok

theorem visitFor_init_step (ev : ExprVisitor) (hev : ExprVisitor.Preserves ev)
    (init_stmt : Option ForInitVariant) (scope : SymbolTable) (c : Ctx) (h : c.Open)
    (hok : (visitFor.init ev init_stmt scope c).err = none) :
    (visitFor.init ev init_stmt scope c).ctx.Open ∧
    Ctx.Extends c.next c (visitFor.init ev init_stmt scope c).ctx := by
  rcases init_stmt with _ | a | v
  · exact ⟨h, Ctx.Extends.refl _ _⟩
  · exact visitAssignment_step ev hev a scope c h hok
  · exact visitVariableDef_step ev hev v scope c h hok

theorem visitFor_step_step (ev : ExprVisitor) (hev : ExprVisitor.Preserves ev)
    (loop_stmt : Option ForLoopVariant) (scope : SymbolTable) (c : Ctx) (h : c.Open)
    (hok : (visitFor.step ev loop_stmt scope c).err = none) :
    (visitFor.step ev loop_stmt scope c).ctx.Open ∧
    Ctx.Extends c.next c (visitFor.step ev loop_stmt scope c).ctx := by
  rcases loop_stmt with _ | p | a
  · exact ⟨h, Ctx.Extends.refl _ _⟩
  · exact visitPrefixIncAndDec_step ev hev p scope c h hok
  · exact visitAssignment_step ev hev a scope c h hok

theorem visitFor_step (ev : ExprVisitor) (hev : ExprVisitor.Preserves ev) (pos : Nat)
    (init_stmt : Option ForInitVariant) (cond_expr : Option Expr)
    (loop_stmt : Option ForLoopVariant) (cg : SubLowering) (hcg : SubLowering.Preserves cg)
    (cur : Cursors) (scope : SymbolTable) (c : Ctx) (h : c.Open)
    (hok : (visitFor ev pos init_stmt cond_expr loop_stmt cg cur scope c).err = none) :
    (visitFor ev pos init_stmt cond_expr loop_stmt cg cur scope c).ctx.Inv ∧
    Ctx.Extends c.next c (visitFor ev pos init_stmt cond_expr loop_stmt cg cur scope c).ctx := by
  revert hok
  rw [visitFor_unfold]
  dsimp only
  split
  · intro h2; simp at h2
  · rename_i hinit
    obtain ⟨hI, eI⟩ := visitFor_init_step ev hev init_stmt scope c h hinit
    generalize (visitFor.init ev init_stmt scope c).scope = sI
    generalize (visitFor.init ev init_stmt scope c).ctx = cI at hI eI ⊢
    -- the four blocks: cond_bb, loop_bb, body_bb, loop_end_bb
    obtain ⟨hA, eA, dA⟩ := hI.createBlock
    obtain ⟨hB, eB, dB⟩ := hA.createBlock
    obtain ⟨hC, eC, dC⟩ := hB.createBlock
    obtain ⟨hD, eD, dD⟩ := hC.createBlock
    obtain ⟨iE, tE, eE⟩ := hD.br cI.next
    have dA5 := (eE (cI.next + 1)).detached cI.next (Nat.lt_succ_self _)
      ((eD (cI.next + 1)).detached cI.next (Nat.lt_succ_self _)
        ((eC (cI.next + 1)).detached cI.next (Nat.lt_succ_self _)
          ((eB (cI.next + 1)).detached cI.next (Nat.lt_succ_self _) dA)))
    have dB5 := (eE (cI.next + 2)).detached (cI.next + 1) (Nat.lt_succ_self _)
      ((eD (cI.next + 2)).detached (cI.next + 1) (Nat.lt_succ_self _)
        ((eC (cI.next + 2)).detached (cI.next + 1) (Nat.lt_succ_self _) dB))
    have dC5 := (eE (cI.next + 3)).detached (cI.next + 2) (Nat.lt_succ_self _)
      ((eD (cI.next + 3)).detached (cI.next + 2) (Nat.lt_succ_self _) dC)
    have dD5 := (eE (cI.next + 4)).detached (cI.next + 3) (Nat.lt_succ_self _) dD
    have hle : c.next ≤ cI.next := eI.1
    have e0 : Ctx.Extends c.next c
        (((((cI.CreateBlock false).2.CreateBlock false).2.CreateBlock false).2.CreateBlock
          false).2.CreateBr cI.next) :=
      ((((eI.trans (eA _)).trans (eB _)).trans (eC _)).trans (eD _)).trans (eE _)
    obtain ⟨h1, e1⟩ := iE.enter tE e0 cI.next dA5 hle
    have dB6 := Ctx.detached_push_set _ cI.next (cI.next + 1) (Nat.succ_ne_self _) dB5
    have dC6 := Ctx.detached_push_set _ cI.next (cI.next + 2) (by omega) dC5
    have dD6 := Ctx.detached_push_set _ cI.next (cI.next + 3) (by omega) dD5
    have hc1 : ((((((cI.CreateBlock true).2.CreateBlock false).2.CreateBlock
          false).2.CreateBlock false).2.CreateBr (cI.CreateBlock true).1).SetInsertPoint
            (cI.CreateBlock true).1) =
        (((((((cI.CreateBlock false).2.CreateBlock false).2.CreateBlock
          false).2.CreateBlock false).2.CreateBr cI.next).pushBack cI.next).SetInsertPoint
            cI.next) := rfl
    rw [hc1]
    generalize hc1def : (((((((cI.CreateBlock false).2.CreateBlock false).2.CreateBlock
          false).2.CreateBlock false).2.CreateBr cI.next).pushBack cI.next).SetInsertPoint
            cI.next) = c1 at h1 e1 dB6 dC6 dD6 ⊢
    split
    · intro h2; simp at h2
    · rename_i u c2 hbr
      have hbranch : c2.Inv ∧ c2.getTerminator = true ∧ Ctx.Extends c1.next c1 c2 := by
        split at hbr
        · split at hbr
          · simp at hbr
          · rename_i cond_value c3 heq
            obtain ⟨h3, e3⟩ := hev _ _ _ _ _ h1 heq
            split at hbr
            · simp at hbr
            · rename_i cv hcv
              simp only [Res.mk.injEq, Except.ok.injEq] at hbr
              rw [← hbr.2]
              obtain ⟨h4, e4⟩ := h3.icmp cv (.constInt (Ty.builtin .bool_).getType 0)
              obtain ⟨i5, t5, e5⟩ := h4.condbr
                (c3.CreateICmpNE cv (.constInt (Ty.builtin .bool_).getType 0)).1
                (((cI.CreateBlock true).2.CreateBlock false).2.CreateBlock false).1
                ((((cI.CreateBlock true).2.CreateBlock false).2.CreateBlock
                  false).2.CreateBlock false).1
              exact ⟨i5, t5, (e3.trans (e4 _)).trans (e5 _)⟩
        · simp only [Res.mk.injEq, Except.ok.injEq] at hbr
          rw [← hbr.2]
          obtain ⟨i5, t5, e5⟩ := h1.condbr (.constInt (.int 1) 1)
            (((cI.CreateBlock true).2.CreateBlock false).2.CreateBlock false).1
            ((((cI.CreateBlock true).2.CreateBlock false).2.CreateBlock
              false).2.CreateBlock false).1
          exact ⟨i5, t5, e5 _⟩
      obtain ⟨i2, t2, e2⟩ := hbranch
      have dB7 := e2.detached (cI.next + 1) (h1.1.lt_next _ dB6.1) dB6
      have dC7 := e2.detached (cI.next + 2) (h1.1.lt_next _ dC6.1) dC6
      have dD7 := e2.detached (cI.next + 3) (h1.1.lt_next _ dD6.1) dD6
      obtain ⟨h3, e3⟩ := i2.enter t2 (e1.step e2) (cI.next + 2) dC7 (by omega)
      have dB8 := Ctx.detached_push_set _ (cI.next + 2) (cI.next + 1) (by omega) dB7
      have dD8 := Ctx.detached_push_set _ (cI.next + 2) (cI.next + 3) (by omega) dD7
      split
      · intro h4; simp at h4
      · rename_i hr
        obtain ⟨i4, e4⟩ := hcg _ _ _ h3 hr
        obtain ⟨i5, t5, e5⟩ := i4.close (cI.next + 1)
        have dB9 := (e5 (cI.next + 2)).detached (cI.next + 1) (Nat.lt_succ_self _)
          (e4.detached (cI.next + 1) (h3.1.lt_next _ dB8.1) dB8)
        have dD9 := (e5 (cI.next + 4)).detached (cI.next + 3) (Nat.lt_succ_self _)
          (e4.detached (cI.next + 3) (h3.1.lt_next _ dD8.1) dD8)
        obtain ⟨h6, e6⟩ := i5.enter t5 ((e3.step e4).trans (e5 _)) (cI.next + 1) dB9
          (by omega)
        have dD10 := Ctx.detached_push_set _ (cI.next + 1) (cI.next + 3) (by omega) dD9
        split
        · intro h7; simp at h7
        · rename_i hs
          intro _
          obtain ⟨h7, e7⟩ := visitFor_step_step ev hev loop_stmt sI _ h6 hs
          obtain ⟨i8, t8, e8⟩ := h7.br cI.next
          have dD11 := (e8 (cI.next + 4)).detached (cI.next + 3) (Nat.lt_succ_self _)
            (e7.detached (cI.next + 3) (h6.1.lt_next _ dD10.1) dD10)
          obtain ⟨h9, e9⟩ := i8.enter t8 ((e6.step e7).trans (e8 _)) (cI.next + 3) dD11
            (by omega)
          exact ⟨h9.1, e9⟩

mutual

/-- Visiting a statement in an open state leaves, when no diagnostic is raised, a state
with the block-termination invariant. -/
theorem visit_step (ev : ExprVisitor) (hev : ExprVisitor.Preserves ev) :
    ∀ (s : Stmt) (cur : Cursors) (scope : SymbolTable) (c : Ctx), c.Open →
      (visit ev s cur scope c).err = none →
      (visit ev s cur scope c).ctx.Inv ∧ Ctx.Extends c.next c (visit ev s cur scope c).ctx
  | .nil, cur, scope, c, h, _ => by
    simp only [visit, visitNil]
    exact ⟨h.1, Ctx.Extends.refl _ _⟩
  | .compound ss, cur, scope, c, h, hok => by
    simp only [visit] at hok ⊢
    exact visitCompound_step ev hev ss cur scope c h hok
  | .expr node, cur, scope, c, h, hok => by
    simp only [visit] at hok ⊢
    exact ⟨(visitExpr_step ev hev node scope c h hok).1.1,
      (visitExpr_step ev hev node scope c h hok).2⟩
  | .return_ pos rhs, cur, scope, c, h, hok => by
    simp only [visit] at hok ⊢
    exact visitReturn_step ev hev cur pos rhs scope c h hok
  | .variableDef node, cur, scope, c, h, hok => by
    simp only [visit] at hok ⊢
    exact ⟨(visitVariableDef_step ev hev node scope c h hok).1.1,
      (visitVariableDef_step ev hev node scope c h hok).2⟩
  | .assignment node, cur, scope, c, h, hok => by
    simp only [visit] at hok ⊢
    exact ⟨(visitAssignment_step ev hev node scope c h hok).1.1,
      (visitAssignment_step ev hev node scope c h hok).2⟩
  | .prefixIncAndDec node, cur, scope, c, h, hok => by
    simp only [visit] at hok ⊢
    exact ⟨(visitPrefixIncAndDec_step ev hev node scope c h hok).1.1,
      (visitPrefixIncAndDec_step ev hev node scope c h hok).2⟩
  | .break_ _, cur, scope, c, h, hok => by
    simp only [visit] at hok ⊢
    exact visitBreak_step cur scope c h hok
  | .continue_ _, cur, scope, c, h, hok => by
    simp only [visit] at hok ⊢
    exact visitContinue_step cur scope c h hok
  | .if_ pos condition t none, cur, scope, c, h, hok => by
    simp only [visit] at hok ⊢
    exact visitIf_step ev hev pos condition _
      (fun sc cu cx hcx hk => codegen_statement_step ev hev t sc cu cx hcx hk) none
      (fun cg hcg => by cases hcg) cur scope c h hok
  | .if_ pos condition t (some e), cur, scope, c, h, hok => by
    simp only [visit] at hok ⊢
    exact visitIf_step_some ev hev pos condition _
      (fun sc cu cx hcx hk => codegen_statement_step ev hev t sc cu cx hcx hk) _
      (fun sc cu cx hcx hk => codegen_statement_step ev hev e sc cu cx hcx hk)
      cur scope c h hok
  | .loop _ body, cur, scope, c, h, hok => by
    simp only [visit] at hok ⊢
    exact visitLoop_step _
      (fun sc cu cx hcx hk => codegen_statement_step ev hev body sc cu cx hcx hk)
      cur scope c h hok
  | .while_ pos cond_expr body, cur, scope, c, h, hok => by
    simp only [visit] at hok ⊢
    exact visitWhile_step ev hev pos cond_expr _
      (fun sc cu cx hcx hk => codegen_statement_step ev hev body sc cu cx hcx hk)
      cur scope c h hok
  | .for_ pos init_stmt cond_expr loop_stmt body, cur, scope, c, h, hok => by
    simp only [visit] at hok ⊢
    exact visitFor_step ev hev pos init_stmt cond_expr loop_stmt _
      (fun sc cu cx hcx hk => codegen_statement_step ev hev body sc cu cx hcx hk)
      cur scope c h hok
termination_by s => (sizeOf s, 0)

theorem visitCompound_step (ev : ExprVisitor) (hev : ExprVisitor.Preserves ev) :
    ∀ (ss : List Stmt) (cur : Cursors) (scope : SymbolTable) (c : Ctx), c.Open →
      (visitCompound ev ss cur scope c).err = none →
      (visitCompound ev ss cur scope c).ctx.Inv ∧
      Ctx.Extends c.next c (visitCompound ev ss cur scope c).ctx
  | ss, cur, scope, c, h, hok => by
    simp only [visitCompound] at hok ⊢
    exact codegen_statement_loop_step ev hev ss cur scope c h hok
termination_by ss => (sizeOf ss, 1)

theorem codegen_statement_step (ev : ExprVisitor) (hev : ExprVisitor.Preserves ev) :
    ∀ (s : Stmt) (scope : SymbolTable) (cur : Cursors) (c : Ctx), c.Open →
      (codegen_statement ev s scope cur c).err = none →
      (codegen_statement ev s scope cur c).ctx.Inv ∧
      Ctx.Extends c.next c (codegen_statement ev s scope cur c).ctx
  | .compound ss, scope, cur, c, h, hok => by
    simp only [codegen_statement] at hok ⊢
    exact codegen_statement_loop_step ev hev ss cur scope c h hok
  | .nil, scope, cur, c, h, hok => by
    simp only [codegen_statement] at hok ⊢
    exact visit_step ev hev .nil cur scope c h hok
  | .expr node, scope, cur, c, h, hok => by
    simp only [codegen_statement] at hok ⊢
    exact visit_step ev hev (.expr node) cur scope c h hok
  | .return_ pos rhs, scope, cur, c, h, hok => by
    simp only [codegen_statement] at hok ⊢
    exact visit_step ev hev (.return_ pos rhs) cur scope c h hok
  | .variableDef node, scope, cur, c, h, hok => by
    simp only [codegen_statement] at hok ⊢
    exact visit_step ev hev (.variableDef node) cur scope c h hok
  | .assignment node, scope, cur, c, h, hok => by
    simp only [codegen_statement] at hok ⊢
    exact visit_step ev hev (.assignment node) cur scope c h hok
  | .prefixIncAndDec node, scope, cur, c, h, hok => by
    simp only [codegen_statement] at hok ⊢
    exact visit_step ev hev (.prefixIncAndDec node) cur scope c h hok
  | .break_ p, scope, cur, c, h, hok => by
    simp only [codegen_statement] at hok ⊢
    exact visit_step ev hev (.break_ p) cur scope c h hok
  | .continue_ p, scope, cur, c, h, hok => by
    simp only [codegen_statement] at hok ⊢
    exact visit_step ev hev (.continue_ p) cur scope c h hok
  | .if_ pos condition t e, scope, cur, c, h, hok => by
    simp only [codegen_statement] at hok ⊢
    exact visit_step ev hev (.if_ pos condition t e) cur scope c h hok
  | .loop p body, scope, cur, c, h, hok => by
    simp only [codegen_statement] at hok ⊢
    exact visit_step ev hev (.loop p body) cur scope c h hok
  | .while_ pos cond_expr body, scope, cur, c, h, hok => by
    simp only [codegen_statement] at hok ⊢
    exact visit_step ev hev (.while_ pos cond_expr body) cur scope c h hok
  | .for_ pos init_stmt cond_expr loop_stmt body, scope, cur, c, h, hok => by
    simp only [codegen_statement] at hok ⊢
    exact visit_step ev hev (.for_ pos init_stmt cond_expr loop_stmt body) cur scope c h hok
termination_by s => (sizeOf s, 1)

theorem codegen_statement_loop_step (ev : ExprVisitor) (hev : ExprVisitor.Preserves ev) :
    ∀ (ss : List Stmt) (cur : Cursors) (scope : SymbolTable) (c : Ctx), c.Open →
      (codegen_statement_loop ev ss cur scope c).err = none →
      (codegen_statement_loop ev ss cur scope c).ctx.Inv ∧
      Ctx.Extends c.next c (codegen_statement_loop ev ss cur scope c).ctx
  | [], cur, scope, c, h, _ => by
    simp only [codegen_statement_loop]
    exact ⟨h.1, Ctx.Extends.refl _ _⟩
  | r :: rest, cur, scope, c, h, hok => by
    rw [codegen_statement_loop] at hok ⊢
    cases hv : (visit ev r cur scope c).err with
    | some d => simp [hv] at hok
    | none =>
      obtain ⟨i1, e1⟩ := visit_step ev hev r cur scope c h hv
      simp only [hv] at hok ⊢
      by_cases ht : (visit ev r cur scope c).ctx.getTerminator = true
      · simp only [ht, if_true]
        exact ⟨i1, e1⟩
      · simp only [ht, if_false] at hok ⊢
        have hopen : (visit ev r cur scope c).ctx.Open :=
          ⟨i1, by simpa using ht⟩
        obtain ⟨i2, e2⟩ := codegen_statement_loop_step ev hev rest cur
          (visit ev r cur scope c).scope (visit ev r cur scope c).ctx hopen hok
        exact ⟨i2, e1.step e2⟩
termination_by ss => (sizeOf ss, 0)

end

/-- The sample expression visitor keeps the block-termination invariant: its only
instruction is the load of an identifier, appended to the open insertion block. -/
theorem sampleExprVisitor_preserves : ExprVisitor.Preserves sampleExprVisitor := by
  intro scope e c v c2 h heq
  unfold sampleExprVisitor at heq
  split at heq
  · simp only [Res.mk.injEq] at heq
    rw [← heq.2]
    exact ⟨h, Ctx.Extends.refl _ _⟩
  · simp only [Res.mk.injEq] at heq
    rw [← heq.2]
    exact ⟨h, Ctx.Extends.refl _ _⟩
  · simp only [Res.mk.injEq] at heq
    rw [← heq.2]
    exact ⟨h, Ctx.Extends.refl _ _⟩
  · split at heq
    · simp only [Res.mk.injEq] at heq
      rw [← heq.2]
      exact ⟨(h.load _ _).1, (h.load _ _).2 _⟩
    · simp at heq
  · split at heq
    · split at heq
      · simp only [Res.mk.injEq] at heq
        rw [← heq.2]
        exact ⟨h, Ctx.Extends.refl _ _⟩
      · simp at heq
    · simp only [Res.mk.injEq] at heq
      rw [← heq.2]
      exact ⟨h, Ctx.Extends.refl _ _⟩
  · simp only [Res.mk.injEq] at heq
    rw [← heq.2]
    exact ⟨h, Ctx.Extends.refl _ _⟩

/-- The builder state at the start of a function body is well formed. -/
theorem ctx0_wellFormed : ctx0.WellFormed := by
  refine ⟨?_, ?_, ?_, ?_⟩ <;> simp [ctx0, Ctx.ids, Ctx.instsOf]

/-! ## The block-termination invariant of the statement visitor -/

/-- C16: block-termination invariant.  Let the expression visitor keep the invariant, and
let the builder state before lowering be well formed, with every block of the function
other than the insertion block ending in a terminator, no block holding an instruction
after a terminator, and the insertion block unterminated.  If the statement visitor
lowers a statement (of any form, nested to any depth) without a diagnostic, then
afterwards every block of the function other than the current insertion block ends in a
terminator, and no block has an instruction after a terminator. -/
theorem block_termination_invariant (ev : ExprVisitor) (hev : ExprVisitor.Preserves ev)
    (s : Stmt) (cur : Cursors) (scope : SymbolTable) (c : Ctx)
    (hwf : c.WellFormed)
    (hterm : ∀ id ∈ c.layout, id ≠ c.insertBlock → endsInTerminator (c.instsOf id) = true)
    (hno : ∀ id ∈ c.ids, noEarlyTerminator (c.instsOf id))
    (hopen : c.getTerminator = false)
    (hok : (visit ev s cur scope c).err = none) :
    (∀ id ∈ (visit ev s cur scope c).ctx.layout, id ≠ (visit ev s cur scope c).ctx.insertBlock →
      endsInTerminator ((visit ev s cur scope c).ctx.instsOf id) = true) ∧
    (∀ id ∈ (visit ev s cur scope c).ctx.ids,
      noEarlyTerminator ((visit ev s cur scope c).ctx.instsOf id)) :=
  (visit_step ev hev s cur scope c ⟨⟨hwf, hterm, hno⟩, hopen⟩ hok).1.2

/-- C16, witness: the invariant holds after lowering `if (true) return 1; else 0;` at the
start of a function body returning `i32`; the statement lowers without a diagnostic, and
afterwards the entry block, the then block and the else block end in a terminator while
the merge block is the insertion block. -/
theorem block_termination_invariant_witness :
    ExprVisitor.Preserves sampleExprVisitor ∧ ctx0.WellFormed ∧
    ctx0.getTerminator = false ∧
    (visit sampleExprVisitor
      (.if_ 1 (.bool true) (.return_ 2 (some (.int32 1))) (some (.expr (.int32 0))))
      cur0 emptyScope ctx0).err = none ∧
    ((∀ id ∈ (visit sampleExprVisitor
        (.if_ 1 (.bool true) (.return_ 2 (some (.int32 1))) (some (.expr (.int32 0))))
        cur0 emptyScope ctx0).ctx.layout,
      id ≠ (visit sampleExprVisitor
        (.if_ 1 (.bool true) (.return_ 2 (some (.int32 1))) (some (.expr (.int32 0))))
        cur0 emptyScope ctx0).ctx.insertBlock →
      endsInTerminator
        ((visit sampleExprVisitor
          (.if_ 1 (.bool true) (.return_ 2 (some (.int32 1))) (some (.expr (.int32 0))))
          cur0 emptyScope ctx0).ctx.instsOf id) = true) ∧
    (∀ id ∈ (visit sampleExprVisitor
        (.if_ 1 (.bool true) (.return_ 2 (some (.int32 1))) (some (.expr (.int32 0))))
        cur0 emptyScope ctx0).ctx.ids,
      noEarlyTerminator
        ((visit sampleExprVisitor
          (.if_ 1 (.bool true) (.return_ 2 (some (.int32 1))) (some (.expr (.int32 0))))
          cur0 emptyScope ctx0).ctx.instsOf id))) :=
  have hok : (visit sampleExprVisitor
      (.if_ 1 (.bool true) (.return_ 2 (some (.int32 1))) (some (.expr (.int32 0))))
      cur0 emptyScope ctx0).err = none := by
    simp [visit, visitIf, Value.toBool, visitReturn, visitExpr, sampleExprVisitor,
      codegen_statement, emptyScope, ctx0, cur0, LValue.getType, LType.isPointerTy,
      LType.getPointerElementType, Ty.getType, Ctx.CreateLoad, Ctx.CreateStore,
      Ctx.CreateICmpNE, Ctx.CreateBr, Ctx.CreateCondBr, Ctx.CreateBlock,
      Ctx.pushBack, Ctx.SetInsertPoint, Ctx.emit, Ctx.getTerminator,
      BasicBlock.hasTerminator, Instr.isTerminator]
  ⟨sampleExprVisitor_preserves, ctx0_wellFormed,
    by simp [ctx0, Ctx.getTerminator, BasicBlock.hasTerminator],
    hok,
    block_termination_invariant sampleExprVisitor sampleExprVisitor_preserves
      (.if_ 1 (.bool true) (.return_ 2 (some (.int32 1))) (some (.expr (.int32 0))))
      cur0 emptyScope ctx0 ctx0_wellFormed
      (by simp [ctx0])
      (by simp [ctx0, Ctx.ids, Ctx.instsOf, noEarlyTerminator])
      (by simp [ctx0, Ctx.getTerminator, BasicBlock.hasTerminator])
      hok⟩

/-! ## Type inference of a variable definition -/

theorem init_array_map_some (a : LValue) (vs : List LValue) (i : Nat) (c : Ctx) :
    ∃ c2, init_array a (vs.map some) i c = ⟨.ok (), c2⟩ := by
  induction vs generalizing i c with
  | nil => exact ⟨c, rfl⟩
  | cons v rest ih =>
    simp only [List.map_cons, init_array]
    exact ih _ _

/-- C21.  Type inference: a `VariableDef` without a type whose name is free.  If the
initializer is an expression lowering to a value `v`, the storage is allocated with the
type of `v`, `v` is stored into it, and the binding registered carries the signedness of
the value.  If the initializer is a list whose `n >= 1` values all have type `E`, the
definition lowers without a diagnostic and the storage registered for the name is
allocated with the array type of `n` elements of `E`. -/
theorem variableDef_type_inference (ev : ExprVisitor) (node : VariableDef)
    (scope : SymbolTable) (ctx : Ctx) (hty : node.type = none)
    (hfree : scope.exists node.name = false) :
    (∀ e v sg c, node.initializer = some (.expr e) → ev scope e ctx = ⟨.ok ⟨some v, sg⟩, c⟩ →
      visitVariableDef ev node scope ctx =
        ⟨none,
          visitVariableDef.regist node scope
            (create_entry_block_alloca c node.name v.getType).1 sg,
          (create_entry_block_alloca c node.name v.getType).2.CreateStore v
            (create_entry_block_alloca c node.name v.getType).1⟩ ∧
      getAllocatedType (create_entry_block_alloca c node.name v.getType).1 = v.getType) ∧
    (∀ inits vs c E, node.initializer = some (.initList inits) →
      gen_init_list ev scope inits ctx = ⟨.ok (vs.map some), c⟩ → vs ≠ [] →
      (∀ x ∈ vs, x.getType = E) →
      (visitVariableDef ev node scope ctx).err = none ∧
      (visitVariableDef ev node scope ctx).scope =
        visitVariableDef.regist node scope
          (create_entry_block_alloca c node.name (.array E vs.length)).1 false ∧
      getAllocatedType (create_entry_block_alloca c node.name (.array E vs.length)).1 =
        .array E vs.length) := by
  refine ⟨fun e v sg c hi hev => ?_, fun inits vs c E hi hg hne hE => ?_⟩
  · refine ⟨?_, rfl⟩
    simp [visitVariableDef, hty, hi, hfree, create_variable_with_type_inference, hev]
  · cases vs with
    | nil => exact absurd rfl hne
    | cons x rest =>
      have hx : x.getType = E := hE x (by simp)
      obtain ⟨c2, h2⟩ := init_array_map_some
        (create_entry_block_alloca c node.name (.array E (rest.length + 1))).1 (x :: rest) 0
        (create_entry_block_alloca c node.name (.array E (rest.length + 1))).2
      simp only [List.map_cons] at hg h2
      refine ⟨?_, ?_, rfl⟩
      · simp [visitVariableDef, hty, hi, hfree, create_variable_with_type_inference, hg, hx, h2]
      · simp [visitVariableDef, hty, hi, hfree, create_variable_with_type_inference, hg, hx, h2]

/-- C21, witness: `let x = 7;` allocates an `i32`, stores `7` and binds `x` as signed;
`let a = {1, 2, 3};` allocates `[3 x i32]`. -/
theorem variableDef_type_inference_witness :
    (visitVariableDef sampleExprVisitor letInferred emptyScope ctx0 =
        ⟨none,
          visitVariableDef.regist letInferred emptyScope
            (create_entry_block_alloca ctx0 "x" (.int 32)).1 true,
          (create_entry_block_alloca ctx0 "x" (.int 32)).2.CreateStore
            (.constInt (.int 32) 7) (create_entry_block_alloca ctx0 "x" (.int 32)).1⟩ ∧
      getAllocatedType (create_entry_block_alloca ctx0 "x" (.int 32)).1 = .int 32) ∧
    ((visitVariableDef sampleExprVisitor letArrayInferred emptyScope ctx0).err = none ∧
      (visitVariableDef sampleExprVisitor letArrayInferred emptyScope ctx0).scope =
        visitVariableDef.regist letArrayInferred emptyScope
          (create_entry_block_alloca ctx0 "a" (.array (.int 32) 3)).1 false ∧
      getAllocatedType (create_entry_block_alloca ctx0 "a" (.array (.int 32) 3)).1 =
        .array (.int 32) 3) :=
  ⟨(variableDef_type_inference sampleExprVisitor letInferred emptyScope ctx0 rfl rfl).1
      (.int32 7) (.constInt (.int 32) 7) true ctx0 rfl rfl,
    (variableDef_type_inference sampleExprVisitor letArrayInferred emptyScope ctx0 rfl rfl).2
      [.int32 1, .int32 2, .int32 3]
      [.constInt (.int 32) 1, .constInt (.int 32) 2, .constInt (.int 32) 3] ctx0 (.int 32)
      rfl (by simp [gen_init_list, sampleExprVisitor]) (by simp)
      (by simp [LValue.getType])⟩

/-! ## The kind of a binary operator -/

/-- C22.  `BinOp::kind` on operator strings: the ten operators map to their kinds, `>`
maps to `ge` (the kind of `>=`), every other string maps to `unknown`, and `gt` is
returned for no string. -/
theorem binOp_kind_table :
    BinOp.kind "+" = .add ∧ BinOp.kind "-" = .sub ∧ BinOp.kind "*" = .mul ∧
    BinOp.kind "/" = .div ∧ BinOp.kind "%" = .mod ∧ BinOp.kind "==" = .eq ∧
    BinOp.kind "!=" = .neq ∧ BinOp.kind "<" = .lt ∧ BinOp.kind "<=" = .le ∧
    BinOp.kind ">=" = .ge ∧ BinOp.kind ">" = .ge ∧
    (∀ op : String, op ∉ ["+", "-", "*", "/", "%", "==", "!=", "<", ">", "<=", ">="] →
      BinOp.kind op = .unknown) ∧
    (∀ op : String, BinOp.kind op ≠ .gt) := by
  refine ⟨by decide, by decide, by decide, by decide, by decide, by decide, by decide,
    by decide, by decide, by decide, by decide, fun op h => ?_, fun op => ?_⟩
  · simp only [List.mem_cons, List.mem_singleton, List.not_mem_nil, or_false, not_or] at h
    simp [BinOp.kind, h]
  · unfold BinOp.kind
    repeat (first | split | simp)

/-- C22, witness: `&&` is none of the eleven operator strings and maps to `unknown`. -/
theorem binOp_kind_table_witness :
    "&&" ∉ ["+", "-", "*", "/", "%", "==", "!=", "<", ">", "<=", ">="] ∧
    BinOp.kind "&&" = .unknown :=
  ⟨by decide, binOp_kind_table.2.2.2.2.2.2.2.2.2.2.2.1 "&&" (by decide)⟩

/-! ## Signedness and lowered types of a typed definition -/

/-- C35.  A `VariableDef` with an explicit type `T` that lowers without a diagnostic
registers its binding with the signedness `T.isSigned()`, whatever the signedness of the
initializer's value: the registered scope is `regist` applied to `T.isSigned()`, and for
an absent or `mutable` qualifier the binding found under the name carries it. -/
theorem variableDef_signedness_from_type (ev : ExprVisitor) (node : VariableDef)
    (T : Ty) (scope : SymbolTable) (ctx : Ctx) (hT : node.type = some T)
    (hok : (visitVariableDef ev node scope ctx).err = none) :
    (visitVariableDef ev node scope ctx).scope =
      visitVariableDef.regist node scope
        (create_entry_block_alloca ctx node.name T.getType).1 T.isSigned ∧
    (node.qualifier = none ∨ node.qualifier = some .mutable_ →
      ∃ var, (visitVariableDef ev node scope ctx).scope.lookup node.name = some var ∧
        var.is_signed = T.isSigned) := by
  obtain ⟨hfree, c, ty, sg, hs, hTy, _⟩ := visitVariableDef_ok ev node scope ctx hok
  obtain ⟨hc, hty, hsg⟩ := hTy T hT
  subst hc hty hsg
  refine ⟨hs, fun hq => ?_⟩
  rw [hs]
  rcases hq with hq | hq
  · refine ⟨⟨(create_entry_block_alloca c node.name T.getType).1, false, T.isSigned⟩, ?_, rfl⟩
    simp only [visitVariableDef.regist, hq]
    exact SymbolTable.lookup_regist _ _ _ hfree
  · refine ⟨⟨(create_entry_block_alloca c node.name T.getType).1, true, T.isSigned⟩, ?_, rfl⟩
    simp only [visitVariableDef.regist, hq, if_true]
    exact SymbolTable.lookup_regist _ _ _ hfree

/-- C35, witness: in `let x: u32 = 7;` the initializer `7` is a signed value, the
definition lowers without a diagnostic, and `x` is bound as unsigned. -/
theorem variableDef_signedness_from_type_witness :
    sampleExprVisitor emptyScope (.int32 7) ctx0 =
      ⟨.ok ⟨some (.constInt (.int 32) 7), true⟩, ctx0⟩ ∧
    (visitVariableDef sampleExprVisitor letU32 emptyScope ctx0).err = none ∧
    ∃ var, (visitVariableDef sampleExprVisitor letU32 emptyScope ctx0).scope.lookup "x" =
        some var ∧ var.is_signed = false :=
  have hok : (visitVariableDef sampleExprVisitor letU32 emptyScope ctx0).err = none := by
    simp [visitVariableDef, letU32, emptyScope, SymbolTable.exists, create_variable_with_type,
      sampleExprVisitor, Ty.getType, LValue.getType]
  ⟨rfl, hok,
    (variableDef_signedness_from_type sampleExprVisitor letU32 (.builtin .u32) emptyScope ctx0
      rfl hok).2 (Or.inl rfl)⟩

/-- C36.  `BuiltinType::getType` lowers `char` to the 32-bit integer type, `bool` to the
1-bit integer type, `void` to the void type, and `i_n` and `u_n` to the same `n`-bit
integer type for `n` in 8, 16, 32, 64; a check that compares lowered types cannot tell
them apart: `let x: u32 = 7;`, whose initializer is an `i32` value, passes the type check
of `create_variable_with_type`. -/
theorem builtin_getType_table :
    (Ty.builtin .char_).getType = .int 32 ∧ (Ty.builtin .bool_).getType = .int 1 ∧
    (Ty.builtin .void_).getType = .void ∧
    (Ty.builtin .i8).getType = .int 8 ∧ (Ty.builtin .u8).getType = .int 8 ∧
    (Ty.builtin .i16).getType = .int 16 ∧ (Ty.builtin .u16).getType = .int 16 ∧
    (Ty.builtin .i32).getType = .int 32 ∧ (Ty.builtin .u32).getType = .int 32 ∧
    (Ty.builtin .i64).getType = .int 64 ∧ (Ty.builtin .u64).getType = .int 64 ∧
    (sampleExprVisitor emptyScope (.int32 7) ctx0 =
        ⟨.ok ⟨some (.constInt (Ty.builtin .i32).getType 7), true⟩, ctx0⟩ ∧
      (visitVariableDef sampleExprVisitor letU32 emptyScope ctx0).err = none) := by
  refine ⟨rfl, rfl, rfl, rfl, rfl, rfl, rfl, rfl, rfl, rfl, rfl, rfl, ?_⟩
  simp [visitVariableDef, letU32, emptyScope, SymbolTable.exists, create_variable_with_type,
    sampleExprVisitor, Ty.getType, LValue.getType]

/-! ## The operators of an assignment -/

/-- C37.  `Assignment::kind()` is not `unknown` exactly for the six operator strings
`=`, `+=`, `-=`, `*=`, `/=`, `%=`.  For any other operator string the visitor emits
nothing and raises no diagnostic.  For each of the six a lowering without diagnostic
appends, after the two operands are lowered, a load of the left-hand side, for a
compound operator one arithmetic instruction, and one store to the left-hand side
address. -/
theorem assignment_operators (ev : ExprVisitor) (a : Assignment) (scope : SymbolTable)
    (ctx : Ctx) :
    (a.kind ≠ .unknown ↔ a.op ∈ ["=", "+=", "-=", "*=", "/=", "%="]) ∧
    (a.kind = .unknown → visitAssignment ev a scope ctx = ⟨none, scope, ctx⟩) ∧
    (a.kind ≠ .unknown → (visitAssignment ev a scope ctx).err = none →
      ∃ lhs l c0 rhs r c1,
        gen_assignable_value_from_expr ev scope a.lhs a.pos ctx = ⟨.ok lhs, c0⟩ ∧
        lhs.value = some l ∧ ev scope a.rhs c0 = ⟨.ok rhs, c1⟩ ∧ rhs.value = some r ∧
        (a.op = "=" → (visitAssignment ev a scope ctx).ctx =
          (c1.CreateLoad l.getType.getPointerElementType l).2.CreateStore r l) ∧
        (a.op ≠ "=" → ∃ bop, (visitAssignment ev a scope ctx).ctx = loadOpStore c1 bop l r)) := by
  have hk : a.kind ≠ .unknown ↔ a.op ∈ ["=", "+=", "-=", "*=", "/=", "%="] := by
    simp only [Assignment.kind, List.mem_cons, List.mem_singleton, List.not_mem_nil, or_false]
    repeat (first | split | simp_all)
  refine ⟨hk, fun hu => ?_, fun hn hok => ?_⟩
  · have hnot : a.op ∉ ["=", "+=", "-=", "*=", "/=", "%="] := fun h => (hk.2 h) hu
    simp only [List.mem_cons, List.mem_singleton, List.not_mem_nil, or_false, not_or] at hnot
    simp [visitAssignment, hnot]
  · have hin := hk.1 hn
    simp only [List.mem_cons, List.mem_singleton, List.not_mem_nil, or_false] at hin
    cases hl : gen_assignable_value_from_expr ev scope a.lhs a.pos ctx with
    | mk lv c0 =>
      cases lv with
      | error d => simp [visitAssignment, hin, hl] at hok
      | ok lhs =>
        cases hr : ev scope a.rhs c0 with
        | mk rv c1 =>
          cases rv with
          | error d => simp [visitAssignment, hin, hl, hr] at hok
          | ok rhs =>
            cases hrv : rhs.value with
            | none => simp [visitAssignment, hin, hl, hr, hrv] at hok
            | some r =>
              cases hlv : lhs.value with
              | none => simp [visitAssignment, hin, hl, hr, hrv, hlv] at hok
              | some l =>
                by_cases hty : l.getType.getPointerElementType = r.getType
                · refine ⟨lhs, l, c0, rhs, r, c1, rfl, hlv, hr, hrv, fun hop => ?_,
                    fun hop => ?_⟩
                  · simp [visitAssignment, hop, hl, hr, hrv, hlv, hty]
                  · rcases hin with h | h | h | h | h | h
                    · exact absurd h hop
                    · exact ⟨.Add, by
                        simp [visitAssignment, h, hl, hr, hrv, hlv, hty, loadOpStore]⟩
                    · exact ⟨.Sub, by
                        simp [visitAssignment, h, hl, hr, hrv, hlv, hty, loadOpStore]⟩
                    · exact ⟨.Mul, by
                        simp [visitAssignment, h, hl, hr, hrv, hlv, hty, loadOpStore]⟩
                    · exact ⟨if rhs.is_signed || lhs.is_signed then .SDiv else .UDiv, by
                        simp only [visitAssignment, h, hl, hr, hrv, hlv, hty, loadOpStore]
                        cases rhs.is_signed <;> cases lhs.is_signed <;> simp⟩
                    · exact ⟨if rhs.is_signed || lhs.is_signed then .SRem else .URem, by
                        simp only [visitAssignment, h, hl, hr, hrv, hlv, hty, loadOpStore]
                        cases rhs.is_signed <;> cases lhs.is_signed <;> simp⟩
                · simp [visitAssignment, hin, hl, hr, hrv, hlv, hty] at hok

/-- C37, witness: `x <<= 2` has kind `unknown` and lowers to nothing, without a
diagnostic; `x += 2` on a mutable `x` lowers to a load, an add and one store. -/
theorem assignment_operators_witness :
    visitAssignment sampleExprVisitor ⟨5, .identifier "x", "<<=", .int32 2⟩ scopeXmut ctxX =
      ⟨none, scopeXmut, ctxX⟩ ∧
    ∃ lhs l c0 rhs r c1,
      gen_assignable_value_from_expr sampleExprVisitor scopeXmut (.identifier "x") 5 ctxX =
        ⟨.ok lhs, c0⟩ ∧
      lhs.value = some l ∧ sampleExprVisitor scopeXmut (.int32 2) c0 = ⟨.ok rhs, c1⟩ ∧
      rhs.value = some r ∧
      (("+=" : String) = "=" →
        (visitAssignment sampleExprVisitor ⟨5, .identifier "x", "+=", .int32 2⟩ scopeXmut
          ctxX).ctx = (c1.CreateLoad l.getType.getPointerElementType l).2.CreateStore r l) ∧
      (("+=" : String) ≠ "=" → ∃ bop,
        (visitAssignment sampleExprVisitor ⟨5, .identifier "x", "+=", .int32 2⟩ scopeXmut
          ctxX).ctx = loadOpStore c1 bop l r) :=
  ⟨(assignment_operators sampleExprVisitor ⟨5, .identifier "x", "<<=", .int32 2⟩ scopeXmut
      ctxX).2.1 (by decide),
    (assignment_operators sampleExprVisitor ⟨5, .identifier "x", "+=", .int32 2⟩ scopeXmut
      ctxX).2.2 (by decide) (by
        simp [visitAssignment, gen_assignable_value_from_expr, scopeXmut, SymbolTable.lookup,
          sampleExprVisitor, LValue.getType, LType.isPointerTy,
          LType.getPointerElementType])⟩

/-! ## The comparison that converts a condition -/

/-- C38, the code at the failing input: the condition `7` lowers to an `i32` value; in
`if (7) {}`, `while (7) {}` and `for (; 7;) {}` the `icmp ne` that converts it compares
the `i32` value with a zero constant of type `i1`, the lowering of `bool`, so the two
operands have different types. -/
theorem condition_compared_with_i1_zero :
    (visit sampleExprVisitor (.if_ 1 (.int32 7) (.compound []) none) cur0 emptyScope
        ctx0).ctx.instsOf 0 =
      [.icmp_ne 1 (.constInt (.int 32) 7) (.constInt (.int 1) 0),
        .condbr (.inst 1 (.int 1)) 2 3] ∧
    (visit sampleExprVisitor (.while_ 1 (.int32 7) (.compound [])) cur0 emptyScope
        ctx0).ctx.instsOf 1 =
      [.icmp_ne 4 (.constInt (.int 32) 7) (.constInt (.int 1) 0),
        .condbr (.inst 4 (.int 1)) 2 3] ∧
    (visit sampleExprVisitor (.for_ 1 none (some (.int32 7)) none (.compound [])) cur0
        emptyScope ctx0).ctx.instsOf 1 =
      [.icmp_ne 5 (.constInt (.int 32) 7) (.constInt (.int 1) 0),
        .condbr (.inst 5 (.int 1)) 3 4] ∧
    (LValue.constInt (.int 32) 7).getType ≠ (LValue.constInt (.int 1) 0).getType := by
  refine ⟨?_, ?_, ?_, by decide⟩
  · simp [visit, visitIf, sampleExprVisitor, codegen_statement, codegen_statement_loop,
      emptyScope, ctx0, cur0, Ty.getType, Ctx.CreateICmpNE, Ctx.CreateBr, Ctx.CreateCondBr,
      Ctx.CreateBlock, Ctx.pushBack, Ctx.SetInsertPoint, Ctx.emit, Ctx.getTerminator,
      BasicBlock.hasTerminator, Instr.isTerminator, Ctx.instsOf]
  · simp [visit, visitWhile, sampleExprVisitor, codegen_statement, codegen_statement_loop,
      emptyScope, ctx0, cur0, Ty.getType, Ctx.CreateICmpNE, Ctx.CreateBr, Ctx.CreateCondBr,
      Ctx.CreateBlock, Ctx.pushBack, Ctx.SetInsertPoint, Ctx.emit, Ctx.getTerminator,
      BasicBlock.hasTerminator, Instr.isTerminator, Ctx.instsOf]
  · simp [visit, visitFor, sampleExprVisitor, codegen_statement, codegen_statement_loop,
      emptyScope, ctx0, cur0, Ty.getType, Ctx.CreateICmpNE, Ctx.CreateBr, Ctx.CreateCondBr,
      Ctx.CreateBlock, Ctx.pushBack, Ctx.SetInsertPoint, Ctx.emit, Ctx.getTerminator,
      BasicBlock.hasTerminator, Instr.isTerminator, Ctx.instsOf]

/-! ## Inference from an empty initializer list -/

/-- C40, the code at the failing input: for `let a = {};` the list of initializer values
is empty and `create_variable_with_type_inference` reads `init_list.front()`, the first
element of an empty vector; no diagnostic is raised before that read, and nothing is
allocated. -/
theorem inference_reads_front_of_empty_list :
    gen_init_list sampleExprVisitor emptyScope [] ctx0 = ⟨.ok [], ctx0⟩ ∧
    create_variable_with_type_inference sampleExprVisitor emptyScope 11 "a"
        (some (.initList [])) ctx0 =
      ⟨.error (.undefined "front of an empty initializer list"), ctx0⟩ ∧
    visitVariableDef sampleExprVisitor letEmptyList emptyScope ctx0 =
      ⟨some (.undefined "front of an empty initializer list"), emptyScope, ctx0⟩ := by
  refine ⟨rfl, ?_, ?_⟩
  · simp [create_variable_with_type_inference, gen_init_list]
  · simp [visitVariableDef, letEmptyList, emptyScope, SymbolTable.exists,
      create_variable_with_type_inference, gen_init_list]

/-! ## States reached by lowering -/

theorem Instr.targets_of_not_terminator (i : Instr) (h : i.isTerminator = false) :
    i.targets = [] := by
  cases i <;> first | rfl | simp [Instr.isTerminator] at h

theorem Ctx.Reach.thenEmit {cur : Cursors} {k : Bool} {c0 c : Ctx} (h : Ctx.Reach cur k c0 c) (i : Instr)
    (hi : ∀ t ∈ i.targets, cur.OkTarget c0.next t) : Ctx.Reach cur k c0 (c.emit i) :=
  Ctx.Reach.append [i] c.next h (fun j hj => by
    rw [List.mem_singleton] at hj; subst hj; exact hi) (Nat.le_refl _)

theorem Ctx.Reach.thenStore {cur : Cursors} {k : Bool} {c0 c : Ctx} (h : Ctx.Reach cur k c0 c)
    (v p : LValue) : Ctx.Reach cur k c0 (c.CreateStore v p) :=
  h.thenEmit _ (fun t ht => by simp [Instr.targets] at ht)

theorem Ctx.Reach.thenLoad {cur : Cursors} {k : Bool} {c0 c : Ctx} (h : Ctx.Reach cur k c0 c)
    (ty : LType) (p : LValue) : Ctx.Reach cur k c0 (c.CreateLoad ty p).2 :=
  Ctx.Reach.append [.load c.next ty p] (c.next + 1) h (fun j hj => by
    rw [List.mem_singleton] at hj; subst hj; simp [Instr.targets]) (Nat.le_succ _)

theorem Ctx.Reach.thenBinary {cur : Cursors} {k : Bool} {c0 c : Ctx} (h : Ctx.Reach cur k c0 c)
    (op : BinaryOps) (a b : LValue) : Ctx.Reach cur k c0 (c.CreateBinary op a b).2 :=
  Ctx.Reach.append [.binary c.next op a b] (c.next + 1) h (fun j hj => by
    rw [List.mem_singleton] at hj; subst hj; simp [Instr.targets]) (Nat.le_succ _)

theorem Ctx.Reach.thenICmp {cur : Cursors} {k : Bool} {c0 c : Ctx} (h : Ctx.Reach cur k c0 c)
    (a b : LValue) : Ctx.Reach cur k c0 (c.CreateICmpNE a b).2 :=
  Ctx.Reach.append [.icmp_ne c.next a b] (c.next + 1) h (fun j hj => by
    rw [List.mem_singleton] at hj; subst hj; simp [Instr.targets]) (Nat.le_succ _)

theorem Ctx.Reach.thenInsertValue {cur : Cursors} {k : Bool} {c0 c : Ctx} (h : Ctx.Reach cur k c0 c)
    (a b : LValue) (idx : Nat) : Ctx.Reach cur k c0 (c.CreateInsertValue a b idx).2 :=
  Ctx.Reach.append [.insertvalue c.next a b idx] (c.next + 1) h (fun j hj => by
    rw [List.mem_singleton] at hj; subst hj; simp [Instr.targets]) (Nat.le_succ _)

theorem Ctx.Reach.thenBr {cur : Cursors} {k : Bool} {c0 c : Ctx} (h : Ctx.Reach cur k c0 c) (bb : Nat)
    (hb : cur.OkTarget c0.next bb) : Ctx.Reach cur k c0 (c.CreateBr bb) :=
  h.thenEmit _ (fun t ht => by
    simp only [Instr.targets, List.mem_singleton] at ht; subst ht; exact hb)

theorem Ctx.Reach.thenCondBr {cur : Cursors} {k : Bool} {c0 c : Ctx} (h : Ctx.Reach cur k c0 c)
    (v : LValue) (t f : Nat) (ht : cur.OkTarget c0.next t) (hf : cur.OkTarget c0.next f) :
    Ctx.Reach cur k c0 (c.CreateCondBr v t f) :=
  h.thenEmit _ (fun x hx => by
    simp only [Instr.targets, List.mem_cons, List.mem_singleton, List.not_mem_nil,
      or_false] at hx
    rcases hx with rfl | rfl
    · exact ht
    · exact hf)

theorem Ctx.Reach.next_le {cur : Cursors} {k : Bool} {c0 c : Ctx} (h : Ctx.Reach cur k c0 c) :
    c0.next ≤ c.next := by
  induction h with
  | refl => exact Nat.le_refl _
  | append post n _ _ hn ih => exact Nat.le_trans ih hn
  | alloca name ty _ ih => exact Nat.le_trans ih (Nat.le_succ _)
  | createBlock attach _ _ ih => exact Nat.le_trans ih (Nat.le_succ _)
  | pushBack bb _ _ _ ih => exact ih
  | setInsertPoint bb _ _ _ ih => exact ih

/-- Lowering continued from a reached state, with cursors that are allowed targets of the
first part. -/
theorem Ctx.Reach.comp {cur cur2 : Cursors} {k : Bool} {c0 c1 c2 : Ctx} (h1 : Ctx.Reach cur k c0 c1)
    (h2 : Ctx.Reach cur2 k c1 c2)
    (hc : ∀ t, cur2.OkTarget c1.next t → cur.OkTarget c0.next t) :
    Ctx.Reach cur k c0 c2 := by
  induction h2 with
  | refl => exact h1
  | append post n _ ht hn ih =>
    exact Ctx.Reach.append post n ih (fun i hi t hti => hc t (ht i hi t hti)) hn
  | alloca name ty _ ih => exact Ctx.Reach.alloca name ty ih
  | createBlock attach _ hk ih => exact Ctx.Reach.createBlock attach ih hk
  | pushBack bb _ hk hb ih =>
    exact Ctx.Reach.pushBack bb ih hk (Nat.le_trans h1.next_le hb)
  | setInsertPoint bb _ hk hb ih =>
    exact Ctx.Reach.setInsertPoint bb ih hk (Nat.le_trans h1.next_le hb)

theorem Cursors.OkTarget.weaken {cur : Cursors} {n m t : Nat} (h : cur.OkTarget m t)
    (hnm : n ≤ m) : cur.OkTarget n t := by
  rcases h with h | h | h | h
  · exact Or.inl h
  · exact Or.inr (Or.inl h)
  · exact Or.inr (Or.inr (Or.inl h))
  · exact Or.inr (Or.inr (Or.inr (Nat.le_trans hnm h)))

/-- Lowering continued with the same cursors. -/
theorem Ctx.Reach.andThen {cur : Cursors} {k : Bool} {c0 c1 c2 : Ctx} (h1 : Ctx.Reach cur k c0 c1)
    (h2 : Ctx.Reach cur k c1 c2) : Ctx.Reach cur k c0 c2 :=
  h1.comp h2 (fun _ ht => ht.weaken h1.next_le)

/-- Lowering of a loop body continued from a reached state: the body branches to the
`end_bb` of the visitor and to the two loop blocks, which are created since `c0`. -/
theorem Ctx.Reach.loopBody {cur : Cursors} {c0 c1 c2 : Ctx} (h1 : Ctx.Reach cur true c0 c1)
    (b j : Nat) (h2 : Ctx.Reach ⟨cur.retvar, cur.end_bb, some b, some j⟩ true c1 c2)
    (hb : c0.next ≤ b) (hj : c0.next ≤ j) : Ctx.Reach cur true c0 c2 :=
  h1.comp h2 (fun t ht => by
    rcases ht with h | h | h | h
    · exact Or.inl h
    · simp only [Option.some.injEq] at h
      exact Or.inr (Or.inr (Or.inr (h ▸ hb)))
    · simp only [Option.some.injEq] at h
      exact Or.inr (Or.inr (Or.inr (h ▸ hj)))
    · exact Or.inr (Or.inr (Or.inr (Nat.le_trans h1.next_le h))))

/-- The expression visitor reaches its result. -/
theorem Ctx.Reach.expr {ev : ExprVisitor} (hsl : ExprVisitor.StraightLine ev)
    {cur : Cursors} {k : Bool} {c0 c c2 : Ctx} {r : Except Diag Value} {scope : SymbolTable}
    {e : Expr} (heq : ev scope e c = ⟨r, c2⟩) (h : Ctx.Reach cur k c0 c) :
    Ctx.Reach cur k c0 c2 := by
  obtain ⟨post, n, hp, hn, hc⟩ := hsl scope e c
  rw [heq] at hc
  dsimp only at hc
  rw [hc]
  exact Ctx.Reach.append post n h (fun i hi t ht => by
    rw [Instr.targets_of_not_terminator i (hp i hi)] at ht; cases ht) hn

/-! ## The statement visitor reaches its result -/

theorem visitExpr_reach (ev : ExprVisitor) (hsl : ExprVisitor.StraightLine ev)
    {cur : Cursors} {k : Bool} {c0 c : Ctx} (h : Ctx.Reach cur k c0 c) (node : Expr)
    (scope : SymbolTable) : Ctx.Reach cur k c0 (visitExpr ev node scope c).ctx := by
  unfold visitExpr
  split
  · exact Ctx.Reach.expr hsl (by assumption) h
  · split <;> exact Ctx.Reach.expr hsl (by assumption) h

theorem gen_init_list_reach (ev : ExprVisitor) (hsl : ExprVisitor.StraightLine ev)
    {cur : Cursors} {k : Bool} {c0 : Ctx} (scope : SymbolTable) (inits : List Expr) :
    ∀ (c c2 : Ctx) (r : Except Diag (List (Option LValue))), Ctx.Reach cur k c0 c →
      gen_init_list ev scope inits c = ⟨r, c2⟩ → Ctx.Reach cur k c0 c2 := by
  induction inits with
  | nil =>
    intro c c2 r h heq
    simp only [gen_init_list, Res.mk.injEq] at heq
    rw [← heq.2]; exact h
  | cons e rest ih =>
    intro c c2 r h heq
    rw [gen_init_list] at heq
    split at heq
    · simp only [Res.mk.injEq] at heq
      rw [← heq.2]
      exact Ctx.Reach.expr hsl (by assumption) h
    · rename_i v c1 hev
      have h1 : Ctx.Reach cur k c0 c1 := Ctx.Reach.expr hsl hev h
      split at heq
      · rename_i d c3 hg
        simp only [Res.mk.injEq] at heq
        rw [← heq.2]
        exact ih _ _ _ h1 hg
      · rename_i vs c3 hg
        simp only [Res.mk.injEq] at heq
        rw [← heq.2]
        exact ih _ _ _ h1 hg

theorem init_array_reach {cur : Cursors} {k : Bool} {c0 : Ctx} (al : LValue)
    (vs : List (Option LValue)) :
    ∀ (i : Nat) (c c2 : Ctx) (r : Except Diag Unit), Ctx.Reach cur k c0 c →
      init_array al vs i c = ⟨r, c2⟩ → Ctx.Reach cur k c0 c2 := by
  induction vs with
  | nil =>
    intro i c c2 r h heq
    simp only [init_array, Res.mk.injEq] at heq
    rw [← heq.2]; exact h
  | cons v rest ih =>
    intro i c c2 r h heq
    cases v with
    | none =>
      simp only [init_array, Res.mk.injEq] at heq
      rw [← heq.2]
      exact h.thenLoad _ _
    | some x =>
      simp only [init_array] at heq
      exact ih _ _ _ _ ((h.thenLoad _ _).thenInsertValue _ _ _) heq

theorem create_variable_with_type_reach (ev : ExprVisitor)
    (hsl : ExprVisitor.StraightLine ev) {cur : Cursors} {k : Bool} {c0 c c2 : Ctx}
    (h : Ctx.Reach cur k c0 c) (scope : SymbolTable) (pos : Nat) (name : String) (type : Ty)
    (init : Option Initializer) (r : Except Diag LValue)
    (heq : create_variable_with_type ev scope pos name type init c = ⟨r, c2⟩) :
    Ctx.Reach cur k c0 c2 := by
  have ha := h.alloca name type.getType
  unfold create_variable_with_type at heq
  dsimp only at heq
  split at heq
  · simp only [Res.mk.injEq] at heq
    rw [← heq.2]; exact ha
  · split at heq
    · simp only [Res.mk.injEq] at heq
      rw [← heq.2]; exact ha
    · split at heq
      · rename_i d c3 hg
        simp only [Res.mk.injEq] at heq
        rw [← heq.2]
        exact gen_init_list_reach ev hsl scope _ _ _ _ ha hg
      · rename_i vs c3 hg
        have h3 := gen_init_list_reach ev hsl scope _ _ _ _ ha hg
        split at heq
        · simp only [Res.mk.injEq] at heq
          rw [← heq.2]; exact h3
        · split at heq
          · rename_i d c4 hi
            simp only [Res.mk.injEq] at heq
            rw [← heq.2]
            exact init_array_reach _ _ _ _ _ _ h3 hi
          · rename_i u c4 hi
            simp only [Res.mk.injEq] at heq
            rw [← heq.2]
            exact init_array_reach _ _ _ _ _ _ h3 hi
  · split at heq
    · rename_i d c3 hev
      simp only [Res.mk.injEq] at heq
      rw [← heq.2]
      exact Ctx.Reach.expr hsl hev ha
    · rename_i v c3 hev
      have h3 := Ctx.Reach.expr hsl hev ha
      split at heq
      · simp only [Res.mk.injEq] at heq
        rw [← heq.2]; exact h3
      · split at heq
        · simp only [Res.mk.injEq] at heq
          rw [← heq.2]; exact h3
        · simp only [Res.mk.injEq] at heq
          rw [← heq.2]; exact h3.thenStore _ _

theorem create_variable_with_type_inference_reach (ev : ExprVisitor)
    (hsl : ExprVisitor.StraightLine ev) {cur : Cursors} {k : Bool} {c0 c c2 : Ctx}
    (h : Ctx.Reach cur k c0 c) (scope : SymbolTable) (pos : Nat) (name : String)
    (init : Option Initializer) (r : Except Diag (LValue × Bool))
    (heq : create_variable_with_type_inference ev scope pos name init c = ⟨r, c2⟩) :
    Ctx.Reach cur k c0 c2 := by
  unfold create_variable_with_type_inference at heq
  split at heq
  · simp only [Res.mk.injEq] at heq
    rw [← heq.2]; exact h
  · split at heq
    · rename_i d c3 hg
      simp only [Res.mk.injEq] at heq
      rw [← heq.2]
      exact gen_init_list_reach ev hsl scope _ _ _ _ h hg
    · rename_i vs c3 hg
      have h3 := gen_init_list_reach ev hsl scope _ _ _ _ h hg
      split at heq
      · simp only [Res.mk.injEq] at heq
        rw [← heq.2]; exact h3
      · simp only [Res.mk.injEq] at heq
        rw [← heq.2]; exact h3
      · dsimp only at heq
        split at heq
        · rename_i d c4 hi
          simp only [Res.mk.injEq] at heq
          rw [← heq.2]
          exact init_array_reach _ _ _ _ _ _ (h3.alloca _ _) hi
        · rename_i u c4 hi
          simp only [Res.mk.injEq] at heq
          rw [← heq.2]
          exact init_array_reach _ _ _ _ _ _ (h3.alloca _ _) hi
  · split at heq
    · rename_i d c3 hev
      simp only [Res.mk.injEq] at heq
      rw [← heq.2]
      exact Ctx.Reach.expr hsl hev h
    · rename_i v c3 hev
      have h3 := Ctx.Reach.expr hsl hev h
      split at heq
      · simp only [Res.mk.injEq] at heq
        rw [← heq.2]; exact h3
      · simp only [Res.mk.injEq] at heq
        rw [← heq.2]; exact (h3.alloca _ _).thenStore _ _

theorem visitVariableDef_reach (ev : ExprVisitor) (hsl : ExprVisitor.StraightLine ev)
    {cur : Cursors} {k : Bool} {c0 c : Ctx} (h : Ctx.Reach cur k c0 c) (node : VariableDef)
    (scope : SymbolTable) : Ctx.Reach cur k c0 (visitVariableDef ev node scope c).ctx := by
  unfold visitVariableDef
  split
  · exact h
  · split
    · exact h
    · split
      · split
        · exact create_variable_with_type_reach ev hsl h _ _ _ _ _ _ (by assumption)
        · exact create_variable_with_type_reach ev hsl h _ _ _ _ _ _ (by assumption)
      · split
        · exact create_variable_with_type_inference_reach ev hsl h _ _ _ _ _ (by assumption)
        · exact create_variable_with_type_inference_reach ev hsl h _ _ _ _ _ (by assumption)

theorem gen_assignable_value_from_expr_reach (ev : ExprVisitor)
    (hsl : ExprVisitor.StraightLine ev) {cur : Cursors} {k : Bool} {c0 c c2 : Ctx}
    (h : Ctx.Reach cur k c0 c) (scope : SymbolTable) (node : Expr) (position : Nat)
    (r : Except Diag Value)
    (heq : gen_assignable_value_from_expr ev scope node position c = ⟨r, c2⟩) :
    Ctx.Reach cur k c0 c2 := by
  unfold gen_assignable_value_from_expr at heq
  dsimp only at heq
  split at heq
  · rename_i d c3 hv
    simp only [Res.mk.injEq] at heq
    rw [← heq.2]
    split at hv
    · split at hv
      · simp only [Res.mk.injEq] at hv; rw [← hv.2]; exact h
      · split at hv
        · simp only [Res.mk.injEq] at hv; rw [← hv.2]; exact h
        · simp only [Res.mk.injEq] at hv; rw [← hv.2]; exact h
    · split at hv
      · exact Ctx.Reach.expr hsl hv h
      · exact Ctx.Reach.expr hsl hv h
    · exact Ctx.Reach.expr hsl hv h
  · rename_i v c3 hv
    have h3 : Ctx.Reach cur k c0 c3 := by
      split at hv
      · split at hv
        · simp only [Res.mk.injEq] at hv; rw [← hv.2]; exact h
        · split at hv
          · simp only [Res.mk.injEq] at hv; rw [← hv.2]; exact h
          · simp only [Res.mk.injEq] at hv; rw [← hv.2]; exact h
      · split at hv
        · exact Ctx.Reach.expr hsl hv h
        · exact Ctx.Reach.expr hsl hv h
      · exact Ctx.Reach.expr hsl hv h
    split at heq
    · simp only [Res.mk.injEq] at heq; rw [← heq.2]; exact h3
    · split at heq
      · simp only [Res.mk.injEq] at heq; rw [← heq.2]; exact h3
      · simp only [Res.mk.injEq] at heq; rw [← heq.2]; exact h3

theorem Ctx.Reach.thenStoreIf {cur : Cursors} {k : Bool} {c0 c : Ctx} (h : Ctx.Reach cur k c0 c)
    (p : Prop) [Decidable p] (v l : LValue) :
    Ctx.Reach cur k c0 (if p then c.CreateStore v l else c) := by
  by_cases hp : p
  · simp only [hp, if_true]; exact h.thenStore v l
  · simp only [hp, if_false]; exact h

theorem Ctx.Reach.thenBinaryStoreIf {cur : Cursors} {k : Bool} {c0 c : Ctx}
    (h : Ctx.Reach cur k c0 c) (p : Prop) [Decidable p] (op : BinaryOps) (a b l : LValue) :
    Ctx.Reach cur k c0
      (if p then (c.CreateBinary op a b).2.CreateStore (c.CreateBinary op a b).1 l
        else c) := by
  by_cases hp : p
  · simp only [hp, if_true]; exact (h.thenBinary op a b).thenStore _ l
  · simp only [hp, if_false]; exact h

theorem Ctx.Reach.thenSignedBinaryStoreIf {cur : Cursors} {k : Bool} {c0 c : Ctx}
    (h : Ctx.Reach cur k c0 c) (p : Prop) [Decidable p] (sg : Bool) (op1 op2 : BinaryOps)
    (a b l : LValue) :
    Ctx.Reach cur k c0
      (if p then
        (if sg = true then c.CreateBinary op1 a b else c.CreateBinary op2 a b).2.CreateStore
          (if sg = true then c.CreateBinary op1 a b else c.CreateBinary op2 a b).1 l
      else c) := by
  by_cases hp : p
  · simp only [hp, if_true]
    cases sg
    · simp only [Bool.false_eq_true, if_false]; exact (h.thenBinary op2 a b).thenStore _ l
    · simp only [if_true]; exact (h.thenBinary op1 a b).thenStore _ l
  · simp only [hp, if_false]; exact h

theorem Ctx.Reach.thenBrIf {cur : Cursors} {k : Bool} {c0 c : Ctx} (h : Ctx.Reach cur k c0 c)
    (p : Bool) (bb : Nat) (hb : cur.OkTarget c0.next bb) :
    Ctx.Reach cur k c0 (if p = true then c.CreateBr bb else c) := by
  cases p
  · simp only [Bool.false_eq_true, if_false]; exact h
  · simp only [if_true]; exact h.thenBr bb hb

theorem visitAssignment_reach (ev : ExprVisitor) (hsl : ExprVisitor.StraightLine ev)
    {cur : Cursors} {k : Bool} {c0 c : Ctx} (h : Ctx.Reach cur k c0 c) (node : Assignment)
    (scope : SymbolTable) : Ctx.Reach cur k c0 (visitAssignment ev node scope c).ctx := by
  unfold visitAssignment
  split
  · split
    · rename_i hl
      exact gen_assignable_value_from_expr_reach ev hsl h _ _ _ _ hl
    · rename_i lhs c1 hl
      have h1 := gen_assignable_value_from_expr_reach ev hsl h _ _ _ _ hl
      split
      · rename_i hr
        exact Ctx.Reach.expr hsl hr h1
      · rename_i rhs c2 hr
        have h2 := Ctx.Reach.expr hsl hr h1
        split
        · exact h2
        · rename_i r hrv
          split
          · exact h2
          · rename_i l hlv
            split
            · exact h2
            · dsimp only
              have h3 := h2.thenLoad l.getType.getPointerElementType l
              have h4 := h3.thenStoreIf (node.op = "=") r l
              have h5 := h4.thenBinaryStoreIf (node.op = "+=") .Add
                (c2.CreateLoad l.getType.getPointerElementType l).1 r l
              have h6 := h5.thenBinaryStoreIf (node.op = "-=") .Sub
                (c2.CreateLoad l.getType.getPointerElementType l).1 r l
              have h7 := h6.thenBinaryStoreIf (node.op = "*=") .Mul
                (c2.CreateLoad l.getType.getPointerElementType l).1 r l
              have h8 := h7.thenSignedBinaryStoreIf (node.op = "/=")
                (rhs.is_signed || lhs.is_signed) .SDiv .UDiv
                (c2.CreateLoad l.getType.getPointerElementType l).1 r l
              exact h8.thenSignedBinaryStoreIf (node.op = "%=")
                (rhs.is_signed || lhs.is_signed) .SRem .URem
                (c2.CreateLoad l.getType.getPointerElementType l).1 r l
  · exact h

theorem visitPrefixIncAndDec_reach (ev : ExprVisitor) (hsl : ExprVisitor.StraightLine ev)
    {cur : Cursors} {k : Bool} {c0 c : Ctx} (h : Ctx.Reach cur k c0 c)
    (node : PrefixIncAndDec) (scope : SymbolTable) :
    Ctx.Reach cur k c0 (visitPrefixIncAndDec ev node scope c).ctx := by
  unfold visitPrefixIncAndDec
  split
  · rename_i hl
    exact gen_assignable_value_from_expr_reach ev hsl h _ _ _ _ hl
  · rename_i rhs c1 hl
    have h1 := gen_assignable_value_from_expr_reach ev hsl h _ _ _ _ hl
    split
    · exact h1
    · rename_i p hp
      dsimp only
      have h2 := h1.thenLoad p.getType.getPointerElementType p
      have h3 := h2.thenBinaryStoreIf (node.op = "++") .Add
        (c1.CreateLoad p.getType.getPointerElementType p).1
        (.constInt (c1.CreateLoad p.getType.getPointerElementType p).1.getType 1) p
      exact h3.thenBinaryStoreIf (node.op = "--") .Sub
        (c1.CreateLoad p.getType.getPointerElementType p).1
        (.constInt (c1.CreateLoad p.getType.getPointerElementType p).1.getType 1) p

theorem visitReturn_reach (ev : ExprVisitor) (hsl : ExprVisitor.StraightLine ev)
    {cur : Cursors} {k : Bool} {c0 c : Ctx} (h : Ctx.Reach cur k c0 c) (pos : Nat)
    (rhs : Option Expr) (scope : SymbolTable) :
    Ctx.Reach cur k c0 (visitReturn ev cur pos rhs scope c).ctx := by
  unfold visitReturn
  dsimp only
  have hstored : ∀ (r : Except Diag Unit) (c1 : Ctx),
      (match rhs with
        | some e =>
          match ev scope e c with
          | ⟨.error d, c⟩ => (⟨.error d, c⟩ : Res Unit)
          | ⟨.ok retval, c⟩ =>
            match retval.value with
            | none => ⟨.error (.undefined "getType of a null return value"), c⟩
            | some v =>
              if c.retTy ≠ v.getType then
                ⟨.error (.formatError pos "incompatible type for result type"), c⟩
              else
                match cur.retvar with
                | none => ⟨.error (.undefined "store into a null retvar"), c⟩
                | some rv => ⟨.ok (), c.CreateStore v rv⟩
        | none => ⟨.ok (), c⟩) = ⟨r, c1⟩ → Ctx.Reach cur k c0 c1 := by
    intro r c1 hst
    split at hst
    · split at hst
      · rename_i heq
        simp only [Res.mk.injEq] at hst
        rw [← hst.2]; exact Ctx.Reach.expr hsl heq h
      · rename_i retval c2 heq
        have h2 := Ctx.Reach.expr hsl heq h
        split at hst
        · simp only [Res.mk.injEq] at hst
          rw [← hst.2]; exact h2
        · split at hst
          · simp only [Res.mk.injEq] at hst
            rw [← hst.2]; exact h2
          · split at hst
            · simp only [Res.mk.injEq] at hst
              rw [← hst.2]; exact h2
            · simp only [Res.mk.injEq] at hst
              rw [← hst.2]; exact h2.thenStore _ _
    · simp only [Res.mk.injEq] at hst
      rw [← hst.2]; exact h
  split
  · rename_i hst
    exact hstored _ _ hst
  · rename_i hst
    have h1 := hstored _ _ hst
    split
    · exact h1
    · rename_i bb hbb
      exact h1.thenBr bb (Or.inl hbb)

theorem visitBreak_reach {cur : Cursors} {k : Bool} {c0 c : Ctx} (h : Ctx.Reach cur k c0 c)
    (scope : SymbolTable) : Ctx.Reach cur k c0 (visitBreak cur scope c).ctx := by
  unfold visitBreak
  split
  · rename_i bb hbb
    exact h.thenBr bb (Or.inr (Or.inl hbb))
  · exact h

theorem visitContinue_reach {cur : Cursors} {k : Bool} {c0 c : Ctx}
    (h : Ctx.Reach cur k c0 c) (scope : SymbolTable) :
    Ctx.Reach cur k c0 (visitContinue cur scope c).ctx := by
  unfold visitContinue
  split
  · rename_i bb hbb
    exact h.thenBr bb (Or.inr (Or.inr (Or.inl hbb)))
  · exact h

theorem Ctx.Reach.fresh {cur : Cursors} {n t : Nat} (h : n ≤ t) : cur.OkTarget n t :=
  Or.inr (Or.inr (Or.inr h))

theorem visitIf_reach (ev : ExprVisitor) (hsl : ExprVisitor.StraightLine ev) (pos : Nat)
    (condition : Expr) (then_cg : SubLowering) (hthen : SubLowering.Reaches then_cg)
    (else_cg : Option SubLowering)
    (helse : ∀ cg, else_cg = some cg → SubLowering.Reaches cg) {cur : Cursors} {c0 c : Ctx}
    (h : Ctx.Reach cur true c0 c) (scope : SymbolTable) :
    Ctx.Reach cur true c0 (visitIf ev pos condition then_cg else_cg cur scope c).ctx := by
  unfold visitIf
  split
  · rename_i heq
    exact Ctx.Reach.expr hsl heq h
  · rename_i cond_value c1 heq
    have h1 := Ctx.Reach.expr hsl heq h
    split
    · exact h1
    · rename_i cv hcv
      dsimp only
      have hI := h1.thenICmp cv (.constInt (Ty.builtin .bool_).getType 0)
      have hn := hI.next_le
      generalize (c1.CreateICmpNE cv (.constInt (Ty.builtin .bool_).getType 0)).1 = cnd
      generalize (c1.CreateICmpNE cv (.constInt (Ty.builtin .bool_).getType 0)).2 = cI
        at hI hn ⊢
      have hA := Ctx.Reach.createBlock true hI rfl
      have hB := Ctx.Reach.createBlock false hA rfl
      have hC := Ctx.Reach.createBlock false hB rfl
      have hD := hC.thenCondBr cnd cI.next (cI.next + 1) (Ctx.Reach.fresh hn)
        (Ctx.Reach.fresh (Nat.le_succ_of_le hn))
      have hE := Ctx.Reach.setInsertPoint cI.next hD rfl hn
      have h2 : Ctx.Reach cur true c0 (then_cg scope cur
          (((((cI.CreateBlock true).2.CreateBlock false).2.CreateBlock false).2.CreateCondBr
            cnd (cI.CreateBlock true).1
              ((cI.CreateBlock true).2.CreateBlock false).1).SetInsertPoint
                (cI.CreateBlock true).1)).ctx := hE.andThen (hthen scope cur _)
      generalize then_cg scope cur
          (((((cI.CreateBlock true).2.CreateBlock false).2.CreateBlock false).2.CreateCondBr
            cnd (cI.CreateBlock true).1
              ((cI.CreateBlock true).2.CreateBlock false).1).SetInsertPoint
                (cI.CreateBlock true).1) = r1 at h2 ⊢
      split
      · exact h2
      · have h3 := h2.thenBrIf (!r1.ctx.getTerminator) (cI.next + 2)
          (Ctx.Reach.fresh (by omega))
        have h4 := Ctx.Reach.setInsertPoint (cI.next + 1)
          (Ctx.Reach.pushBack (cI.next + 1) h3 rfl (by omega)) rfl (by omega)
        generalize hc3 : (((if (!r1.ctx.getTerminator) = true then
          r1.ctx.CreateBr (cI.next + 2) else r1.ctx).pushBack (cI.next + 1)).SetInsertPoint
            (cI.next + 1)) = c3 at h4
        have hc3b : (((if (!r1.ctx.getTerminator) = true then
            r1.ctx.CreateBr (((cI.CreateBlock true).2.CreateBlock false).2.CreateBlock
              false).1 else r1.ctx).pushBack
                ((cI.CreateBlock true).2.CreateBlock false).1).SetInsertPoint
                  ((cI.CreateBlock true).2.CreateBlock false).1) = c3 := hc3
        rw [hc3b]
        cases else_cg with
        | none =>
          dsimp only
          have h5 := h4.thenBrIf (!c3.getTerminator) (cI.next + 2) (Ctx.Reach.fresh (by omega))
          exact Ctx.Reach.setInsertPoint (cI.next + 2)
            (Ctx.Reach.pushBack (cI.next + 2) h5 rfl (by omega)) rfl (by omega)
        | some cg =>
          dsimp only
          have h5 := h4.andThen (helse cg rfl scope cur c3)
          generalize cg scope cur c3 = r2 at h5 ⊢
          split
          · exact h5
          · have h6 := h5.thenBrIf (!r2.ctx.getTerminator) (cI.next + 2)
              (Ctx.Reach.fresh (by omega))
            exact Ctx.Reach.setInsertPoint (cI.next + 2)
              (Ctx.Reach.pushBack (cI.next + 2) h6 rfl (by omega)) rfl (by omega)

theorem visitLoop_reach (body_cg : SubLowering) (hbody : SubLowering.Reaches body_cg)
    {cur : Cursors} {c0 c : Ctx} (h : Ctx.Reach cur true c0 c) (scope : SymbolTable) :
    Ctx.Reach cur true c0 (visitLoop body_cg cur scope c).ctx := by
  unfold visitLoop
  dsimp only
  have hn := h.next_le
  have hA := Ctx.Reach.createBlock true h rfl
  have hB := Ctx.Reach.createBlock false hA rfl
  have hC := hB.thenBr c.next (Ctx.Reach.fresh hn)
  have hD := Ctx.Reach.setInsertPoint c.next hC rfl hn
  have h2 : Ctx.Reach cur true c0 (body_cg scope
      ⟨cur.retvar, cur.end_bb, some ((c.CreateBlock true).2.CreateBlock false).1,
        some (c.CreateBlock true).1⟩
      ((((c.CreateBlock true).2.CreateBlock false).2.CreateBr
        (c.CreateBlock true).1).SetInsertPoint (c.CreateBlock true).1)).ctx :=
    hD.loopBody (c.next + 1) c.next (hbody scope _ _) (Nat.le_succ_of_le hn) hn
  generalize body_cg scope
      ⟨cur.retvar, cur.end_bb, some ((c.CreateBlock true).2.CreateBlock false).1,
        some (c.CreateBlock true).1⟩
      ((((c.CreateBlock true).2.CreateBlock false).2.CreateBr
        (c.CreateBlock true).1).SetInsertPoint (c.CreateBlock true).1) = r at h2 ⊢
  split
  · exact h2
  · have h3 := h2.thenBrIf (!r.ctx.getTerminator) c.next (Ctx.Reach.fresh hn)
    exact Ctx.Reach.setInsertPoint (c.next + 1)
      (Ctx.Reach.pushBack (c.next + 1) h3 rfl (by omega)) rfl (by omega)

theorem visitWhile_reach (ev : ExprVisitor) (hsl : ExprVisitor.StraightLine ev) (pos : Nat)
    (cond_expr : Expr) (body_cg : SubLowering) (hbody : SubLowering.Reaches body_cg)
    {cur : Cursors} {c0 c : Ctx} (h : Ctx.Reach cur true c0 c) (scope : SymbolTable) :
    Ctx.Reach cur true c0 (visitWhile ev pos cond_expr body_cg cur scope c).ctx := by
  unfold visitWhile
  dsimp only
  have hn := h.next_le
  have hA := Ctx.Reach.createBlock true h rfl
  have hB := Ctx.Reach.createBlock false hA rfl
  have hC := Ctx.Reach.createBlock false hB rfl
  have hD := hC.thenBr c.next (Ctx.Reach.fresh hn)
  have hE := Ctx.Reach.setInsertPoint c.next hD rfl hn
  split
  · rename_i heq
    exact Ctx.Reach.expr hsl heq hE
  · rename_i cond_value c1 heq
    have h1 := Ctx.Reach.expr hsl heq hE
    split
    · exact h1
    · rename_i cv hcv
      have hI := h1.thenICmp cv (.constInt (Ty.builtin .bool_).getType 0)
      generalize (c1.CreateICmpNE cv (.constInt (Ty.builtin .bool_).getType 0)).1 = cnd
      generalize (c1.CreateICmpNE cv (.constInt (Ty.builtin .bool_).getType 0)).2 = cI
        at hI ⊢
      have hF := hI.thenCondBr cnd (c.next + 1) (c.next + 2) (Ctx.Reach.fresh (by omega))
        (Ctx.Reach.fresh (by omega))
      have hG := Ctx.Reach.setInsertPoint (c.next + 1)
        (Ctx.Reach.pushBack (c.next + 1) hF rfl (by omega)) rfl (by omega)
      have h2 : Ctx.Reach cur true c0 (body_cg scope
          ⟨cur.retvar, cur.end_bb,
            some (((c.CreateBlock true).2.CreateBlock false).2.CreateBlock false).1,
            some (c.CreateBlock true).1⟩
          (((cI.CreateCondBr cnd ((c.CreateBlock true).2.CreateBlock false).1
            (((c.CreateBlock true).2.CreateBlock false).2.CreateBlock false).1).pushBack
              ((c.CreateBlock true).2.CreateBlock false).1).SetInsertPoint
                ((c.CreateBlock true).2.CreateBlock false).1)).ctx :=
        hG.loopBody (c.next + 2) c.next (hbody scope _ _) (by omega) hn
      generalize body_cg scope
          ⟨cur.retvar, cur.end_bb,
            some (((c.CreateBlock true).2.CreateBlock false).2.CreateBlock false).1,
            some (c.CreateBlock true).1⟩
          (((cI.CreateCondBr cnd ((c.CreateBlock true).2.CreateBlock false).1
            (((c.CreateBlock true).2.CreateBlock false).2.CreateBlock false).1).pushBack
              ((c.CreateBlock true).2.CreateBlock false).1).SetInsertPoint
                ((c.CreateBlock true).2.CreateBlock false).1) = r at h2 ⊢
      split
      · exact h2
      · have h3 := h2.thenBrIf (!r.ctx.getTerminator) c.next (Ctx.Reach.fresh hn)
        exact Ctx.Reach.setInsertPoint (c.next + 2)
          (Ctx.Reach.pushBack (c.next + 2) h3 rfl (by omega)) rfl (by omega)

theorem visitFor_init_reach (ev : ExprVisitor) (hsl : ExprVisitor.StraightLine ev)
    {cur : Cursors} {k : Bool} {c0 c : Ctx} (h : Ctx.Reach cur k c0 c)
    (init_stmt : Option ForInitVariant) (scope : SymbolTable) :
    Ctx.Reach cur k c0 (visitFor.init ev init_stmt scope c).ctx := by
  rcases init_stmt with _ | a | v
  · exact h
  · exact visitAssignment_reach ev hsl h a scope
  · exact visitVariableDef_reach ev hsl h v scope

theorem visitFor_step_reach (ev : ExprVisitor) (hsl : ExprVisitor.StraightLine ev)
    {cur : Cursors} {k : Bool} {c0 c : Ctx} (h : Ctx.Reach cur k c0 c)
    (loop_stmt : Option ForLoopVariant) (scope : SymbolTable) :
    Ctx.Reach cur k c0 (visitFor.step ev loop_stmt scope c).ctx := by
  rcases loop_stmt with _ | p | a
  · exact h
  · exact visitPrefixIncAndDec_reach ev hsl h p scope
  · exact visitAssignment_reach ev hsl h a scope

theorem visitFor_reach (ev : ExprVisitor) (hsl : ExprVisitor.StraightLine ev) (pos : Nat)
    (init_stmt : Option ForInitVariant) (cond_expr : Option Expr)
    (loop_stmt : Option ForLoopVariant) (body_cg : SubLowering)
    (hbody : SubLowering.Reaches body_cg) {cur : Cursors} {c0 c : Ctx}
    (h : Ctx.Reach cur true c0 c) (scope : SymbolTable) :
    Ctx.Reach cur true c0
      (visitFor ev pos init_stmt cond_expr loop_stmt body_cg cur scope c).ctx := by
  rw [visitFor_unfold]
  dsimp only
  have hI := visitFor_init_reach ev hsl h init_stmt scope
  generalize visitFor.init ev init_stmt scope c = init at hI ⊢
  split
  · exact hI
  · have hn := hI.next_le
    have hA := Ctx.Reach.createBlock true hI rfl
    have hB := Ctx.Reach.createBlock false hA rfl
    have hC := Ctx.Reach.createBlock false hB rfl
    have hD := Ctx.Reach.createBlock false hC rfl
    have hE := Ctx.Reach.setInsertPoint init.ctx.next
      (hD.thenBr init.ctx.next (Ctx.Reach.fresh hn)) rfl hn
    generalize hc1 : (((((init.ctx.CreateBlock true).2.CreateBlock false).2.CreateBlock
      false).2.CreateBlock false).2.CreateBr init.ctx.next).SetInsertPoint init.ctx.next = c1
      at hE
    have hbr : ∀ (r : Except Diag Unit) (c2 : Ctx),
        (match cond_expr with
          | some e =>
            match ev init.scope e c1 with
            | ⟨.error d, c⟩ => (⟨.error d, c⟩ : Res Unit)
            | ⟨.ok cond_value, c⟩ =>
              match cond_value.value with
              | none =>
                ⟨.error (.formatError pos "failed to generate condition expression"), c⟩
              | some cv =>
                ⟨.ok (), (c.CreateICmpNE cv (.constInt (Ty.builtin .bool_).getType 0)).2.CreateCondBr
                  (c.CreateICmpNE cv (.constInt (Ty.builtin .bool_).getType 0)).1
                  (init.ctx.next + 2) (init.ctx.next + 3)⟩
          | none =>
            ⟨.ok (), c1.CreateCondBr (.constInt (.int 1) 1) (init.ctx.next + 2)
              (init.ctx.next + 3)⟩) = ⟨r, c2⟩ → Ctx.Reach cur true c0 c2 := by
      intro r c2 hb
      split at hb
      · split at hb
        · rename_i heq
          simp only [Res.mk.injEq] at hb
          rw [← hb.2]; exact Ctx.Reach.expr hsl heq hE
        · rename_i cond_value c3 heq
          have h3 := Ctx.Reach.expr hsl heq hE
          split at hb
          · simp only [Res.mk.injEq] at hb
            rw [← hb.2]; exact h3
          · simp only [Res.mk.injEq] at hb
            rw [← hb.2]
            exact (h3.thenICmp _ _).thenCondBr _ _ _ (Ctx.Reach.fresh (by omega))
              (Ctx.Reach.fresh (by omega))
      · simp only [Res.mk.injEq] at hb
        rw [← hb.2]
        exact hE.thenCondBr _ _ _ (Ctx.Reach.fresh (by omega)) (Ctx.Reach.fresh (by omega))
    have hc1b : (((((init.ctx.CreateBlock true).2.CreateBlock false).2.CreateBlock
        false).2.CreateBlock false).2.CreateBr (init.ctx.CreateBlock true).1).SetInsertPoint
          (init.ctx.CreateBlock true).1 = c1 := hc1
    rw [hc1b]
    split
    · rename_i hb
      exact hbr _ _ hb
    · rename_i u c2 hb
      have h2 := hbr _ _ hb
      have h3 := Ctx.Reach.setInsertPoint (init.ctx.next + 2)
        (Ctx.Reach.pushBack (init.ctx.next + 2) h2 rfl (by omega)) rfl (by omega)
      have h4 := h3.loopBody (init.ctx.next + 3) (init.ctx.next + 1)
        (hbody init.scope _ _) (by omega) (by omega)
      generalize hr : body_cg init.scope
        ⟨cur.retvar, cur.end_bb, some (init.ctx.next + 3), some (init.ctx.next + 1)⟩
        ((c2.pushBack (init.ctx.next + 2)).SetInsertPoint (init.ctx.next + 2)) = r at h4
      have hrb : body_cg init.scope
        ⟨cur.retvar, cur.end_bb,
          some ((((init.ctx.CreateBlock true).2.CreateBlock false).2.CreateBlock
            false).2.CreateBlock false).1,
          some ((init.ctx.CreateBlock true).2.CreateBlock false).1⟩
        ((c2.pushBack (((init.ctx.CreateBlock true).2.CreateBlock false).2.CreateBlock
          false).1).SetInsertPoint
            (((init.ctx.CreateBlock true).2.CreateBlock false).2.CreateBlock false).1) = r :=
        hr
      rw [hrb]
      split
      · exact h4
      · have h5 := h4.thenBrIf (!r.ctx.getTerminator) (init.ctx.next + 1)
          (Ctx.Reach.fresh (by omega))
        have h6 := Ctx.Reach.setInsertPoint (init.ctx.next + 1)
          (Ctx.Reach.pushBack (init.ctx.next + 1) h5 rfl (by omega)) rfl (by omega)
        have h7 := visitFor_step_reach ev hsl h6 loop_stmt init.scope
        generalize hs : visitFor.step ev loop_stmt init.scope
          (((if (!r.ctx.getTerminator) = true then r.ctx.CreateBr (init.ctx.next + 1)
            else r.ctx).pushBack (init.ctx.next + 1)).SetInsertPoint (init.ctx.next + 1)) = st
          at h7
        have hsb : visitFor.step ev loop_stmt init.scope
          (((if (!r.ctx.getTerminator) = true then
            r.ctx.CreateBr ((init.ctx.CreateBlock true).2.CreateBlock false).1
            else r.ctx).pushBack
              ((init.ctx.CreateBlock true).2.CreateBlock false).1).SetInsertPoint
                ((init.ctx.CreateBlock true).2.CreateBlock false).1) = st := hs
        rw [hsb]
        split
        · exact h7
        · exact Ctx.Reach.setInsertPoint (init.ctx.next + 3)
            (Ctx.Reach.pushBack (init.ctx.next + 3)
              (h7.thenBr init.ctx.next (Ctx.Reach.fresh hn)) rfl (by omega)) rfl (by omega)

mutual

/-- Visiting a statement reaches its result from the state it starts in: whatever the
outcome, the builder calls made are those of `Ctx.Reach`. -/
theorem visit_reach (ev : ExprVisitor) (hsl : ExprVisitor.StraightLine ev) :
    ∀ (s : Stmt) (cur : Cursors) (scope : SymbolTable) (c : Ctx),
      Ctx.Reach cur true c (visit ev s cur scope c).ctx
  | .nil, cur, scope, c => by
    simp only [visit, visitNil]
    exact Ctx.Reach.refl
  | .compound ss, cur, scope, c => by
    simp only [visit]
    exact visitCompound_reach ev hsl ss cur scope c
  | .expr node, cur, scope, c => by
    simp only [visit]
    exact visitExpr_reach ev hsl Ctx.Reach.refl node scope
  | .return_ pos rhs, cur, scope, c => by
    simp only [visit]
    exact visitReturn_reach ev hsl Ctx.Reach.refl pos rhs scope
  | .variableDef node, cur, scope, c => by
    simp only [visit]
    exact visitVariableDef_reach ev hsl Ctx.Reach.refl node scope
  | .assignment node, cur, scope, c => by
    simp only [visit]
    exact visitAssignment_reach ev hsl Ctx.Reach.refl node scope
  | .prefixIncAndDec node, cur, scope, c => by
    simp only [visit]
    exact visitPrefixIncAndDec_reach ev hsl Ctx.Reach.refl node scope
  | .break_ _, cur, scope, c => by
    simp only [visit]
    exact visitBreak_reach Ctx.Reach.refl scope
  | .continue_ _, cur, scope, c => by
    simp only [visit]
    exact visitContinue_reach Ctx.Reach.refl scope
  | .if_ pos condition t none, cur, scope, c => by
    simp only [visit]
    exact visitIf_reach ev hsl pos condition _
      (fun sc cu cx => codegen_statement_reach ev hsl t sc cu cx) none
      (fun cg hcg => by cases hcg) Ctx.Reach.refl scope
  | .if_ pos condition t (some e), cur, scope, c => by
    simp only [visit]
    exact visitIf_reach ev hsl pos condition _
      (fun sc cu cx => codegen_statement_reach ev hsl t sc cu cx) (some _)
      (fun cg hcg => by
        simp only [Option.some.injEq] at hcg
        subst hcg
        exact fun sc cu cx => codegen_statement_reach ev hsl e sc cu cx)
      Ctx.Reach.refl scope
  | .loop _ body, cur, scope, c => by
    simp only [visit]
    exact visitLoop_reach _ (fun sc cu cx => codegen_statement_reach ev hsl body sc cu cx)
      Ctx.Reach.refl scope
  | .while_ pos cond_expr body, cur, scope, c => by
    simp only [visit]
    exact visitWhile_reach ev hsl pos cond_expr _
      (fun sc cu cx => codegen_statement_reach ev hsl body sc cu cx) Ctx.Reach.refl scope
  | .for_ pos init_stmt cond_expr loop_stmt body, cur, scope, c => by
    simp only [visit]
    exact visitFor_reach ev hsl pos init_stmt cond_expr loop_stmt _
      (fun sc cu cx => codegen_statement_reach ev hsl body sc cu cx) Ctx.Reach.refl scope
termination_by s => (sizeOf s, 0)

theorem visitCompound_reach (ev : ExprVisitor) (hsl : ExprVisitor.StraightLine ev) :
    ∀ (ss : List Stmt) (cur : Cursors) (scope : SymbolTable) (c : Ctx),
      Ctx.Reach cur true c (visitCompound ev ss cur scope c).ctx
  | ss, cur, scope, c => by
    simp only [visitCompound]
    exact codegen_statement_loop_reach ev hsl ss cur scope c
termination_by ss => (sizeOf ss, 1)

theorem codegen_statement_reach (ev : ExprVisitor) (hsl : ExprVisitor.StraightLine ev) :
    ∀ (s : Stmt) (scope : SymbolTable) (cur : Cursors) (c : Ctx),
      Ctx.Reach cur true c (codegen_statement ev s scope cur c).ctx
  | .compound ss, scope, cur, c => by
    simp only [codegen_statement]
    exact codegen_statement_loop_reach ev hsl ss cur scope c
  | .nil, scope, cur, c => by
    simp only [codegen_statement]
    exact visit_reach ev hsl .nil cur scope c
  | .expr node, scope, cur, c => by
    simp only [codegen_statement]
    exact visit_reach ev hsl (.expr node) cur scope c
  | .return_ pos rhs, scope, cur, c => by
    simp only [codegen_statement]
    exact visit_reach ev hsl (.return_ pos rhs) cur scope c
  | .variableDef node, scope, cur, c => by
    simp only [codegen_statement]
    exact visit_reach ev hsl (.variableDef node) cur scope c
  | .assignment node, scope, cur, c => by
    simp only [codegen_statement]
    exact visit_reach ev hsl (.assignment node) cur scope c
  | .prefixIncAndDec node, scope, cur, c => by
    simp only [codegen_statement]
    exact visit_reach ev hsl (.prefixIncAndDec node) cur scope c
  | .break_ p, scope, cur, c => by
    simp only [codegen_statement]
    exact visit_reach ev hsl (.break_ p) cur scope c
  | .continue_ p, scope, cur, c => by
    simp only [codegen_statement]
    exact visit_reach ev hsl (.continue_ p) cur scope c
  | .if_ pos condition t e, scope, cur, c => by
    simp only [codegen_statement]
    exact visit_reach ev hsl (.if_ pos condition t e) cur scope c
  | .loop p body, scope, cur, c => by
    simp only [codegen_statement]
    exact visit_reach ev hsl (.loop p body) cur scope c
  | .while_ pos cond_expr body, scope, cur, c => by
    simp only [codegen_statement]
    exact visit_reach ev hsl (.while_ pos cond_expr body) cur scope c
  | .for_ pos init_stmt cond_expr loop_stmt body, scope, cur, c => by
    simp only [codegen_statement]
    exact visit_reach ev hsl (.for_ pos init_stmt cond_expr loop_stmt body) cur scope c
termination_by s => (sizeOf s, 1)

theorem codegen_statement_loop_reach (ev : ExprVisitor) (hsl : ExprVisitor.StraightLine ev) :
    ∀ (ss : List Stmt) (cur : Cursors) (scope : SymbolTable) (c : Ctx),
      Ctx.Reach cur true c (codegen_statement_loop ev ss cur scope c).ctx
  | [], cur, scope, c => by
    simp only [codegen_statement_loop]
    exact Ctx.Reach.refl
  | r :: rest, cur, scope, c => by
    rw [codegen_statement_loop]
    have h1 := visit_reach ev hsl r cur scope c
    cases hv : (visit ev r cur scope c).err with
    | some d => exact h1
    | none =>
      dsimp only
      by_cases ht : (visit ev r cur scope c).ctx.getTerminator = true
      · simp only [ht, if_true]
        exact h1
      · simp only [ht, if_false]
        exact h1.andThen (codegen_statement_loop_reach ev hsl rest cur
          (visit ev r cur scope c).scope (visit ev r cur scope c).ctx)
termination_by ss => (sizeOf ss, 0)

end

/-! ## What a reached state keeps of the state it comes from -/

theorem find?_map_append (l : List BasicBlock) (k id : Nat) (post : List Instr) :
    (l.map fun b => if b.id = k then { b with insts := b.insts ++ post } else b).find?
        (fun b => b.id = id) =
      (l.find? (fun b => b.id = id)).map
        fun b => if b.id = k then { b with insts := b.insts ++ post } else b := by
  rw [List.find?_map]
  congr 1
  congr 1
  funext b
  by_cases hk : b.id = k <;> simp [Function.comp, hk]

theorem Ctx.ids_appendInsts (c : Ctx) (post : List Instr) (n : Nat) :
    (c.appendInsts post n).ids = c.ids := by
  simp only [Ctx.ids, Ctx.appendInsts, List.map_map]
  apply List.map_congr_left
  intro b _
  by_cases hk : b.id = c.insertBlock <;> simp [hk]

/-- Appending instructions changes the insertion block and no other block. -/
theorem Ctx.instsOf_appendInsts (c : Ctx) (post : List Instr) (n : Nat) (id : Nat) :
    (c.appendInsts post n).instsOf id =
      if id = c.insertBlock ∧ id ∈ c.ids then c.instsOf id ++ post else c.instsOf id := by
  by_cases hmem : id ∈ c.ids
  · unfold Ctx.instsOf Ctx.appendInsts
    simp only [find?_map_append]
    cases hf : c.blocks.find? (fun b => b.id = id) with
    | none =>
      exfalso
      rw [List.find?_eq_none] at hf
      simp only [Ctx.ids, List.mem_map] at hmem
      obtain ⟨b, hb, hid⟩ := hmem
      exact hf b hb (by simpa using hid)
    | some b =>
      have hp : b.id = id := by simpa using List.find?_some hf
      by_cases hk : id = c.insertBlock
      · subst hk
        simp [hp, hmem]
      · simp [hp, hk]
  · rw [Ctx.instsOf_nil_of_not_mem _ _ (by rw [Ctx.ids_appendInsts]; exact hmem),
      Ctx.instsOf_nil_of_not_mem _ _ hmem]
    simp [hmem]

theorem Ctx.ids_CreateBlock (c : Ctx) (attach : Bool) :
    (c.CreateBlock attach).2.ids = c.ids ++ [c.next] := by
  simp [Ctx.ids, Ctx.CreateBlock]

/-- A reached state has the blocks of the state it comes from. -/
theorem Ctx.Reach.ids_subset {cur : Cursors} {k : Bool} {c0 c : Ctx}
    (h : Ctx.Reach cur k c0 c) : ∀ id ∈ c0.ids, id ∈ c.ids := by
  induction h with
  | refl => exact fun _ hid => hid
  | append post n _ _ _ ih =>
    intro id hid
    rw [Ctx.ids_appendInsts]; exact ih id hid
  | alloca name ty _ ih =>
    intro id hid
    rw [ids_alloca]; exact ih id hid
  | createBlock attach _ _ ih =>
    intro id hid
    rw [Ctx.ids_CreateBlock]
    exact List.mem_append_left _ (ih id hid)
  | pushBack bb _ _ _ ih => exact ih
  | setInsertPoint bb _ _ _ ih => exact ih

/-- The function of a reached state lists the blocks it listed before, followed by blocks
created since. -/
theorem Ctx.Reach.layout_eq {cur : Cursors} {k : Bool} {c0 c : Ctx}
    (h : Ctx.Reach cur k c0 c) :
    ∃ mid, c.layout = c0.layout ++ mid ∧ ∀ id ∈ mid, c0.next ≤ id := by
  induction h with
  | refl => exact ⟨[], by simp, fun _ hid => by cases hid⟩
  | append post n _ _ _ ih => exact ih
  | alloca name ty _ ih => exact ih
  | @createBlock c attach hr _ ih =>
    obtain ⟨mid, hl, hm⟩ := ih
    cases attach
    · exact ⟨mid, hl, hm⟩
    · refine ⟨mid ++ [c.next], ?_, ?_⟩
      · show c.layout ++ [c.next] = _
        rw [hl, List.append_assoc]
      · intro id hid
        rcases List.mem_append.1 hid with h1 | h1
        · exact hm id h1
        · rw [List.mem_singleton] at h1
          rw [h1]; exact hr.next_le
  | @pushBack c bb _ _ hb ih =>
    obtain ⟨mid, hl, hm⟩ := ih
    refine ⟨mid ++ [bb], ?_, ?_⟩
    · show c.layout ++ [bb] = _
      rw [hl, List.append_assoc]
    · intro id hid
      rcases List.mem_append.1 hid with h1 | h1
      · exact hm id h1
      · rw [List.mem_singleton] at h1
        rw [h1]; exact hb
  | setInsertPoint bb _ _ _ ih => exact ih

/-- The insertion block of a reached state is the one it was or a block created since. -/
theorem Ctx.Reach.insertBlock_eq {cur : Cursors} {k : Bool} {c0 c : Ctx}
    (h : Ctx.Reach cur k c0 c) :
    c.insertBlock = c0.insertBlock ∨ c0.next ≤ c.insertBlock := by
  induction h with
  | refl => exact Or.inl rfl
  | append post n _ _ _ ih => exact ih
  | alloca name ty _ ih => exact ih
  | createBlock attach _ _ ih => exact ih
  | pushBack bb _ _ _ ih => exact ih
  | setInsertPoint bb _ _ hb ih => exact Or.inr hb

/-- Lowering that creates no block leaves the block list of the function and the
insertion block as they are. -/
theorem Ctx.Reach.straight {cur : Cursors} {c0 c : Ctx} (h : Ctx.Reach cur false c0 c) :
    c.layout = c0.layout ∧ c.insertBlock = c0.insertBlock := by
  induction h with
  | refl => exact ⟨rfl, rfl⟩
  | append post n _ _ _ ih => exact ih
  | alloca name ty _ ih => exact ih
  | createBlock attach _ hk ih => cases hk
  | pushBack bb _ hk _ ih => cases hk
  | setInsertPoint bb _ hk _ ih => cases hk

/-- A block that existed before keeps its instructions: a reached state only adds
allocas in front of them and, for the block that was the insertion block, instructions
behind them. -/
theorem Ctx.Reach.instsOf_old {cur : Cursors} {k : Bool} {c0 c : Ctx}
    (h : Ctx.Reach cur k c0 c) (id : Nat) (hid : id < c0.next) :
    ∃ pre post, c.instsOf id = pre ++ c0.instsOf id ++ post ∧
      (id ≠ c0.insertBlock → post = []) := by
  induction h with
  | refl => exact ⟨[], [], by simp, fun _ => rfl⟩
  | @append c post n hr _ _ ih =>
    obtain ⟨pre, post0, he, hp⟩ := ih
    rw [Ctx.instsOf_appendInsts]
    by_cases hc : id = c.insertBlock ∧ id ∈ c.ids
    · rw [if_pos hc]
      refine ⟨pre, post0 ++ post, by rw [he]; simp, ?_⟩
      intro hne
      exfalso
      rcases hr.insertBlock_eq with h1 | h1
      · exact hne (hc.1.trans h1)
      · rw [← hc.1] at h1; omega
    · rw [if_neg hc]
      exact ⟨pre, post0, he, hp⟩
  | @alloca c name ty hr ih =>
    obtain ⟨pre, post0, he, hp⟩ := ih
    rw [instsOf_alloca]
    by_cases hc : some id = c.layout.head? ∧ id ∈ c.ids
    · rw [if_pos hc]
      exact ⟨Instr.alloca c.next name ty :: pre, post0, by rw [he]; simp, hp⟩
    · rw [if_neg hc]
      exact ⟨pre, post0, he, hp⟩
  | createBlock attach _ _ ih =>
    rw [Ctx.instsOf_CreateBlock]; exact ih
  | pushBack bb _ _ _ ih => exact ih
  | setInsertPoint bb _ _ _ ih => exact ih

theorem Ctx.NoTarget.afterAppendInsts {c : Ctx} {m : Nat} (h : c.NoTarget m) (post : List Instr)
    (n : Nat) (hp : ∀ i ∈ post, m ∉ i.targets) : (c.appendInsts post n).NoTarget m := by
  intro b hb i hi
  simp only [Ctx.appendInsts, List.mem_map] at hb
  obtain ⟨b0, hb0, rfl⟩ := hb
  by_cases hk : b0.id = c.insertBlock
  · simp only [hk, if_true, List.mem_append] at hi
    rcases hi with h1 | h1
    · exact h b0 hb0 i h1
    · exact hp i h1
  · simp only [hk, if_false] at hi
    exact h b0 hb0 i hi

theorem Ctx.NoTarget.afterAlloca {c : Ctx} {m : Nat} (h : c.NoTarget m) (name : String)
    (ty : LType) : (create_entry_block_alloca c name ty).2.NoTarget m := by
  intro b hb i hi
  simp only [create_entry_block_alloca, List.mem_map] at hb
  obtain ⟨b0, hb0, rfl⟩ := hb
  by_cases hk : some b0.id = c.layout.head?
  · simp only [hk, if_true, List.mem_cons] at hi
    rcases hi with h1 | h1
    · rw [h1]; simp [Instr.targets]
    · exact h b0 hb0 i h1
  · simp only [hk, if_false] at hi
    exact h b0 hb0 i hi

theorem Ctx.NoTarget.afterCreateBlock {c : Ctx} {m : Nat} (h : c.NoTarget m) (attach : Bool) :
    (c.CreateBlock attach).2.NoTarget m := by
  intro b hb i hi
  simp only [Ctx.CreateBlock, List.mem_append, List.mem_singleton] at hb
  rcases hb with h1 | h1
  · exact h b h1 i hi
  · rw [h1] at hi; cases hi

theorem Ctx.NoTarget.afterEmit {c : Ctx} {m : Nat} (h : c.NoTarget m) (i : Instr)
    (hi : m ∉ i.targets) : (c.emit i).NoTarget m :=
  h.afterAppendInsts [i] c.next (fun j hj => by
    rw [List.mem_singleton] at hj; rw [hj]; exact hi)

/-- A reached state has no branch to a block that existed before and is none of the
cursors, if the state it comes from had none. -/
theorem Ctx.Reach.noTarget {cur : Cursors} {k : Bool} {c0 c : Ctx}
    (h : Ctx.Reach cur k c0 c) (m : Nat) (hm : ¬ cur.OkTarget c0.next m)
    (h0 : c0.NoTarget m) : c.NoTarget m := by
  induction h with
  | refl => exact h0
  | append post n _ ht _ ih =>
    exact ih.afterAppendInsts post n (fun i hi hmi => hm (ht i hi m hmi))
  | alloca name ty _ ih => exact ih.afterAlloca name ty
  | createBlock attach _ _ ih => exact ih.afterCreateBlock attach
  | pushBack bb _ _ _ ih => exact ih
  | setInsertPoint bb _ _ _ ih => exact ih

/-! ## Closing a block and entering the next -/

theorem Ctx.close_of_terminated (c : Ctx) (t : Nat) (h : c.getTerminator = true) :
    (if !c.getTerminator then c.CreateBr t else c) = c := by
  simp [h]

theorem Ctx.close_of_open (c : Ctx) (t : Nat) (h : c.getTerminator = false) :
    (if !c.getTerminator then c.CreateBr t else c) = c.CreateBr t := by
  simp [h]

theorem Ctx.Inv.insertBlock_mem {c : Ctx} (h : c.Inv) : c.insertBlock ∈ c.ids :=
  h.1.2.1 _ h.1.2.2.1

/-- Closing an unterminated insertion block appends the branch to it. -/
theorem Ctx.close_instsOf {c : Ctx} (hI : c.Inv) (hT : c.getTerminator = false) (t : Nat) :
    (if !c.getTerminator then c.CreateBr t else c).instsOf c.insertBlock =
      c.instsOf c.insertBlock ++ [.br t] := by
  rw [Ctx.close_of_open c t hT]
  unfold Ctx.CreateBr
  rw [Ctx.instsOf_emit, if_pos ⟨rfl, hI.insertBlock_mem⟩]

theorem Ctx.close_instsOf_other (c : Ctx) (t id : Nat) (hne : id ≠ c.insertBlock) :
    (if !c.getTerminator then c.CreateBr t else c).instsOf id = c.instsOf id := by
  rcases Bool.eq_false_or_eq_true c.getTerminator with hT | hT
  rotate_left
  · rw [Ctx.close_of_open c t hT]
    unfold Ctx.CreateBr
    rw [Ctx.instsOf_emit, if_neg (fun h => hne h.1)]
  · rw [Ctx.close_of_terminated c t hT]

theorem Ctx.close_mem (c : Ctx) (t id : Nat) (i : Instr) (hi : i ∈ c.instsOf id) :
    i ∈ (if !c.getTerminator then c.CreateBr t else c).instsOf id := by
  rcases Bool.eq_false_or_eq_true c.getTerminator with hT | hT
  rotate_left
  · rw [Ctx.close_of_open c t hT]
    unfold Ctx.CreateBr
    rw [Ctx.instsOf_emit]
    split
    · exact List.mem_append_left _ hi
    · exact hi
  · rw [Ctx.close_of_terminated c t hT]; exact hi

theorem Ctx.close_noTarget {c : Ctx} {m : Nat} (h : c.NoTarget m) (t : Nat) (hne : m ≠ t) :
    (if !c.getTerminator then c.CreateBr t else c).NoTarget m := by
  rcases Bool.eq_false_or_eq_true c.getTerminator with hT | hT
  rotate_left
  · rw [Ctx.close_of_open c t hT]
    exact h.afterEmit _ (by simpa [Instr.targets] using hne)
  · rw [Ctx.close_of_terminated c t hT]; exact h

theorem Ctx.close_layout (c : Ctx) (t : Nat) :
    (if !c.getTerminator then c.CreateBr t else c).layout = c.layout := by
  cases c.getTerminator <;> rfl

theorem Ctx.close_insertBlock (c : Ctx) (t : Nat) :
    (if !c.getTerminator then c.CreateBr t else c).insertBlock = c.insertBlock := by
  cases c.getTerminator <;> rfl

theorem Ctx.close_next (c : Ctx) (t : Nat) :
    (if !c.getTerminator then c.CreateBr t else c).next = c.next := by
  cases c.getTerminator <;> rfl

theorem Ctx.close_ids (c : Ctx) (t : Nat) :
    (if !c.getTerminator then c.CreateBr t else c).ids = c.ids := by
  rcases Bool.eq_false_or_eq_true c.getTerminator with hT | hT
  rotate_left
  · rw [Ctx.close_of_open c t hT]; exact Ctx.ids_emit c _
  · rw [Ctx.close_of_terminated c t hT]

/-- A block that is not yet inserted into the function is empty when it is entered. -/
theorem Ctx.Inv.instsOf_detached {c : Ctx} (h : c.Inv) (bb : Nat)
    (hd : bb ∈ c.ids ∧ bb ∉ c.layout) : c.instsOf bb = [] :=
  h.1.2.2.2 bb hd.1 hd.2

theorem Ctx.close_instsOf_empty {c : Ctx} (hI : c.Inv) (hT : c.getTerminator = false)
    (t bb : Nat) (hbb : c.insertBlock = bb) (hemp : c.instsOf bb = []) :
    (if !c.getTerminator then c.CreateBr t else c).instsOf bb = [.br t] := by
  subst hbb
  rw [Ctx.close_instsOf hI hT, hemp]
  rfl

/-! ## The shape of a lowered `If` -/

/-- An `If` that lowers without a diagnostic: its condition has a value, both arms are
lowered without a diagnostic, and the state it leaves is built from the states the arms
leave. -/
theorem visitIf_ok (ev : ExprVisitor) (pos : Nat) (condition : Expr) (then_cg : SubLowering)
    (else_cg : SubLowering) (cur : Cursors) (scope : SymbolTable) (c : Ctx)
    (hok : (visitIf ev pos condition then_cg (some else_cg) cur scope c).err = none) :
    ∃ (v : Value) (cv : LValue) (c0 : Ctx),
      ev scope condition c = ⟨.ok v, c0⟩ ∧ v.value = some cv ∧
      let c1 := (((((c0.CreateICmpNE cv (.constInt (Ty.builtin .bool_).getType 0)).2.CreateBlock
        true).2.CreateBlock false).2.CreateBlock false).2.CreateCondBr
          (.inst c0.next (.int 1)) (c0.next + 1) (c0.next + 2)).SetInsertPoint (c0.next + 1)
      let r1 := then_cg scope cur c1
      let c2 := if !r1.ctx.getTerminator then r1.ctx.CreateBr (c0.next + 3) else r1.ctx
      let c3 := (c2.pushBack (c0.next + 2)).SetInsertPoint (c0.next + 2)
      let r2 := else_cg scope cur c3
      let c4 := if !r2.ctx.getTerminator then r2.ctx.CreateBr (c0.next + 3) else r2.ctx
      r1.err = none ∧ r2.err = none ∧
      (visitIf ev pos condition then_cg (some else_cg) cur scope c).ctx =
        (c4.pushBack (c0.next + 3)).SetInsertPoint (c0.next + 3) := by
  revert hok
  unfold visitIf
  split
  · intro h2; simp at h2
  · rename_i cond_value c0 heq
    split
    · intro h2; simp at h2
    · rename_i cv hcv
      dsimp only
      split
      · intro h2; simp at h2
      · rename_i hr1
        split
        · intro h2; simp at h2
        · rename_i hr2
          intro _
          exact ⟨cond_value, cv, c0, heq, hcv, hr1, hr2, rfl⟩

/-- Closing the insertion block with a branch and entering a block that was not yet
inserted into the function: the block entered is empty and the state is open. -/
theorem Ctx.Inv.closeEnter {c : Ctx} (h : c.Inv) (t bb : Nat)
    (hd : bb ∈ c.ids ∧ bb ∉ c.layout) :
    (((if !c.getTerminator then c.CreateBr t else c).pushBack bb).SetInsertPoint bb).Open ∧
    (∀ n, n ≤ bb → Ctx.Extends n c
      (((if !c.getTerminator then c.CreateBr t else c).pushBack bb).SetInsertPoint bb)) ∧
    (((if !c.getTerminator then c.CreateBr t else c).pushBack bb).SetInsertPoint bb).instsOf
      bb = [] ∧
    (∀ x, x ≠ bb → (x ∈ c.ids ∧ x ∉ c.layout) →
      x ∈ (((if !c.getTerminator then c.CreateBr t else c).pushBack bb).SetInsertPoint bb).ids ∧
      x ∉ (((if !c.getTerminator then c.CreateBr t else c).pushBack
        bb).SetInsertPoint bb).layout) := by
  obtain ⟨i3, t3, e3⟩ := h.close t
  have hd3 : bb ∈ (if !c.getTerminator then c.CreateBr t else c).ids ∧
      bb ∉ (if !c.getTerminator then c.CreateBr t else c).layout := by
    rw [Ctx.close_ids, Ctx.close_layout]; exact hd
  obtain ⟨h4, e4⟩ := Ctx.push_set _ bb i3 t3 hd3.1 hd3.2
  refine ⟨h4, fun n hn => (e3 n).trans (e4 n hn), ?_, ?_⟩
  · exact i3.instsOf_detached bb hd3
  · intro x hx hdx
    have hdx3 : x ∈ (if !c.getTerminator then c.CreateBr t else c).ids ∧
        x ∉ (if !c.getTerminator then c.CreateBr t else c).layout := by
      rw [Ctx.close_ids, Ctx.close_layout]; exact hdx
    exact Ctx.detached_push_set _ bb x hx hdx3

theorem visitIf_entry_blocks (c0 cI : Ctx) (hI : cI.Open) (eI : Ctx.Extends c0.next c0 cI)
    (cnd : LValue) :
    (((((cI.CreateBlock true).2.CreateBlock false).2.CreateBlock false).2.CreateCondBr
      cnd cI.next (cI.next + 1)).SetInsertPoint cI.next).Open ∧
    Ctx.Extends c0.next c0
      (((((cI.CreateBlock true).2.CreateBlock false).2.CreateBlock false).2.CreateCondBr
        cnd cI.next (cI.next + 1)).SetInsertPoint cI.next) ∧
    ((cI.next + 1) ∈ (((((cI.CreateBlock true).2.CreateBlock false).2.CreateBlock
        false).2.CreateCondBr cnd cI.next (cI.next + 1)).SetInsertPoint cI.next).ids ∧
      (cI.next + 1) ∉ (((((cI.CreateBlock true).2.CreateBlock false).2.CreateBlock
        false).2.CreateCondBr cnd cI.next (cI.next + 1)).SetInsertPoint cI.next).layout) ∧
    ((cI.next + 2) ∈ (((((cI.CreateBlock true).2.CreateBlock false).2.CreateBlock
        false).2.CreateCondBr cnd cI.next (cI.next + 1)).SetInsertPoint cI.next).ids ∧
      (cI.next + 2) ∉ (((((cI.CreateBlock true).2.CreateBlock false).2.CreateBlock
        false).2.CreateCondBr cnd cI.next (cI.next + 1)).SetInsertPoint cI.next).layout) ∧
    (∀ m, m ≠ cI.next → m ≠ cI.next + 1 → cI.NoTarget m →
      (((((cI.CreateBlock true).2.CreateBlock false).2.CreateBlock false).2.CreateCondBr
        cnd cI.next (cI.next + 1)).SetInsertPoint cI.next).NoTarget m) := by
  obtain ⟨hA, eA, dA⟩ := hI.createBlock
  obtain ⟨hB, eB, dB⟩ := hA.createBlock
  obtain ⟨hC, eC, dC⟩ := hB.createBlock
  obtain ⟨iD, tD, eD⟩ := hC.condbr cnd cI.next (cI.next + 1)
  have dA4 := (eD (cI.next + 1)).detached cI.next (Nat.lt_succ_self _)
    ((eC (cI.next + 1)).detached cI.next (Nat.lt_succ_self _)
      ((eB (cI.next + 1)).detached cI.next (Nat.lt_succ_self _) dA))
  have dB4 := (eD (cI.next + 2)).detached (cI.next + 1) (Nat.lt_succ_self _)
    ((eC (cI.next + 2)).detached (cI.next + 1) (Nat.lt_succ_self _) dB)
  have dC4 := (eD (cI.next + 3)).detached (cI.next + 2) (Nat.lt_succ_self _) dC
  have hle : c0.next ≤ cI.next := eI.1
  have eD0 : Ctx.Extends c0.next c0
      ((((cI.CreateBlock false).2.CreateBlock false).2.CreateBlock false).2.CreateCondBr
        cnd cI.next (cI.next + 1)) :=
    (((eI.trans (eA _)).trans (eB _)).trans (eC _)).trans (eD _)
  obtain ⟨h1, e1⟩ := iD.enter tD eD0 cI.next dA4 hle
  have dB5 := Ctx.detached_push_set _ cI.next (cI.next + 1) (Nat.succ_ne_self _) dB4
  have dC5 := Ctx.detached_push_set _ cI.next (cI.next + 2) (by omega) dC4
  have hc1 : (((((cI.CreateBlock true).2.CreateBlock false).2.CreateBlock
        false).2.CreateCondBr cnd cI.next (cI.next + 1)).SetInsertPoint cI.next) =
      ((((((cI.CreateBlock false).2.CreateBlock false).2.CreateBlock
        false).2.CreateCondBr cnd cI.next (cI.next + 1)).pushBack
          cI.next).SetInsertPoint cI.next) := rfl
  rw [hc1]
  refine ⟨h1, e1, dB5, dC5, ?_⟩
  intro m hm1 hm2 hm
  have h3 : ((((cI.CreateBlock false).2.CreateBlock false).2.CreateBlock
      false).2.CreateCondBr cnd cI.next (cI.next + 1)).NoTarget m :=
    (((hm.afterCreateBlock false).afterCreateBlock false).afterCreateBlock false).afterEmit _ (by
      simp only [Instr.targets, List.mem_cons, List.mem_singleton, List.not_mem_nil,
        or_false, not_or]
      exact ⟨hm1, hm2⟩)
  exact h3

/-- The state in which `visitIf` lowers the then statement, from the state `c0` the
condition left: `then_bb` is the insertion block, `else_bb` and `merge_bb` exist and are
not yet inserted into the function, and the only branch added is the conditional branch
to `then_bb` and `else_bb`. -/
theorem visitIf_entry (c0 : Ctx) (h0 : c0.Open) (cv : LValue) :
    let c1 := (((((c0.CreateICmpNE cv (.constInt (Ty.builtin .bool_).getType 0)).2.CreateBlock
      true).2.CreateBlock false).2.CreateBlock false).2.CreateCondBr
        (.inst c0.next (.int 1)) (c0.next + 1) (c0.next + 2)).SetInsertPoint (c0.next + 1)
    c1.Open ∧ Ctx.Extends c0.next c0 c1 ∧
    ((c0.next + 2) ∈ c1.ids ∧ (c0.next + 2) ∉ c1.layout) ∧
    ((c0.next + 3) ∈ c1.ids ∧ (c0.next + 3) ∉ c1.layout) ∧
    (∀ m, m ≠ c0.next + 1 → m ≠ c0.next + 2 → c0.NoTarget m → c1.NoTarget m) := by
  obtain ⟨hI, eI⟩ := h0.icmp cv (.constInt (Ty.builtin .bool_).getType 0)
  have hNI : ∀ m, c0.NoTarget m →
      (c0.CreateICmpNE cv (.constInt (Ty.builtin .bool_).getType 0)).2.NoTarget m :=
    fun m hm => hm.afterAppendInsts [.icmp_ne c0.next cv (.constInt (Ty.builtin .bool_).getType 0)]
      (c0.next + 1) (fun j hj => by
        rw [List.mem_singleton] at hj; rw [hj]; simp [Instr.targets])
  obtain ⟨a1, a2, a3, a4, a5⟩ := visitIf_entry_blocks c0 _ hI (eI _) (.inst c0.next (.int 1))
  exact ⟨a1, a2, a3, a4, fun m hm1 hm2 hm => a5 m hm1 hm2 (hNI m hm)⟩

/-- The two arms of an `If`, from the state `c1` in which the then statement is lowered
to the state `out` the `If` leaves. -/
theorem visitIf_arms (then_cg : SubLowering) (hthenP : SubLowering.Preserves then_cg)
    (hthenR : SubLowering.Reaches then_cg) (else_cg : SubLowering)
    (helseP : SubLowering.Preserves else_cg) (helseR : SubLowering.Reaches else_cg)
    (cur : Cursors) (scope : SymbolTable) (c1 : Ctx) (h1 : c1.Open) (else_bb merge_bb : Nat)
    (hne : merge_bb ≠ else_bb)
    (dE : else_bb ∈ c1.ids ∧ else_bb ∉ c1.layout)
    (dM : merge_bb ∈ c1.ids ∧ merge_bb ∉ c1.layout)
    (hr1 : (then_cg scope cur c1).err = none) (cT c3 cE out : Ctx)
    (hcT : (then_cg scope cur c1).ctx = cT)
    (hc3 : (((if !cT.getTerminator then cT.CreateBr merge_bb else cT).pushBack
      else_bb).SetInsertPoint else_bb) = c3)
    (hr2 : (else_cg scope cur c3).err = none)
    (hcE : (else_cg scope cur c3).ctx = cE)
    (hout : (((if !cE.getTerminator then cE.CreateBr merge_bb else cE).pushBack
      merge_bb).SetInsertPoint merge_bb) = out) :
    cT.Inv ∧ c3.Open ∧ c3.instsOf else_bb = [] ∧ cE.Inv ∧
    (else_bb ∈ out.ids ∧ else_bb ∈ out.layout) ∧
    (c1.NoTarget merge_bb → ¬ cur.OkTarget c1.next merge_bb → cT.getTerminator = true →
      cE.getTerminator = true → out.NoTarget merge_bb) ∧
    (cT.getTerminator = false ∨ cE.getTerminator = false → out.HasPredecessor merge_bb) := by
  obtain ⟨iT, eT⟩ := hthenP scope cur c1 h1 hr1
  have rT := hthenR scope cur c1
  rw [hcT] at iT eT rT
  have dET := eT.detached else_bb (h1.1.lt_next _ dE.1) dE
  have dMT := eT.detached merge_bb (h1.1.lt_next _ dM.1) dM
  obtain ⟨h3, e3, hemp, hdet⟩ := iT.closeEnter merge_bb else_bb dET
  have dM3 := hdet merge_bb hne dMT
  have hl3 : (((if !cT.getTerminator then cT.CreateBr merge_bb else cT).pushBack
      else_bb).SetInsertPoint else_bb).layout = cT.layout ++ [else_bb] := by
    show (if !cT.getTerminator then cT.CreateBr merge_bb else cT).layout ++ [else_bb] = _
    rw [Ctx.close_layout]
  have hi3 : (((if !cT.getTerminator then cT.CreateBr merge_bb else cT).pushBack
      else_bb).SetInsertPoint else_bb).ids = cT.ids := Ctx.close_ids cT merge_bb
  have hn3 : (((if !cT.getTerminator then cT.CreateBr merge_bb else cT).pushBack
      else_bb).SetInsertPoint else_bb).next = cT.next := Ctx.close_next cT merge_bb
  have hb3 : ∀ id, (((if !cT.getTerminator then cT.CreateBr merge_bb else cT).pushBack
      else_bb).SetInsertPoint else_bb).instsOf id =
        (if !cT.getTerminator then cT.CreateBr merge_bb else cT).instsOf id := fun _ => rfl
  have hN3 : ∀ m, cT.getTerminator = true → cT.NoTarget m →
      (((if !cT.getTerminator then cT.CreateBr merge_bb else cT).pushBack
        else_bb).SetInsertPoint else_bb).NoTarget m := by
    intro m ht hm
    rw [Ctx.close_of_terminated cT merge_bb ht]
    exact hm
  rw [hc3] at h3 e3 hemp dM3 hl3 hi3 hn3 hb3 hN3
  obtain ⟨iE, eE⟩ := helseP scope cur c3 h3 hr2
  have rE := helseR scope cur c3
  rw [hcE] at iE eE rE
  have hlo : out.layout = cE.layout ++ [merge_bb] := by
    rw [← hout]
    show (if !cE.getTerminator then cE.CreateBr merge_bb else cE).layout ++ [merge_bb] = _
    rw [Ctx.close_layout]
  have hio : out.ids = cE.ids := by
    rw [← hout]; exact Ctx.close_ids cE merge_bb
  have hbo : ∀ id, out.instsOf id =
      (if !cE.getTerminator then cE.CreateBr merge_bb else cE).instsOf id := by
    intro id; rw [← hout]; rfl
  obtain ⟨mid, hlE, _⟩ := rE.layout_eq
  refine ⟨iT, h3, hemp, iE, ⟨?_, ?_⟩, ?_, ?_⟩
  · rw [hio]
    exact rE.ids_subset _ (by rw [hi3]; exact dET.1)
  · rw [hlo, hlE, hl3]
    simp
  · intro hN1 hcur hT hE
    have hNT : cT.NoTarget merge_bb := rT.noTarget merge_bb hcur hN1
    have hcur3 : ¬ cur.OkTarget c3.next merge_bb := fun hk =>
      hcur (hk.weaken (by rw [hn3]; exact rT.next_le))
    have hNE : cE.NoTarget merge_bb := rE.noTarget merge_bb hcur3 (hN3 _ hT hNT)
    rw [← hout, Ctx.close_of_terminated cE merge_bb hE]
    exact hNE
  · intro hor
    by_cases hE : cE.getTerminator = true
    · have hT : cT.getTerminator = false := by
        rcases hor with h | h
        · exact h
        · rw [hE] at h; cases h
      refine ⟨cT.insertBlock, ?_, ?_⟩
      · rw [hlo, hlE, hl3]
        simp only [List.mem_append]
        exact Or.inl (Or.inl (Or.inl iT.1.2.2.1))
      · have hlt : cT.insertBlock < c3.next := by
          rw [hn3]; exact iT.lt_next _ iT.insertBlock_mem
        obtain ⟨pre, post, he, _⟩ := rE.instsOf_old cT.insertBlock hlt
        rw [hbo]
        apply Ctx.close_mem
        rw [he, hb3, Ctx.close_instsOf iT hT]
        simp
    · have hE2 : cE.getTerminator = false := by simpa using hE
      refine ⟨cE.insertBlock, ?_, ?_⟩
      · rw [hlo]
        exact List.mem_append_left _ iE.1.2.2.1
      · rw [hbo, Ctx.close_instsOf iE hE2]
        simp

/-! ## An expression visitor that only appends instructions -/

theorem Ctx.Open.congr {c c2 : Ctx} (h : c.Open) (hb : c2.blocks = c.blocks)
    (hl : c2.layout = c.layout) (hi : c2.insertBlock = c.insertBlock)
    (hn : c.next ≤ c2.next) : c2.Open ∧ ∀ k, Ctx.Extends k c c2 := by
  obtain ⟨⟨⟨hfresh, hatt, hins, hdet⟩, hterm, hne⟩, hopen⟩ := h
  have hids : c2.ids = c.ids := Ctx.ids_congr c c2 hb
  have hinsts : ∀ id, c2.instsOf id = c.instsOf id := Ctx.instsOf_congr c c2 hb
  refine ⟨⟨⟨⟨?_, ?_, ?_, ?_⟩, ?_, ?_⟩, ?_⟩, fun k => ⟨hn, ?_, ?_⟩⟩
  · intro id hid
    rw [hids] at hid
    exact Nat.lt_of_lt_of_le (hfresh id hid) hn
  · intro id hid
    rw [hl] at hid; rw [hids]; exact hatt id hid
  · rw [hi, hl]; exact hins
  · intro id hid hnl
    rw [hids] at hid; rw [hl] at hnl; rw [hinsts]
    exact hdet id hid hnl
  · intro id hid hne2
    rw [hl] at hid; rw [hi] at hne2; rw [hinsts]
    exact hterm id hid hne2
  · intro id hid
    rw [hids] at hid; rw [hinsts]
    exact hne id hid
  · rw [Ctx.getTerminator_eq, hi, hinsts, ← Ctx.getTerminator_eq]
    exact hopen
  · intro id hid
    rw [hids]; exact hid
  · intro id _ hid
    rw [hl] at hid; exact hid

theorem Ctx.appendInsts_cons (c : Ctx) (i : Instr) (rest : List Instr) (n : Nat) :
    c.appendInsts (i :: rest) n = (c.emit i).appendInsts rest n := by
  unfold Ctx.appendInsts Ctx.emit
  simp only [List.map_map]
  congr 1
  apply List.map_congr_left
  intro b _
  by_cases hk : b.id = c.insertBlock <;> simp [Function.comp, hk]

/-- Appending instructions that are not terminators keeps an open state open. -/
theorem Ctx.Open.appendInsts (post : List Instr) (n : Nat) :
    ∀ {c : Ctx}, c.Open → (∀ i ∈ post, i.isTerminator = false) → c.next ≤ n →
      (c.appendInsts post n).Open ∧ ∀ k, Ctx.Extends k c (c.appendInsts post n) := by
  induction post with
  | nil =>
    intro c h _ hn
    refine h.congr ?_ rfl rfl hn
    show (c.blocks.map fun b =>
      if b.id = c.insertBlock then { b with insts := b.insts ++ [] } else b) = c.blocks
    conv => rhs; rw [← List.map_id c.blocks]
    apply List.map_congr_left
    intro b _
    by_cases hk : b.id = c.insertBlock
    · cases b
      simp [hk]
    · simp [hk]
  | cons i rest ih =>
    intro c h hp hn
    rw [Ctx.appendInsts_cons]
    obtain ⟨i1, t1, e1⟩ := Ctx.emit_step c (c.emit i) i rfl rfl rfl (Nat.le_refl _) h
    have ho : (c.emit i).Open := ⟨i1, by rw [t1]; exact hp i (List.mem_cons_self _ _)⟩
    obtain ⟨h2, e2⟩ := ih ho (fun j hj => hp j (List.mem_cons_of_mem _ hj)) hn
    exact ⟨h2, fun k => (e1 k).trans (e2 k)⟩

/-- An expression visitor that only appends instructions that are not terminators to the
insertion block keeps the block-termination invariant. -/
theorem ExprVisitor.StraightLine.preserves {ev : ExprVisitor}
    (hsl : ExprVisitor.StraightLine ev) : ExprVisitor.Preserves ev := by
  intro scope e c v c2 h heq
  obtain ⟨post, n, hp, hn, hc⟩ := hsl scope e c
  rw [heq] at hc
  dsimp only at hc
  rw [hc]
  obtain ⟨h2, e2⟩ := h.appendInsts post n hp hn
  exact ⟨h2, e2 _⟩

/-- Lowering an expression adds no branch. -/
theorem ExprVisitor.StraightLine.keepsNoTarget {ev : ExprVisitor}
    (hsl : ExprVisitor.StraightLine ev) {scope : SymbolTable} {e : Expr} {c c2 : Ctx}
    {r : Except Diag Value} (heq : ev scope e c = ⟨r, c2⟩) (m : Nat) (h : c.NoTarget m) :
    c2.NoTarget m := by
  obtain ⟨post, n, hp, hn, hc⟩ := hsl scope e c
  rw [heq] at hc
  dsimp only at hc
  rw [hc]
  exact h.afterAppendInsts post n (fun i hi => by
    rw [Instr.targets_of_not_terminator i (hp i hi)]; simp)

/-- Lowering an expression keeps the block list of the function and the insertion block,
and appends to the insertion block only. -/
theorem ExprVisitor.StraightLine.frame {ev : ExprVisitor}
    (hsl : ExprVisitor.StraightLine ev) {scope : SymbolTable} {e : Expr} {c c2 : Ctx}
    {r : Except Diag Value} (heq : ev scope e c = ⟨r, c2⟩) :
    c2.layout = c.layout ∧ c2.insertBlock = c.insertBlock ∧ c.next ≤ c2.next ∧
    c2.ids = c.ids ∧
    ∀ id, id ≠ c.insertBlock → c2.instsOf id = c.instsOf id := by
  obtain ⟨post, n, hp, hn, hc⟩ := hsl scope e c
  rw [heq] at hc
  dsimp only at hc
  rw [hc]
  refine ⟨rfl, rfl, hn, Ctx.ids_appendInsts c post n, fun id hid => ?_⟩
  rw [Ctx.instsOf_appendInsts, if_neg (fun h => hid h.1)]

/-- The shape of a lowered `If` whose else arm is lowered by `else_cg`. -/
theorem visitIf_shape (ev : ExprVisitor) (hsl : ExprVisitor.StraightLine ev) (pos : Nat)
    (condition : Expr) (then_cg : SubLowering) (hthenP : SubLowering.Preserves then_cg)
    (hthenR : SubLowering.Reaches then_cg) (else_cg : SubLowering)
    (helseP : SubLowering.Preserves else_cg) (helseR : SubLowering.Reaches else_cg)
    (cur : Cursors) (scope : SymbolTable) (c : Ctx) (hc : c.Open)
    (hok : (visitIf ev pos condition then_cg (some else_cg) cur scope c).err = none) :
    ∃ (v : Value) (cv : LValue) (c0 : Ctx),
      ev scope condition c = ⟨.ok v, c0⟩ ∧ v.value = some cv ∧
      let c1 := (((((c0.CreateICmpNE cv (.constInt (Ty.builtin .bool_).getType 0)).2.CreateBlock
        true).2.CreateBlock false).2.CreateBlock false).2.CreateCondBr
          (.inst c0.next (.int 1)) (c0.next + 1) (c0.next + 2)).SetInsertPoint (c0.next + 1)
      let cT := (then_cg scope cur c1).ctx
      let c2 := if !cT.getTerminator then cT.CreateBr (c0.next + 3) else cT
      let c3 := (c2.pushBack (c0.next + 2)).SetInsertPoint (c0.next + 2)
      let cE := (else_cg scope cur c3).ctx
      let c4 := if !cE.getTerminator then cE.CreateBr (c0.next + 3) else cE
      let out := (visitIf ev pos condition then_cg (some else_cg) cur scope c).ctx
      out = (c4.pushBack (c0.next + 3)).SetInsertPoint (c0.next + 3) ∧
      cT.Inv ∧ cE.Inv ∧ (c0.next + 2) ∉ c0.ids ∧
      (c0.next + 2) ∈ out.ids ∧ (c0.next + 2) ∈ out.layout ∧
      (cE = c3 → out.instsOf (c0.next + 2) = [.br (c0.next + 3)]) ∧
      ((∀ m, c.next ≤ m → c.NoTarget m) →
        (∀ b, cur.end_bb = some b ∨ cur.break_bb = some b ∨ cur.continue_bb = some b →
          b < c.next) →
        cT.getTerminator = true → cE.getTerminator = true → out.NoTarget (c0.next + 3)) ∧
      (cT.getTerminator = false ∨ cE.getTerminator = false →
        out.HasPredecessor (c0.next + 3)) := by
  obtain ⟨v, cv, c0, heq, hcv, hrest⟩ :=
    visitIf_ok ev pos condition then_cg else_cg cur scope c hok
  refine ⟨v, cv, c0, heq, hcv, ?_⟩
  obtain ⟨hr1, hr2, hout⟩ := hrest
  obtain ⟨h0, e0⟩ := hsl.preserves _ _ _ _ _ hc heq
  obtain ⟨h1, e1, dE, dM, hN1⟩ := visitIf_entry c0 h0 cv
  obtain ⟨iT, h3, hemp, iE, ⟨hEi, hEl⟩, hNo, hPred⟩ := visitIf_arms then_cg hthenP hthenR
    else_cg helseP helseR cur scope _ h1 (c0.next + 2) (c0.next + 3) (by omega) dE dM hr1
    _ _ _ _ rfl rfl hr2 rfl rfl
  have hle : c.next ≤ c0.next := e0.1
  have hn1 : c0.next + 4 ≤ ((((((c0.CreateICmpNE cv
      (.constInt (Ty.builtin .bool_).getType 0)).2.CreateBlock
        true).2.CreateBlock false).2.CreateBlock false).2.CreateCondBr
          (.inst c0.next (.int 1)) (c0.next + 1) (c0.next + 2)).SetInsertPoint
            (c0.next + 1)).next := Nat.le_refl _
  refine ⟨hout, iT, iE, ?_, ?_, ?_, ?_, ?_, ?_⟩
  · intro hmem
    have := h0.1.lt_next _ hmem
    omega
  · rw [hout]; exact hEi
  · rw [hout]; exact hEl
  · intro hcE
    rw [hout]
    show (if !(else_cg scope cur _).ctx.getTerminator then
      (else_cg scope cur _).ctx.CreateBr (c0.next + 3) else
        (else_cg scope cur _).ctx).instsOf (c0.next + 2) = _
    rw [hcE]
    exact Ctx.close_instsOf_empty h3.1 h3.2 (c0.next + 3) (c0.next + 2) rfl hemp
  · intro hfresh hcur hT hE
    rw [hout]
    refine hNo (hN1 _ (by omega) (by omega)
      (hsl.keepsNoTarget heq _ (hfresh _ (by omega)))) ?_ hT hE
    intro hk
    rcases hk with hk | hk | hk | hk
    · have := hcur _ (Or.inl hk); omega
    · have := hcur _ (Or.inr (Or.inl hk)); omega
    · have := hcur _ (Or.inr (Or.inr hk)); omega
    · omega
  · intro hor
    rw [hout]
    exact hPred hor

theorem codegen_statement_preserves (ev : ExprVisitor) (hsl : ExprVisitor.StraightLine ev)
    (s : Stmt) : SubLowering.Preserves (fun sc cu cx => codegen_statement ev s sc cu cx) :=
  fun sc cu cx hcx hk => codegen_statement_step ev hsl.preserves s sc cu cx hcx hk

theorem codegen_statement_reaches (ev : ExprVisitor) (hsl : ExprVisitor.StraightLine ev)
    (s : Stmt) : SubLowering.Reaches (fun sc cu cx => codegen_statement ev s sc cu cx) :=
  fun sc cu cx => codegen_statement_reach ev hsl s sc cu cx

theorem visit_if_none (ev : ExprVisitor) (pos : Nat) (condition : Expr) (t : Stmt)
    (cur : Cursors) (scope : SymbolTable) (c : Ctx) :
    visit ev (.if_ pos condition t none) cur scope c =
      visitIf ev pos condition (fun sc cu cx => codegen_statement ev t sc cu cx)
        (some fun _ _ cx => ⟨none, cx⟩) cur scope c := by
  simp only [visit]
  rfl

theorem visit_if_some (ev : ExprVisitor) (pos : Nat) (condition : Expr) (t s : Stmt)
    (cur : Cursors) (scope : SymbolTable) (c : Ctx) :
    visit ev (.if_ pos condition t (some s)) cur scope c =
      visitIf ev pos condition (fun sc cu cx => codegen_statement ev t sc cu cx)
        (some fun sc cu cx => codegen_statement ev s sc cu cx) cur scope c := by
  simp only [visit]

/-- The shape of a lowered `If` statement: the states its two arms leave, the blocks it
creates and the branches to the merge block. -/
theorem visit_if_shape (ev : ExprVisitor) (hsl : ExprVisitor.StraightLine ev) (pos : Nat)
    (condition : Expr) (t : Stmt) (e : Option Stmt) (cur : Cursors) (scope : SymbolTable)
    (c : Ctx) (hc : c.Open)
    (hok : (visit ev (.if_ pos condition t e) cur scope c).err = none) :
    ∃ (v : Value) (cv : LValue) (c0 : Ctx),
      ev scope condition c = ⟨.ok v, c0⟩ ∧ v.value = some cv ∧
      let c1 := (((((c0.CreateICmpNE cv (.constInt (Ty.builtin .bool_).getType 0)).2.CreateBlock
        true).2.CreateBlock false).2.CreateBlock false).2.CreateCondBr
          (.inst c0.next (.int 1)) (c0.next + 1) (c0.next + 2)).SetInsertPoint (c0.next + 1)
      let cT := (codegen_statement ev t scope cur c1).ctx
      let c2 := if !cT.getTerminator then cT.CreateBr (c0.next + 3) else cT
      let c3 := (c2.pushBack (c0.next + 2)).SetInsertPoint (c0.next + 2)
      let cE :=
        match e with
        | some s => (codegen_statement ev s scope cur c3).ctx
        | none => c3
      let c4 := if !cE.getTerminator then cE.CreateBr (c0.next + 3) else cE
      let out := (visit ev (.if_ pos condition t e) cur scope c).ctx
      out = (c4.pushBack (c0.next + 3)).SetInsertPoint (c0.next + 3) ∧
      cT.Inv ∧ cE.Inv ∧ (c0.next + 2) ∉ c0.ids ∧
      (c0.next + 2) ∈ out.ids ∧ (c0.next + 2) ∈ out.layout ∧
      (e = none → out.instsOf (c0.next + 2) = [.br (c0.next + 3)]) ∧
      ((∀ m, c.next ≤ m → c.NoTarget m) →
        (∀ b, cur.end_bb = some b ∨ cur.break_bb = some b ∨ cur.continue_bb = some b →
          b < c.next) →
        cT.getTerminator = true → cE.getTerminator = true → out.NoTarget (c0.next + 3)) ∧
      (cT.getTerminator = false ∨ cE.getTerminator = false →
        out.HasPredecessor (c0.next + 3)) := by
  cases e with
  | none =>
    rw [visit_if_none] at hok ⊢
    obtain ⟨v, cv, c0, heq, hcv, a1, a2, a3, a4, a5, a6, a7, a8, a9⟩ :=
      visitIf_shape ev hsl pos condition _ (codegen_statement_preserves ev hsl t)
        (codegen_statement_reaches ev hsl t) (fun _ _ cx => ⟨none, cx⟩)
        (fun _ _ cx hcx _ => ⟨hcx.1, Ctx.Extends.refl _ _⟩) (fun _ _ _ => Ctx.Reach.refl)
        cur scope c hc hok
    exact ⟨v, cv, c0, heq, hcv, a1, a2, a3, a4, a5, a6, (fun _ => a7 rfl), a8, a9⟩
  | some s =>
    rw [visit_if_some] at hok ⊢
    obtain ⟨v, cv, c0, heq, hcv, a1, a2, a3, a4, a5, a6, a7, a8, a9⟩ :=
      visitIf_shape ev hsl pos condition _ (codegen_statement_preserves ev hsl t)
        (codegen_statement_reaches ev hsl t) _ (codegen_statement_preserves ev hsl s)
        (codegen_statement_reaches ev hsl s) cur scope c hc hok
    exact ⟨v, cv, c0, heq, hcv, a1, a2, a3, a4, a5, a6, (fun h => by cases h), a8, a9⟩

/-! ## The sample expression visitor and the sample function body -/

theorem Ctx.appendInsts_nil (c : Ctx) : c.appendInsts [] c.next = c := by
  unfold Ctx.appendInsts
  have hb : (c.blocks.map fun b =>
      if b.id = c.insertBlock then { b with insts := b.insts ++ [] } else b) = c.blocks := by
    conv => rhs; rw [← List.map_id c.blocks]
    apply List.map_congr_left
    intro b _
    by_cases hk : b.id = c.insertBlock
    · cases b
      simp [hk]
    · simp [hk]
  rw [hb]

/-- The sample expression visitor only appends instructions to the insertion block: a
load for an identifier, nothing otherwise. -/
theorem sampleExprVisitor_straightLine : ExprVisitor.StraightLine sampleExprVisitor := by
  intro scope e c
  have hnil : ∃ post n, (∀ i ∈ post, i.isTerminator = false) ∧ c.next ≤ n ∧
      c = c.appendInsts post n :=
    ⟨[], c.next, (fun _ hi => by cases hi), Nat.le_refl _, (Ctx.appendInsts_nil c).symm⟩
  unfold sampleExprVisitor
  split
  · exact hnil
  · exact hnil
  · exact hnil
  · split
    · rename_i v _
      exact ⟨[.load c.next v.pointer.getType.getPointerElementType v.pointer], c.next + 1,
        (fun i hi => by rw [List.mem_singleton] at hi; rw [hi]; rfl), Nat.le_succ _, rfl⟩
    · exact hnil
  · split
    · split
      · exact hnil
      · exact hnil
    · exact hnil
  · exact hnil

/-- The sample state `ctxFn` is open: well formed, with the block-termination invariant
and an unterminated insertion block. -/
theorem ctxFn_open : ctxFn.Open := by
  refine ⟨⟨⟨?_, ?_, ?_, ?_⟩, ?_, ?_⟩, ?_⟩ <;>
    simp [ctxFn, Ctx.ids, Ctx.instsOf, noEarlyTerminator, Ctx.getTerminator,
      BasicBlock.hasTerminator, Instr.isTerminator]

theorem ctxFn_noTarget (m : Nat) : ctxFn.NoTarget m := by
  intro b hb i hi
  simp only [ctxFn, List.mem_cons, List.mem_singleton, List.not_mem_nil, or_false] at hb
  rcases hb with rfl | rfl
  · simp only [List.mem_singleton] at hi
    rw [hi]; simp [Instr.targets]
  · cases hi

/-! ## If: the else block, the branches to the merge block -/

/-- C32.  An `If` that lowers without a diagnostic (from an open state, with an expression
visitor that only appends to the insertion block).  With `c0` the state the condition
leaves, `else_bb` is the new block `c0.next + 2` and `merge_bb` the new block
`c0.next + 3`; `cT` and `cE` are the states the then arm and the else arm leave (`cE` is
the state at the entry of `else_bb` when there is no else statement).
* The else block is created and appended to the function whether or not there is an else
  statement; without one it holds exactly the branch to the merge block.
* After each arm the branch to `merge_bb` is appended to the insertion block when it has
  no terminator, and nothing is appended when it has one.
* The state left is the one after the else arm with `merge_bb` appended to the function
  and made the insertion block: `merge_bb` is the last block of the function. -/
theorem if_else_block_and_merge (ev : ExprVisitor) (hsl : ExprVisitor.StraightLine ev)
    (pos : Nat) (condition : Expr) (t : Stmt) (e : Option Stmt) (cur : Cursors)
    (scope : SymbolTable) (c : Ctx) (hc : c.Open)
    (hok : (visit ev (.if_ pos condition t e) cur scope c).err = none) :
    ∃ (v : Value) (cv : LValue) (c0 : Ctx),
      ev scope condition c = ⟨.ok v, c0⟩ ∧ v.value = some cv ∧
      let then_bb := c0.next + 1
      let else_bb := c0.next + 2
      let merge_bb := c0.next + 3
      let c1 := (((((c0.CreateICmpNE cv (.constInt (Ty.builtin .bool_).getType 0)).2.CreateBlock
        true).2.CreateBlock false).2.CreateBlock false).2.CreateCondBr
          (.inst c0.next (.int 1)) then_bb else_bb).SetInsertPoint then_bb
      let cT := (codegen_statement ev t scope cur c1).ctx
      let c2 := if !cT.getTerminator then cT.CreateBr merge_bb else cT
      let c3 := (c2.pushBack else_bb).SetInsertPoint else_bb
      let cE :=
        match e with
        | some s => (codegen_statement ev s scope cur c3).ctx
        | none => c3
      let c4 := if !cE.getTerminator then cE.CreateBr merge_bb else cE
      let out := (visit ev (.if_ pos condition t e) cur scope c).ctx
      out = (c4.pushBack merge_bb).SetInsertPoint merge_bb ∧
      else_bb ∉ c0.ids ∧ else_bb ∈ out.ids ∧ else_bb ∈ out.layout ∧
      (e = none → out.instsOf else_bb = [.br merge_bb]) ∧
      (cT.getTerminator = false →
        c2.instsOf cT.insertBlock = cT.instsOf cT.insertBlock ++ [.br merge_bb]) ∧
      (cT.getTerminator = true → c2 = cT) ∧
      (cE.getTerminator = false →
        c4.instsOf cE.insertBlock = cE.instsOf cE.insertBlock ++ [.br merge_bb]) ∧
      (cE.getTerminator = true → c4 = cE) ∧
      out.layout.getLast? = some merge_bb ∧ out.insertBlock = merge_bb := by
  obtain ⟨v, cv, c0, heq, hcv, hout, iT, iE, a4, a5, a6, a7, _, _⟩ :=
    visit_if_shape ev hsl pos condition t e cur scope c hc hok
  refine ⟨v, cv, c0, heq, hcv, hout, a4, a5, a6, a7, ?_, ?_, ?_, ?_, ?_, ?_⟩
  · exact fun hT => Ctx.close_instsOf iT hT _
  · exact fun hT => Ctx.close_of_terminated _ _ hT
  · exact fun hE => Ctx.close_instsOf iE hE _
  · exact fun hE => Ctx.close_of_terminated _ _ hE
  · rw [hout]
    exact List.getLast?_concat _
  · rw [hout]
    rfl

/-- C32, witness: `if (true) return 1;` at the start of the function body `ctxFn`.  The
condition leaves the state as it is, so the compare is value `3` and the blocks are
`4`, `5` (else) and `6` (merge).  The else block is in the function and holds only
`br 6`; the merge block is the last block and the insertion block. -/
theorem if_else_block_and_merge_witness :
    ExprVisitor.StraightLine sampleExprVisitor ∧ ctxFn.Open ∧
    (visit sampleExprVisitor ifReturn curFn emptyScope ctxFn).err = none ∧
    5 ∈ (visit sampleExprVisitor ifReturn curFn emptyScope ctxFn).ctx.layout ∧
    (visit sampleExprVisitor ifReturn curFn emptyScope ctxFn).ctx.instsOf 5 = [.br 6] ∧
    (visit sampleExprVisitor ifReturn curFn emptyScope ctxFn).ctx.layout.getLast? = some 6 ∧
    (visit sampleExprVisitor ifReturn curFn emptyScope ctxFn).ctx.insertBlock = 6 := by
  have hok : (visit sampleExprVisitor ifReturn curFn emptyScope ctxFn).err = none := by
    simp [ifReturn, visit, visitIf, Value.toBool, visitReturn, sampleExprVisitor,
      codegen_statement, emptyScope, ctxFn, curFn, LValue.getType, LType.isPointerTy,
      LType.getPointerElementType, Ty.getType, Ctx.CreateLoad, Ctx.CreateStore,
      Ctx.CreateICmpNE, Ctx.CreateBr, Ctx.CreateCondBr, Ctx.CreateBlock,
      Ctx.pushBack, Ctx.SetInsertPoint, Ctx.emit, Ctx.getTerminator,
      BasicBlock.hasTerminator, Instr.isTerminator]
  obtain ⟨v, cv, c0, heq, hcv, _, _, _, h4, h5, _, _, _, _, h10, h11⟩ :=
    if_else_block_and_merge sampleExprVisitor sampleExprVisitor_straightLine 1 (.bool true)
      (.return_ 2 (some (.int32 1))) none curFn emptyScope ctxFn ctxFn_open hok
  have h0 : c0 = ctxFn := by
    simp only [sampleExprVisitor, Res.mk.injEq] at heq
    exact heq.2.symm
  subst h0
  exact ⟨sampleExprVisitor_straightLine, ctxFn_open, hok, h4, h5 rfl, h10, h11⟩

/-- C33.  An `If` lowered without a diagnostic from an open state in which no instruction
branches to a block that is not yet created and the cursor blocks are already created
(the expression visitor only appends to the insertion block).  With `cT` and `cE` the
states the then arm and the else arm leave and `merge_bb` the merge block:
* if the insertion block has a terminator in both `cT` and `cE`, no instruction of any
  block of the state left names `merge_bb` as a branch target;
* if it has no terminator in `cT` or in `cE`, a block of the function holds the
  instruction `br merge_bb`, and `merge_bb` is the insertion block. -/
theorem if_merge_predecessors (ev : ExprVisitor) (hsl : ExprVisitor.StraightLine ev)
    (pos : Nat) (condition : Expr) (t : Stmt) (e : Option Stmt) (cur : Cursors)
    (scope : SymbolTable) (c : Ctx) (hc : c.Open)
    (hfresh : ∀ m, c.next ≤ m → c.NoTarget m)
    (hcur : ∀ b, cur.end_bb = some b ∨ cur.break_bb = some b ∨ cur.continue_bb = some b →
      b < c.next)
    (hok : (visit ev (.if_ pos condition t e) cur scope c).err = none) :
    ∃ (v : Value) (cv : LValue) (c0 : Ctx),
      ev scope condition c = ⟨.ok v, c0⟩ ∧ v.value = some cv ∧
      let then_bb := c0.next + 1
      let else_bb := c0.next + 2
      let merge_bb := c0.next + 3
      let c1 := (((((c0.CreateICmpNE cv (.constInt (Ty.builtin .bool_).getType 0)).2.CreateBlock
        true).2.CreateBlock false).2.CreateBlock false).2.CreateCondBr
          (.inst c0.next (.int 1)) then_bb else_bb).SetInsertPoint then_bb
      let cT := (codegen_statement ev t scope cur c1).ctx
      let c2 := if !cT.getTerminator then cT.CreateBr merge_bb else cT
      let c3 := (c2.pushBack else_bb).SetInsertPoint else_bb
      let cE :=
        match e with
        | some s => (codegen_statement ev s scope cur c3).ctx
        | none => c3
      let out := (visit ev (.if_ pos condition t e) cur scope c).ctx
      (cT.getTerminator = true → cE.getTerminator = true → out.NoTarget merge_bb) ∧
      (cT.getTerminator = false ∨ cE.getTerminator = false →
        out.HasPredecessor merge_bb ∧ out.insertBlock = merge_bb) := by
  obtain ⟨v, cv, c0, heq, hcv, hout, _, _, _, _, _, _, a8, a9⟩ :=
    visit_if_shape ev hsl pos condition t e cur scope c hc hok
  refine ⟨v, cv, c0, heq, hcv, a8 hfresh hcur, fun hor => ⟨a9 hor, ?_⟩⟩
  rw [hout]
  rfl

/-- C33, witness: in the function body `ctxFn` the merge block is block `6`.  After
`if (true) return 1; else return 2;` no instruction branches to it; after
`if (true) return 1;` the else block branches to it and it is the insertion block. -/
theorem if_merge_predecessors_witness :
    ExprVisitor.StraightLine sampleExprVisitor ∧ ctxFn.Open ∧
    (∀ m, ctxFn.next ≤ m → ctxFn.NoTarget m) ∧
    (∀ b, curFn.end_bb = some b ∨ curFn.break_bb = some b ∨ curFn.continue_bb = some b →
      b < ctxFn.next) ∧
    (visit sampleExprVisitor ifBothReturn curFn emptyScope ctxFn).err = none ∧
    (visit sampleExprVisitor ifReturn curFn emptyScope ctxFn).err = none ∧
    (visit sampleExprVisitor ifBothReturn curFn emptyScope ctxFn).ctx.NoTarget 6 ∧
    (visit sampleExprVisitor ifReturn curFn emptyScope ctxFn).ctx.HasPredecessor 6 ∧
    (visit sampleExprVisitor ifReturn curFn emptyScope ctxFn).ctx.insertBlock = 6 := by
  have hcur : ∀ b, curFn.end_bb = some b ∨ curFn.break_bb = some b ∨
      curFn.continue_bb = some b → b < ctxFn.next := by
    intro b hb
    simp only [curFn, Option.some.injEq] at hb
    rcases hb with hb | hb | hb
    · rw [← hb]; decide
    · cases hb
    · cases hb
  have hok1 : (visit sampleExprVisitor ifBothReturn curFn emptyScope ctxFn).err = none := by
    simp [ifBothReturn, visit, visitIf, Value.toBool, visitReturn, sampleExprVisitor,
      codegen_statement, emptyScope, ctxFn, curFn, LValue.getType, LType.isPointerTy,
      LType.getPointerElementType, Ty.getType, Ctx.CreateLoad, Ctx.CreateStore,
      Ctx.CreateICmpNE, Ctx.CreateBr, Ctx.CreateCondBr, Ctx.CreateBlock,
      Ctx.pushBack, Ctx.SetInsertPoint, Ctx.emit, Ctx.getTerminator,
      BasicBlock.hasTerminator, Instr.isTerminator]
  have hok2 : (visit sampleExprVisitor ifReturn curFn emptyScope ctxFn).err = none := by
    simp [ifReturn, visit, visitIf, Value.toBool, visitReturn, sampleExprVisitor,
      codegen_statement, emptyScope, ctxFn, curFn, LValue.getType, LType.isPointerTy,
      LType.getPointerElementType, Ty.getType, Ctx.CreateLoad, Ctx.CreateStore,
      Ctx.CreateICmpNE, Ctx.CreateBr, Ctx.CreateCondBr, Ctx.CreateBlock,
      Ctx.pushBack, Ctx.SetInsertPoint, Ctx.emit, Ctx.getTerminator,
      BasicBlock.hasTerminator, Instr.isTerminator]
  obtain ⟨v1, cv1, c1, heq1, hcv1, hboth, _⟩ :=
    if_merge_predecessors sampleExprVisitor sampleExprVisitor_straightLine 1 (.bool true)
      (.return_ 2 (some (.int32 1))) (some (.return_ 3 (some (.int32 2)))) curFn emptyScope
      ctxFn ctxFn_open (fun m _ => ctxFn_noTarget m) hcur hok1
  obtain ⟨v2, cv2, c2, heq2, hcv2, _, hone⟩ :=
    if_merge_predecessors sampleExprVisitor sampleExprVisitor_straightLine 1 (.bool true)
      (.return_ 2 (some (.int32 1))) none curFn emptyScope
      ctxFn ctxFn_open (fun m _ => ctxFn_noTarget m) hcur hok2
  have h1 : c1 = ctxFn ∧ cv1 = .constInt (.int 1) 1 := by
    simp only [sampleExprVisitor, Res.mk.injEq, Except.ok.injEq] at heq1
    rw [← heq1.1] at hcv1
    simp only [Option.some.injEq] at hcv1
    exact ⟨heq1.2.symm, hcv1.symm⟩
  have h2 : c2 = ctxFn ∧ cv2 = .constInt (.int 1) 1 := by
    simp only [sampleExprVisitor, Res.mk.injEq, Except.ok.injEq] at heq2
    rw [← heq2.1] at hcv2
    simp only [Option.some.injEq] at hcv2
    exact ⟨heq2.2.symm, hcv2.symm⟩
  obtain ⟨rfl, rfl⟩ := h1
  obtain ⟨rfl, rfl⟩ := h2
  refine ⟨sampleExprVisitor_straightLine, ctxFn_open, fun m _ => ctxFn_noTarget m, hcur,
    hok1, hok2, hboth ?_ ?_, hone (Or.inr ?_)⟩
  · simp [visitReturn, sampleExprVisitor,
      codegen_statement, visit, emptyScope, ctxFn, curFn, LValue.getType, LType.isPointerTy,
      LType.getPointerElementType, Ty.getType, Ctx.CreateLoad, Ctx.CreateStore,
      Ctx.CreateICmpNE, Ctx.CreateBr, Ctx.CreateCondBr, Ctx.CreateBlock,
      Ctx.pushBack, Ctx.SetInsertPoint, Ctx.emit, Ctx.getTerminator,
      BasicBlock.hasTerminator, Instr.isTerminator]
  · simp [visitReturn, sampleExprVisitor,
      codegen_statement, visit, emptyScope, ctxFn, curFn, LValue.getType, LType.isPointerTy,
      LType.getPointerElementType, Ty.getType, Ctx.CreateLoad, Ctx.CreateStore,
      Ctx.CreateICmpNE, Ctx.CreateBr, Ctx.CreateCondBr, Ctx.CreateBlock,
      Ctx.pushBack, Ctx.SetInsertPoint, Ctx.emit, Ctx.getTerminator,
      BasicBlock.hasTerminator, Instr.isTerminator]
  · simp [visitReturn, sampleExprVisitor,
      codegen_statement, visit, emptyScope, ctxFn, curFn, LValue.getType, LType.isPointerTy,
      LType.getPointerElementType, Ty.getType, Ctx.CreateLoad, Ctx.CreateStore,
      Ctx.CreateICmpNE, Ctx.CreateBr, Ctx.CreateCondBr, Ctx.CreateBlock,
      Ctx.pushBack, Ctx.SetInsertPoint, Ctx.emit, Ctx.getTerminator,
      BasicBlock.hasTerminator, Instr.isTerminator]

/-! ## The shape of a lowered `For` -/

/-- A `For` that lowers without a diagnostic: the init statement, the condition, the body
and the step are lowered without a diagnostic, and the state it leaves is the one the
step leaves, with the branch back to `cond_bb` and with `loop_end_bb` entered. -/
theorem visitFor_ok_states (ev : ExprVisitor) (pos : Nat) (init_stmt : Option ForInitVariant)
    (cond_expr : Option Expr) (loop_stmt : Option ForLoopVariant) (body_cg : SubLowering)
    (cur : Cursors) (scope : SymbolTable) (c : Ctx)
    (hok : (visitFor ev pos init_stmt cond_expr loop_stmt body_cg cur scope c).err = none) :
    (visitFor.init ev init_stmt scope c).err = none ∧
    ∃ c2 : Ctx,
      let init := visitFor.init ev init_stmt scope c
      let c1 := (((((init.ctx.CreateBlock true).2.CreateBlock false).2.CreateBlock
        false).2.CreateBlock false).2.CreateBr init.ctx.next).SetInsertPoint init.ctx.next
      let r := body_cg init.scope
        ⟨cur.retvar, cur.end_bb, some (init.ctx.next + 3), some (init.ctx.next + 1)⟩
        ((c2.pushBack (init.ctx.next + 2)).SetInsertPoint (init.ctx.next + 2))
      let c5 := ((if !r.ctx.getTerminator then r.ctx.CreateBr (init.ctx.next + 1)
        else r.ctx).pushBack (init.ctx.next + 1)).SetInsertPoint (init.ctx.next + 1)
      let step := visitFor.step ev loop_stmt init.scope c5
      visitFor.branch ev pos cond_expr init.scope c1 (init.ctx.next + 2)
        (init.ctx.next + 3) = ⟨.ok (), c2⟩ ∧
      r.err = none ∧ step.err = none ∧
      (visitFor ev pos init_stmt cond_expr loop_stmt body_cg cur scope c).ctx =
        ((step.ctx.CreateBr init.ctx.next).pushBack (init.ctx.next + 3)).SetInsertPoint
          (init.ctx.next + 3) := by
  revert hok
  rw [visitFor_unfold]
  dsimp only
  split
  · intro h; simp at h
  · rename_i hinit
    split
    · intro h; simp at h
    · rename_i u c2 hbr
      split
      · intro h; simp at h
      · rename_i hr
        split
        · intro h; simp at h
        · rename_i hs
          intro _
          exact ⟨hinit, c2, hbr, hr, hs, rfl⟩

theorem Ctx.Open.instsOf_emit_insertBlock {c : Ctx} (h : c.Open) (i : Instr) :
    (c.emit i).instsOf c.insertBlock = c.instsOf c.insertBlock ++ [i] := by
  rw [Ctx.instsOf_emit, if_pos ⟨rfl, h.1.insertBlock_mem⟩]

/-- The condition of a `For`: the state left has the conditional branch to the body block
and the end block at the end of the insertion block, on the constant true when there is
no condition. -/
theorem visitFor_branch_shape (ev : ExprVisitor) (hsl : ExprVisitor.StraightLine ev)
    (pos : Nat) (cond_expr : Option Expr) (scope : SymbolTable) (c1 : Ctx) (bb ee : Nat)
    (c2 : Ctx) (h1 : c1.Open)
    (hbr : visitFor.branch ev pos cond_expr scope c1 bb ee = ⟨.ok (), c2⟩) :
    c2.Inv ∧ c2.getTerminator = true ∧ Ctx.Extends c1.next c1 c2 ∧
    c2.layout = c1.layout ∧ c2.insertBlock = c1.insertBlock ∧
    ∃ cnd pre, c2.instsOf c1.insertBlock = pre ++ [.condbr cnd bb ee] ∧
      (cond_expr = none → cnd = .constInt (.int 1) 1) ∧
      (cond_expr ≠ none → ∃ id cv,
        cnd = .inst id (.int 1) ∧ Instr.icmp_ne id cv (.constInt (.int 1) 0) ∈ pre) := by
  unfold visitFor.branch at hbr
  split at hbr
  · rename_i e
    split at hbr
    · simp at hbr
    · rename_i cond_value c3 heq
      obtain ⟨h3, e3⟩ := hsl.preserves _ _ _ _ _ h1 heq
      obtain ⟨hl3, hi3, _, _, _⟩ := hsl.frame heq
      split at hbr
      · simp at hbr
      · rename_i cv hcv
        simp only [Res.mk.injEq, Except.ok.injEq, true_and] at hbr
        rw [← hbr]
        obtain ⟨h4, e4⟩ := h3.icmp cv (.constInt (Ty.builtin .bool_).getType 0)
        obtain ⟨i5, t5, e5⟩ := h4.condbr
          (c3.CreateICmpNE cv (.constInt (Ty.builtin .bool_).getType 0)).1 bb ee
        refine ⟨i5, t5, (e3.trans (e4 _)).trans (e5 _), hl3, hi3,
          (c3.CreateICmpNE cv (.constInt (Ty.builtin .bool_).getType 0)).1,
          (c3.CreateICmpNE cv (.constInt (Ty.builtin .bool_).getType 0)).2.instsOf
            c1.insertBlock, ?_, ?_, ?_⟩
        · have h := h4.instsOf_emit_insertBlock (.condbr
            (c3.CreateICmpNE cv (.constInt (Ty.builtin .bool_).getType 0)).1 bb ee)
          have hib : (c3.CreateICmpNE cv
            (.constInt (Ty.builtin .bool_).getType 0)).2.insertBlock = c1.insertBlock := hi3
          rw [hib] at h
          exact h
        · intro hnone
          cases hnone
        · intro _
          refine ⟨c3.next, cv, rfl, ?_⟩
          have h := h3.instsOf_emit_insertBlock (.icmp_ne c3.next cv (.constInt (.int 1) 0))
          rw [hi3] at h
          have h2 : (c3.CreateICmpNE cv (.constInt (Ty.builtin .bool_).getType 0)).2.instsOf
              c1.insertBlock = c3.instsOf c1.insertBlock ++
                [.icmp_ne c3.next cv (.constInt (.int 1) 0)] := h
          rw [h2]
          simp
  · simp only [Res.mk.injEq, Except.ok.injEq, true_and] at hbr
    rw [← hbr]
    obtain ⟨i5, t5, e5⟩ := h1.condbr (.constInt (.int 1) 1) bb ee
    exact ⟨i5, t5, e5 _, rfl, rfl, _, _, h1.instsOf_emit_insertBlock _, (fun _ => rfl),
      (fun h => absurd rfl h)⟩

/-- The state in which `visitFor` lowers the condition, from the state `cI` the init
statement left: `cond_bb` is appended to the function, empty, and the insertion block;
`loop_bb`, `body_bb` and `loop_end_bb` exist and are not yet inserted. -/
theorem visitFor_entry (cI : Ctx) (hI : cI.Open) :
    ((((((cI.CreateBlock true).2.CreateBlock false).2.CreateBlock false).2.CreateBlock
      false).2.CreateBr cI.next).SetInsertPoint cI.next).Open ∧
    ((cI.next + 1) ∈ ((((((cI.CreateBlock true).2.CreateBlock false).2.CreateBlock
        false).2.CreateBlock false).2.CreateBr cI.next).SetInsertPoint cI.next).ids ∧
      (cI.next + 1) ∉ ((((((cI.CreateBlock true).2.CreateBlock false).2.CreateBlock
        false).2.CreateBlock false).2.CreateBr cI.next).SetInsertPoint cI.next).layout) ∧
    ((cI.next + 2) ∈ ((((((cI.CreateBlock true).2.CreateBlock false).2.CreateBlock
        false).2.CreateBlock false).2.CreateBr cI.next).SetInsertPoint cI.next).ids ∧
      (cI.next + 2) ∉ ((((((cI.CreateBlock true).2.CreateBlock false).2.CreateBlock
        false).2.CreateBlock false).2.CreateBr cI.next).SetInsertPoint cI.next).layout) ∧
    ((cI.next + 3) ∈ ((((((cI.CreateBlock true).2.CreateBlock false).2.CreateBlock
        false).2.CreateBlock false).2.CreateBr cI.next).SetInsertPoint cI.next).ids ∧
      (cI.next + 3) ∉ ((((((cI.CreateBlock true).2.CreateBlock false).2.CreateBlock
        false).2.CreateBlock false).2.CreateBr cI.next).SetInsertPoint cI.next).layout) ∧
    ((((((cI.CreateBlock true).2.CreateBlock false).2.CreateBlock false).2.CreateBlock
      false).2.CreateBr cI.next).SetInsertPoint cI.next).instsOf cI.next = [] := by
  obtain ⟨hA, eA, dA⟩ := hI.createBlock
  obtain ⟨hB, eB, dB⟩ := hA.createBlock
  obtain ⟨hC, eC, dC⟩ := hB.createBlock
  obtain ⟨hD, eD, dD⟩ := hC.createBlock
  obtain ⟨iE, tE, eE⟩ := hD.br cI.next
  have dA5 := (eE (cI.next + 1)).detached cI.next (Nat.lt_succ_self _)
    ((eD (cI.next + 1)).detached cI.next (Nat.lt_succ_self _)
      ((eC (cI.next + 1)).detached cI.next (Nat.lt_succ_self _)
        ((eB (cI.next + 1)).detached cI.next (Nat.lt_succ_self _) dA)))
  have dB5 := (eE (cI.next + 2)).detached (cI.next + 1) (Nat.lt_succ_self _)
    ((eD (cI.next + 2)).detached (cI.next + 1) (Nat.lt_succ_self _)
      ((eC (cI.next + 2)).detached (cI.next + 1) (Nat.lt_succ_self _) dB))
  have dC5 := (eE (cI.next + 3)).detached (cI.next + 2) (Nat.lt_succ_self _)
    ((eD (cI.next + 3)).detached (cI.next + 2) (Nat.lt_succ_self _) dC)
  have dD5 := (eE (cI.next + 4)).detached (cI.next + 3) (Nat.lt_succ_self _) dD
  have e0 : Ctx.Extends cI.next cI
      (((((cI.CreateBlock false).2.CreateBlock false).2.CreateBlock false).2.CreateBlock
        false).2.CreateBr cI.next) :=
    ((((eA _).trans (eB _)).trans (eC _)).trans (eD _)).trans (eE _)
  obtain ⟨h1, e1⟩ := iE.enter tE e0 cI.next dA5 (Nat.le_refl _)
  have dB6 := Ctx.detached_push_set _ cI.next (cI.next + 1) (Nat.succ_ne_self _) dB5
  have dC6 := Ctx.detached_push_set _ cI.next (cI.next + 2) (by omega) dC5
  have dD6 := Ctx.detached_push_set _ cI.next (cI.next + 3) (by omega) dD5
  have hc1 : ((((((cI.CreateBlock true).2.CreateBlock false).2.CreateBlock
        false).2.CreateBlock false).2.CreateBr cI.next).SetInsertPoint cI.next) =
      (((((((cI.CreateBlock false).2.CreateBlock false).2.CreateBlock
        false).2.CreateBlock false).2.CreateBr cI.next).pushBack cI.next).SetInsertPoint
          cI.next) := rfl
  rw [hc1]
  exact ⟨h1, dB6, dC6, dD6, iE.instsOf_detached cI.next dA5⟩

/-- A block that ends with an instruction and is not the insertion block still ends with
it in a state reached. -/
theorem Ctx.Reach.endsWith {cur : Cursors} {k : Bool} {c0 c : Ctx}
    (h : Ctx.Reach cur k c0 c) (id : Nat) (hid : id < c0.next) (hne : id ≠ c0.insertBlock)
    (p : List Instr) (x : Instr) (h0 : c0.instsOf id = p ++ [x]) :
    ∃ p2, c.instsOf id = p2 ++ [x] := by
  obtain ⟨pre, post, he, hp⟩ := h.instsOf_old id hid
  rw [hp hne, h0] at he
  exact ⟨pre ++ p, by rw [he]; simp⟩

/-- The states of a `For` after its init statement, one after the other: `c1` at the
entry of `cond_bb`, `c2` after the conditional branch, `c3` at the entry of `body_bb`,
`cB` after the body, `c5` at the entry of `loop_bb`, `cS` after the step, `out` at the
entry of `loop_end_bb`. -/
theorem visitFor_states (ev : ExprVisitor) (hsl : ExprVisitor.StraightLine ev) (pos : Nat)
    (cond_expr : Option Expr) (loop_stmt : Option ForLoopVariant) (body_cg : SubLowering)
    (hP : SubLowering.Preserves body_cg) (hR : SubLowering.Reaches body_cg)
    (bcur : Cursors) (sc : SymbolTable) (cI c1 c2 c3 cB c5 cS out : Ctx) (hI : cI.Open)
    (hc1 : ((((((cI.CreateBlock true).2.CreateBlock false).2.CreateBlock false).2.CreateBlock
      false).2.CreateBr cI.next).SetInsertPoint cI.next) = c1)
    (hbr : visitFor.branch ev pos cond_expr sc c1 (cI.next + 2) (cI.next + 3) = ⟨.ok (), c2⟩)
    (hc3 : (c2.pushBack (cI.next + 2)).SetInsertPoint (cI.next + 2) = c3)
    (hr : (body_cg sc bcur c3).err = none) (hcB : (body_cg sc bcur c3).ctx = cB)
    (hc5 : ((if !cB.getTerminator then cB.CreateBr (cI.next + 1) else cB).pushBack
      (cI.next + 1)).SetInsertPoint (cI.next + 1) = c5)
    (hs : (visitFor.step ev loop_stmt sc c5).err = none)
    (hcS : (visitFor.step ev loop_stmt sc c5).ctx = cS)
    (hout : ((cS.CreateBr cI.next).pushBack (cI.next + 3)).SetInsertPoint (cI.next + 3) =
      out) :
    ∃ (cnd : LValue) (mid : List Nat),
      (out.instsOf cI.next).getLast? = some (.condbr cnd (cI.next + 2) (cI.next + 3)) ∧
      (cond_expr = none → cnd = .constInt (.int 1) 1) ∧
      (cond_expr ≠ none → ∃ id cv, cnd = .inst id (.int 1) ∧
        Instr.icmp_ne id cv (.constInt (.int 1) 0) ∈ out.instsOf cI.next) ∧
      (cB.getTerminator = false →
        (out.instsOf cB.insertBlock).getLast? = some (.br (cI.next + 1))) ∧
      c5.instsOf (cI.next + 1) = [] ∧ cS.insertBlock = cI.next + 1 ∧
      out.instsOf (cI.next + 1) = cS.instsOf (cI.next + 1) ++ [.br cI.next] ∧
      (loop_stmt = none → out.instsOf (cI.next + 1) = [.br cI.next]) ∧
      out.layout = cI.layout ++ [cI.next, cI.next + 2] ++ mid ++ [cI.next + 1, cI.next + 3] ∧
      (∀ id ∈ mid, cI.next + 3 < id) ∧ out.insertBlock = cI.next + 3 := by
  obtain ⟨h1, dL, dB, dE, hemp1⟩ := visitFor_entry cI hI
  have hl1 : ((((((cI.CreateBlock true).2.CreateBlock false).2.CreateBlock
      false).2.CreateBlock false).2.CreateBr cI.next).SetInsertPoint cI.next).layout =
        cI.layout ++ [cI.next] := rfl
  have hn1 : ((((((cI.CreateBlock true).2.CreateBlock false).2.CreateBlock
      false).2.CreateBlock false).2.CreateBr cI.next).SetInsertPoint cI.next).next =
        cI.next + 4 := rfl
  have hi1 : ((((((cI.CreateBlock true).2.CreateBlock false).2.CreateBlock
      false).2.CreateBlock false).2.CreateBr cI.next).SetInsertPoint cI.next).insertBlock =
        cI.next := rfl
  rw [hc1] at h1 dL dB dE hemp1 hl1 hn1 hi1
  -- the condition
  obtain ⟨i2, t2, e2, hl2, hib2, cnd, pre, hins2, hnone, hsome⟩ :=
    visitFor_branch_shape ev hsl pos cond_expr sc c1 _ _ c2 h1 hbr
  rw [hi1] at hins2 hib2
  have hn2 : cI.next + 4 ≤ c2.next := by rw [← hn1]; exact e2.1
  have dL2 := e2.detached (cI.next + 1) (by omega) dL
  have dB2 := e2.detached (cI.next + 2) (by omega) dB
  have dE2 := e2.detached (cI.next + 3) (by omega) dE
  -- the entry of the body
  obtain ⟨h3, e3⟩ := Ctx.push_set c2 (cI.next + 2) i2 t2 dB2.1 dB2.2
  have dL3 := Ctx.detached_push_set c2 (cI.next + 2) (cI.next + 1) (by omega) dL2
  have dE3 := Ctx.detached_push_set c2 (cI.next + 2) (cI.next + 3) (by omega) dE2
  have hl3 : ((c2.pushBack (cI.next + 2)).SetInsertPoint (cI.next + 2)).layout =
      cI.layout ++ [cI.next] ++ [cI.next + 2] := by
    show c2.layout ++ [cI.next + 2] = _
    rw [hl2, hl1]
  have hn3 : ((c2.pushBack (cI.next + 2)).SetInsertPoint (cI.next + 2)).next = c2.next := rfl
  have hi3 : ((c2.pushBack (cI.next + 2)).SetInsertPoint (cI.next + 2)).insertBlock =
      cI.next + 2 := rfl
  have hins3 : ((c2.pushBack (cI.next + 2)).SetInsertPoint (cI.next + 2)).instsOf cI.next =
      pre ++ [.condbr cnd (cI.next + 2) (cI.next + 3)] := hins2
  rw [hc3] at h3 e3 dL3 dE3 hl3 hn3 hi3 hins3
  -- the body
  obtain ⟨iB, eB⟩ := hP sc bcur c3 h3 hr
  have rB := hR sc bcur c3
  rw [hcB] at iB eB rB
  obtain ⟨mid, hlB, hmid⟩ := rB.layout_eq
  have hnB : c3.next ≤ cB.next := rB.next_le
  have dLB := eB.detached (cI.next + 1) (by omega) dL3
  have dEB := eB.detached (cI.next + 3) (by omega) dE3
  obtain ⟨preB, postB, hoB, hpostB⟩ := rB.instsOf_old cI.next (by omega)
  have hinsB : cB.instsOf cI.next =
      (preB ++ pre) ++ [.condbr cnd (cI.next + 2) (cI.next + 3)] := by
    rw [hoB, hpostB (by omega), hins3]; simp
  have hibB : cB.insertBlock ≠ cI.next ∧ cB.insertBlock ≠ cI.next + 1 := by
    rcases rB.insertBlock_eq with h | h
    · rw [h, hi3]; omega
    · omega
  have hltB : cB.insertBlock < cB.next := iB.lt_next _ iB.insertBlock_mem
  -- the entry of the step block
  obtain ⟨h5, e5, hemp5, hdet5⟩ := iB.closeEnter (cI.next + 1) (cI.next + 1) dLB
  have dE5 := hdet5 (cI.next + 3) (by omega) dEB
  have hl5 : (((if !cB.getTerminator then cB.CreateBr (cI.next + 1) else cB).pushBack
      (cI.next + 1)).SetInsertPoint (cI.next + 1)).layout = cB.layout ++ [cI.next + 1] := by
    show (if !cB.getTerminator then cB.CreateBr (cI.next + 1) else cB).layout ++ _ = _
    rw [Ctx.close_layout]
  have hn5 : (((if !cB.getTerminator then cB.CreateBr (cI.next + 1) else cB).pushBack
      (cI.next + 1)).SetInsertPoint (cI.next + 1)).next = cB.next :=
    Ctx.close_next cB (cI.next + 1)
  have hi5 : (((if !cB.getTerminator then cB.CreateBr (cI.next + 1) else cB).pushBack
      (cI.next + 1)).SetInsertPoint (cI.next + 1)).insertBlock = cI.next + 1 := rfl
  have hins5 : (((if !cB.getTerminator then cB.CreateBr (cI.next + 1) else cB).pushBack
      (cI.next + 1)).SetInsertPoint (cI.next + 1)).instsOf cI.next =
        (preB ++ pre) ++ [.condbr cnd (cI.next + 2) (cI.next + 3)] := by
    show (if !cB.getTerminator then cB.CreateBr (cI.next + 1) else cB).instsOf cI.next = _
    rw [Ctx.close_instsOf_other cB _ _ (Ne.symm hibB.1), hinsB]
  have hbody5 : cB.getTerminator = false →
      (((if !cB.getTerminator then cB.CreateBr (cI.next + 1) else cB).pushBack
        (cI.next + 1)).SetInsertPoint (cI.next + 1)).instsOf cB.insertBlock =
          cB.instsOf cB.insertBlock ++ [.br (cI.next + 1)] :=
    fun hT => Ctx.close_instsOf iB hT (cI.next + 1)
  rw [hc5] at h5 e5 hemp5 dE5 hl5 hn5 hi5 hins5 hbody5
  -- the step
  obtain ⟨hS, eS⟩ := visitFor_step_step ev hsl.preserves loop_stmt sc c5 h5 hs
  have rS : Ctx.Reach bcur false c5 (visitFor.step ev loop_stmt sc c5).ctx :=
    visitFor_step_reach ev hsl Ctx.Reach.refl loop_stmt sc
  rw [hcS] at hS eS rS
  obtain ⟨hlS, hiS⟩ := rS.straight
  obtain ⟨preS, postS, hoS, hpostS⟩ := rS.instsOf_old cI.next (by omega)
  have hinsS : cS.instsOf cI.next =
      (preS ++ (preB ++ pre)) ++ [.condbr cnd (cI.next + 2) (cI.next + 3)] := by
    rw [hoS, hpostS (by omega), hins5]; simp
  have hnS : c5.next ≤ cS.next := rS.next_le
  -- the branch back and the end block
  have hbo : ∀ id, out.instsOf id = (cS.CreateBr cI.next).instsOf id := by
    intro id; rw [← hout]; rfl
  have hother : ∀ id, id ≠ cI.next + 1 → out.instsOf id = cS.instsOf id := by
    intro id hid
    rw [hbo]
    unfold Ctx.CreateBr
    rw [Ctx.instsOf_emit, if_neg (fun h => hid (by rw [h.1, hiS, hi5]))]
  have hloop : out.instsOf (cI.next + 1) = cS.instsOf (cI.next + 1) ++ [.br cI.next] := by
    rw [hbo]
    have h := hS.instsOf_emit_insertBlock (.br cI.next)
    rw [hiS, hi5] at h
    exact h
  refine ⟨cnd, mid, ?_, hnone, ?_, ?_, hemp5, by rw [hiS, hi5], hloop, ?_, ?_, ?_, ?_⟩
  · rw [hother _ (by omega), hinsS]
    exact List.getLast?_concat _
  · intro hsc
    obtain ⟨id, cv, hcnd, hmem⟩ := hsome hsc
    refine ⟨id, cv, hcnd, ?_⟩
    rw [hother _ (by omega), hinsS]
    simp only [List.mem_append]
    exact Or.inl (Or.inr (Or.inr hmem))
  · intro hT
    rw [hother _ hibB.2]
    obtain ⟨p2, hp2⟩ := rS.endsWith cB.insertBlock (by omega) (by rw [hi5]; exact hibB.2)
      _ _ (hbody5 hT)
    rw [hp2]
    exact List.getLast?_concat _
  · intro hnl
    subst hnl
    have hcs : cS = c5 := hcS.symm
    rw [hloop, hcs, hemp5]
    rfl
  · rw [← hout]
    show cS.layout ++ [cI.next + 3] = _
    rw [hlS, hl5, hlB, hl3]
    simp
  · intro id hid
    have := hmid id hid
    omega
  · rw [← hout]
    rfl

/-! ## For: the four blocks -/

theorem visit_for (ev : ExprVisitor) (pos : Nat) (init_stmt : Option ForInitVariant)
    (cond_expr : Option Expr) (loop_stmt : Option ForLoopVariant) (body : Stmt)
    (cur : Cursors) (scope : SymbolTable) (c : Ctx) :
    visit ev (.for_ pos init_stmt cond_expr loop_stmt body) cur scope c =
      visitFor ev pos init_stmt cond_expr loop_stmt
        (fun sc cu cx => codegen_statement ev body sc cu cx) cur scope c := by
  simp only [visit]

theorem codegen_statement_nil (ev : ExprVisitor) (scope : SymbolTable) (cur : Cursors)
    (c : Ctx) : codegen_statement ev .nil scope cur c = ⟨none, c⟩ := by
  simp [codegen_statement, visit, visitNil]

/-- The sample state `ctx0` is open. -/
theorem ctx0_open : ctx0.Open := by
  refine ⟨⟨⟨?_, ?_, ?_, ?_⟩, ?_, ?_⟩, ?_⟩ <;>
    simp [ctx0, Ctx.ids, Ctx.instsOf, noEarlyTerminator, Ctx.getTerminator,
      BasicBlock.hasTerminator]

/-- C34.  A `For` that lowers without a diagnostic (from an open state, with an expression
visitor that only appends to the insertion block).  With `init` the outcome of the init
statement, the four blocks are `cond_bb = init.ctx.next`, `loop_bb` (the step block),
`body_bb` and `end_bb`, created in this order; `c2` is the state the condition leaves,
`cB` the state the body leaves, `c5` the state at the entry of the step block and `cS`
the state the step leaves.
* The condition block ends with `condbr cnd body_bb end_bb`; `cnd` is the constant `true`
  (`i1 1`) when there is no condition, and the result of the compare otherwise.
* If the insertion block the body leaves has no terminator, it ends with `br loop_bb`.
* The step block is empty when the step is lowered, the step leaves it as the insertion
  block, and it ends up holding what the step put there followed by `br cond_bb` (only
  that branch when there is no step).
* The function lists its former blocks, then `cond_bb`, `body_bb`, the blocks created by
  the body, `loop_bb` and `end_bb`; `end_bb` is the insertion block. -/
theorem for_blocks (ev : ExprVisitor) (hsl : ExprVisitor.StraightLine ev) (pos : Nat)
    (init_stmt : Option ForInitVariant) (cond_expr : Option Expr)
    (loop_stmt : Option ForLoopVariant) (body : Stmt) (cur : Cursors) (scope : SymbolTable)
    (c : Ctx) (hc : c.Open)
    (hok : (visit ev (.for_ pos init_stmt cond_expr loop_stmt body) cur scope c).err = none) :
    let init := visitFor.init ev init_stmt scope c
    let cond_bb := init.ctx.next
    let loop_bb := init.ctx.next + 1
    let body_bb := init.ctx.next + 2
    let end_bb := init.ctx.next + 3
    let c1 := (((((init.ctx.CreateBlock true).2.CreateBlock false).2.CreateBlock
      false).2.CreateBlock false).2.CreateBr cond_bb).SetInsertPoint cond_bb
    let out := (visit ev (.for_ pos init_stmt cond_expr loop_stmt body) cur scope c).ctx
    ∃ (cnd : LValue) (c2 : Ctx) (mid : List Nat),
      let cB := (codegen_statement ev body init.scope
        ⟨cur.retvar, cur.end_bb, some end_bb, some loop_bb⟩
        ((c2.pushBack body_bb).SetInsertPoint body_bb)).ctx
      let c5 := ((if !cB.getTerminator then cB.CreateBr loop_bb else cB).pushBack
        loop_bb).SetInsertPoint loop_bb
      let cS := (visitFor.step ev loop_stmt init.scope c5).ctx
      visitFor.branch ev pos cond_expr init.scope c1 body_bb end_bb = ⟨.ok (), c2⟩ ∧
      (out.instsOf cond_bb).getLast? = some (.condbr cnd body_bb end_bb) ∧
      (cond_expr = none → cnd = .constInt (.int 1) 1) ∧
      (cond_expr ≠ none → ∃ id cv, cnd = .inst id (.int 1) ∧
        Instr.icmp_ne id cv (.constInt (.int 1) 0) ∈ out.instsOf cond_bb) ∧
      (cB.getTerminator = false →
        (out.instsOf cB.insertBlock).getLast? = some (.br loop_bb)) ∧
      c5.instsOf loop_bb = [] ∧ cS.insertBlock = loop_bb ∧
      out.instsOf loop_bb = cS.instsOf loop_bb ++ [.br cond_bb] ∧
      (loop_stmt = none → out.instsOf loop_bb = [.br cond_bb]) ∧
      out.layout = init.ctx.layout ++ [cond_bb, body_bb] ++ mid ++ [loop_bb, end_bb] ∧
      (∀ id ∈ mid, end_bb < id) ∧ out.insertBlock = end_bb := by
  rw [visit_for] at hok ⊢
  obtain ⟨hinit, c2, hbr, hr, hs, hout⟩ :=
    visitFor_ok_states ev pos init_stmt cond_expr loop_stmt _ cur scope c hok
  obtain ⟨hI, _⟩ := visitFor_init_step ev hsl.preserves init_stmt scope c hc hinit
  obtain ⟨cnd, mid, h⟩ := visitFor_states ev hsl pos cond_expr loop_stmt _
    (codegen_statement_preserves ev hsl body) (codegen_statement_reaches ev hsl body)
    _ _ _ _ c2 _ _ _ _ _ hI rfl hbr rfl hr rfl rfl hs rfl hout.symm
  exact ⟨cnd, c2, mid, hbr, h⟩

/-- C34, witness: `for (;;) ;` at the start of a function body.  The blocks are `1`
(condition), `2` (step), `3` (body) and `4` (end): block `1` ends with the conditional
branch on the constant `true` to `3` and `4`, the body block ends with `br 2`, the step
block holds only `br 1`, the function lists the blocks `0, 1, 3, 2, 4`, and block `4` is
the insertion block. -/
theorem for_blocks_witness :
    ExprVisitor.StraightLine sampleExprVisitor ∧ ctx0.Open ∧
    (visit sampleExprVisitor forEver cur0 emptyScope ctx0).err = none ∧
    ((visit sampleExprVisitor forEver cur0 emptyScope ctx0).ctx.instsOf 1).getLast? =
      some (.condbr (.constInt (.int 1) 1) 3 4) ∧
    ((visit sampleExprVisitor forEver cur0 emptyScope ctx0).ctx.instsOf 3).getLast? =
      some (.br 2) ∧
    (visit sampleExprVisitor forEver cur0 emptyScope ctx0).ctx.instsOf 2 = [.br 1] ∧
    (∃ mid, (visit sampleExprVisitor forEver cur0 emptyScope ctx0).ctx.layout =
      [0] ++ [1, 3] ++ mid ++ [2, 4]) ∧
    (visit sampleExprVisitor forEver cur0 emptyScope ctx0).ctx.insertBlock = 4 := by
  have hok : (visit sampleExprVisitor forEver cur0 emptyScope ctx0).err = none := by
    simp [forEver, visit, visitFor, visitNil, codegen_statement, emptyScope, ctx0, cur0,
      Ctx.CreateBr, Ctx.CreateCondBr, Ctx.CreateBlock, Ctx.pushBack, Ctx.SetInsertPoint,
      Ctx.emit, Ctx.getTerminator, BasicBlock.hasTerminator, Instr.isTerminator]
  obtain ⟨cnd, c2, mid, hbr, h1, h2, _, h4, _, _, _, h8, h9, _, h11⟩ :=
    for_blocks sampleExprVisitor sampleExprVisitor_straightLine 1 none none none .nil cur0
      emptyScope ctx0 ctx0_open hok
  have hcnd := h2 rfl
  subst hcnd
  have hc2 : c2 = (((((ctx0.CreateBlock true).2.CreateBlock false).2.CreateBlock
      false).2.CreateBlock false).2.CreateBr 1 |>.SetInsertPoint 1).CreateCondBr
        (.constInt (.int 1) 1) 3 4 := by
    simp only [visitFor.branch, Res.mk.injEq, true_and] at hbr
    exact hbr.symm
  subst hc2
  rw [codegen_statement_nil] at h4
  exact ⟨sampleExprVisitor_straightLine, ctx0_open, hok, h1, h4 rfl, h8 rfl, ⟨mid, h9⟩, h11⟩

end Maple

/-! # Facts about the type hierarchy -/

namespace Twinkle

/-! ## Mutability through nested types -/

theorem Type_.nested_assignMutable (o : Type_) (b : Bool) :
    (o.assignMutable b).nested = o.nested := by
  cases o <;> rfl

theorem Type_.isGround_assignMutable (o : Type_) (b : Bool) :
    (o.assignMutable b).isGround = o.isGround := by
  cases o <;> rfl

theorem Type_.is_mutable_assignMutable (o : Type_) (b : Bool) :
    (o.assignMutable b).is_mutable = b := by
  cases o <;> rfl

theorem Type_.assignMutable_assignMutable (o : Type_) (b : Bool) :
    (o.assignMutable b).assignMutable b = o.assignMutable b := by
  cases o <;> rfl

theorem getElem?_set_assignMutable (mem : Memory) (t p : TypePtr) (o : Type_) (b : Bool)
    (ho : mem[t]? = some o) :
    (mem.set t (o.assignMutable b))[p]? =
      if p = t then some (o.assignMutable b) else mem[p]? := by
  have hlt : t < mem.length := (List.getElem?_eq_some.1 ho).1
  rw [List.getElem?_set]
  by_cases h : t = p
  · subst h; simp [hlt]
  · have h2 : ¬ p = t := fun e => h e.symm
    simp [h, h2]

/-- Two memories that differ in `is_mutable` members only hold the same built types. -/
theorem isBuilt_congr (mem mem2 : Memory) (b : Bool)
    (h : ∀ p : TypePtr, mem2[p]? = mem[p]? ∨ mem2[p]? = (mem[p]?).map fun o : Type_ => o.assignMutable b) :
    ∀ d p, isBuilt mem2 d p = isBuilt mem d p := by
  intro d
  induction d with
  | zero =>
    intro p
    simp only [isBuilt]
    rcases h p with hp | hp <;> rw [hp]
    cases mem[p]? with
    | none => rfl
    | some o => simp [Type_.isGround_assignMutable]
  | succ d ih =>
    intro p
    simp only [isBuilt]
    rcases h p with hp | hp <;> rw [hp]
    · cases mem[p]? with
      | none => rfl
      | some o =>
        dsimp only
        cases o.nested with
        | none => rfl
        | some q => exact ih q
    · cases mem[p]? with
      | none => rfl
      | some o =>
        simp only [Option.map_some', Type_.nested_assignMutable]
        cases o.nested with
        | none => rfl
        | some q => exact ih q

theorem nestedTypes_congr (mem mem2 : Memory) (b : Bool)
    (h : ∀ p : TypePtr, mem2[p]? = mem[p]? ∨ mem2[p]? = (mem[p]?).map fun o : Type_ => o.assignMutable b) :
    ∀ d p, nestedTypes mem2 d p = nestedTypes mem d p := by
  intro d
  induction d with
  | zero => intro p; rfl
  | succ d ih =>
    intro p
    simp only [nestedTypes]
    rcases h p with hp | hp <;> rw [hp]
    · cases mem[p]? with
      | none => rfl
      | some o =>
        dsimp only
        cases o.nested with
        | none => rfl
        | some q => simp only [ih q]
    · cases mem[p]? with
      | none => rfl
      | some o =>
        simp only [Option.map_some', Type_.nested_assignMutable]
        cases o.nested with
        | none => rfl
        | some q => simp only [ih q]

theorem set_assignMutable_flags (mem : Memory) (t : TypePtr) (o : Type_) (b : Bool)
    (ho : mem[t]? = some o) (p : TypePtr) :
    (mem.set t (o.assignMutable b))[p]? = mem[p]? ∨
    (mem.set t (o.assignMutable b))[p]? = (mem[p]?).map fun o : Type_ => o.assignMutable b := by
  rw [getElem?_set_assignMutable mem t p o b ho]
  by_cases h : p = t
  · subst h; right; simp [ho]
  · left; simp [h]

/-- Every nested type of a built type is an object of the memory. -/
theorem nestedTypes_object (mem : Memory) :
    ∀ d t, isBuilt mem d t = true → ∀ p ∈ nestedTypes mem d t, ∃ o, mem[p]? = some o := by
  intro d
  induction d with
  | zero =>
    intro t hb p hp
    simp only [nestedTypes, List.mem_singleton] at hp
    subst hp
    simp only [isBuilt] at hb
    cases ho : mem[p]? with
    | none => simp [ho] at hb
    | some o => exact ⟨o, rfl⟩
  | succ d ih =>
    intro t hb p hp
    simp only [isBuilt] at hb
    simp only [nestedTypes] at hp
    cases ho : mem[t]? with
    | none => simp [ho] at hb
    | some o =>
      rw [ho] at hb hp
      dsimp only at hb hp
      cases hq : o.nested with
      | none => simp [hq] at hb
      | some q =>
        rw [hq] at hb hp
        dsimp only at hb hp
        rcases List.mem_cons.1 hp with rfl | hp
        · exact ⟨o, ho⟩
        · exact ih q hb p hp

/-- The memory after `setMutable` on a built type: the call returns, and exactly the
objects of the type and of its nested types have `is_mutable` assigned. -/
theorem setMutable_built (ctx : CGContext) (b : Bool) :
    ∀ (d : Nat) (mem : Memory) (t : TypePtr) (fuel : Nat), isBuilt mem d t = true →
      d < fuel →
      ∃ mem2, setMutable fuel ctx mem t b = .ok mem2 ∧
        ∀ p, mem2[p]? =
          if p ∈ nestedTypes mem d t then (mem[p]?).map fun o : Type_ => o.assignMutable b
          else mem[p]? := by
  intro d
  induction d with
  | zero =>
    intro mem t fuel hb hf
    obtain ⟨f, rfl⟩ : ∃ f, fuel = f + 1 := ⟨fuel - 1, by omega⟩
    simp only [isBuilt] at hb
    cases ho : mem[t]? with
    | none => simp [ho] at hb
    | some o =>
      rw [ho] at hb
      dsimp only at hb
      refine ⟨mem.set t (o.assignMutable b), ?_, fun p => ?_⟩
      · cases o <;> first | (simp [Type_.isGround] at hb; done) | simp [setMutable, ho]
      · rw [getElem?_set_assignMutable mem t p o b ho]
        by_cases h : p = t
        · subst h; simp [nestedTypes, ho]
        · simp [nestedTypes, h]
  | succ d ih =>
    intro mem t fuel hb hf
    obtain ⟨f, rfl⟩ : ∃ f, fuel = f + 1 := ⟨fuel - 1, by omega⟩
    simp only [isBuilt] at hb
    cases ho : mem[t]? with
    | none => simp [ho] at hb
    | some o =>
      rw [ho] at hb
      dsimp only at hb
      cases hq : o.nested with
      | none => simp [hq] at hb
      | some q =>
        rw [hq] at hb
        dsimp only at hb
        have hflags := set_assignMutable_flags mem t o b ho
        have hb1 : isBuilt (mem.set t (o.assignMutable b)) d q = true := by
          rw [isBuilt_congr mem _ b hflags]; exact hb
        obtain ⟨mem2, h2, hmem2⟩ := ih (mem.set t (o.assignMutable b)) q f hb1 (by omega)
        rw [nestedTypes_congr mem _ b hflags] at hmem2
        have hstep : setMutable (f + 1) ctx mem t b =
            setMutable f ctx (mem.set t (o.assignMutable b)) q b := by
          cases o <;> first | (simp [Type_.nested] at hq; done) |
            (simp only [Type_.nested, Option.some.injEq] at hq; subst hq
             simp [setMutable, ho])
        refine ⟨mem2, by rw [hstep]; exact h2, fun p => ?_⟩
        rw [hmem2 p, getElem?_set_assignMutable mem t p o b ho]
        simp only [nestedTypes, ho, hq, List.mem_cons]
        by_cases h : p = t
        · subst h
          simp [ho, Type_.assignMutable_assignMutable]
        · simp [h]

/-- C23.  A type built by pointer, array and reference constructors over a leaf (a
builtin type; a class or union leaf behaves alike): with fuel for the nesting depth
`setMutable(ctx, b)` on the outermost object returns, the nested pointee / element /
refee objects are the same as before, and afterwards `isMutable()` returns `b` on the
outermost object and on every nested object down to the leaf. -/
theorem setMutable_propagates (ctx : CGContext) (mem : Memory) (t : TypePtr) (b : Bool)
    (d fuel : Nat) (hb : isBuilt mem d t = true) (hf : d < fuel) :
    ∃ mem2, setMutable fuel ctx mem t b = .ok mem2 ∧
      nestedTypes mem2 d t = nestedTypes mem d t ∧
      ∀ p ∈ nestedTypes mem2 d t, isMutable mem2 p = .ok b := by
  obtain ⟨mem2, h2, hmem2⟩ := setMutable_built ctx b d mem t fuel hb hf
  have hflags : ∀ p : TypePtr, mem2[p]? = mem[p]? ∨
      mem2[p]? = (mem[p]?).map fun o : Type_ => o.assignMutable b := by
    intro p
    rw [hmem2 p]
    by_cases h : p ∈ nestedTypes mem d t
    · right; simp [h]
    · left; simp [h]
  have hn := nestedTypes_congr mem mem2 b hflags d t
  refine ⟨mem2, h2, hn, fun p hp => ?_⟩
  rw [hn] at hp
  obtain ⟨o, ho⟩ := nestedTypes_object mem d t hb p hp
  simp [isMutable, hmem2 p, hp, ho, Type_.is_mutable_assignMutable]

/-- C23, witness: `&[*i32; 4]` (address `3`) is built by three constructors over `i32`;
after `setMutable(ctx, true)` on it the reference, the array, the pointer and `i32` are
all mutable. -/
theorem setMutable_propagates_witness :
    isBuilt mem0 3 3 = true ∧ nestedTypes mem0 3 3 = [3, 2, 1, 0] ∧
    ∃ mem2, setMutable 4 cgctx0 mem0 3 true = .ok mem2 ∧
      nestedTypes mem2 3 3 = nestedTypes mem0 3 3 ∧
      ∀ p ∈ nestedTypes mem2 3 3, isMutable mem2 p = .ok true :=
  ⟨by decide, by decide,
    setMutable_propagates cgctx0 mem0 3 true 3 4 (by decide) (by decide)⟩

/-! ## Cloning -/

theorem getElem?_append_of_some (mem l : Memory) (p : TypePtr) (o : Type_)
    (ho : mem[p]? = some o) : (mem ++ l)[p]? = some o := by
  rw [List.getElem?_append_left (List.getElem?_eq_some.1 ho).1, ho]

theorem isBuilt_append (mem l : Memory) :
    ∀ d p, isBuilt mem d p = true → isBuilt (mem ++ l) d p = true := by
  intro d
  induction d with
  | zero =>
    intro p hb
    simp only [isBuilt] at hb ⊢
    cases ho : mem[p]? with
    | none => simp [ho] at hb
    | some o => rw [getElem?_append_of_some mem l p o ho]; simpa [ho] using hb
  | succ d ih =>
    intro p hb
    simp only [isBuilt] at hb ⊢
    cases ho : mem[p]? with
    | none => simp [ho] at hb
    | some o =>
      rw [getElem?_append_of_some mem l p o ho]
      rw [ho] at hb
      dsimp only at hb ⊢
      cases hq : o.nested with
      | none => simp [hq] at hb
      | some q =>
        rw [hq] at hb
        exact ih q hb

theorem nestedTypes_append (mem l : Memory) :
    ∀ d p, isBuilt mem d p = true → nestedTypes (mem ++ l) d p = nestedTypes mem d p := by
  intro d
  induction d with
  | zero => intro p _; rfl
  | succ d ih =>
    intro p hb
    simp only [isBuilt] at hb
    simp only [nestedTypes]
    cases ho : mem[p]? with
    | none => simp [ho] at hb
    | some o =>
      rw [getElem?_append_of_some mem l p o ho]
      rw [ho] at hb
      dsimp only at hb ⊢
      cases hq : o.nested with
      | none => simp [hq] at hb
      | some q =>
        rw [hq] at hb
        simp only [ih q hb]

/-- The number of constructors of a built type is determined by the object. -/
theorem isBuilt_depth_unique (mem : Memory) :
    ∀ a b p, isBuilt mem a p = true → isBuilt mem b p = true → a = b := by
  intro a
  induction a with
  | zero =>
    intro b p ha hb
    cases b with
    | zero => rfl
    | succ b =>
      simp only [isBuilt] at ha hb
      cases ho : mem[p]? with
      | none => simp [ho] at ha
      | some o =>
        rw [ho] at ha hb
        dsimp only at ha hb
        cases o <;> simp [Type_.isGround, Type_.nested] at ha hb
  | succ a ih =>
    intro b p ha hb
    cases b with
    | zero =>
      simp only [isBuilt] at ha hb
      cases ho : mem[p]? with
      | none => simp [ho] at ha
      | some o =>
        rw [ho] at ha hb
        dsimp only at ha hb
        cases o <;> simp [Type_.isGround, Type_.nested] at ha hb
    | succ b =>
      simp only [isBuilt] at ha hb
      cases ho : mem[p]? with
      | none => simp [ho] at ha
      | some o =>
        rw [ho] at ha hb
        dsimp only at ha hb
        cases hq : o.nested with
        | none => simp [hq] at ha
        | some q =>
          rw [hq] at ha hb
          rw [ih b q ha hb]

theorem nestedTypes_isBuilt (mem : Memory) :
    ∀ d t, isBuilt mem d t = true → ∀ p ∈ nestedTypes mem d t,
      ∃ k, k ≤ d ∧ isBuilt mem k p = true := by
  intro d
  induction d with
  | zero =>
    intro t hb p hp
    simp only [nestedTypes, List.mem_singleton] at hp
    subst hp
    exact ⟨0, Nat.le_refl _, hb⟩
  | succ d ih =>
    intro t hb p hp
    have hb0 := hb
    simp only [isBuilt] at hb
    simp only [nestedTypes] at hp
    cases ho : mem[t]? with
    | none => simp [ho] at hb
    | some o =>
      rw [ho] at hb hp
      dsimp only at hb hp
      cases hq : o.nested with
      | none => simp [hq] at hb
      | some q =>
        rw [hq] at hb hp
        dsimp only at hb hp
        rcases List.mem_cons.1 hp with rfl | hp
        · exact ⟨d + 1, Nat.le_refl _, hb0⟩
        · obtain ⟨k, hk, hkb⟩ := ih q hb p hp
          exact ⟨k, Nat.le_succ_of_le hk, hkb⟩

/-- C24, as amended.  `clone()` copies the outermost object only.  For a pointer, array
or reference type `t` built over a leaf (`d + 1` constructors): the clone is a new
object with the data members of `t`; `setMutable(ctx, b)` on the clone returns, makes
the clone mutable as `b`, leaves `isMutable()` of `t` unchanged, and, the pointee /
element / refee objects being shared between `t` and the clone, makes `isMutable()` of
every nested object of `t` return `b`. -/
theorem clone_setMutable (ctx : CGContext) (mem : Memory) (t : TypePtr) (b : Bool)
    (d fuel : Nat) (hb : isBuilt mem (d + 1) t = true) (hf : d + 1 < fuel) :
    ∃ o mem2, mem[t]? = some o ∧ clone mem t = .ok (mem.length, mem ++ [o]) ∧
      setMutable fuel ctx (mem ++ [o]) mem.length b = .ok mem2 ∧
      isMutable mem2 mem.length = .ok b ∧
      isMutable mem2 t = isMutable mem t ∧
      ∀ p ∈ (nestedTypes mem (d + 1) t).tail, isMutable mem2 p = .ok b := by
  have hb0 := hb
  simp only [isBuilt] at hb
  cases ho : mem[t]? with
  | none => simp [ho] at hb
  | some o =>
    rw [ho] at hb
    dsimp only at hb
    cases hq : o.nested with
    | none => simp [hq] at hb
    | some q =>
      rw [hq] at hb
      dsimp only at hb
      have hc : (mem ++ [o])[mem.length]? = some o := List.getElem?_concat_length mem o
      have hbc : isBuilt (mem ++ [o]) (d + 1) mem.length = true := by
        simp only [isBuilt, hc, hq]
        exact isBuilt_append mem [o] d q hb
      obtain ⟨mem2, h2, hmem2⟩ := setMutable_built ctx b (d + 1) (mem ++ [o]) mem.length
        fuel hbc hf
      have hnt : nestedTypes (mem ++ [o]) (d + 1) mem.length =
          mem.length :: nestedTypes mem d q := by
        simp only [nestedTypes, hc, hq, nestedTypes_append mem [o] d q hb]
      have htail : (nestedTypes mem (d + 1) t).tail = nestedTypes mem d q := by
        simp only [nestedTypes, ho, hq, List.tail_cons]
      have hlt : t < mem.length := (List.getElem?_eq_some.1 ho).1
      have htn : t ∉ nestedTypes mem d q := by
        intro hmem
        obtain ⟨k, hk, hkb⟩ := nestedTypes_isBuilt mem d q hb t hmem
        have := isBuilt_depth_unique mem k (d + 1) t hkb hb0
        omega
      refine ⟨o, mem2, rfl, by simp [clone, ho], h2, ?_, ?_, fun p hp => ?_⟩
      · simp [isMutable, hmem2, hnt, hc, Type_.is_mutable_assignMutable]
      · have hne : t ≠ mem.length := Nat.ne_of_lt hlt
        simp [isMutable, hmem2, hnt, hne, htn, getElem?_append_of_some mem [o] t o ho, ho]
      · rw [htail] at hp
        obtain ⟨op, hop⟩ := nestedTypes_object mem d q hb p hp
        simp [isMutable, hmem2, hnt, hp, getElem?_append_of_some mem [o] p op hop,
          Type_.is_mutable_assignMutable]

/-- C24, witness of the amended claim: the clone of `&[*i32; 4]` is made mutable; the
reference at address `3` stays immutable and the array, the pointer and `i32` become
mutable. -/
theorem clone_setMutable_witness :
    isBuilt mem0 3 3 = true ∧ (nestedTypes mem0 3 3).tail = [2, 1, 0] ∧
    isMutable mem0 3 = .ok false ∧
    ∃ o mem2, mem0[3]? = some o ∧ clone mem0 3 = .ok (mem0.length, mem0 ++ [o]) ∧
      setMutable 4 cgctx0 (mem0 ++ [o]) mem0.length true = .ok mem2 ∧
      isMutable mem2 mem0.length = .ok true ∧
      isMutable mem2 3 = isMutable mem0 3 ∧
      ∀ p ∈ (nestedTypes mem0 3 3).tail, isMutable mem2 p = .ok true :=
  ⟨by decide, by decide, rfl,
    clone_setMutable cgctx0 mem0 3 true 2 4 (by decide) (by decide)⟩

/-- C24, counterexample: `*i32` at address `1` points to the immutable `i32` at address
`0`.  Its clone is a second pointer object with the same pointee, and
`setMutable(ctx, true)` on the clone makes the pointee of the original mutable: the
copy is not deep. -/
theorem clone_is_shallow_counterexample :
    getPointeeType 1 cgctx0 mem0 1 = .ok 0 ∧ isMutable mem0 0 = .ok false ∧
    clone mem0 1 = .ok (12, mem0 ++ [.PointerType 0 false]) ∧
    ∃ mem2, setMutable 2 cgctx0 (mem0 ++ [.PointerType 0 false]) 12 true = .ok mem2 ∧
      getPointeeType 1 cgctx0 mem2 1 = .ok 0 ∧ isMutable mem2 0 = .ok true :=
  ⟨rfl, rfl, rfl, _, rfl, rfl, rfl⟩

/-! ## Mangled names -/

theorem digitChar_facts : ∀ d, d < 10 → (Nat.digitChar d).utf8Size = 1 ∧ Nat.digitChar d ≠ 'R' := by
  decide

theorem toDigitsCore_chars (f : Nat) : ∀ (n : Nat) (ds : List Char),
    (∀ c ∈ ds, c.utf8Size = 1 ∧ c ≠ 'R') →
    ∀ c ∈ Nat.toDigitsCore 10 f n ds, c.utf8Size = 1 ∧ c ≠ 'R' := by
  induction f with
  | zero => intro n ds h; simpa [Nat.toDigitsCore] using h
  | succ f ih =>
    intro n ds h
    have hd : ∀ c ∈ Nat.digitChar (n % 10) :: ds, c.utf8Size = 1 ∧ c ≠ 'R' := by
      intro c hc
      rcases List.mem_cons.1 hc with rfl | hc
      · exact digitChar_facts _ (Nat.mod_lt _ (by decide))
      · exact h c hc
    simp only [Nat.toDigitsCore]
    split
    · exact hd
    · exact ih _ _ hd

theorem toDigitsCore_length_log (f : Nat) : ∀ (n : Nat) (ds : List Char), n < f →
    (Nat.toDigitsCore 10 f n ds).length = ds.length + Nat.log 10 n + 1 := by
  induction f with
  | zero => intro n ds h; omega
  | succ f ih =>
    intro n ds h
    simp only [Nat.toDigitsCore]
    split
    · rename_i h0
      have hlt : n < 10 := by omega
      simp [Nat.log_of_lt hlt]
    · rename_i h0
      have hge : 10 ≤ n := by omega
      rw [ih _ _ (by omega), Nat.log_of_one_lt_of_le (by decide) hge]
      simp only [List.length_cons]
      omega

theorem utf8Len_eq_length (l : List Char) (h : ∀ c ∈ l, c.utf8Size = 1 ∧ c ≠ 'R') :
    String.utf8Len l = l.length := by
  induction l with
  | nil => rfl
  | cons c l ih =>
    rw [String.utf8Len_cons, ih (fun x hx => h x (List.mem_cons_of_mem _ hx)),
      (h c (List.mem_cons_self _ _)).1, List.length_cons]

theorem utf8ByteSize_toString (n : Nat) : (toString n).utf8ByteSize = Nat.log 10 n + 1 := by
  show String.utf8Len (Nat.toDigits 10 n) = _
  unfold Nat.toDigits
  rw [utf8Len_eq_length _ (toDigitsCore_chars _ _ _ (by simp)),
    toDigitsCore_length_log _ _ _ (Nat.lt_succ_self n)]
  simp

theorem toString_data_head (n : Nat) :
    ∃ c rest, (toString n).data = c :: rest ∧ c ≠ 'R' := by
  have hlen : (Nat.toDigits 10 n).length = Nat.log 10 n + 1 := by
    rw [Nat.toDigits, toDigitsCore_length_log _ _ _ (Nat.lt_succ_self n)]; simp
  have hch := toDigitsCore_chars (n + 1) n [] (by simp)
  show ∃ c rest, Nat.toDigits 10 n = c :: rest ∧ c ≠ 'R'
  cases hl : Nat.toDigits 10 n with
  | nil => rw [hl] at hlen; simp at hlen
  | cons c rest =>
    refine ⟨c, rest, rfl, (hch c ?_).2⟩
    show c ∈ Nat.toDigits 10 n
    rw [hl]; exact List.mem_cons_self _ _

theorem utf8ByteSize_append_eq (s t : String) :
    (s ++ t).utf8ByteSize = s.utf8ByteSize + t.utf8ByteSize := by
  show String.utf8Len (s ++ t).data = String.utf8Len s.data + String.utf8Len t.data
  rw [String.data_append, String.utf8Len_append]

/-- The length of a name followed by the name determines the name. -/
theorem length_prefixed_injective (a b : String)
    (h : toString a.utf8ByteSize ++ a = toString b.utf8ByteSize ++ b) : a = b := by
  have hs := congrArg String.utf8ByteSize h
  rw [utf8ByteSize_append_eq, utf8ByteSize_append_eq, utf8ByteSize_toString,
    utf8ByteSize_toString] at hs
  have hab : a.utf8ByteSize = b.utf8ByteSize := by
    rcases Nat.lt_trichotomy a.utf8ByteSize b.utf8ByteSize with hlt | heq | hgt
    · have := @Nat.log_mono_right 10 _ _ (Nat.le_of_lt hlt); omega
    · exact heq
    · have := @Nat.log_mono_right 10 _ _ (Nat.le_of_lt hgt); omega
  rw [hab] at h
  have hd := congrArg String.data h
  rw [String.data_append, String.data_append] at hd
  exact String.ext (List.append_cancel_left hd)

/-- The mangled name of a class or union, or of a reference to one at any depth, does
not change when objects are added to the memory. -/
theorem getMangledName_append (bt : BuiltinMembers) (ctx : CGContext) (mem l : Memory) :
    ∀ d p, refersTo Type_.isClassOrUnion mem d p = true → ∀ fuel,
      getMangledName bt fuel ctx (mem ++ l) p = getMangledName bt fuel ctx mem p := by
  intro d
  induction d with
  | zero =>
    intro p h fuel
    simp only [refersTo] at h
    cases ho : mem[p]? with
    | none => simp [ho] at h
    | some o =>
      rw [ho] at h
      cases fuel with
      | zero => rfl
      | succ f =>
        cases o <;> first | (simp [Type_.isClassOrUnion] at h; done) |
          simp [getMangledName, ho, getElem?_append_of_some mem l p _ ho]
  | succ d ih =>
    intro p h fuel
    simp only [refersTo] at h
    cases ho : mem[p]? with
    | none => simp [ho] at h
    | some o =>
      rw [ho] at h
      cases fuel with
      | zero => rfl
      | succ f =>
        cases o <;> first | (simp at h; done) |
          (simp only [getMangledName, ho, getElem?_append_of_some mem l p _ ho]
           rw [ih _ h f])

/-- With fuel for the depth, the mangled name of a class or union, or of a reference to
one, is returned. -/
theorem getMangledName_returns (bt : BuiltinMembers) (ctx : CGContext) (mem : Memory) :
    ∀ d p, refersTo Type_.isClassOrUnion mem d p = true →
      ∃ s, getMangledName bt (d + 1) ctx mem p = .ok s := by
  intro d
  induction d with
  | zero =>
    intro p h
    simp only [refersTo] at h
    cases ho : mem[p]? with
    | none => simp [ho] at h
    | some o =>
      rw [ho] at h
      cases o <;> first | (simp [Type_.isClassOrUnion] at h; done) |
        simp [getMangledName, ho]
  | succ d ih =>
    intro p h
    simp only [refersTo] at h
    cases ho : mem[p]? with
    | none => simp [ho] at h
    | some o =>
      rw [ho] at h
      cases o <;> first | (simp at h; done) |
        (obtain ⟨s, hs⟩ := ih _ h
         exact ⟨"R" ++ s, by rw [getMangledName, ho]; simp only [hs]⟩)

/-- C25.  For a class type, a union type, or a reference (at any depth `d`) to one of
them: `clone()` returns a new object, `getMangledName` returns on the original, and on
the clone it returns what it returns on the original. -/
theorem clone_getMangledName (bt : BuiltinMembers) (ctx : CGContext) (mem : Memory)
    (t : TypePtr) (d : Nat) (h : refersTo Type_.isClassOrUnion mem d t = true) :
    ∃ o s, mem[t]? = some o ∧ clone mem t = .ok (mem.length, mem ++ [o]) ∧
      getMangledName bt (d + 1) ctx mem t = .ok s ∧
      ∀ fuel, getMangledName bt fuel ctx (mem ++ [o]) mem.length =
        getMangledName bt fuel ctx mem t := by
  obtain ⟨s, hs⟩ := getMangledName_returns bt ctx mem d t h
  cases ho : mem[t]? with
  | none => cases d <;> simp [refersTo, ho] at h
  | some o =>
    have hc : (mem ++ [o])[mem.length]? = some o := List.getElem?_concat_length mem o
    refine ⟨o, s, rfl, by simp [clone, ho], hs, fun fuel => ?_⟩
    cases fuel with
    | zero => rfl
    | succ f =>
      cases d with
      | zero =>
        simp only [refersTo, ho] at h
        cases o <;> first | (simp [Type_.isClassOrUnion] at h; done) |
          simp [getMangledName, ho, hc]
      | succ d =>
        simp only [refersTo, ho] at h
        cases o <;> first | (simp at h; done) |
          (simp only [getMangledName, ho, hc]
           rw [getMangledName_append bt ctx mem _ d _ h f])

/-- C25, witness: the clone of `&&Foo` (address `9`) is mangled `RR3Foo`, as `&&Foo`
is. -/
theorem clone_getMangledName_witness :
    refersTo Type_.isClassOrUnion mem0 2 9 = true ∧
    getMangledName builtinMembers0 3 cgctx0 mem0 9 = .ok "RR3Foo" ∧
    ∃ o s, mem0[9]? = some o ∧ clone mem0 9 = .ok (mem0.length, mem0 ++ [o]) ∧
      getMangledName builtinMembers0 3 cgctx0 mem0 9 = .ok s ∧
      ∀ fuel, getMangledName builtinMembers0 fuel cgctx0 (mem0 ++ [o]) mem0.length =
        getMangledName builtinMembers0 fuel cgctx0 mem0 9 :=
  ⟨by decide, rfl, clone_getMangledName builtinMembers0 cgctx0 mem0 9 2 (by decide)⟩

theorem string_append_left_cancel (s a b : String) (h : s ++ a = s ++ b) : a = b := by
  have hd := congrArg String.data h
  rw [String.data_append, String.data_append] at hd
  exact String.ext (List.append_cancel_left hd)

theorem length_prefixed_ne_reference (n : Nat) (a s : String) :
    toString n ++ a ≠ "R" ++ s := by
  intro h
  obtain ⟨c, rest, hc, hne⟩ := toString_data_head n
  have hd := congrArg String.data h
  rw [String.data_append, String.data_append, hc] at hd
  have : c = 'R' := by
    have := congrArg List.head? hd
    simpa using this
  exact hne this

/-- References to classes of different names, at any depths, have different mangled
names. -/
theorem getMangledName_class_injective (bt : BuiltinMembers) (ctx : CGContext)
    (mem : Memory) (n1 n2 : String) :
    ∀ d1 d2 p1 p2 f1 f2 s, refersTo (Type_.isClassNamed n1) mem d1 p1 = true →
      refersTo (Type_.isClassNamed n2) mem d2 p2 = true →
      getMangledName bt f1 ctx mem p1 = .ok s → getMangledName bt f2 ctx mem p2 = .ok s →
      n1 = n2 ∧ d1 = d2 := by
  intro d1
  induction d1 with
  | zero =>
    intro d2 p1 p2 f1 f2 s h1 h2 g1 g2
    simp only [refersTo] at h1
    cases ho1 : mem[p1]? with
    | none => simp [ho1] at h1
    | some o1 =>
      rw [ho1] at h1
      cases f1 with
      | zero => simp [getMangledName] at g1
      | succ f1 =>
        cases f2 with
        | zero => simp [getMangledName] at g2
        | succ f2 =>
          cases o1 <;> first | (simp [Type_.isClassNamed] at h1; done) | skip
          rename_i opq ms name mu
          simp only [Type_.isClassNamed, decide_eq_true_eq] at h1
          subst h1
          simp only [getMangledName, ho1, Except.ok.injEq] at g1
          cases d2 with
          | zero =>
            simp only [refersTo] at h2
            cases ho2 : mem[p2]? with
            | none => simp [ho2] at h2
            | some o2 =>
              rw [ho2] at h2
              cases o2 <;> first | (simp [Type_.isClassNamed] at h2; done) | skip
              rename_i opq2 ms2 name2 mu2
              simp only [Type_.isClassNamed, decide_eq_true_eq] at h2
              subst h2
              simp only [getMangledName, ho2, Except.ok.injEq] at g2
              exact ⟨length_prefixed_injective _ _ (g1.trans g2.symm), rfl⟩
          | succ d2 =>
            simp only [refersTo] at h2
            cases ho2 : mem[p2]? with
            | none => simp [ho2] at h2
            | some o2 =>
              rw [ho2] at h2
              cases o2 <;> first | (simp at h2; done) | skip
              rename_i q2 mu2
              simp only [getMangledName, ho2] at g2
              cases hq : getMangledName bt f2 ctx mem q2 with
              | error e => simp [hq] at g2
              | ok s2 =>
                simp only [hq, Except.ok.injEq] at g2
                exact absurd (g1.trans g2.symm) (length_prefixed_ne_reference _ _ _)
  | succ d1 ih =>
    intro d2 p1 p2 f1 f2 s h1 h2 g1 g2
    simp only [refersTo] at h1
    cases ho1 : mem[p1]? with
    | none => simp [ho1] at h1
    | some o1 =>
      rw [ho1] at h1
      cases f1 with
      | zero => simp [getMangledName] at g1
      | succ f1 =>
        cases f2 with
        | zero => simp [getMangledName] at g2
        | succ f2 =>
          cases o1 <;> first | (simp at h1; done) | skip
          rename_i q1 mu1
          simp only [getMangledName, ho1] at g1
          cases hq1 : getMangledName bt f1 ctx mem q1 with
          | error e => simp [hq1] at g1
          | ok s1 =>
            simp only [hq1, Except.ok.injEq] at g1
            cases d2 with
            | zero =>
              simp only [refersTo] at h2
              cases ho2 : mem[p2]? with
              | none => simp [ho2] at h2
              | some o2 =>
                rw [ho2] at h2
                cases o2 <;> first | (simp [Type_.isClassNamed] at h2; done) | skip
                rename_i opq2 ms2 name2 mu2
                simp only [getMangledName, ho2, Except.ok.injEq] at g2
                exact absurd (g2.trans g1.symm) (length_prefixed_ne_reference _ _ _)
            | succ d2 =>
              simp only [refersTo] at h2
              cases ho2 : mem[p2]? with
              | none => simp [ho2] at h2
              | some o2 =>
                rw [ho2] at h2
                cases o2 <;> first | (simp at h2; done) | skip
                rename_i q2 mu2
                simp only [getMangledName, ho2] at g2
                cases hq2 : getMangledName bt f2 ctx mem q2 with
                | error e => simp [hq2] at g2
                | ok s2 =>
                  simp only [hq2, Except.ok.injEq] at g2
                  have hs : s1 = s2 := string_append_left_cancel "R" s1 s2 (g1.trans g2.symm)
                  obtain ⟨hn, hd⟩ := ih d2 q1 q2 f1 f2 s1 h1 h2 hq1 (hs ▸ hq2)
                  exact ⟨hn, by rw [hd]⟩

/-- C26.  `ClassType::getMangledName` and `UnionType::getMangledName` return the decimal
length of the name (in bytes) followed by the name, `ReferenceType::getMangledName`
returns `"R"` followed by the mangled name of the refee, and the mangling is injective
on class names: if two class types, or two references to class types at any nesting
depths, have the same mangled string, then the class names are equal (and so are the
depths). -/
theorem getMangledName_class_reference (bt : BuiltinMembers) (ctx : CGContext)
    (mem : Memory) :
    (∀ p n opq ms name mu, mem[p]? = some (.ClassType opq ms name mu) →
      getMangledName bt (n + 1) ctx mem p = .ok (toString name.utf8ByteSize ++ name)) ∧
    (∀ p n name vs mu, mem[p]? = some (.UnionType name vs mu) →
      getMangledName bt (n + 1) ctx mem p = .ok (toString name.utf8ByteSize ++ name)) ∧
    (∀ p n q mu s, mem[p]? = some (.ReferenceType q mu) →
      getMangledName bt n ctx mem q = .ok s →
      getMangledName bt (n + 1) ctx mem p = .ok ("R" ++ s)) ∧
    (∀ n1 n2 d1 d2 p1 p2 f1 f2 s, refersTo (Type_.isClassNamed n1) mem d1 p1 = true →
      refersTo (Type_.isClassNamed n2) mem d2 p2 = true →
      getMangledName bt f1 ctx mem p1 = .ok s → getMangledName bt f2 ctx mem p2 = .ok s →
      n1 = n2 ∧ d1 = d2) := by
  refine ⟨fun p n opq ms name mu h => ?_, fun p n name vs mu h => ?_,
    fun p n q mu s h hs => ?_, fun n1 n2 => getMangledName_class_injective bt ctx mem n1 n2⟩
  · simp only [getMangledName, h]
  · simp only [getMangledName, h]
  · simp only [getMangledName, h, hs]

/-- C26, witness: the class `Foo` is mangled `3Foo`, the union `U` is mangled `1U`, the
reference `&Foo` is mangled `R3Foo` and the class `Baz` is mangled `3Baz`; the two
`&Foo` objects at addresses `5` and `11` are mangled alike, and their class names and
depths agree. -/
theorem getMangledName_class_reference_witness :
    getMangledName builtinMembers0 1 cgctx0 mem0 4 = .ok "3Foo" ∧
    getMangledName builtinMembers0 1 cgctx0 mem0 8 = .ok "1U" ∧
    getMangledName builtinMembers0 2 cgctx0 mem0 5 = .ok "R3Foo" ∧
    getMangledName builtinMembers0 1 cgctx0 mem0 10 = .ok "3Baz" ∧
    getMangledName builtinMembers0 2 cgctx0 mem0 11 = .ok "R3Foo" ∧
    ("Foo" = "Foo" ∧ 1 = 1) :=
  ⟨(getMangledName_class_reference builtinMembers0 cgctx0 mem0).1 4 0 false [⟨"x", 0⟩] "Foo"
      false rfl,
    (getMangledName_class_reference builtinMembers0 cgctx0 mem0).2.1 8 0 "U" [] false rfl,
    (getMangledName_class_reference builtinMembers0 cgctx0 mem0).2.2.1 5 1 4 false "3Foo" rfl
      rfl,
    rfl, rfl,
    (getMangledName_class_reference builtinMembers0 cgctx0 mem0).2.2.2
      "Foo" "Foo" 1 1 5 11 2 2 "R3Foo" (by decide) (by decide) rfl rfl⟩

/-! ## User-defined types -/

/-- C27.  A `UserDefinedType` whose identifier resolves to the real type `T`: each
structural query on it is the same query on `T` (the call on the user-defined type is
one call longer, hence the one unit of fuel more), `isUserDefinedType` is `true` on it
and `false` on an object of every other class. -/
theorem userDefinedType_queries_real_type (bt : BuiltinMembers) (ctx : CGContext)
    (mem : Memory) (u T : TypePtr) (ident : String) (m : Bool) (n : Nat)
    (hu : mem[u]? = some (.UserDefinedType ident m))
    (hT : getRealType ctx ident = some T) :
    isVoidTy (n + 1) ctx mem u = isVoidTy n ctx mem T ∧
    isIntegerTy bt (n + 1) ctx mem u = isIntegerTy bt n ctx mem T ∧
    isFloatingPointTy (n + 1) ctx mem u = isFloatingPointTy n ctx mem T ∧
    isPointerTy (n + 1) ctx mem u = isPointerTy n ctx mem T ∧
    isRefTy (n + 1) ctx mem u = isRefTy n ctx mem T ∧
    isArrayTy (n + 1) ctx mem u = isArrayTy n ctx mem T ∧
    isClassTy (n + 1) ctx mem u = isClassTy n ctx mem T ∧
    isUnionTy (n + 1) ctx mem u = isUnionTy n ctx mem T ∧
    isOpaque (n + 1) ctx mem u = isOpaque n ctx mem T ∧
    getSignKind bt (n + 1) ctx mem u = getSignKind bt n ctx mem T ∧
    getArraySize (n + 1) ctx mem u = getArraySize n ctx mem T ∧
    getClassName (n + 1) ctx mem u = getClassName n ctx mem T ∧
    isUserDefinedType mem u = .ok true ∧
    (∀ p o, mem[p]? = some o → (∀ i mu, o ≠ .UserDefinedType i mu) →
      isUserDefinedType mem p = .ok false) := by
  refine ⟨?_, ?_, ?_, ?_, ?_, ?_, ?_, ?_, ?_, ?_, ?_, ?_, ?_, ?_⟩
  · simp only [isVoidTy, hu, hT]
  · simp only [isIntegerTy, hu, hT]
  · simp only [isFloatingPointTy, hu, hT]
  · simp only [isPointerTy, hu, hT]
  · simp only [isRefTy, hu, hT]
  · simp only [isArrayTy, hu, hT]
  · simp only [isClassTy, hu, hT]
  · simp only [isUnionTy, hu, hT]
  · simp only [isOpaque, hu, hT]
  · simp only [getSignKind, hu, hT]
  · simp only [getArraySize, hu, hT]
  · simp only [getClassName, hu, hT]
  · simp only [isUserDefinedType, hu]
  · intro p o hp hne
    cases o with
    | UserDefinedType i mu => exact absurd rfl (hne i mu)
    | _ => simp only [isUserDefinedType, hp]

/-- C27, witness: the user-defined type `Foo` at address `6` resolves to the class `Foo`
at address `4`; `isClassTy` and `getClassName` on it answer as the class does. -/
theorem userDefinedType_queries_real_type_witness :
    getRealType cgctx0 "Foo" = some 4 ∧
    isClassTy 2 cgctx0 mem0 6 = .ok true ∧ isClassTy 1 cgctx0 mem0 4 = .ok true ∧
    getClassName 2 cgctx0 mem0 6 = .ok "Foo" ∧ getClassName 1 cgctx0 mem0 4 = .ok "Foo" ∧
    isVoidTy 2 cgctx0 mem0 6 = isVoidTy 1 cgctx0 mem0 4 :=
  ⟨by decide, rfl, rfl, rfl, rfl,
    (userDefinedType_queries_real_type builtinMembers0 cgctx0 mem0 6 4 "Foo" false 1
      (by decide) (by decide)).1⟩

/-- C28, the code at the failing input: `Bar` is declared neither as a class nor as a
union, so `getRealType` yields no type for the user-defined type `Bar` (address `7`);
every query on it, with any fuel, applies `->` to that null pointer, and none reports an
error. -/
theorem userDefinedType_unknown_dereferences_null :
    mem0[7]? = some (.UserDefinedType "Bar" false) ∧
    getRealType cgctx0 "Bar" = none ∧
    ∀ n : Nat,
      isVoidTy (n + 1) cgctx0 mem0 7 = .error .nullDereference ∧
      isIntegerTy builtinMembers0 (n + 1) cgctx0 mem0 7 = .error .nullDereference ∧
      isFloatingPointTy (n + 1) cgctx0 mem0 7 = .error .nullDereference ∧
      isPointerTy (n + 1) cgctx0 mem0 7 = .error .nullDereference ∧
      isRefTy (n + 1) cgctx0 mem0 7 = .error .nullDereference ∧
      isArrayTy (n + 1) cgctx0 mem0 7 = .error .nullDereference ∧
      isClassTy (n + 1) cgctx0 mem0 7 = .error .nullDereference ∧
      isUnionTy (n + 1) cgctx0 mem0 7 = .error .nullDereference ∧
      isOpaque (n + 1) cgctx0 mem0 7 = .error .nullDereference ∧
      getSignKind builtinMembers0 (n + 1) cgctx0 mem0 7 = .error .nullDereference ∧
      getArraySize (n + 1) cgctx0 mem0 7 = .error .nullDereference ∧
      getClassName (n + 1) cgctx0 mem0 7 = .error .nullDereference ∧
      getPointeeType (n + 2) cgctx0 mem0 7 = .error .nullDereference ∧
      getRefeeType (n + 1) cgctx0 mem0 7 = .error .nullDereference ∧
      getArrayElementType (n + 1) cgctx0 mem0 7 = .error .nullDereference ∧
      getUnionVariants (n + 1) cgctx0 mem0 7 = .error .nullDereference ∧
      setMutable (n + 1) cgctx0 mem0 7 true = .error .nullDereference := by
  have h7 : mem0[7]? = some (.UserDefinedType "Bar" false) := by decide
  have hr : getRealType cgctx0 "Bar" = none := by decide
  refine ⟨h7, hr, fun n => ⟨?_, ?_, ?_, ?_, ?_, ?_, ?_, ?_, ?_, ?_, ?_, ?_, ?_, ?_, ?_, ?_, ?_⟩⟩
  · simp only [isVoidTy, h7, hr]
  · simp only [isIntegerTy, h7, hr]
  · simp only [isFloatingPointTy, h7, hr]
  · simp only [isPointerTy, h7, hr]
  · simp only [isRefTy, h7, hr]
  · simp only [isArrayTy, h7, hr]
  · simp only [isClassTy, h7, hr]
  · simp only [isUnionTy, h7, hr]
  · simp only [isOpaque, h7, hr]
  · simp only [getSignKind, h7, hr]
  · simp only [getArraySize, h7, hr]
  · simp only [getClassName, h7, hr]
  · simp only [getPointeeType, isPointerTy, h7, hr]
  · simp only [getRefeeType, h7, hr]
  · simp only [getArrayElementType, h7, hr]
  · simp only [getUnionVariants, h7, hr]
  · simp only [setMutable, h7, hr]

/-! ## Sign kinds -/

/-- C29.  Sign kinds.  `BuiltinType::isSigned` (`support/type.cpp`) is true exactly for
the kinds `i8`, `i16`, `i32` and `i64`; a `PointerType` has sign kind `unsigned_`
(`isUnsigned` true, `isSigned` false); `ArrayType`, `ClassType` and `UnionType` have
`no_sign`; a `ReferenceType` has the sign kind of its refee. -/
theorem sign_kinds (bt : BuiltinMembers) (ctx : CGContext) (mem : Memory) :
    (∀ k : Maple.BuiltinTypeKind,
      (Maple.Ty.builtin k).isSigned = true ↔ k ∈ [.i8, .i16, .i32, .i64]) ∧
    (∀ p n q mu, mem[p]? = some (.PointerType q mu) →
      getSignKind bt (n + 1) ctx mem p = .ok .unsigned_ ∧
      isUnsigned bt (n + 1) ctx mem p = .ok true ∧
      isSigned bt (n + 1) ctx mem p = .ok false) ∧
    (∀ p n e sz mu, mem[p]? = some (.ArrayType e sz mu) →
      getSignKind bt (n + 1) ctx mem p = .ok .no_sign) ∧
    (∀ p n opq ms name mu, mem[p]? = some (.ClassType opq ms name mu) →
      getSignKind bt (n + 1) ctx mem p = .ok .no_sign) ∧
    (∀ p n name vs mu, mem[p]? = some (.UnionType name vs mu) →
      getSignKind bt (n + 1) ctx mem p = .ok .no_sign) ∧
    (∀ p n q mu, mem[p]? = some (.ReferenceType q mu) →
      getSignKind bt (n + 1) ctx mem p = getSignKind bt n ctx mem q) := by
  refine ⟨fun k => ?_, fun p n q mu h => ?_, fun p n e sz mu h => ?_,
    fun p n opq ms name mu h => ?_, fun p n name vs mu h => ?_, fun p n q mu h => ?_⟩
  · cases k <;> simp [Maple.Ty.isSigned]
  · simp [isUnsigned, isSigned, getSignKind, h]
  · simp only [getSignKind, h]
  · simp only [getSignKind, h]
  · simp only [getSignKind, h]
  · simp only [getSignKind, h]

/-- C29, witness: `i32` is signed and `u32`, `bool`, `char` and `void` are not; in the
sample memory `*i32` is unsigned, `[*i32; 4]`, `Foo` and `U` have no sign, and `&Foo` has
the sign kind of `Foo`. -/
theorem sign_kinds_witness :
    (Maple.Ty.builtin .i32).isSigned = true ∧ (Maple.Ty.builtin .u32).isSigned = false ∧
    (Maple.Ty.builtin .bool_).isSigned = false ∧ (Maple.Ty.builtin .char_).isSigned = false ∧
    (Maple.Ty.builtin .void_).isSigned = false ∧
    (getSignKind builtinMembers0 1 cgctx0 mem0 1 = .ok .unsigned_ ∧
      isUnsigned builtinMembers0 1 cgctx0 mem0 1 = .ok true ∧
      isSigned builtinMembers0 1 cgctx0 mem0 1 = .ok false) ∧
    getSignKind builtinMembers0 1 cgctx0 mem0 2 = .ok .no_sign ∧
    getSignKind builtinMembers0 1 cgctx0 mem0 4 = .ok .no_sign ∧
    getSignKind builtinMembers0 1 cgctx0 mem0 8 = .ok .no_sign ∧
    getSignKind builtinMembers0 2 cgctx0 mem0 5 = getSignKind builtinMembers0 1 cgctx0 mem0 4 :=
  ⟨((sign_kinds builtinMembers0 cgctx0 mem0).1 .i32).2 (by decide), rfl, rfl, rfl, rfl,
    (sign_kinds builtinMembers0 cgctx0 mem0).2.1 1 0 0 false rfl,
    (sign_kinds builtinMembers0 cgctx0 mem0).2.2.1 2 0 1 4 false rfl,
    (sign_kinds builtinMembers0 cgctx0 mem0).2.2.2.1 4 0 false [⟨"x", 0⟩] "Foo" false rfl,
    (sign_kinds builtinMembers0 cgctx0 mem0).2.2.2.2.1 8 0 "U" [] false rfl,
    (sign_kinds builtinMembers0 cgctx0 mem0).2.2.2.2.2 5 1 4 false rfl⟩

/-! ## Mutability of a user-defined type -/

/-- C39, the code at the failing input: the user-defined type `Foo` (address `6`,
immutable) resolves to the class `Foo` (address `4`).  `setMutable(ctx, true)` on the
user-defined type returns and assigns `is_mutable` of the class; `isMutable()`, which
`UserDefinedType` does not override, still reads the object's own member and returns
`false`. -/
theorem userDefinedType_setMutable_not_read_back :
    mem0[6]? = some (.UserDefinedType "Foo" false) ∧ getRealType cgctx0 "Foo" = some 4 ∧
    ∃ mem2, setMutable 2 cgctx0 mem0 6 true = .ok mem2 ∧
      isMutable mem2 6 = .ok false ∧ isMutable mem2 4 = .ok true :=
  ⟨by decide, by decide, _, rfl, rfl, rfl⟩

end Twinkle

/-! # The exit code of the driver -/

namespace Driver

/-- C30.  The driver returns `EXIT_FAILURE` whenever the compile result has
`success = false`, the JIT result when `success = true` and a JIT result is present, and
`EXIT_SUCCESS` when `success = true` and there is none. -/
theorem main_exit_code (compile_main : List String → CompileResult) (argv : List String) :
    ((compile_main argv).success = false → main compile_main argv = EXIT_FAILURE) ∧
    (∀ r, (compile_main argv).success = true → (compile_main argv).jit_result = some r →
      main compile_main argv = r) ∧
    ((compile_main argv).success = true → (compile_main argv).jit_result = none →
      main compile_main argv = EXIT_SUCCESS) := by
  refine ⟨fun h => ?_, fun r h hr => ?_, fun h hr => ?_⟩
  · simp [main, h]
  · simp [main, h, hr]
  · simp [main, h, hr]

/-- C30, witness: a failed compilation that still carries a JIT result exits with
`EXIT_FAILURE`; a successful JIT run returning `42` exits with `42`; a successful
compilation without JIT exits with `EXIT_SUCCESS`. -/
theorem main_exit_code_witness :
    main (fun _ => ⟨false, some 42⟩) ["twinkle", "a.tw"] = EXIT_FAILURE ∧
    main (fun _ => ⟨true, some 42⟩) ["twinkle", "--JIT", "a.tw"] = 42 ∧
    main (fun _ => ⟨true, none⟩) ["twinkle", "a.tw"] = EXIT_SUCCESS :=
  ⟨(main_exit_code (fun _ => ⟨false, some 42⟩) ["twinkle", "a.tw"]).1 rfl,
    (main_exit_code (fun _ => ⟨true, some 42⟩) ["twinkle", "--JIT", "a.tw"]).2.1 42 rfl rfl,
    (main_exit_code (fun _ => ⟨true, none⟩) ["twinkle", "a.tw"]).2.2 rfl rfl⟩

end Driver

/-! # Emission of the output files -/

namespace Compile

/-- C31.  `emitFile` makes exactly one emitter call: the LLVM IR emitter if and only if
the `emit` option is present and its lower-cased value is `llvm`, the assembly emitter
if and only if it is present and its lower-cased value is `asm`, and the object-file
emitter in every other case. -/
theorem emitFile_one_emitter (stringToLower : String → String) (vmap : VariablesMap) :
    (∃ e, emitFile stringToLower vmap = [e]) ∧
    (emitFile stringToLower vmap = [.emitLlvmIRFiles] ↔
      ∃ v, vmap.lookup "emit" = some v ∧ stringToLower v = "llvm") ∧
    (emitFile stringToLower vmap = [.emitAssemblyFiles] ↔
      ∃ v, vmap.lookup "emit" = some v ∧ stringToLower v = "asm") ∧
    (emitFile stringToLower vmap = [.emitObjectFiles] ↔
      ¬ (∃ v, vmap.lookup "emit" = some v ∧
        (stringToLower v = "llvm" ∨ stringToLower v = "asm"))) := by
  unfold emitFile
  cases h : vmap.lookup "emit" with
  | none => simp
  | some v =>
    dsimp only
    by_cases h1 : stringToLower v = "llvm"
    · simp [h1]
    · by_cases h2 : stringToLower v = "asm"
      · simp [h2]
      · simp [h1, h2]

end Compile
